import Mathlib

set_option autoImplicit false
set_option maxRecDepth 100000

/-!
# furiwake: routing resolver and streaming translators

A shallow embedding of the request router (`router.go`), the SSE reader (`sse.go`) and the two
streaming translators (`translate_stream.go`, `translate_chatgpt.go`), followed by the
properties established for them.

Conventions of the embedding:

* Go `string` is `String` (valid UTF-8); the helpers work on its list of runes, which for the
  ASCII delimiters used by the code (`\n`, `\r`, `:`, space, `@`) agrees with the byte-wise
  operations of Go.
* Go `int` is `Int` (block indices and token counts stay far from the 64-bit range).
* A Go `map` is the list of its entries (`GoMap`), at most one entry per key.
* A closure that mutates captured variables becomes a function on a record of those
  variables; a returned `error` becomes an `Option` next to the new record.
* An `http.ResponseWriter` is the list of the events written to it, with the point at which
  its `Write` starts to fail, if any; headers, status code and `Flush` calls are not recorded.
* The `io.Reader` of an upstream body is the text it delivers together with the way the
  reading ends, with `io.EOF` or with another error (`Body`); a text used where a body is
  expected is the body read to its end.
* Calls to the logger are left out.
* Standard-library routines whose tables or parsers are not part of the repository
  (`encoding/json`, the Unicode case table, the clock) are the fields of `GoLib`.
-/

namespace Furiwake

/-! ## Strings -/

/-- The predicate `unicode.IsSpace`, used by `strings.TrimSpace`. -/
def isSpace (c : Char) : Bool :=
  let n := c.toNat
  n == 0x09 || n == 0x0A || n == 0x0B || n == 0x0C || n == 0x0D || n == 0x20 || n == 0x85
    || n == 0xA0 || n == 0x1680 || (0x2000 ≤ n && n ≤ 0x200A) || n == 0x2028 || n == 0x2029
    || n == 0x202F || n == 0x205F || n == 0x3000

/-- The runes of `strings.TrimSpace s`. -/
def trimSpaceChars (l : List Char) : List Char :=
  (l.dropWhile isSpace).rdropWhile isSpace

/-- The function `strings.TrimSpace`. -/
def TrimSpace (s : String) : String :=
  ⟨trimSpaceChars s.data⟩

/-- The rune map of `strings.ToLower`: ASCII letters are lowered by the fast path of the
standard library, every other rune goes through the Unicode table `tbl`. -/
def lowerRune (tbl : Char → Char) (c : Char) : Char :=
  if c.toNat < 128 then c.toLower else tbl c

/-- The function `strings.ToLower`, over the Unicode lower-case table `tbl`. -/
def ToLower (tbl : Char → Char) (s : String) : String :=
  ⟨s.data.map (lowerRune tbl)⟩

/-- The function `strings.Join`, on rune lists. -/
def joinChars (sep : List Char) : List (List Char) → List Char
  | [] => []
  | [x] => x
  | x :: y :: rest => x ++ sep ++ joinChars sep (y :: rest)

/-- The function `strings.Join`. -/
def Join (parts : List String) (sep : String) : String :=
  ⟨joinChars sep.data (parts.map String.data)⟩

/-- The function `strconv.Itoa`. -/
def Itoa (n : Int) : String :=
  toString n

/-! ## Maps -/

/-- A Go map, kept as the list of its entries. -/
structure GoMap (κ ν : Type) where
  entries : List (κ × ν)
deriving DecidableEq, Repr

namespace GoMap

variable {κ ν : Type} [DecidableEq κ]

/-- The empty map literal. -/
def empty : GoMap κ ν :=
  ⟨[]⟩

/-- Search of an entry list for a key. -/
def lookup : List (κ × ν) → κ → Option ν
  | [], _ => none
  | (k', v) :: rest, k => if k' = k then some v else lookup rest k

/-- The two-valued index expression `v, ok := m[k]`. -/
def get? (m : GoMap κ ν) (k : κ) : Option ν :=
  lookup m.entries k

/-- The assignment `m[k] = v`. -/
def set (m : GoMap κ ν) (k : κ) (v : ν) : GoMap κ ν :=
  ⟨(k, v) :: m.entries.filter (fun e => e.1 ≠ k)⟩

/-- The statement `delete(m, k)`. -/
def delete (m : GoMap κ ν) (k : κ) : GoMap κ ν :=
  ⟨m.entries.filter (fun e => e.1 ≠ k)⟩

/-- The keys of the map. -/
def keys (m : GoMap κ ν) : List κ :=
  m.entries.map Prod.fst

/-- The values of the map. -/
def values (m : GoMap κ ν) : List ν :=
  m.entries.map Prod.snd

end GoMap

/-- The function `sort.Ints`. -/
def sortInts (l : List Int) : List Int :=
  l.insertionSort (· ≤ ·)

/-! ## JSON values and wire types (`types.go`) -/

/-- A value decoded by `encoding/json` into `interface{}`. The `float64` of a number is
`number n` when it is the integer `n`, of magnitude below `1e21`, which `json.Marshal` writes
with the digits of `n`. Every other `float64` is `decimal n text`, where `n` is the integer
`int(v)` that the code reads from it and `text` is what `json.Marshal` writes for it. -/
inductive JSONValue where
  | null
  | bool (b : Bool)
  | number (n : Int)
  | decimal (n : Int) (text : String)
  | string (s : String)
  | array (xs : List JSONValue)
  | object (fields : List (String × JSONValue))

/-- A decoded JSON object, `map[string]interface{}`. -/
abbrev JSONObject := List (String × JSONValue)

namespace JSONValue

/-- The index expression `m[key]` on a `map[string]interface{}` (nil when absent). -/
def field (m : JSONObject) (key : String) : Option JSONValue :=
  GoMap.lookup m key

/-- The type assertion `v.(string)` of an indexed field; `none` when it does not hold. -/
def asString : Option JSONValue → Option String
  | some (.string s) => some s
  | _ => none

/-- The type assertion `v.(float64)` followed by `int(v)`; `none` when it does not hold. -/
def asInt : Option JSONValue → Option Int
  | some (.number n) => some n
  | some (.decimal n _) => some n
  | _ => none

/-- The type assertion `v.(map[string]interface{})`; `none` when it does not hold. -/
def asObject : Option JSONValue → Option JSONObject
  | some (.object kv) => some kv
  | _ => none

/-- The type assertion `v.([]interface{})`; `none` when it does not hold. -/
def asArray : Option JSONValue → Option (List JSONValue)
  | some (.array xs) => some xs
  | _ => none

end JSONValue

/-- The struct `OpenAIToolFunction`. -/
structure OpenAIToolFunction where
  Name : String
  Arguments : String
deriving DecidableEq, Repr

/-- The struct `OpenAIToolCall`; its field `Type` is named `Kind` here. -/
structure OpenAIToolCall where
  ID : String
  Index : Int
  Kind : String
  Function : OpenAIToolFunction
deriving DecidableEq, Repr

/-- The struct `OpenAIDelta`. -/
structure OpenAIDelta where
  Role : String
  Content : String
  ToolCalls : List OpenAIToolCall
deriving DecidableEq, Repr

/-- The struct `OpenAIStreamChoice`. -/
structure OpenAIStreamChoice where
  Index : Int
  Delta : OpenAIDelta
  FinishReason : String
deriving DecidableEq, Repr

/-- The struct `OpenAIUsage`. -/
structure OpenAIUsage where
  PromptTokens : Int
  CompletionTokens : Int
deriving DecidableEq, Repr

/-- The struct `OpenAIChatStreamChunk`. -/
structure OpenAIChatStreamChunk where
  ID : String
  Model : String
  Choices : List OpenAIStreamChoice
  Usage : OpenAIUsage
deriving DecidableEq, Repr

/-- The struct `AnthropicContentBlock`; its field `Type` is named `Kind` here, `Input` holds
the bytes of the `json.RawMessage`, and `Content` the decoded value of the `interface{}`. -/
structure AnthropicContentBlock where
  Kind : String
  Text : String
  ID : String
  Name : String
  Input : String
  ToolUseID : String
  Content : JSONValue

/-- A Go value held in an `interface{}` field (`system`, the `content` of a message): a value
decoded from JSON (nil is `null`, a Go string is a JSON string) or, as in the tests of the
repository, a typed block or block list. -/
inductive DynContent where
  | json (v : JSONValue)
  | block (b : AnthropicContentBlock)
  | blocks (bs : List AnthropicContentBlock)

/-- The struct `AnthropicMessage`. -/
structure AnthropicMessage where
  Role : String
  Content : DynContent

/-- The struct `AuthConfig`; its field `Type` is named `Kind` here. -/
structure AuthConfig where
  Kind : String
  TokenEnv : String
deriving DecidableEq, Repr

/-- The struct `ProviderConfig`; its field `Type` is named `Kind` here. -/
structure ProviderConfig where
  Kind : String
  URL : String
  Model : String
  ReasoningEffort : String
  Auth : AuthConfig
deriving DecidableEq, Repr

/-- The struct `Config`. -/
structure Config where
  Listen : String
  SpoofModel : String
  DefaultProvider : String
  TimeoutSeconds : Int
  Providers : GoMap String ProviderConfig
deriving DecidableEq, Repr

/-- The standard-library routines the proxy calls and the repository does not contain. -/
structure GoLib where
  /-- The table `unicode.ToLower` on runes outside ASCII. -/
  unicodeToLower : Char → Char
  /-- Decoding `json.Unmarshal(data, &chunk)` of an `OpenAIChatStreamChunk`; `none` on error. -/
  unmarshalChunk : String → Option OpenAIChatStreamChunk
  /-- Decoding `json.Unmarshal(data, &event)` into a `map[string]interface{}`; `none` on error. -/
  unmarshalObject : String → Option JSONObject
  /-- The successive readings of `time.Now().UnixNano()`. -/
  unixNano : Nat → Int
  /-- The round trip `json.Marshal(content)` then `json.Unmarshal(raw, &blocks)` into a
  `[]AnthropicContentBlock`; `none` when either step returns an error. -/
  unmarshalBlocks : JSONValue → Option (List AnthropicContentBlock)
  /-- The round trip `json.Marshal(content)` then `json.Unmarshal(raw, &single)` into one
  `AnthropicContentBlock`; `none` when either step returns an error. -/
  unmarshalBlock : JSONValue → Option AnthropicContentBlock
  /-- The function `json.Valid` on the bytes of a string. -/
  jsonValid : String → Bool
  /-- The call `json.Marshal(v)` on a decoded value; `none` when it returns an error. -/
  marshalJSON : JSONValue → Option String

/-! ## The SSE reader (`sse.go`) -/

/-- The error a callback of `readSSEEvents` returns: `errSSEStreamDone` or any other error. -/
inductive CallbackError where
  | streamDone
  | failure
deriving DecidableEq, Repr

/-- The body handed to `readSSEEvents` through an `io.Reader`: the reader delivers the text
`text` and then returns `io.EOF`, or, when `readError` is true, an error other than
`io.EOF`. -/
structure Body where
  text : String
  readError : Bool
deriving DecidableEq, Repr

/-- A body that is read to its end: the reader delivers the text and then `io.EOF`. A text
used where a body is expected stands for this body. -/
@[coe] def Body.ofString (text : String) : Body :=
  { text := text, readError := false }

instance Body.instCoeString : Coe String Body :=
  ⟨Body.ofString⟩

/-- The successive results of `reader.ReadString('\n')`: every line keeps its terminator, and
the last element is the remainder returned together with the error that ends the reading,
`io.EOF` or another one. -/
def readLines : List Char → List (List Char)
  | [] => [[]]
  | c :: cs =>
    if c = '\n' then [c] :: readLines cs
    else
      match readLines cs with
      | [] => [[c]]
      | l :: ls => (c :: l) :: ls

/-- The variables `eventName` and `dataLines` of `readSSEEvents`, with the variables `user`
captured by the callback. -/
structure SSEReader (σ : Type) where
  eventName : String
  dataLines : List String
  user : σ

section Reader

variable {σ : Type}

/-- The closure `dispatch` of `readSSEEvents`. -/
def dispatch (onEvent : σ → String → String → σ × Option CallbackError) (r : SSEReader σ) :
    SSEReader σ × Option CallbackError :=
  if r.dataLines.length = 0 then
    ({ r with eventName := "" }, none)
  else
    let data := Join r.dataLines "\n"
    let res := onEvent r.user r.eventName data
    ({ eventName := "", dataLines := [], user := res.1 }, res.2)

/-- One iteration of the loop of `readSSEEvents`, on the line `raw` just read. -/
def processLine (onEvent : σ → String → String → σ × Option CallbackError) (r : SSEReader σ)
    (raw : List Char) : SSEReader σ × Option CallbackError :=
  let line := raw.rdropWhile (fun c => c == '\r' || c == '\n')
  if line = [] then
    dispatch onEvent r
  else if line.head? = some ':' then
    (r, none)
  else
    let i := line.indexOf ':'
    if i < line.length ∧ 0 < i then
      let field : String := ⟨line.take i⟩
      let value := line.drop (i + 1)
      let value : String := if value.head? = some ' ' then ⟨value.drop 1⟩ else ⟨value⟩
      if field = "event" then
        ({ r with eventName := value }, none)
      else if field = "data" then
        ({ r with dataLines := r.dataLines ++ [value] }, none)
      else
        (r, none)
    else
      (r, none)

/-- The loop of `readSSEEvents` over the lines read, left as soon as `dispatch` returns an
error. -/
def readLoop (onEvent : σ → String → String → σ × Option CallbackError) :
    List (List Char) → SSEReader σ → SSEReader σ × Option CallbackError
  | [], r => (r, none)
  | raw :: rest, r =>
    match processLine onEvent r raw with
    | (r', none) => readLoop onEvent rest r'
    | (r', some e) => (r', some e)

/-- The function `readSSEEvents` on the body `src`. The result is the final value of the
captured variables and whether a non-nil error is returned. When the reader returns an error
other than `io.EOF`, the remainder read with it is dropped and the error is returned at once,
without the last `dispatch`. -/
def readSSEEvents (src : Body) (onEvent : σ → String → String → σ × Option CallbackError)
    (s : σ) : σ × Bool :=
  if src.readError then
    match readLoop onEvent (readLines src.text.data).dropLast ⟨"", [], s⟩ with
    | (r, some .streamDone) => (r.user, false)
    | (r, some .failure) => (r.user, true)
    | (r, none) => (r.user, true)
  else
    match readLoop onEvent (readLines src.text.data) ⟨"", [], s⟩ with
    | (r, some .streamDone) => (r.user, false)
    | (r, some .failure) => (r.user, true)
    | (r, none) =>
      match dispatch onEvent r with
      | (r', some .failure) => (r'.user, true)
      | (r', _) => (r'.user, false)

end Reader

/-! ## Anthropic SSE events and the response writer -/

/-- The `content_block` payload of a `content_block_start` event. -/
inductive StartedBlock where
  | text (text : String)
  | tool_use (id : String) (name : String)
deriving DecidableEq, Repr

/-- The `delta` payload of a `content_block_delta` event. -/
inductive BlockDelta where
  | text_delta (text : String)
  | input_json_delta (json : String)
deriving DecidableEq, Repr

/-- An event written by `writeAnthropicSSEEvent`: its name and the fields of its payload. -/
inductive AnthropicEvent where
  | message_start (id : String) (model : String)
  | content_block_start (index : Int) (block : StartedBlock)
  | content_block_delta (index : Int) (delta : BlockDelta)
  | content_block_stop (index : Int)
  | message_delta (stopReason : String) (outputTokens : Int)
  | message_stop
deriving DecidableEq, Repr

namespace AnthropicEvent

/-- The `event:` line of the written event. -/
def name : AnthropicEvent → String
  | message_start _ _ => "message_start"
  | content_block_start _ _ => "content_block_start"
  | content_block_delta _ _ => "content_block_delta"
  | content_block_stop _ => "content_block_stop"
  | message_delta _ _ => "message_delta"
  | message_stop => "message_stop"

/-- Whether the event is a `content_block_start` at index `i`. -/
def isStartAt (i : Int) : AnthropicEvent → Bool
  | content_block_start j _ => j == i
  | _ => false

/-- Whether the event is a `content_block_delta` at index `i`. -/
def isDeltaAt (i : Int) : AnthropicEvent → Bool
  | content_block_delta j _ => j == i
  | _ => false

/-- Whether the event is a `content_block_stop` at index `i`. -/
def isStopAt (i : Int) : AnthropicEvent → Bool
  | content_block_stop j => j == i
  | _ => false

/-- Whether the event is one of the three `content_block_*` events. -/
def isBlockEvent : AnthropicEvent → Bool
  | content_block_start _ _ => true
  | content_block_delta _ _ => true
  | content_block_stop _ => true
  | _ => false

end AnthropicEvent

/-- The `http.ResponseWriter` handed to a stream translator: whether it implements
`http.Flusher`, after how many written events its `Write` starts to fail (`none`: never), and
the events written so far. -/
structure ResponseWriter where
  flusher : Bool
  failAfter : Option Nat
  body : List AnthropicEvent
deriving DecidableEq, Repr

/-- The function `writeAnthropicSSEEvent`: the event is appended to the body, or an error is
returned when the writer fails (a failed write leaves no complete event behind). -/
def writeAnthropicSSEEvent (w : ResponseWriter) (ev : AnthropicEvent) :
    ResponseWriter × Option CallbackError :=
  match w.failAfter with
  | none => ({ w with body := w.body ++ [ev] }, none)
  | some n =>
    if w.body.length < n then ({ w with body := w.body ++ [ev] }, none)
    else (w, some .failure)

/-- The function `mapFinishReason`. -/
def mapFinishReason (v : String) : String :=
  if v = "stop" then "end_turn"
  else if v = "length" then "max_tokens"
  else if v = "tool_calls" then "tool_use"
  else "end_turn"

/-- A Go loop `for _, x := range xs` whose body may return an error. -/
def forEach {σ α : Type} (f : σ → α → σ × Option CallbackError) :
    List α → σ → σ × Option CallbackError
  | [], s => (s, none)
  | x :: xs, s =>
    match f s x with
    | (s', none) => forEach f xs s'
    | (s', some e) => (s', some e)

/-! ## OpenAI stream translator (`translate_stream.go`) -/

/-- The struct `trackedToolCall`. -/
structure trackedToolCall where
  anthropicIndex : Int
  id : String
  name : String
deriving DecidableEq, Repr

/-- The local variables of `convertOpenAIStreamToAnthropic` captured by its closures, with
the response writer and the number of clock readings taken so far. -/
structure OpenAIStreamState where
  w : ResponseWriter
  nextBlockIndex : Int
  activeTextIndex : Int
  activeToolCalls : GoMap Int trackedToolCall
  openBlocks : GoMap Int Bool
  stopReason : String
  outputTokens : Int
  clock : Nat
deriving DecidableEq, Repr

namespace OpenAIStreamState

/-- A call `writeAnthropicSSEEvent(w, ...)` from the translator. -/
def write (s : OpenAIStreamState) (ev : AnthropicEvent) :
    OpenAIStreamState × Option CallbackError :=
  let r := writeAnthropicSSEEvent s.w ev
  ({ s with w := r.1 }, r.2)

end OpenAIStreamState

/-- The closure `closeBlock` of `convertOpenAIStreamToAnthropic`. -/
def closeBlock (s : OpenAIStreamState) (index : Int) :
    OpenAIStreamState × Option CallbackError :=
  if (s.openBlocks.get? index).getD false = false then
    (s, none)
  else
    ({ s with openBlocks := s.openBlocks.delete index }).write (.content_block_stop index)

/-- The branch `if choice.Delta.Content != ""` of the chunk callback. -/
def onContentDelta (s : OpenAIStreamState) (content : String) :
    OpenAIStreamState × Option CallbackError :=
  if content ≠ "" then
    let opened :=
      if s.activeTextIndex < 0 then
        let idx := s.nextBlockIndex
        ({ s with
            activeTextIndex := idx
            nextBlockIndex := idx + 1
            openBlocks := s.openBlocks.set idx true }).write
          (.content_block_start idx (.text ""))
      else
        (s, none)
    match opened with
    | (s1, some e) => (s1, some e)
    | (s1, none) => s1.write (.content_block_delta s1.activeTextIndex (.text_delta content))
  else
    (s, none)

/-- The statements shared by both places that open a tool block: `nextBlockIndex++`, the
two map assignments and the `content_block_start` write. -/
def openToolBlock (s : OpenAIStreamState) (toolIdx : Int) (tracked : trackedToolCall) :
    OpenAIStreamState × Option CallbackError :=
  ({ s with
      nextBlockIndex := s.nextBlockIndex + 1
      activeToolCalls := s.activeToolCalls.set toolIdx tracked
      openBlocks := s.openBlocks.set tracked.anthropicIndex true }).write
    (.content_block_start tracked.anthropicIndex (.tool_use tracked.id tracked.name))

/-- The branch `if tc.ID != ""` of the tool-call loop; the second component is the local
variable `tracked` afterwards. -/
def startIdentifiedToolCall (s : OpenAIStreamState) (tc : OpenAIToolCall)
    (tracked : Option trackedToolCall) :
    (OpenAIStreamState × Option trackedToolCall) × Option CallbackError :=
  if tc.ID ≠ "" then
    let closed :=
      if 0 ≤ s.activeTextIndex then
        match closeBlock s s.activeTextIndex with
        | (s1, some e) => (s1, some e)
        | (s1, none) => ({ s1 with activeTextIndex := -1 }, none)
      else
        (s, none)
    match closed with
    | (s1, some e) => ((s1, tracked), some e)
    | (s1, none) =>
      let t : trackedToolCall :=
        { anthropicIndex := s1.nextBlockIndex, id := tc.ID, name := tc.Function.Name }
      let r := openToolBlock s1 tc.Index t
      ((r.1, some t), r.2)
  else
    ((s, tracked), none)

/-- The branch `if tracked == nil` of the tool-call loop; the second component is the local
variable `tracked` afterwards, which is no longer nil. -/
def startPlaceholderToolCall (lib : GoLib) (s : OpenAIStreamState) (tc : OpenAIToolCall)
    (tracked : Option trackedToolCall) :
    (OpenAIStreamState × trackedToolCall) × Option CallbackError :=
  match tracked with
  | some t => ((s, t), none)
  | none =>
    let t : trackedToolCall :=
      { anthropicIndex := s.nextBlockIndex
        id := "toolu_" ++ toString (lib.unixNano s.clock)
        name := tc.Function.Name }
    let r := openToolBlock { s with clock := s.clock + 1 } tc.Index t
    ((r.1, t), r.2)

/-- The branch `if tc.Function.Arguments != ""` of the tool-call loop. -/
def writeToolArguments (s : OpenAIStreamState) (tc : OpenAIToolCall)
    (tracked : trackedToolCall) : OpenAIStreamState × Option CallbackError :=
  if tc.Function.Arguments ≠ "" then
    s.write (.content_block_delta tracked.anthropicIndex (.input_json_delta tc.Function.Arguments))
  else
    (s, none)

/-- The body of the loop `for _, tc := range choice.Delta.ToolCalls`. -/
def onToolCall (lib : GoLib) (s : OpenAIStreamState) (tc : OpenAIToolCall) :
    OpenAIStreamState × Option CallbackError :=
  match startIdentifiedToolCall s tc (s.activeToolCalls.get? tc.Index) with
  | ((s1, _), some e) => (s1, some e)
  | ((s1, tracked), none) =>
    match startPlaceholderToolCall lib s1 tc tracked with
    | ((s2, _), some e) => (s2, some e)
    | ((s2, t), none) => writeToolArguments s2 tc t

/-- The callback that `convertOpenAIStreamToAnthropic` passes to `readSSEEvents`. -/
def onOpenAIEvent (lib : GoLib) (s : OpenAIStreamState) (_eventName : String) (data : String) :
    OpenAIStreamState × Option CallbackError :=
  let data := TrimSpace data
  if data = "" then
    (s, none)
  else if data = "[DONE]" then
    (s, some .streamDone)
  else
    match lib.unmarshalChunk data with
    | none => (s, none)
    | some chunk =>
      let s0 :=
        if chunk.Usage.CompletionTokens > 0 then
          { s with outputTokens := chunk.Usage.CompletionTokens }
        else s
      match chunk.Choices with
      | [] => (s0, none)
      | choice :: _ =>
        match onContentDelta s0 choice.Delta.Content with
        | (s1, some e) => (s1, some e)
        | (s1, none) =>
          match forEach (onToolCall lib) choice.Delta.ToolCalls s1 with
          | (s2, some e) => (s2, some e)
          | (s2, none) =>
            if choice.FinishReason ≠ "" then
              ({ s2 with stopReason := mapFinishReason choice.FinishReason }, none)
            else
              (s2, none)

/-- The statements of `convertOpenAIStreamToAnthropic` after `readSSEEvents` has returned nil:
the residual blocks are closed, then `message_delta` and `message_stop` are written. -/
def finishOpenAIStream (s : OpenAIStreamState) : OpenAIStreamState × Option CallbackError :=
  let closedText :=
    if 0 ≤ s.activeTextIndex then closeBlock s s.activeTextIndex else (s, none)
  match closedText with
  | (s1, some e) => (s1, some e)
  | (s1, none) =>
    let toolBlockIndexes := sortInts (s1.activeToolCalls.values.map (·.anthropicIndex))
    match forEach closeBlock toolBlockIndexes s1 with
    | (s2, some e) => (s2, some e)
    | (s2, none) =>
      match s2.write (.message_delta s2.stopReason s2.outputTokens) with
      | (s3, some e) => (s3, some e)
      | (s3, none) => s3.write .message_stop

/-- The function `convertOpenAIStreamToAnthropic`: the writer after the call and whether a
non-nil error is returned. -/
def convertOpenAIStreamToAnthropic (lib : GoLib) (w : ResponseWriter) (src : Body)
    (spoofModel : String) : ResponseWriter × Bool :=
  if w.flusher = false then
    (w, true)
  else
    let messageID := "msg_" ++ toString (lib.unixNano 0)
    match writeAnthropicSSEEvent w (.message_start messageID spoofModel) with
    | (w1, some _) => (w1, true)
    | (w1, none) =>
      let init : OpenAIStreamState :=
        { w := w1
          nextBlockIndex := 0
          activeTextIndex := -1
          activeToolCalls := GoMap.empty
          openBlocks := GoMap.empty
          stopReason := "end_turn"
          outputTokens := 0
          clock := 1 }
      match readSSEEvents src (onOpenAIEvent lib) init with
      | (s, true) => (s.w, true)
      | (s, false) =>
        match finishOpenAIStream s with
        | (s1, some _) => (s1.w, true)
        | (s1, none) => (s1.w, false)

/-! ## Responses stream translator (`translate_chatgpt.go`) -/

/-- The struct `responsesStreamState`. -/
structure responsesStreamState where
  messageID : String
  blockIndex : Int
  textBlocks : GoMap String Int
  toolBlocks : GoMap Int Int
  openBlocks : GoMap Int Bool
  stopReason : String
  outputTokens : Int
  messageOpened : Bool
deriving DecidableEq, Repr

/-- What the closures of `convertResponsesStreamToAnthropic` capture: the response writer,
the `state` record and the number of clock readings taken so far. -/
structure ResponsesStream where
  w : ResponseWriter
  state : responsesStreamState
  clock : Nat
deriving DecidableEq, Repr

namespace ResponsesStream

/-- A call `writeAnthropicSSEEvent(w, ...)` from the translator. -/
def write (s : ResponsesStream) (ev : AnthropicEvent) : ResponsesStream × Option CallbackError :=
  let r := writeAnthropicSSEEvent s.w ev
  ({ s with w := r.1 }, r.2)

end ResponsesStream

open JSONValue in
/-- The function `responseOutputIndex`. -/
def responseOutputIndex (event : JSONObject) : Int :=
  match asInt (field event "output_index") with
  | some v => v
  | none => -1

open JSONValue in
/-- The function `responseTextKey`. -/
def responseTextKey (event : JSONObject) : String :=
  let outputIdx := responseOutputIndex event
  let contentIdx : Int :=
    match asInt (field event "content_index") with
    | some v => v
    | none => -1
  Itoa outputIdx ++ ":" ++ Itoa contentIdx

open JSONValue in
/-- The loop of `updateResponseCompletionState` over `output`: whether some entry is an object
of type `function_call`. -/
def hasFunctionCallEntry : List JSONValue → Bool
  | [] => false
  | item :: rest =>
    match item with
    | .object entry =>
      if (asString (field entry "type")).getD "" = "function_call" then true
      else hasFunctionCallEntry rest
    | _ => hasFunctionCallEntry rest

open JSONValue in
/-- The function `updateResponseCompletionState`. -/
def updateResponseCompletionState (event : JSONObject) (state : responsesStreamState) :
    responsesStreamState :=
  match asObject (field event "response") with
  | none => state
  | some resp =>
    let state1 :=
      match asObject (field resp "usage") with
      | some usage =>
        match asInt (field usage "output_tokens") with
        | some v => { state with outputTokens := v }
        | none => state
      | none => state
    let state2 := { state1 with stopReason := "end_turn" }
    let state3 :=
      if (asString (field resp "status")).getD "" = "incomplete" then
        match asObject (field resp "status_details") with
        | some details =>
          if (asString (field details "reason")).getD "" = "max_output_tokens" then
            { state2 with stopReason := "max_tokens" }
          else state2
        | none => state2
      else state2
    match asArray (field resp "output") with
    | some output =>
      if hasFunctionCallEntry output then { state3 with stopReason := "tool_use" } else state3
    | none => state3

open JSONValue in
/-- The function `applyResponsesEventToAnthropic`. -/
def applyResponsesEventToAnthropic (lib : GoLib) (s : ResponsesStream) (event : JSONObject)
    (_currentEvent : String) : ResponsesStream × Option CallbackError :=
  let t := (asString (field event "type")).getD ""
  if t = "" then
    (s, none)
  else if t = "response.created" then
    match asObject (field event "response") with
    | some resp =>
      match asString (field resp "id") with
      | some id =>
        if id ≠ "" then ({ s with state := { s.state with messageID := id } }, none)
        else (s, none)
      | none => (s, none)
    | none => (s, none)
  else if t = "response.content_part.added" then
    let part := (asObject (field event "part")).getD []
    let partType := (asString (field part "type")).getD ""
    if partType ≠ "output_text" then
      (s, none)
    else
      let idx := s.state.blockIndex + 1
      let key := responseTextKey event
      ({ s with state := { s.state with
            blockIndex := idx
            textBlocks := s.state.textBlocks.set key idx
            openBlocks := s.state.openBlocks.set idx true } }).write
        (.content_block_start idx (.text ""))
  else if t = "response.output_text.delta" then
    let key := responseTextKey event
    let opened : (ResponsesStream × Int) × Option CallbackError :=
      match s.state.textBlocks.get? key with
      | some idx => ((s, idx), none)
      | none =>
        let idx := s.state.blockIndex + 1
        let r := ({ s with state := { s.state with
            blockIndex := idx
            textBlocks := s.state.textBlocks.set key idx
            openBlocks := s.state.openBlocks.set idx true } }).write
          (.content_block_start idx (.text ""))
        ((r.1, idx), r.2)
    match opened with
    | ((s1, _), some e) => (s1, some e)
    | ((s1, idx), none) =>
      let delta := (asString (field event "delta")).getD ""
      if delta = "" then (s1, none)
      else s1.write (.content_block_delta idx (.text_delta delta))
  else if t = "response.output_text.done" then
    let key := responseTextKey event
    match s.state.textBlocks.get? key with
    | none => (s, none)
    | some idx =>
      ({ s with state := { s.state with openBlocks := s.state.openBlocks.delete idx } }).write
        (.content_block_stop idx)
  else if t = "response.output_item.added" then
    let item := (asObject (field event "item")).getD []
    let itemType := (asString (field item "type")).getD ""
    if itemType ≠ "function_call" then
      (s, none)
    else
      let outputIndex := responseOutputIndex event
      let idx := s.state.blockIndex + 1
      let callID := (asString (field item "call_id")).getD ""
      let name := (asString (field item "name")).getD ""
      let s1 : ResponsesStream :=
        { s with state := { s.state with
            blockIndex := idx
            toolBlocks := s.state.toolBlocks.set outputIndex idx
            openBlocks := s.state.openBlocks.set idx true } }
      if callID = "" then
        ({ s1 with clock := s1.clock + 1 }).write
          (.content_block_start idx (.tool_use ("toolu_" ++ toString (lib.unixNano s1.clock)) name))
      else
        s1.write (.content_block_start idx (.tool_use callID name))
  else if t = "response.function_call_arguments.delta" then
    let outputIndex := responseOutputIndex event
    let opened : (ResponsesStream × Int) × Option CallbackError :=
      match s.state.toolBlocks.get? outputIndex with
      | some idx => ((s, idx), none)
      | none =>
        let idx := s.state.blockIndex + 1
        let r := ({ s with
            state := { s.state with
              blockIndex := idx
              toolBlocks := s.state.toolBlocks.set outputIndex idx
              openBlocks := s.state.openBlocks.set idx true }
            clock := s.clock + 1 }).write
          (.content_block_start idx
            (.tool_use ("toolu_" ++ toString (lib.unixNano s.clock)) "unknown"))
        ((r.1, idx), r.2)
    match opened with
    | ((s1, _), some e) => (s1, some e)
    | ((s1, idx), none) =>
      let delta := (asString (field event "delta")).getD ""
      if delta = "" then (s1, none)
      else s1.write (.content_block_delta idx (.input_json_delta delta))
  else if t = "response.function_call_arguments.done" then
    let outputIndex := responseOutputIndex event
    match s.state.toolBlocks.get? outputIndex with
    | none => (s, none)
    | some idx =>
      ({ s with state := { s.state with openBlocks := s.state.openBlocks.delete idx } }).write
        (.content_block_stop idx)
  else if t = "response.completed" then
    ({ s with state := updateResponseCompletionState event s.state }, none)
  else
    (s, none)

/-- The function `closeOpenResponseBlocks`. -/
def closeOpenResponseBlocks (s : ResponsesStream) : ResponsesStream × Option CallbackError :=
  let indexes := sortInts s.state.openBlocks.keys
  match forEach (fun (s : ResponsesStream) idx => s.write (.content_block_stop idx)) indexes s with
  | (s1, some e) => (s1, some e)
  | (s1, none) => ({ s1 with state := { s1.state with openBlocks := GoMap.empty } }, none)

/-- The closure `sendMessageStart` of `convertResponsesStreamToAnthropic`. -/
def sendMessageStart (spoofModel : String) (s : ResponsesStream) :
    ResponsesStream × Option CallbackError :=
  if s.state.messageOpened then
    (s, none)
  else
    ({ s with state := { s.state with messageOpened := true } }).write
      (.message_start s.state.messageID spoofModel)

open JSONValue in
/-- The callback that `convertResponsesStreamToAnthropic` passes to `readSSEEvents`. -/
def onResponsesEvent (lib : GoLib) (spoofModel : String) (s : ResponsesStream)
    (eventName : String) (data : String) : ResponsesStream × Option CallbackError :=
  let data := TrimSpace data
  if data = "" then
    (s, none)
  else if data = "[DONE]" then
    (s, some .streamDone)
  else
    match lib.unmarshalObject data with
    | none => (s, none)
    | some event =>
      if (asString (field event "type")).getD "" = "response.created" then
        match applyResponsesEventToAnthropic lib s event eventName with
        | (s1, some e) => (s1, some e)
        | (s1, none) => sendMessageStart spoofModel s1
      else
        match sendMessageStart spoofModel s with
        | (s1, some e) => (s1, some e)
        | (s1, none) => applyResponsesEventToAnthropic lib s1 event eventName

/-- The statements of `convertResponsesStreamToAnthropic` after `readSSEEvents` has returned
nil. -/
def finishResponsesStream (spoofModel : String) (s : ResponsesStream) :
    ResponsesStream × Option CallbackError :=
  let started := if s.state.messageOpened = false then sendMessageStart spoofModel s else (s, none)
  match started with
  | (s1, some e) => (s1, some e)
  | (s1, none) =>
    match closeOpenResponseBlocks s1 with
    | (s2, some e) => (s2, some e)
    | (s2, none) =>
      match s2.write (.message_delta s2.state.stopReason s2.state.outputTokens) with
      | (s3, some e) => (s3, some e)
      | (s3, none) => s3.write .message_stop

/-- The function `convertResponsesStreamToAnthropic`: the writer after the call and whether a
non-nil error is returned. -/
def convertResponsesStreamToAnthropic (lib : GoLib) (w : ResponseWriter) (src : Body)
    (spoofModel : String) : ResponseWriter × Bool :=
  if w.flusher = false then
    (w, true)
  else
    let init : ResponsesStream :=
      { w := w
        state :=
          { messageID := "msg_" ++ toString (lib.unixNano 0)
            blockIndex := -1
            textBlocks := GoMap.empty
            toolBlocks := GoMap.empty
            openBlocks := GoMap.empty
            stopReason := "end_turn"
            outputTokens := 0
            messageOpened := false }
        clock := 1 }
    match readSSEEvents src (onResponsesEvent lib spoofModel) init with
    | (s, true) => (s.w, true)
    | (s, false) =>
      match finishResponsesStream spoofModel s with
      | (s1, some _) => (s1.w, true)
      | (s1, none) => (s1.w, false)

/-! ## Content normalisation (`translate_messages.go`) -/

/-- The function `normalizeContentToBlocks`. -/
def normalizeContentToBlocks (lib : GoLib) (content : DynContent) : List AnthropicContentBlock :=
  match content with
  | .json .null => []
  | .blocks v => v
  | .block v => [v]
  | .json (.string v) =>
    if TrimSpace v = "" then []
    else
      [{ Kind := "text", Text := v, ID := "", Name := "", Input := "", ToolUseID := "",
         Content := .null }]
  | .json other =>
    match lib.unmarshalBlocks other with
    | some blocks => blocks
    | none =>
      match lib.unmarshalBlock other with
      | some single => if single.Kind ≠ "" then [single] else []
      | none => []

/-- The function `NormalizeSystemText`. -/
def NormalizeSystemText (lib : GoLib) (system : DynContent) : String :=
  match system with
  | .json .null => ""
  | .json (.string v) => TrimSpace v
  | _ =>
    let blocks := normalizeContentToBlocks lib system
    let texts := (blocks.filter (fun block => block.Kind = "text" ∧ TrimSpace block.Text ≠ "")).map
      (fun block => TrimSpace block.Text)
    Join texts "\n"

/-! ## Router (`router.go`) -/

/-- The character class `[a-zA-Z0-9_-]` of the route and reasoning patterns. -/
def isRouteChar (c : Char) : Bool :=
  ('a' ≤ c && c ≤ 'z') || ('A' ≤ c && c ≤ 'Z') || ('0' ≤ c && c ≤ '9') || c == '_' || c == '-'

/-- The character class of the model pattern: ASCII letters and digits, and the characters
`.`, `_`, `:`, `/` and `-`. -/
def isModelChar (c : Char) : Bool :=
  ('a' ≤ c && c ≤ 'z') || ('A' ≤ c && c ≤ 'Z') || ('0' ≤ c && c ≤ '9') || c == '.' || c == '_'
    || c == ':' || c == '/' || c == '-'

/-- The call `FindStringSubmatch` for a pattern `lit([cls]+)`, a literal followed by one
capture group of one or more characters of a class: the group `m[1]` of the leftmost match,
which takes as many characters as it can; `none` when there is no match. -/
def findMarker (lit : List Char) (cls : Char → Bool) : List Char → Option (List Char)
  | [] => none
  | c :: cs =>
    let group := ((c :: cs).drop lit.length).takeWhile cls
    if lit.isPrefixOf (c :: cs) ∧ group ≠ [] then some group
    else findMarker lit cls cs

/-- The group `m[1]` of `routeMarkerPattern.FindStringSubmatch(text)`. -/
def routeMarkerPattern (text : String) : Option String :=
  (findMarker "@route:".data isRouteChar text.data).map String.mk

/-- The group `m[1]` of `modelMarkerPattern.FindStringSubmatch(text)`. -/
def modelMarkerPattern (text : String) : Option String :=
  (findMarker "@model:".data isModelChar text.data).map String.mk

/-- The function `ExtractRouteName`. -/
def ExtractRouteName (lib : GoLib) (system : DynContent) : String :=
  match routeMarkerPattern (NormalizeSystemText lib system) with
  | none => ""
  | some m1 => ToLower lib.unicodeToLower (TrimSpace m1)

/-- The function `ExtractModelName`. -/
def ExtractModelName (lib : GoLib) (system : DynContent) : String :=
  match modelMarkerPattern (NormalizeSystemText lib system) with
  | none => ""
  | some m1 => TrimSpace m1

/-- The function `ExtractRouteNameFromMessages`. -/
def ExtractRouteNameFromMessages (lib : GoLib) : List AnthropicMessage → String
  | [] => ""
  | msg :: rest =>
    if ExtractRouteName lib msg.Content ≠ "" then ExtractRouteName lib msg.Content
    else ExtractRouteNameFromMessages lib rest

/-- The function `ExtractModelNameFromMessages`. -/
def ExtractModelNameFromMessages (lib : GoLib) : List AnthropicMessage → String
  | [] => ""
  | msg :: rest =>
    if ExtractModelName lib msg.Content ≠ "" then ExtractModelName lib msg.Content
    else ExtractModelNameFromMessages lib rest

/-- The function `NormalizeReasoningEffort`. -/
def NormalizeReasoningEffort (lib : GoLib) (v : String) : String :=
  TrimSpace (ToLower lib.unicodeToLower v)

/-- The function `IsValidReasoningEffort`. -/
def IsValidReasoningEffort (lib : GoLib) (v : String) : Bool :=
  let n := NormalizeReasoningEffort lib v
  n = "none" || n = "minimal" || n = "low" || n = "medium" || n = "high" || n = "xhigh"

/-- The errors returned by the resolvers of `router.go`, with the value they print. -/
inductive RouterError where
  | configNil
  | defaultProviderNotFound (name : String)
  | routeProviderNotFound (name : String)
  | invalidDefaultReasoningEffort (effort : String)
  | invalidReasoningValue (markerEffort : String)
deriving DecidableEq, Repr

/-- The function `ResolveProvider`; a nil `cfg` is `none`. -/
def ResolveProvider (lib : GoLib) (system : DynContent) (messages : List AnthropicMessage)
    (cfg : Option Config) : Except RouterError (String × ProviderConfig) :=
  match cfg with
  | none => .error .configNil
  | some cfg =>
    let routeName := ExtractRouteName lib system
    let routeName :=
      if routeName = "" then ExtractRouteNameFromMessages lib messages else routeName
    if routeName = "" then
      match cfg.Providers.get? cfg.DefaultProvider with
      | none => .error (.defaultProviderNotFound cfg.DefaultProvider)
      | some p => .ok (cfg.DefaultProvider, p)
    else
      match cfg.Providers.get? routeName with
      | none => .error (.routeProviderNotFound routeName)
      | some p => .ok (routeName, p)

/-- The function `ResolveModelName`. -/
def ResolveModelName (lib : GoLib) (system : DynContent) (messages : List AnthropicMessage)
    (defaultModel : String) : String :=
  let model := ExtractModelName lib system
  let model := if model = "" then ExtractModelNameFromMessages lib messages else model
  if model = "" then defaultModel else model

/-- The function `ResolveProviderAndModel`. -/
def ResolveProviderAndModel (lib : GoLib) (system : DynContent)
    (messages : List AnthropicMessage) (cfg : Option Config) :
    Except RouterError (String × ProviderConfig × String) :=
  match ResolveProvider lib system messages cfg with
  | .error e => .error e
  | .ok (name, provider) =>
    .ok (name, provider, ResolveModelName lib system messages provider.Model)

/-- A marker starts at the head of `s`: the literal `lit` followed by a character of the
class `cls`. -/
def MarkerStartsAt (lit : List Char) (cls : Char → Bool) (s : List Char) : Prop :=
  ∃ c rest, s = lit ++ c :: rest ∧ cls c = true

/-- The text holds a marker somewhere. -/
def HasMarker (lit : List Char) (cls : Char → Bool) (text : List Char) : Prop :=
  ∃ pre suf, text = pre ++ suf ∧ MarkerStartsAt lit cls suf

/-- The value `v` is the value of the first marker of `text`: the text is `pre ++ lit ++ v ++
post`, where `v` is a non-empty run of class characters that `post` does not continue, and
no marker starts at an earlier position. -/
def FirstMarker (lit : List Char) (cls : Char → Bool) (text v : List Char) : Prop :=
  ∃ pre post, text = pre ++ (lit ++ (v ++ post)) ∧ v ≠ [] ∧ (∀ c ∈ v, cls c = true) ∧
    (∀ d rest, post = d :: rest → cls d = false) ∧
    (∀ pre1 suf, pre = pre1 ++ suf → suf ≠ [] →
      ¬ MarkerStartsAt lit cls (suf ++ (lit ++ (v ++ post))))

/-- The route name a content carries: the lower-cased value of the first `@route:` marker of
its normalised text. -/
def routeMarkerOf (lib : GoLib) (c : DynContent) : Option String :=
  (routeMarkerPattern (NormalizeSystemText lib c)).map (ToLower lib.unicodeToLower)

/-- The resolved route marker of a request: the one of `system` if it has one, otherwise the
one of the first message that has one. -/
def resolvedRouteMarker (lib : GoLib) (system : DynContent) (messages : List AnthropicMessage) :
    Option String :=
  (system :: messages.map (fun m => m.Content)).findSome? (routeMarkerOf lib)

/-- The literal of the route pattern. -/
def routeLiteral : List Char :=
  "@route:".data

/-- The literal of the model pattern. -/
def modelLiteral : List Char :=
  "@model:".data

/-- A library instance for the worked examples: no rune outside ASCII changes case, the clock
reads 1000, 1001, ..., nothing is decoded or encoded, and the JSON texts of the examples,
`\x7b\x7d` and `\x7b"q":"go"\x7d`, are the valid ones. -/
def plainLib : GoLib where
  unicodeToLower := id
  unmarshalChunk := fun _ => none
  unmarshalObject := fun _ => none
  unixNano := fun n => 1000 + n
  unmarshalBlocks := fun _ => none
  unmarshalBlock := fun _ => none
  jsonValid := fun s => s = "\x7b\x7d" || s = "\x7b\"q\":\"go\"\x7d"
  marshalJSON := fun _ => none

/-- The configuration `testConfig` of `router_test.go`. -/
def testConfig : Config :=
  { Listen := ""
    SpoofModel := ""
    DefaultProvider := "anthropic"
    TimeoutSeconds := 0
    Providers := GoMap.mk
      [("anthropic",
        { Kind := "passthrough"
          URL := "https://api.anthropic.com"
          Model := ""
          ReasoningEffort := ""
          Auth := { Kind := "", TokenEnv := "" } }),
       ("openai",
        { Kind := "openai"
          URL := "https://api.openai.com"
          Model := "gpt-5-mini"
          ReasoningEffort := ""
          Auth := { Kind := "", TokenEnv := "" } }),
       ("codex",
        { Kind := "chatgpt"
          URL := "https://chatgpt.com/backend-api/codex/responses"
          Model := "gpt-5"
          ReasoningEffort := ""
          Auth := { Kind := "", TokenEnv := "" } })] }

/-! ## Sample upstream payloads

The JSON texts below are written with `\x7b` and `\x7d` for the braces. -/

/-- A chunk that carries the text delta `hello`:
`{"choices":[{"delta":{"content":"hello"}}]}`. -/
def chunkHello : String :=
  "\x7b\"choices\":[\x7b\"delta\":\x7b\"content\":\"hello\"\x7d\x7d]\x7d"

/-- A chunk that announces the tool call `call_1` (function `search`) at upstream index 0:
`{"choices":[{"delta":{"tool_calls":[{"index":0,"id":"call_1","type":"function","function":{"name":"search"}}]}}]}`. -/
def chunkToolCall1 : String :=
  "\x7b\"choices\":[\x7b\"delta\":\x7b\"tool_calls\":[\x7b\"index\":0,\"id\":\"call_1\",\"type\":\"function\",\"function\":\x7b\"name\":\"search\"\x7d\x7d]\x7d\x7d]\x7d"

/-- A chunk that announces the tool call `call_2` (function `lookup`), again at upstream index 0:
`{"choices":[{"delta":{"tool_calls":[{"index":0,"id":"call_2","type":"function","function":{"name":"lookup"}}]}}]}`. -/
def chunkToolCall2 : String :=
  "\x7b\"choices\":[\x7b\"delta\":\x7b\"tool_calls\":[\x7b\"index\":0,\"id\":\"call_2\",\"type\":\"function\",\"function\":\x7b\"name\":\"lookup\"\x7d\x7d]\x7d\x7d]\x7d"

/-- A chunk that carries an arguments fragment for the tool call at upstream index 0:
`{"choices":[{"delta":{"tool_calls":[{"index":0,"type":"function","function":{"arguments":"{\"q\":\"go\"}"}}]}}]}`. -/
def chunkArguments : String :=
  "\x7b\"choices\":[\x7b\"delta\":\x7b\"tool_calls\":[\x7b\"index\":0,\"type\":\"function\",\"function\":\x7b\"arguments\":\"\x7b\\\"q\\\":\\\"go\\\"\x7d\"\x7d\x7d]\x7d\x7d]\x7d"

/-- The closing chunk: finish reason `tool_calls` and the usage:
`{"choices":[{"delta":{},"finish_reason":"tool_calls"}],"usage":{"completion_tokens":12}}`. -/
def chunkFinish : String :=
  "\x7b\"choices\":[\x7b\"delta\":\x7b\x7d,\"finish_reason\":\"tool_calls\"\x7d],\"usage\":\x7b\"completion_tokens\":12\x7d\x7d"

/-- The event `response.created` of the response `resp_1`:
`{"type":"response.created","response":{"id":"resp_1"}}`. -/
def eventCreated : String :=
  "\x7b\"type\":\"response.created\",\"response\":\x7b\"id\":\"resp_1\"\x7d\x7d"

/-- An event `response.output_text.delta` for the part (0, 0):
`{"type":"response.output_text.delta","output_index":0,"content_index":0,"delta":"hello"}`. -/
def eventTextDelta : String :=
  "\x7b\"type\":\"response.output_text.delta\",\"output_index\":0,\"content_index\":0,\"delta\":\"hello\"\x7d"

/-- The event `response.output_text.done` for the part (0, 0):
`{"type":"response.output_text.done","output_index":0,"content_index":0}`. -/
def eventTextDone : String :=
  "\x7b\"type\":\"response.output_text.done\",\"output_index\":0,\"content_index\":0\x7d"

/-- The event `response.output_item.added` of the function call `tool_1` at output index 1:
`{"type":"response.output_item.added","output_index":1,"item":{"type":"function_call","call_id":"tool_1","name":"search"}}`. -/
def eventItemAdded : String :=
  "\x7b\"type\":\"response.output_item.added\",\"output_index\":1,\"item\":\x7b\"type\":\"function_call\",\"call_id\":\"tool_1\",\"name\":\"search\"\x7d\x7d"

/-- An event `response.function_call_arguments.delta` for output index 1:
`{"type":"response.function_call_arguments.delta","output_index":1,"delta":"{\"q\":\"go\"}"}`. -/
def eventArgumentsDelta : String :=
  "\x7b\"type\":\"response.function_call_arguments.delta\",\"output_index\":1,\"delta\":\"\x7b\\\"q\\\":\\\"go\\\"\x7d\"\x7d"

/-- The event `response.function_call_arguments.done` for output index 1:
`{"type":"response.function_call_arguments.done","output_index":1}`. -/
def eventArgumentsDone : String :=
  "\x7b\"type\":\"response.function_call_arguments.done\",\"output_index\":1\x7d"

/-- The decoding of the sample chunks by `json.Unmarshal` into an `OpenAIChatStreamChunk`;
every other text is taken as malformed. -/
def sampleUnmarshalChunk (data : String) : Option OpenAIChatStreamChunk :=
  let chunk (content : String) (toolCalls : List OpenAIToolCall) (finish : String)
      (completionTokens : Int) : OpenAIChatStreamChunk :=
    { ID := ""
      Model := ""
      Choices :=
        [{ Index := 0
           Delta := { Role := "", Content := content, ToolCalls := toolCalls }
           FinishReason := finish }]
      Usage := { PromptTokens := 0, CompletionTokens := completionTokens } }
  if data = chunkHello then
    some (chunk "hello" [] "" 0)
  else if data = chunkToolCall1 then
    some (chunk ""
      [{ ID := "call_1", Index := 0, Kind := "function",
         Function := { Name := "search", Arguments := "" } }] "" 0)
  else if data = chunkToolCall2 then
    some (chunk ""
      [{ ID := "call_2", Index := 0, Kind := "function",
         Function := { Name := "lookup", Arguments := "" } }] "" 0)
  else if data = chunkArguments then
    some (chunk ""
      [{ ID := "", Index := 0, Kind := "function",
         Function := { Name := "", Arguments := "\x7b\"q\":\"go\"\x7d" } }] "" 0)
  else if data = chunkFinish then
    some (chunk "" [] "tool_calls" 12)
  else
    none

/-- The decoding of the sample events by `json.Unmarshal` into a `map[string]interface{}`;
every other text is taken as malformed. -/
def sampleUnmarshalObject (data : String) : Option JSONObject :=
  if data = eventCreated then
    some [("type", .string "response.created"),
          ("response", .object [("id", .string "resp_1")])]
  else if data = eventTextDelta then
    some [("type", .string "response.output_text.delta"), ("output_index", .number 0),
          ("content_index", .number 0), ("delta", .string "hello")]
  else if data = eventTextDone then
    some [("type", .string "response.output_text.done"), ("output_index", .number 0),
          ("content_index", .number 0)]
  else if data = eventItemAdded then
    some [("type", .string "response.output_item.added"), ("output_index", .number 1),
          ("item", .object [("type", .string "function_call"), ("call_id", .string "tool_1"),
            ("name", .string "search")])]
  else if data = eventArgumentsDelta then
    some [("type", .string "response.function_call_arguments.delta"),
          ("output_index", .number 1), ("delta", .string "\x7b\"q\":\"go\"\x7d")]
  else if data = eventArgumentsDone then
    some [("type", .string "response.function_call_arguments.done"),
          ("output_index", .number 1)]
  else
    none

/-- A library instance for the worked examples on streams: it decodes the sample payloads,
the clock reads 1000, 1001, ..., and no rune outside ASCII changes case. -/
def sampleLib : GoLib where
  unicodeToLower := id
  unmarshalChunk := sampleUnmarshalChunk
  unmarshalObject := sampleUnmarshalObject
  unixNano := fun n => 1000 + n
  unmarshalBlocks := fun _ => none
  unmarshalBlock := fun _ => none
  jsonValid := fun s => s = "\x7b\x7d" || s = "\x7b\"q\":\"go\"\x7d"
  marshalJSON := fun _ => none

/-- A response writer that implements `http.Flusher`, never fails and has written nothing. -/
def freshWriter : ResponseWriter :=
  { flusher := true, failAfter := none, body := [] }

/-- An SSE input: one `data:` line per payload, each followed by a blank line. -/
def sseInput (payloads : List String) : String :=
  Join (payloads.map (fun p => "data: " ++ p ++ "\n\n")) ""

/-! ## Specification predicates for the written stream -/

/-- Some `content_block_start` at index `i` is among the events. -/
def Started (body : List AnthropicEvent) (i : Int) : Prop :=
  ∃ e ∈ body, e.isStartAt i = true

/-- Some `content_block_stop` at index `i` is among the events. -/
def Stopped (body : List AnthropicEvent) (i : Int) : Prop :=
  ∃ e ∈ body, e.isStopAt i = true

/-- Every `content_block_delta` of the stream, at whatever position `k` and index `i`, has a
`content_block_start` at `i` and no `content_block_stop` at `i` among the events before it. -/
def DeltasBracketed (body : List AnthropicEvent) : Prop :=
  ∀ k i d, body[k]? = some (.content_block_delta i d) →
    Started (body.take k) i ∧ ¬ Stopped (body.take k) i

/-- The number of `content_block_start` events. -/
def countStarts (body : List AnthropicEvent) : Nat :=
  body.countP (fun e => e.name = "content_block_start")

/-- The number of `content_block_stop` events. -/
def countStops (body : List AnthropicEvent) : Nat :=
  body.countP (fun e => e.name = "content_block_stop")

/-- What is known of the captured variables when a callback of `readSSEEvents` returns: `I`
after a nil error, `D` after `errSSEStreamDone`, `F` after any other error. -/
def Outcome {σ : Type} (I D F : σ → Prop) (s : σ) : Option CallbackError → Prop
  | none => I s
  | some .streamDone => D s
  | some .failure => F s

/-- The writer never fails, and what it has written so far is one `message_start` followed
by `content_block_*` events only. -/
def GoodStream (w : ResponseWriter) : Prop :=
  w.failAfter = none ∧
    ∃ id model blocks, w.body = .message_start id model :: blocks ∧
      ∀ e ∈ blocks, e.isBlockEvent = true

/-- The invariant of the OpenAI translator between two chunks, on the events written so far,
`nextBlockIndex`, `activeTextIndex` and `activeToolCalls`: written deltas are bracketed, every
stopped index is below the counter, and the open text block and every tracked tool block are
started, not stopped, below the counter and distinct from each other. -/
def OpenAIInv (body : List AnthropicEvent) (next text : Int)
    (tools : GoMap Int trackedToolCall) : Prop :=
  DeltasBracketed body ∧ 0 ≤ next ∧ (∀ i, Stopped body i → i < next) ∧
    (0 ≤ text → Started body text ∧ ¬ Stopped body text ∧ text < next) ∧
    (∀ k t, tools.get? k = some t →
      Started body t.anthropicIndex ∧ ¬ Stopped body t.anthropicIndex ∧
        t.anthropicIndex < next ∧ (0 ≤ text → t.anthropicIndex ≠ text))

/-- The invariant `OpenAIInv` of a state of the OpenAI translator. -/
def OpenAIInvariant (s : OpenAIStreamState) : Prop :=
  OpenAIInv s.w.body s.nextBlockIndex s.activeTextIndex s.activeToolCalls

/-- A step of the OpenAI translator left a bracketed stream, and the invariant when it
returned nil. -/
def BracketedResult (r : OpenAIStreamState × Option CallbackError) : Prop :=
  DeltasBracketed r.1.w.body ∧ (r.2 = none → OpenAIInvariant r.1)

/-! ## Specification of the SSE reader: lines, groups and events -/

/-- The content of a line read by `ReadString`: the line without its terminating `\n` and
trailing `\r`, as `strings.TrimRight(line, "\r\n")` leaves it. -/
def trimLineEnd (raw : List Char) : List Char :=
  raw.rdropWhile (fun c => c == '\r' || c == '\n')

/-- The lines of the input, in order: the text between two `\n`, and after the last `\n` the
remainder of the input, whether or not it is empty. -/
def sseLines (src : String) : List (List Char) :=
  (readLines src.data).map trimLineEnd

/-- The field name and the value of a line: the line is not a comment, holds a colon after at
least one character, the name is what precedes the first colon and the value what follows
it, less one leading space. -/
def sseField (line : List Char) : Option (String × String) :=
  if line.head? = some ':' then none
  else
    let i := line.indexOf ':'
    if i < line.length ∧ 0 < i then
      let value := line.drop (i + 1)
      some (⟨line.take i⟩, if value.head? = some ' ' then ⟨value.drop 1⟩ else ⟨value⟩)
    else none

/-- The value of a `data:` line, `none` for every other line. -/
def dataValue (line : List Char) : Option String :=
  match sseField line with
  | some (field, value) => if field = "data" then some value else none
  | none => none

/-- The value of an `event:` line, `none` for every other line. -/
def eventValue (line : List Char) : Option String :=
  match sseField line with
  | some (field, value) => if field = "event" then some value else none
  | none => none

/-- The groups of lines: every blank line ends a group, and the end of the input ends the
last one. The blank lines themselves belong to no group. -/
def sseGroups : List (List Char) → List (List (List Char))
  | [] => [[]]
  | line :: rest =>
    if line = [] then [] :: sseGroups rest
    else
      match sseGroups rest with
      | [] => [[line]]
      | g :: gs => (line :: g) :: gs

/-- The values of the `data:` lines of a group, in order. -/
def groupData (g : List (List Char)) : List String :=
  g.filterMap dataValue

/-- The value of the last `event:` line of a group, empty when the group has none. -/
def groupEventName (g : List (List Char)) : String :=
  ((g.filterMap eventValue).getLast?).getD ""

/-- The event of a group: none when the group has no `data:` line, otherwise the event name
of the group with the data values joined by `\n`. -/
def groupEvent (g : List (List Char)) : Option (String × String) :=
  if (groupData g).length = 0 then none
  else some (groupEventName g, Join (groupData g) "\n")

/-- The events of an input: one per group that has a `data:` line, in order. -/
def sseEvents (src : String) : List (String × String) :=
  (sseGroups (sseLines src)).filterMap groupEvent

/-- The successive calls of a callback on a list of events, left at the first error. -/
def deliver {σ : Type} (onEvent : σ → String → String → σ × Option CallbackError)
    (events : List (String × String)) (s : σ) : σ × Option CallbackError :=
  forEach (fun s ev => onEvent s ev.1 ev.2) events s

/-- What `readSSEEvents` returns after a delivery: the captured variables, and a non-nil
error unless the delivery ended with nil or with `errSSEStreamDone`. -/
def readResult {σ : Type} (r : σ × Option CallbackError) : σ × Bool :=
  match r with
  | (s, some .failure) => (s, true)
  | (s, _) => (s, false)

/-- The events still to come for a reader that holds the pending event name `name` and the
pending data lines `datas` and has the lines `lines` left to read. -/
def eventsFrom (name : String) (datas : List String) : List (List Char) → List (String × String)
  | [] => if datas.length = 0 then [] else [(name, Join datas "\n")]
  | line :: rest =>
    if line = [] then
      if datas.length = 0 then eventsFrom "" [] rest
      else (name, Join datas "\n") :: eventsFrom "" [] rest
    else
      match sseField line with
      | some (field, value) =>
        if field = "event" then eventsFrom value datas rest
        else if field = "data" then eventsFrom name (datas ++ [value]) rest
        else eventsFrom name datas rest
      | none => eventsFrom name datas rest

/-- A callback that records every event it is handed and returns `errSSEStreamDone` on the
data `[DONE]`, another error on the data `fail`, and nil otherwise. -/
def recordEvent (log : List (String × String)) (name data : String) :
    List (String × String) × Option CallbackError :=
  if data = "[DONE]" then (log ++ [(name, data)], some .streamDone)
  else if data = "fail" then (log ++ [(name, data)], some .failure)
  else (log ++ [(name, data)], none)

/-- The callback `onEvent` keeping, beside its own variables, the list of the events it has
been invoked for. -/
def traced {σ : Type} (onEvent : σ → String → String → σ × Option CallbackError) :
    σ × List (String × String) → String → String →
      (σ × List (String × String)) × Option CallbackError :=
  fun st name data =>
    let res := onEvent st.1 name data
    ((res.1, st.2 ++ [(name, data)]), res.2)

/-- The input made of the lines `ls`: every line but the last is terminated by `\n`, the last
one is not. -/
def textOfLines (ls : List (List Char)) : String :=
  ⟨List.intercalate ['\n'] ls⟩

/-- A sample input: a comment, an event of two data lines, an event without name, a group
without data, and a last line without terminator. -/
def sampleSSE : String :=
  ": ping\nevent: message\ndata: a\r\ndata:b\n\ndata: stop\n\nevent: idle\n\ndata: last"

/-- A system prompt given as a block list: two text blocks with surrounding white space,
holding two route markers, and a block of another type between them. -/
def sampleRouteBlocks : DynContent :=
  .blocks
    [ { Kind := "text", Text := "  be brief @route:Fast_1-b! ", ID := "", Name := "",
        Input := "", ToolUseID := "", Content := .null },
      { Kind := "image", Text := "@route:skipped", ID := "", Name := "",
        Input := "", ToolUseID := "", Content := .null },
      { Kind := "text", Text := "then @route:slow", ID := "", Name := "",
        Input := "", ToolUseID := "", Content := .null } ]

/-! ## Tool choice (`translate_request.go`, `translate_chatgpt.go`) -/

/-- The function `translateToolChoice` of the OpenAI request translator, on the decoded value
of the `interface{}` it is handed. -/
def translateToolChoice (v : JSONValue) : JSONValue :=
  match v with
  | .object m =>
    let t := (JSONValue.asString (JSONValue.field m "type")).getD ""
    if t = "auto" then .string "auto"
    else if t = "any" then .string "required"
    else if t = "none" then .string "none"
    else if t = "tool" then
      let name := (JSONValue.asString (JSONValue.field m "name")).getD ""
      .object [("type", .string "function"), ("function", .object [("name", .string name)])]
    else v
  | _ => v

/-- The function `translateToolChoiceToResponses`. -/
def translateToolChoiceToResponses (v : JSONValue) : JSONValue :=
  match v with
  | .object m =>
    let t := (JSONValue.asString (JSONValue.field m "type")).getD ""
    if t = "auto" then .string "auto"
    else if t = "any" then .string "required"
    else if t = "none" then .string "none"
    else if t = "tool" then
      let name := (JSONValue.asString (JSONValue.field m "name")).getD ""
      .object [("type", .string "function"), ("name", .string name)]
    else .string "auto"
  | _ => .string "auto"

/-- The type of a tool choice given as a map: `m["type"]` when it is a string, otherwise
empty. -/
def toolChoiceType (m : JSONObject) : String :=
  (JSONValue.asString (JSONValue.field m "type")).getD ""

/-- The name of a tool choice given as a map: `m["name"]` when it is a string, otherwise
empty. -/
def toolChoiceName (m : JSONObject) : String :=
  (JSONValue.asString (JSONValue.field m "name")).getD ""

/-- The tool choice of `TestTranslateToolChoice_Tool`. -/
def sampleToolChoice : JSONObject :=
  [("type", .string "tool"), ("name", .string "shell")]

/-! ## Message translation for the OpenAI dialect (`translate_messages.go`) -/

/-- The struct `OpenAIMessage`. -/
structure OpenAIMessage where
  Role : String
  Content : String
  ToolCallID : String
  ToolCalls : List OpenAIToolCall
deriving DecidableEq, Repr

/-- The function `normalizeContentToText`. -/
def normalizeContentToText (lib : GoLib) (content : DynContent) : String :=
  match content with
  | .json .null => ""
  | .json (.string text) => text
  | _ =>
    let blocks := normalizeContentToBlocks lib content
    let parts := (blocks.filter (fun block => block.Kind = "text" ∧ TrimSpace block.Text ≠ "")).map
      (fun block => block.Text)
    Join parts "\n"

/-- The function `extractToolResultText`, on the decoded value of the `content` of a
`tool_result` block. -/
def extractToolResultText (lib : GoLib) (content : JSONValue) : String :=
  match content with
  | .null => ""
  | .string text => text
  | _ =>
    let blocks := normalizeContentToBlocks lib (.json content)
    let parts := (blocks.filter (fun block => block.Kind = "text" ∧ TrimSpace block.Text ≠ "")).map
      (fun block => block.Text)
    Join parts "\n"

/-- The variables `textParts` and `out` of `translateUserMessage`. -/
structure userMessageState where
  textParts : List String
  out : List OpenAIMessage
deriving DecidableEq, Repr

/-- The closure `flushText` of `translateUserMessage`. -/
def userMessageState.flushText (st : userMessageState) : userMessageState :=
  if st.textParts.length = 0 then st
  else
    { textParts := []
      out := st.out ++
        [{ Role := "user", Content := Join st.textParts "\n", ToolCallID := "", ToolCalls := [] }] }

/-- The body of the loop of `translateUserMessage`, for one block. -/
def userMessageBlock (lib : GoLib) (st : userMessageState) (block : AnthropicContentBlock) :
    userMessageState :=
  if block.Kind = "text" then
    if TrimSpace block.Text ≠ "" then { st with textParts := st.textParts ++ [block.Text] }
    else st
  else if block.Kind = "tool_result" then
    let st := st.flushText
    { st with
      out := st.out ++
        [{ Role := "tool", Content := extractToolResultText lib block.Content,
           ToolCallID := block.ToolUseID, ToolCalls := [] }] }
  else st

/-- The function `translateUserMessage`. -/
def translateUserMessage (lib : GoLib) (message : AnthropicMessage) : List OpenAIMessage :=
  match message.Content with
  | .json (.string text) => [{ Role := "user", Content := text, ToolCallID := "", ToolCalls := [] }]
  | content =>
    let blocks := normalizeContentToBlocks lib content
    let st := (blocks.foldl (userMessageBlock lib) ⟨[], []⟩).flushText
    if st.out.length = 0 then
      [{ Role := "user", Content := normalizeContentToText lib content, ToolCallID := "",
         ToolCalls := [] }]
    else st.out

/-- The variables `textParts` and `toolCalls` of `translateAssistantMessage`, with the number
of clock readings taken so far. -/
structure assistantMessageState where
  textParts : List String
  toolCalls : List OpenAIToolCall
  clock : Nat
deriving DecidableEq, Repr

/-- The body of the loop of `translateAssistantMessage`, for the block of index `i`. -/
def assistantMessageBlock (lib : GoLib) (st : assistantMessageState) (i : Nat)
    (block : AnthropicContentBlock) : assistantMessageState :=
  if block.Kind = "text" then
    if TrimSpace block.Text ≠ "" then { st with textParts := st.textParts ++ [block.Text] }
    else st
  else if block.Kind = "tool_use" then
    let id :=
      if block.ID = "" then "tool_call_" ++ Itoa (lib.unixNano st.clock) ++ "_" ++ Itoa i
      else block.ID
    let clock := if block.ID = "" then st.clock + 1 else st.clock
    let args := if TrimSpace block.Input = "" then "\x7b\x7d" else block.Input
    { st with
      toolCalls := st.toolCalls ++
        [{ ID := id, Index := 0, Kind := "function",
           Function := { Name := block.Name, Arguments := args } }]
      clock := clock }
  else st

/-- The loop `for i, block := range blocks` of `translateAssistantMessage`, from index `i`. -/
def assistantMessageLoop (lib : GoLib) :
    List AnthropicContentBlock → Nat → assistantMessageState → assistantMessageState
  | [], _, st => st
  | block :: rest, i, st =>
    assistantMessageLoop lib rest (i + 1) (assistantMessageBlock lib st i block)

/-- The function `translateAssistantMessage`, with the number of clock readings taken before
and after the call. -/
def translateAssistantMessage (lib : GoLib) (clock : Nat) (message : AnthropicMessage) :
    List OpenAIMessage × Nat :=
  match message.Content with
  | .json (.string text) =>
    ([{ Role := "assistant", Content := text, ToolCallID := "", ToolCalls := [] }], clock)
  | content =>
    let blocks := normalizeContentToBlocks lib content
    let st := assistantMessageLoop lib blocks 0 ⟨[], [], clock⟩
    ([{ Role := "assistant", Content := Join st.textParts "\n", ToolCallID := "",
        ToolCalls := st.toolCalls }], st.clock)

/-- The function `TranslateMessagesToOpenAI`, with the number of clock readings taken before
and after the call. -/
def TranslateMessagesToOpenAI (lib : GoLib) (clock : Nat) (system : DynContent)
    (messages : List AnthropicMessage) : List OpenAIMessage × Nat :=
  let systemText := NormalizeSystemText lib system
  let out : List OpenAIMessage :=
    if systemText ≠ "" then
      [{ Role := "system", Content := systemText, ToolCallID := "", ToolCalls := [] }]
    else []
  messages.foldl
    (fun acc message =>
      if message.Role = "user" then (acc.1 ++ translateUserMessage lib message, acc.2)
      else if message.Role = "assistant" then
        let res := translateAssistantMessage lib acc.2 message
        (acc.1 ++ res.1, res.2)
      else
        (acc.1 ++
          [{ Role := message.Role, Content := normalizeContentToText lib message.Content,
             ToolCallID := "", ToolCalls := [] }], acc.2))
    (out, clock)

/-! ## Specification of the translators that gather text -/

/-- What a block contributes to a translation that gathers text: a text to gather, a point
where the gathered text is flushed and after which the given items follow, or nothing. -/
inductive Piece (α : Type) where
  | text (t : String)
  | flush (items : List α)
  | skip

/-- The emissions of a list of pieces, in two parts: the texts of the text pieces that
precede the first flush piece, and everything that is emitted from that flush piece on. -/
def segmentPieces {α : Type} (mk : List String → α) : List (Piece α) → List String × List α
  | [] => ([], [])
  | .text t :: ps => (t :: (segmentPieces mk ps).1, (segmentPieces mk ps).2)
  | .skip :: ps => segmentPieces mk ps
  | .flush items :: ps =>
    ([], items ++
      (if (segmentPieces mk ps).1.length = 0 then [] else [mk (segmentPieces mk ps).1]) ++
      (segmentPieces mk ps).2)

/-- The emissions of a list of pieces, in the order of the pieces: every maximal run of text
pieces that no flush piece interrupts becomes the one item `mk texts`, placed where the run
ends, and every flush piece contributes its items at its own place. -/
def emitInOrder {α : Type} (mk : List String → α) (ps : List (Piece α)) : List α :=
  (if (segmentPieces mk ps).1.length = 0 then [] else [mk (segmentPieces mk ps).1]) ++
    (segmentPieces mk ps).2

/-- The user message made of a run of texts. -/
def userTextMessage (texts : List String) : OpenAIMessage :=
  { Role := "user", Content := Join texts "\n", ToolCallID := "", ToolCalls := [] }

/-- What a block of a user message contributes: a non-blank text block its text, a
`tool_result` block a flush followed by its tool message, every other block nothing. -/
def userPiece (lib : GoLib) (block : AnthropicContentBlock) : Piece OpenAIMessage :=
  if block.Kind = "tool_result" then
    .flush [{ Role := "tool", Content := extractToolResultText lib block.Content,
              ToolCallID := block.ToolUseID, ToolCalls := [] }]
  else if block.Kind = "text" ∧ TrimSpace block.Text ≠ "" then .text block.Text
  else .skip

/-- A text block. -/
def textBlock (text : String) : AnthropicContentBlock :=
  { Kind := "text", Text := text, ID := "", Name := "", Input := "", ToolUseID := "",
    Content := .null }

/-- A `tool_use` block. -/
def toolUseBlock (id name input : String) : AnthropicContentBlock :=
  { Kind := "tool_use", Text := "", ID := id, Name := name, Input := input, ToolUseID := "",
    Content := .null }

/-- A `tool_result` block. -/
def toolResultBlock (toolUseID : String) (content : JSONValue) : AnthropicContentBlock :=
  { Kind := "tool_result", Text := "", ID := "", Name := "", Input := "", ToolUseID := toolUseID,
    Content := content }

/-- The user message of `TestTranslateMessagesToOpenAI_UserToolResultOrder`, with a blank
text block and a block of another type added. -/
def sampleUserMessage : AnthropicMessage :=
  { Role := "user"
    Content := .blocks
      [textBlock "before", textBlock "  ", textBlock "more", toolUseBlock "x" "y" "",
       toolResultBlock "tool_1" (.string "tool output"), textBlock "after"] }

/-- The tool call that `translateAssistantMessage` makes of a `tool_use` block: type
`function`, the name of the block, the id of the block when it is not empty and a generated
`tool_call_<nanos>_<index>` otherwise, and as arguments the input of the block, or `\x7b\x7d`
when the input is empty or white space. -/
def ToolCallOf (block : AnthropicContentBlock) (call : OpenAIToolCall) : Prop :=
  call.Kind = "function" ∧ call.Function.Name = block.Name ∧
    (block.ID ≠ "" → call.ID = block.ID) ∧
    (block.ID = "" → ∃ n i : Int, call.ID = "tool_call_" ++ Itoa n ++ "_" ++ Itoa i) ∧
    call.Function.Arguments = (if TrimSpace block.Input = "" then "\x7b\x7d" else block.Input)

/-- The assistant message of `TestTranslateMessagesToOpenAI_WithToolUseAndResult`, with a
blank text block, a second text block, and two more `tool_use` blocks, one of blank input and
one without id. -/
def sampleAssistantMessage : AnthropicMessage :=
  { Role := "assistant"
    Content := .blocks
      [textBlock "calling tool", toolUseBlock "tool_1" "search" "\x7b\"q\":\"golang\"\x7d",
       textBlock " \n", toolUseBlock "tool_2" "list" "  ", textBlock "and more",
       toolUseBlock "" "stat" " [1] "] }

/-! ## Request translation for the responses dialect (`translate_chatgpt.go`) -/

/-- The struct `AnthropicTool`; `InputSchema` holds the bytes of the `json.RawMessage`. -/
structure AnthropicTool where
  Name : String
  Description : String
  InputSchema : String
deriving DecidableEq, Repr

/-- The struct `AnthropicMessageRequest`; a nil `ToolChoice` is `null`. -/
structure AnthropicMessageRequest where
  Model : String
  MaxTokens : Int
  System : DynContent
  Messages : List AnthropicMessage
  Stream : Bool
  Tools : List AnthropicTool
  ToolChoice : JSONValue

/-- The struct `ResponsesInputItem`; its field `Type` is named `Kind` here. -/
structure ResponsesInputItem where
  Kind : String
  Role : String
  Content : String
  ID : String
  CallID : String
  Name : String
  Arguments : String
  Output : String
deriving DecidableEq, Repr

/-- The struct `ResponsesTool`; its field `Type` is named `Kind` here. -/
structure ResponsesTool where
  Kind : String
  Name : String
  Description : String
  Parameters : String
deriving DecidableEq, Repr

/-- The struct `ReasoningConfig`. -/
structure ReasoningConfig where
  Effort : String
  Summary : String
deriving DecidableEq, Repr

/-- The struct `ChatGPTResponsesRequest`; a nil `ToolChoice` is `null`. -/
structure ChatGPTResponsesRequest where
  Model : String
  Instructions : String
  Input : List ResponsesInputItem
  Tools : List ResponsesTool
  ToolChoice : JSONValue
  ParallelToolCalls : Bool
  Reasoning : Option ReasoningConfig
  Store : Bool
  Stream : Bool
  Include : List String

/-- The function `safeJSONRawMessage` (`translate_stream.go`). -/
def safeJSONRawMessage (lib : GoLib) (raw : String) : String :=
  let raw := TrimSpace raw
  if raw = "" then "\x7b\x7d"
  else if ¬ lib.jsonValid raw then "\x7b\x7d"
  else raw

/-- The variables `textParts` and `out` of `translateAnthropicMessagesToResponsesInput`, with
the number of clock readings taken so far. -/
structure responsesInputState where
  textParts : List String
  out : List ResponsesInputItem
  clock : Nat
deriving DecidableEq, Repr

/-- The closure `flushText` of `translateAnthropicMessagesToResponsesInput`, in a message of
role `role`. -/
def responsesInputState.flushText (role : String) (st : responsesInputState) :
    responsesInputState :=
  if st.textParts.length = 0 then st
  else
    { st with
      textParts := []
      out := st.out ++
        [{ Kind := "message", Role := role, Content := Join st.textParts "\n", ID := "",
           CallID := "", Name := "", Arguments := "", Output := "" }] }

/-- The body of the loop over the blocks of a message of
`translateAnthropicMessagesToResponsesInput`, for the block of index `i`. -/
def responsesInputBlock (lib : GoLib) (role : String) (st : responsesInputState) (i : Nat)
    (block : AnthropicContentBlock) : responsesInputState :=
  if block.Kind = "text" then
    if TrimSpace block.Text ≠ "" then { st with textParts := st.textParts ++ [block.Text] }
    else st
  else if block.Kind = "tool_use" then
    let st := st.flushText role
    let callID := TrimSpace block.ID
    let generated := callID = ""
    let callID :=
      if generated then "toolu_" ++ Itoa (lib.unixNano st.clock) ++ "_" ++ Itoa i else callID
    { st with
      out := st.out ++
        [{ Kind := "function_call", Role := "", Content := "", ID := "fc_" ++ callID,
           CallID := callID, Name := block.Name,
           Arguments := safeJSONRawMessage lib block.Input, Output := "" }]
      clock := if generated then st.clock + 1 else st.clock }
  else if block.Kind = "tool_result" then
    let st := st.flushText role
    if TrimSpace block.ToolUseID = "" then st
    else
      let outputText := extractToolResultText lib block.Content
      let outputText := if outputText = "" then "(empty)" else outputText
      { st with
        out := st.out ++
          [{ Kind := "function_call_output", Role := "", Content := "", ID := "",
             CallID := block.ToolUseID, Name := "", Arguments := "", Output := outputText }] }
  else st

/-- The loop `for i, block := range blocks` of `translateAnthropicMessagesToResponsesInput`,
from index `i`. -/
def responsesInputLoop (lib : GoLib) (role : String) :
    List AnthropicContentBlock → Nat → responsesInputState → responsesInputState
  | [], _, st => st
  | block :: rest, i, st =>
    responsesInputLoop lib role rest (i + 1) (responsesInputBlock lib role st i block)

/-- The body of the loop over the messages of `translateAnthropicMessagesToResponsesInput`:
`acc` holds `out` and the number of clock readings taken so far. -/
def responsesInputMessage (lib : GoLib) (acc : List ResponsesInputItem × Nat)
    (message : AnthropicMessage) : List ResponsesInputItem × Nat :=
  let role := message.Role
  if role ≠ "user" ∧ role ≠ "assistant" then acc
  else
    match message.Content with
    | .json (.string text) =>
      if TrimSpace text = "" then acc
      else
        (acc.1 ++
          [{ Kind := "message", Role := role, Content := text, ID := "", CallID := "",
             Name := "", Arguments := "", Output := "" }], acc.2)
    | content =>
      let blocks := normalizeContentToBlocks lib content
      let st := (responsesInputLoop lib role blocks 0 ⟨[], acc.1, acc.2⟩).flushText role
      (st.out, st.clock)

/-- The function `translateAnthropicMessagesToResponsesInput`, with the number of clock
readings taken before and after the call. -/
def translateAnthropicMessagesToResponsesInput (lib : GoLib) (clock : Nat)
    (messages : List AnthropicMessage) : List ResponsesInputItem × Nat :=
  messages.foldl (responsesInputMessage lib) ([], clock)

/-- The function `translateAnthropicToolsToResponses`. -/
def translateAnthropicToolsToResponses (tools : List AnthropicTool) : List ResponsesTool :=
  tools.map (fun tool =>
    { Kind := "function", Name := tool.Name, Description := tool.Description,
      Parameters :=
        if tool.InputSchema.length = 0 then "\x7b\"type\":\"object\",\"properties\":\x7b\x7d\x7d"
        else tool.InputSchema })

/-- The function `translateAnthropicToResponses`, with the number of clock readings taken
before and after the call. -/
def translateAnthropicToResponses (lib : GoLib) (clock : Nat) (req : AnthropicMessageRequest)
    (model reasoningEffort : String) : ChatGPTResponsesRequest × Nat :=
  let input := translateAnthropicMessagesToResponsesInput lib clock req.Messages
  let normalized := NormalizeReasoningEffort lib reasoningEffort
  ({ Model := model
     Instructions := NormalizeSystemText lib req.System
     Input := input.1
     Tools := if 0 < req.Tools.length then translateAnthropicToolsToResponses req.Tools else []
     ToolChoice :=
       match req.ToolChoice with
       | .null => .null
       | v => translateToolChoiceToResponses v
     ParallelToolCalls := false
     Reasoning := some { Effort := if normalized ≠ "" then normalized else "", Summary := "auto" }
     Store := false
     Stream := req.Stream
     Include := ["reasoning.encrypted_content"] }, input.2)

/-- The request that `proxyChatGPT` encodes and sends upstream: the translation of the
request of the caller, in which the handler then sets `Stream` to true. -/
def proxyChatGPTRequest (lib : GoLib) (clock : Nat) (anthropicReq : AnthropicMessageRequest)
    (model reasoningEffort : String) : ChatGPTResponsesRequest × Nat :=
  let req := translateAnthropicToResponses lib clock anthropicReq model reasoningEffort
  ({ req.1 with Stream := true }, req.2)

/-- The request of `TestTranslateAnthropicToResponses_WithToolBlocks`, whose `Stream` flag is
false. -/
def sampleToolRequest : AnthropicMessageRequest :=
  { Model := ""
    MaxTokens := 0
    System := .json (.string "sys")
    Messages :=
      [ { Role := "assistant"
          Content := .blocks
            [textBlock "calling", toolUseBlock "tool_1" "search" "\x7b\"q\":\"go\"\x7d"] },
        { Role := "user"
          Content := .blocks [toolResultBlock "tool_1" (.string "done")] } ]
    Stream := false
    Tools := [{ Name := "search", Description := "", InputSchema := "\x7b\"type\":\"object\"\x7d" }]
    ToolChoice := .object sampleToolChoice }

/-- The item that `translateAnthropicMessagesToResponsesInput` makes of a `tool_use` block: a
`function_call` whose `call_id` is the id of the block trimmed of white space, or a generated
`toolu_<nanos>_<index>` when nothing is left of it, whose `id` is `fc_` followed by the
`call_id`, with the name of the block and its input passed through `safeJSONRawMessage`. -/
def FunctionCallOf (lib : GoLib) (block : AnthropicContentBlock) (item : ResponsesInputItem) :
    Prop :=
  item.Kind = "function_call" ∧ item.ID = "fc_" ++ item.CallID ∧ item.Name = block.Name ∧
    item.Arguments = safeJSONRawMessage lib block.Input ∧
    item.Role = "" ∧ item.Content = "" ∧ item.Output = "" ∧
    (TrimSpace block.ID ≠ "" → item.CallID = TrimSpace block.ID) ∧
    (TrimSpace block.ID = "" →
      ∃ n i : Int, item.CallID = "toolu_" ++ Itoa n ++ "_" ++ Itoa i)

/-- The item made of a `tool_result` block whose `tool_use_id` is not blank: a
`function_call_output` with that `tool_use_id` as `call_id` and the extracted text as output,
or `(empty)` when that text is empty. -/
def functionCallOutputOf (lib : GoLib) (block : AnthropicContentBlock) : ResponsesInputItem :=
  { Kind := "function_call_output", Role := "", Content := "", ID := "",
    CallID := block.ToolUseID, Name := "", Arguments := "",
    Output :=
      if extractToolResultText lib block.Content = "" then "(empty)"
      else extractToolResultText lib block.Content }

/-- What a block contributes to the input items: a non-blank text block its text; a `tool_use`
block a flush followed by its `function_call` item; a `tool_result` block a flush, followed
by its `function_call_output` item unless its `tool_use_id` is blank; every other block
nothing. -/
def ResponsesPieceOf (lib : GoLib) (block : AnthropicContentBlock)
    (piece : Piece ResponsesInputItem) : Prop :=
  if block.Kind = "text" then
    if TrimSpace block.Text ≠ "" then piece = .text block.Text else piece = .skip
  else if block.Kind = "tool_use" then
    ∃ item, piece = .flush [item] ∧ FunctionCallOf lib block item
  else if block.Kind = "tool_result" then
    if TrimSpace block.ToolUseID = "" then piece = .flush []
    else piece = .flush [functionCallOutputOf lib block]
  else piece = .skip

/-- The message item made of a run of texts in a message of role `role`. -/
def responsesTextItem (role : String) (texts : List String) : ResponsesInputItem :=
  { Kind := "message", Role := role, Content := Join texts "\n", ID := "", CallID := "",
    Name := "", Arguments := "", Output := "" }

/-- The input items of one message: none when the role is neither `user` nor `assistant`;
for a Go string, one message item unless the string is blank; for any other content, the
pieces of its blocks emitted in block order, the pending text being flushed as one message
item at every flush and after the last block. -/
def ResponsesItemsOf (lib : GoLib) (message : AnthropicMessage)
    (items : List ResponsesInputItem) : Prop :=
  (message.Role ≠ "user" ∧ message.Role ≠ "assistant" → items = []) ∧
  (¬ (message.Role ≠ "user" ∧ message.Role ≠ "assistant") →
    (∀ text, message.Content = .json (.string text) →
      items = if TrimSpace text = "" then []
        else [⟨"message", message.Role, text, "", "", "", "", ""⟩]) ∧
    ((∀ text, message.Content ≠ .json (.string text)) →
      ∃ pieces,
        List.Forall₂ (ResponsesPieceOf lib) (normalizeContentToBlocks lib message.Content)
          pieces ∧
        items = emitInOrder (responsesTextItem message.Role) pieces))

/-- A message list: a system message, an assistant message with two `tool_use` blocks, one of
padded id and one without id, and a user message with two `tool_result` blocks, one without
`tool_use_id` and one of empty content. -/
def sampleResponsesMessages : List AnthropicMessage :=
  [ { Role := "system", Content := .json (.string "ignored") },
    { Role := "assistant"
      Content := .blocks
        [textBlock "calling", textBlock "twice",
         toolUseBlock " tool_1 " "search" " \x7b\"q\":\"go\"\x7d ",
         textBlock "  ", toolUseBlock "" "list" "not json"] },
    { Role := "user"
      Content := .blocks
        [textBlock "results", toolResultBlock " " (.string "lost"),
         toolResultBlock "tool_1" .null, textBlock "thanks"] } ]

/-! ## Request translation for the OpenAI dialect (`translate_request.go`) -/

/-- The struct `OpenAIFunctionDefinition`; `Parameters` holds the bytes of the
`json.RawMessage`. -/
structure OpenAIFunctionDefinition where
  Name : String
  Description : String
  Parameters : String
deriving DecidableEq, Repr

/-- The struct `OpenAITool`; its field `Type` is named `Kind` here. -/
structure OpenAITool where
  Kind : String
  Function : OpenAIFunctionDefinition
deriving DecidableEq, Repr

/-- The struct `OpenAIStreamOptions`. -/
structure OpenAIStreamOptions where
  IncludeUsage : Bool
deriving DecidableEq, Repr

/-- The struct `OpenAIChatRequest`; a nil `StreamOptions` is `none`, a nil `ToolChoice` is
`null`. -/
structure OpenAIChatRequest where
  Model : String
  Messages : List OpenAIMessage
  Stream : Bool
  StreamOptions : Option OpenAIStreamOptions
  MaxTokens : Int
  Tools : List OpenAITool
  ToolChoice : JSONValue

/-- The schema forwarded for a tool that has none: `\x7b"type":"object","properties":\x7b\x7d\x7d`. -/
def defaultToolParameters : String :=
  "\x7b\"type\":\"object\",\"properties\":\x7b\x7d\x7d"

/-- The function `translateTools`. -/
def translateTools (tools : List AnthropicTool) : List OpenAITool :=
  tools.map (fun tool =>
    { Kind := "function"
      Function :=
        { Name := tool.Name
          Description := tool.Description
          Parameters :=
            if tool.InputSchema.length = 0 then
              "\x7b\"type\":\"object\",\"properties\":\x7b\x7d\x7d"
            else tool.InputSchema } })

/-- The function `TranslateAnthropicToOpenAI`, with the number of clock readings taken before
and after the call. -/
def TranslateAnthropicToOpenAI (lib : GoLib) (clock : Nat) (req : AnthropicMessageRequest)
    (model : String) : OpenAIChatRequest × Nat :=
  let maxTokens := if req.MaxTokens ≤ 0 then 4096 else req.MaxTokens
  let messages := TranslateMessagesToOpenAI lib clock req.System req.Messages
  ({ Model := model
     Messages := messages.1
     Stream := req.Stream
     StreamOptions := if req.Stream then some { IncludeUsage := true } else none
     MaxTokens := maxTokens
     Tools := if 0 < req.Tools.length then translateTools req.Tools else []
     ToolChoice :=
       match req.ToolChoice with
       | .null => .null
       | v => translateToolChoice v }, messages.2)

/-! ## Non-streaming responses of the OpenAI dialect (`translate_stream.go`) -/

/-- The struct `OpenAIChoice`. -/
structure OpenAIChoice where
  Index : Int
  Message : OpenAIMessage
  FinishReason : String
deriving DecidableEq, Repr

/-- The struct `OpenAIChatResponse`. -/
structure OpenAIChatResponse where
  ID : String
  Model : String
  Choices : List OpenAIChoice
  Usage : OpenAIUsage
deriving DecidableEq, Repr

/-- The struct `AnthropicUsage`. -/
structure AnthropicUsage where
  InputTokens : Int
  OutputTokens : Int
deriving DecidableEq, Repr

/-- The struct `AnthropicMessageResponse`; its field `Type` is named `Kind` here. -/
structure AnthropicMessageResponse where
  ID : String
  Kind : String
  Role : String
  Content : List AnthropicContentBlock
  Model : String
  StopReason : String
  StopSequence : String
  Usage : AnthropicUsage

/-- The block that `convertOpenAINonStreamToAnthropic` makes of a tool call. -/
def toolUseOfCall (lib : GoLib) (tc : OpenAIToolCall) : AnthropicContentBlock :=
  { Kind := "tool_use", Text := "", ID := tc.ID, Name := tc.Function.Name,
    Input := safeJSONRawMessage lib tc.Function.Arguments, ToolUseID := "", Content := .null }

/-- The function `convertOpenAINonStreamToAnthropic`; `clock` is the number of clock readings
taken before the call, which takes one. -/
def convertOpenAINonStreamToAnthropic (lib : GoLib) (clock : Nat) (resp : OpenAIChatResponse)
    (spoofModel : String) : AnthropicMessageResponse :=
  let out : AnthropicMessageResponse :=
    { ID := "msg_" ++ Itoa (lib.unixNano clock)
      Kind := "message"
      Role := "assistant"
      Content := []
      Model := spoofModel
      StopReason := ""
      StopSequence := ""
      Usage :=
        { InputTokens := resp.Usage.PromptTokens, OutputTokens := resp.Usage.CompletionTokens } }
  match resp.Choices with
  | [] => out
  | choice :: _ =>
    let message := choice.Message
    let text : List AnthropicContentBlock :=
      if TrimSpace message.Content ≠ "" then
        [{ Kind := "text", Text := message.Content, ID := "", Name := "", Input := "",
           ToolUseID := "", Content := .null }]
      else []
    { out with
      Content := text ++ message.ToolCalls.map (toolUseOfCall lib)
      StopReason := mapFinishReason choice.FinishReason }

/-- The response of `TestConvertOpenAINonStreamToAnthropic`. -/
def sampleChatResponse : OpenAIChatResponse :=
  { ID := ""
    Model := "gpt-5-mini"
    Choices :=
      [{ Index := 0
         Message :=
           { Role := "assistant", Content := "hello", ToolCallID := ""
             ToolCalls := [⟨"call_1", 0, "function", ⟨"search", "\x7b\"q\":\"go\"\x7d"⟩⟩] }
         FinishReason := "tool_calls" }]
    Usage := { PromptTokens := 10, CompletionTokens := 20 } }

/-- An input that white space surrounds, a vertical tab before it and a space after it, which
`strings.TrimSpace` removes; JSON does not allow the vertical tab. -/
def paddedJSON : String :=
  "\x0b\x7b\"q\":\"go\"\x7d "

/-! ## Non-streaming responses of the responses dialect (`translate_chatgpt.go`) -/

open JSONValue in
/-- The loop of `extractResponseText` over the `content` of an output entry: `parts` is the
slice built so far. -/
def appendContentTexts : List JSONValue → List String → List String
  | [], parts => parts
  | c :: rest, parts =>
    match c with
    | .object block =>
      let text := (asString (field block "text")).getD ""
      if text ≠ "" then appendContentTexts rest (parts ++ [text])
      else appendContentTexts rest parts
    | _ => appendContentTexts rest parts

open JSONValue in
/-- The loop of `extractResponseText` over `output`: `parts` is the slice built so far. -/
def appendOutputTexts : List JSONValue → List String → List String
  | [], parts => parts
  | item :: rest, parts =>
    match item with
    | .object entry =>
      let itemType := (asString (field entry "type")).getD ""
      if itemType ≠ "" ∧ itemType ≠ "message" then appendOutputTexts rest parts
      else
        match asArray (field entry "content") with
        | none => appendOutputTexts rest parts
        | some content => appendOutputTexts rest (appendContentTexts content parts)
    | _ => appendOutputTexts rest parts

open JSONValue in
/-- The function `extractResponseText`. -/
def extractResponseText (payload : JSONObject) : String :=
  let fromOutput : String :=
    match asArray (field payload "output") with
    | none => ""
    | some output => Join (appendOutputTexts output []) "\n"
  match asString (field payload "output_text") with
  | some v => if TrimSpace v ≠ "" then v else fromOutput
  | none => fromOutput

open JSONValue in
/-- The body of the loop of `extractResponseToolUses`: `acc` holds `out` and the number of
clock readings taken so far. -/
def appendResponseToolUse (lib : GoLib) (acc : List AnthropicContentBlock × Nat)
    (item : JSONValue) : List AnthropicContentBlock × Nat :=
  match item with
  | .object entry =>
    if (asString (field entry "type")).getD "" ≠ "function_call" then acc
    else
      let callID := (asString (field entry "call_id")).getD ""
      let name := (asString (field entry "name")).getD ""
      let args := (asString (field entry "arguments")).getD ""
      (acc.1 ++
        [{ Kind := "tool_use", Text := ""
           ID := if callID = "" then "toolu_" ++ Itoa (lib.unixNano acc.2) else callID
           Name := name, Input := safeJSONRawMessage lib args, ToolUseID := ""
           Content := .null }],
        if callID = "" then acc.2 + 1 else acc.2)
  | _ => acc

open JSONValue in
/-- The function `extractResponseToolUses`, with the number of clock readings taken before
and after the call. -/
def extractResponseToolUses (lib : GoLib) (clock : Nat) (payload : JSONObject) :
    List AnthropicContentBlock × Nat :=
  match asArray (field payload "output") with
  | none => ([], clock)
  | some output => output.foldl (appendResponseToolUse lib) ([], clock)

open JSONValue in
/-- The function `determineResponsesStopReason`. -/
def determineResponsesStopReason (payload : JSONObject) (content : List AnthropicContentBlock) :
    String :=
  if content.any (fun block => block.Kind = "tool_use") then "tool_use"
  else if (asString (field payload "status")).getD "" = "incomplete" then
    match asObject (field payload "status_details") with
    | some details =>
      if (asString (field details "reason")).getD "" = "max_output_tokens" then "max_tokens"
      else "end_turn"
    | none => "end_turn"
  else "end_turn"

open JSONValue in
/-- The function `convertResponsesJSONToAnthropic`; `clock` is the number of clock readings
taken before the call. -/
def convertResponsesJSONToAnthropic (lib : GoLib) (clock : Nat) (raw : String)
    (spoofModel : String) : AnthropicMessageResponse :=
  let out : AnthropicMessageResponse :=
    { ID := "msg_" ++ Itoa (lib.unixNano clock)
      Kind := "message"
      Role := "assistant"
      Content := []
      Model := spoofModel
      StopReason := ""
      StopSequence := ""
      Usage := { InputTokens := 0, OutputTokens := 0 } }
  match lib.unmarshalObject raw with
  | none =>
    { out with
      Content := [{ Kind := "text", Text := raw, ID := "", Name := "", Input := "",
                    ToolUseID := "", Content := .null }] }
  | some payload =>
    let text := extractResponseText payload
    let textBlocks : List AnthropicContentBlock :=
      if TrimSpace text ≠ "" then
        [{ Kind := "text", Text := text, ID := "", Name := "", Input := "", ToolUseID := "",
           Content := .null }]
      else []
    let content := textBlocks ++ (extractResponseToolUses lib (clock + 1) payload).1
    let usage : AnthropicUsage :=
      match asObject (field payload "usage") with
      | some usage =>
        { InputTokens := (asInt (field usage "input_tokens")).getD 0
          OutputTokens := (asInt (field usage "output_tokens")).getD 0 }
      | none => { InputTokens := 0, OutputTokens := 0 }
    { out with
      Content := content
      Usage := usage
      StopReason := determineResponsesStopReason payload content }

/-! ## Specification of the responses JSON helpers -/

open JSONValue in
/-- The output entries whose text is extracted: the entries of the array `output` that are
objects and whose `type` is empty (absent, or not a string) or `message`. -/
def messageEntries (payload : JSONObject) : List JSONObject :=
  ((asArray (field payload "output")).getD []).filterMap (fun item =>
    match item with
    | .object entry =>
      let itemType := (asString (field entry "type")).getD ""
      if itemType = "" ∨ itemType = "message" then some entry else none
    | _ => none)

open JSONValue in
/-- The text fields of the content entries of an output entry: for every object of the array
`content` that has a string field `text`, that string, empty or not. -/
def textFields (entry : JSONObject) : List String :=
  ((asArray (field entry "content")).getD []).filterMap (fun c =>
    match c with
    | .object block => asString (field block "text")
    | _ => none)

/-- The non-empty text fields of the content entries of an output entry. -/
def nonEmptyTextFields (entry : JSONObject) : List String :=
  (textFields entry).filter (fun text => text ≠ "")

open JSONValue in
/-- The response object has an entry of type `function_call` in its array `output`. -/
def HasFunctionCall (resp : JSONObject) : Prop :=
  ∃ output entry, asArray (field resp "output") = some output ∧ .object entry ∈ output ∧
    asString (field entry "type") = some "function_call"

open JSONValue in
/-- The response object has the status `incomplete` with the reason `max_output_tokens`. -/
def HitMaxOutputTokens (resp : JSONObject) : Prop :=
  asString (field resp "status") = some "incomplete" ∧
    ∃ details, asObject (field resp "status_details") = some details ∧
      asString (field details "reason") = some "max_output_tokens"

/-! ## The encoding of decoded values (`json.Marshal`), for the worked examples -/

/-- A hexadecimal digit, in lower case. -/
def hexDigit (n : Nat) : Char :=
  if n < 10 then Char.ofNat (48 + n) else Char.ofNat (87 + n)

/-- The double quote. -/
def quoteRune : Char :=
  Char.ofNat 34

/-- The backslash. -/
def backslashRune : Char :=
  Char.ofNat 92

/-- The escape `\uXXXX` of a rune below `0x10000`. -/
def unicodeEscape (c : Char) : List Char :=
  let n := c.toNat
  [backslashRune, 'u', hexDigit (n / 4096 % 16), hexDigit (n / 256 % 16),
    hexDigit (n / 16 % 16), hexDigit (n % 16)]

/-- What `json.Marshal` writes for a rune of a string: the quote, the backslash and the
control characters are escaped, and so are `<`, `>`, `&`, U+2028 and U+2029. -/
def escapeRune (c : Char) : List Char :=
  if c = quoteRune then [backslashRune, quoteRune]
  else if c = backslashRune then [backslashRune, backslashRune]
  else if c = '\n' then [backslashRune, 'n']
  else if c = '\r' then [backslashRune, 'r']
  else if c = '\t' then [backslashRune, 't']
  else if c.toNat = 8 then [backslashRune, 'b']
  else if c.toNat = 12 then [backslashRune, 'f']
  else if c.toNat < 32 ∨ c = '<' ∨ c = '>' ∨ c = '&' ∨ c.toNat = 8232 ∨ c.toNat = 8233 then
    unicodeEscape c
  else [c]

/-- What `json.Marshal` writes for a string. -/
def marshalString (s : String) : String :=
  ⟨quoteRune :: (s.data.flatMap escapeRune) ++ [quoteRune]⟩

/-- The texts joined by commas. -/
def joinComma : List String → String
  | [] => ""
  | [x] => x
  | x :: y :: rest => x ++ "," ++ joinComma (y :: rest)

/-- The order in which `json.Marshal` writes the keys of a map: byte-wise on the UTF-8
encoding, which is the order of the code points. -/
def keyLE : List Char → List Char → Bool
  | [], _ => true
  | _ :: _, [] => false
  | a :: as, b :: bs =>
    if a.toNat < b.toNat then true
    else if b.toNat < a.toNat then false
    else keyLE as bs

mutual

/-- What `json.Marshal` writes for a decoded value: the keys of every object are sorted and
nothing separates the tokens. -/
def marshalValue : JSONValue → String
  | .null => "null"
  | .bool b => if b then "true" else "false"
  | .number n => toString n
  | .decimal _ text => text
  | .string s => marshalString s
  | .array xs => "[" ++ joinComma (marshalArray xs) ++ "]"
  | .object fields =>
    "\x7b" ++ joinComma (((marshalFields fields).insertionSort
      (fun a b => keyLE a.1.data b.1.data = true)).map
        (fun kv => marshalString kv.1 ++ ":" ++ kv.2)) ++ "\x7d"
termination_by structural v => v

/-- The encodings of the elements of an array. -/
def marshalArray : List JSONValue → List String
  | [] => []
  | x :: xs => marshalValue x :: marshalArray xs
termination_by structural xs => xs

/-- The keys of an object with the encodings of their values. -/
def marshalFields : List (String × JSONValue) → List (String × String)
  | [] => []
  | (k, v) :: rest => (k, marshalValue v) :: marshalFields rest
termination_by structural fields => fields

end

/-- The response object of `TestConvertResponsesJSONToAnthropic_WithToolUse`, with usage. -/
def sampleResponseObject : JSONObject :=
  [("status", .string "completed"),
   ("output", .array
     [.object [("type", .string "message"),
               ("content", .array [.object [("text", .string "answer")]])],
      .object [("type", .string "function_call"), ("call_id", .string "tool_1"),
               ("name", .string "search"), ("arguments", .string "\x7b\"q\":\"go\"\x7d")]]),
   ("usage", .object [("input_tokens", .number 11), ("output_tokens", .number 22)])]

/-- A response cut short at the token limit, without tool call. -/
def sampleIncompleteObject : JSONObject :=
  [("status", .string "incomplete"),
   ("status_details", .object [("reason", .string "max_output_tokens")]),
   ("output", .array
     [.object [("content", .array
       [.object [("text", .string "a")], .object [("text", .string "")],
        .object [("text", .string "b")], .string "skipped", .object [("text", .number 3)]])],
      .object [("type", .string "reasoning"),
               ("content", .array [.object [("text", .string "hidden")]])]])]

/-- The text of the sample response object, as the upstream sends it. -/
def sampleResponseJSON : String :=
  "\x7b\"status\":\"completed\",\"output\":[\x7b\"type\":\"message\",\"content\":[\x7b\"text\":\"answer\"\x7d]\x7d,\x7b\"type\":\"function_call\",\"call_id\":\"tool_1\",\"name\":\"search\",\"arguments\":\"\x7b\\\"q\\\":\\\"go\\\"\x7d\"\x7d],\"usage\":\x7b\"input_tokens\":11,\"output_tokens\":22\x7d\x7d"

/-- The text `json.Marshal` writes for the sample response object, its keys sorted. -/
def sampleResponseEncoded : String :=
  "\x7b\"output\":[\x7b\"content\":[\x7b\"text\":\"answer\"\x7d],\"type\":\"message\"\x7d,\x7b\"arguments\":\"\x7b\\\"q\\\":\\\"go\\\"\x7d\",\"call_id\":\"tool_1\",\"name\":\"search\",\"type\":\"function_call\"\x7d],\"status\":\"completed\",\"usage\":\x7b\"input_tokens\":11,\"output_tokens\":22\x7d\x7d"

/-- A library instance for the worked examples on responses: it decodes the sample response
object and the sample events, encodes every decoded value as `json.Marshal` does, and is
`plainLib` otherwise. -/
def responsesLib : GoLib :=
  { plainLib with
    unmarshalObject := fun raw =>
      if raw = sampleResponseJSON then some sampleResponseObject
      else if raw = "\x7b\"type\":\"response.completed\",\"response\":" ++ sampleResponseJSON
          ++ "\x7d" then
        some [("type", .string "response.completed"), ("response", .object sampleResponseObject)]
      else if raw = "\x7b\"type\":\"response.created\"\x7d" then
        some [("type", .string "response.created")]
      else none
    marshalJSON := fun v => some (marshalValue v) }

open JSONValue in
/-- Whether the array `output` of a response object holds an entry of type `function_call`. -/
def hasFunctionCall (resp : JSONObject) : Bool :=
  match asArray (field resp "output") with
  | some output => hasFunctionCallEntry output
  | none => false

open JSONValue in
/-- Whether a response object has the status `incomplete` with the reason
`max_output_tokens`. -/
def hitMaxOutputTokens (resp : JSONObject) : Bool :=
  decide ((asString (field resp "status")).getD "" = "incomplete") &&
    match asObject (field resp "status_details") with
    | some details => decide ((asString (field details "reason")).getD "" = "max_output_tokens")
    | none => false

/-- The stop reason of a response object: `tool_use` when it holds a function call, otherwise
`max_tokens` when it was cut short at the token limit, otherwise `end_turn`. -/
def stopReasonOf (resp : JSONObject) : String :=
  if hasFunctionCall resp then "tool_use"
  else if hitMaxOutputTokens resp then "max_tokens"
  else "end_turn"

/-- A state of the responses translator before the `response.completed` event. -/
def sampleResponsesState : responsesStreamState :=
  { messageID := "msg_1", blockIndex := 0, textBlocks := GoMap.empty, toolBlocks := GoMap.empty,
    openBlocks := GoMap.empty, stopReason := "end_turn", outputTokens := 5,
    messageOpened := true }

/-! ## Collecting a responses stream (`translate_chatgpt.go`) -/

open JSONValue in
/-- The callback that `collectResponsesStreamAsJSON` passes to `readSSEEvents`; the captured
variable is `responseJSON`, nil being `none`. -/
def onCollectEvent (lib : GoLib) (responseJSON : Option String) (_eventName : String)
    (data : String) : Option String × Option CallbackError :=
  let data := TrimSpace data
  if data = "" ∨ data = "[DONE]" then (responseJSON, none)
  else
    match lib.unmarshalObject data with
    | none => (responseJSON, none)
    | some event =>
      if (asString (field event "type")).getD "" = "response.completed" then
        match field event "response" with
        | some resp =>
          match lib.marshalJSON resp with
          | some b => (some b, none)
          | none => (responseJSON, none)
        | none => (responseJSON, none)
      else (responseJSON, none)

/-- The function `collectResponsesStreamAsJSON`: the bytes returned, or the message of the
error. The callback returns no error, so that an error of `readSSEEvents` is the error of the
reader, shown here as `read error`. -/
def collectResponsesStreamAsJSON (lib : GoLib) (src : Body) : Except String String :=
  match readSSEEvents src (onCollectEvent lib) none with
  | (_, true) => .error "read error"
  | (none, false) => .error "no response.completed event received from Codex stream"
  | (some b, false) => .ok b

open JSONValue in
/-- The `response.completed` event that the data of an SSE event holds: the data, trimmed, is
neither empty nor `[DONE]` and decodes to an object whose `type` is `response.completed`. -/
def completedEventOf (lib : GoLib) (data : String) : Option JSONObject :=
  if TrimSpace data = "" ∨ TrimSpace data = "[DONE]" then none
  else
    match lib.unmarshalObject (TrimSpace data) with
    | none => none
    | some event =>
      if asString (field event "type") = some "response.completed" then some event else none

/-- The text of a `response.completed` event that carries the sample response object. -/
def sampleCompletedEvent : String :=
  "\x7b\"type\":\"response.completed\",\"response\":" ++ sampleResponseJSON ++ "\x7d"

/-- The stream of `TestHandleMessages_ChatGPTNonStream`, with an event of another type
before the `response.completed` event. -/
def sampleCollectStream : String :=
  "data: \x7b\"type\":\"response.created\"\x7d\n\nevent: response.completed\ndata: " ++
    sampleCompletedEvent ++ "\n\ndata: [DONE]\n\n"

/-! ## Specification of the totals of the OpenAI stream translator -/

/-- The statements of the chunk callback of `convertOpenAIStreamToAnthropic` that follow a
successful `json.Unmarshal` of the chunk. -/
def onOpenAIChunk (lib : GoLib) (s : OpenAIStreamState) (chunk : OpenAIChatStreamChunk) :
    OpenAIStreamState × Option CallbackError :=
  let s0 :=
    if chunk.Usage.CompletionTokens > 0 then
      { s with outputTokens := chunk.Usage.CompletionTokens }
    else s
  match chunk.Choices with
  | [] => (s0, none)
  | choice :: _ =>
    match onContentDelta s0 choice.Delta.Content with
    | (s1, some e) => (s1, some e)
    | (s1, none) =>
      match forEach (onToolCall lib) choice.Delta.ToolCalls s1 with
      | (s2, some e) => (s2, some e)
      | (s2, none) =>
        if choice.FinishReason ≠ "" then
          ({ s2 with stopReason := mapFinishReason choice.FinishReason }, none)
        else
          (s2, none)

/-- The chunks parsed from the events of the input, in order, up to the event `[DONE]` or the
end of the input: an event without data is skipped, and so is a chunk whose JSON is
malformed. -/
def parsedChunks (lib : GoLib) : List (String × String) → List OpenAIChatStreamChunk
  | [] => []
  | ev :: rest =>
    if TrimSpace ev.2 = "" then parsedChunks lib rest
    else if TrimSpace ev.2 = "[DONE]" then []
    else
      match lib.unmarshalChunk (TrimSpace ev.2) with
      | none => parsedChunks lib rest
      | some chunk => chunk :: parsedChunks lib rest

/-- The translator run on chunks already parsed: what `convertOpenAIStreamToAnthropic` does
once the chunks of its input are known. -/
def convertOpenAIChunks (lib : GoLib) (w : ResponseWriter)
    (chunks : List OpenAIChatStreamChunk) (spoofModel : String) : ResponseWriter × Bool :=
  if w.flusher = false then
    (w, true)
  else
    let messageID := "msg_" ++ toString (lib.unixNano 0)
    match writeAnthropicSSEEvent w (.message_start messageID spoofModel) with
    | (w1, some _) => (w1, true)
    | (w1, none) =>
      let init : OpenAIStreamState :=
        { w := w1
          nextBlockIndex := 0
          activeTextIndex := -1
          activeToolCalls := GoMap.empty
          openBlocks := GoMap.empty
          stopReason := "end_turn"
          outputTokens := 0
          clock := 1 }
      match readResult (forEach (onOpenAIChunk lib) chunks init) with
      | (s, true) => (s.w, true)
      | (s, false) =>
        match finishOpenAIStream s with
        | (s1, some _) => (s1.w, true)
        | (s1, none) => (s1.w, false)

/-- The non-empty finish reasons of the first choices of the chunks, in order. -/
def finishReasons (chunks : List OpenAIChatStreamChunk) : List String :=
  chunks.filterMap (fun chunk =>
    match chunk.Choices with
    | choice :: _ => if choice.FinishReason ≠ "" then some choice.FinishReason else none
    | [] => none)

/-- The stop reason of the chunks: `mapFinishReason` of the last non-empty finish reason of a
first choice, `end_turn` when there is none. -/
def lastStopReason (chunks : List OpenAIChatStreamChunk) : String :=
  match (finishReasons chunks).getLast? with
  | some v => mapFinishReason v
  | none => "end_turn"

/-- The positive `usage.completion_tokens` of the chunks, in order. -/
def completionTokens (chunks : List OpenAIChatStreamChunk) : List Int :=
  (chunks.map (fun chunk => chunk.Usage.CompletionTokens)).filter (fun n => n > 0)

/-- The output tokens of the chunks: the last positive `usage.completion_tokens`, 0 when
there is none. -/
def lastOutputTokens (chunks : List OpenAIChatStreamChunk) : Int :=
  ((completionTokens chunks).getLast?).getD 0

/-- The state `s1` has a writer that never fails and the stop reason and output tokens of
the state `s`. -/
def SameTotals (s s1 : OpenAIStreamState) : Prop :=
  s1.w.failAfter = none ∧ s1.stopReason = s.stopReason ∧ s1.outputTokens = s.outputTokens

/-! ## Samples for the closing of blocks -/

/-- The state of `TestCloseOpenResponseBlocks_SortedOrder`, on a writer that has written
nothing: the blocks 30, 2, 25, 1, 10 and 4 are open. -/
def sampleOpenBlocksStream : ResponsesStream :=
  { w := freshWriter
    state :=
      { messageID := ""
        blockIndex := 0
        textBlocks := GoMap.empty
        toolBlocks := GoMap.empty
        openBlocks := ⟨[(30, true), (2, true), (25, true), (1, true), (10, true), (4, true)]⟩
        stopReason := ""
        outputTokens := 0
        messageOpened := false }
    clock := 0 }

/-- A callback that accepts every event and keeps nothing. -/
def acceptEvent (s : Unit) (_name _data : String) : Unit × Option CallbackError :=
  (s, none)

/-! ## Configuration (`config.go`) -/

/-- The constant `ProviderTypePassthrough`. -/
def ProviderTypePassthrough : String := "passthrough"

/-- The constant `ProviderTypeOpenAI`. -/
def ProviderTypeOpenAI : String := "openai"

/-- The constant `ProviderTypeChatGPT`. -/
def ProviderTypeChatGPT : String := "chatgpt"

/-- The constant `AuthTypeNone`. -/
def AuthTypeNone : String := "none"

/-- The constant `AuthTypeBearer`. -/
def AuthTypeBearer : String := "bearer"

/-- The constant `AuthTypeCodex`. -/
def AuthTypeCodex : String := "codex"

/-- The errors `LoadConfig` returns for a decoded configuration, with the values they print. -/
inductive ConfigError where
  | listenRequired
  | spoofModelRequired
  | defaultProviderRequired
  | timeoutSecondsRequired
  | providersRequired
  | typeRequired (name : String)
  | urlRequired (name : String)
  | typeInvalid (name : String)
  | modelRequired (name : String) (kind : String)
  | reasoningEffortInvalid (name : String)
  | authTypeInvalid (name : String)
  | defaultProviderUndefined (name : String)
deriving DecidableEq, Repr

/-- The body of the loop of `LoadConfig` for the provider stored under `name`: the normalised
provider `p` that is stored back under the same key, or the error returned. -/
def loadProvider (lib : GoLib) (name : String) (provider : ProviderConfig) :
    Except ConfigError ProviderConfig :=
  let p : ProviderConfig :=
    { provider with
      Kind := TrimSpace (ToLower lib.unicodeToLower provider.Kind)
      URL := TrimSpace provider.URL
      Model := TrimSpace provider.Model
      ReasoningEffort := NormalizeReasoningEffort lib provider.ReasoningEffort
      Auth :=
        { provider.Auth with Kind := TrimSpace (ToLower lib.unicodeToLower provider.Auth.Kind) } }
  if p.Kind = "" then .error (.typeRequired name)
  else if p.URL = "" then .error (.urlRequired name)
  else if ¬ (p.Kind = ProviderTypePassthrough ∨ p.Kind = ProviderTypeOpenAI ∨
      p.Kind = ProviderTypeChatGPT) then
    .error (.typeInvalid name)
  else if p.Kind ≠ ProviderTypePassthrough ∧ p.Model = "" then
    .error (.modelRequired name p.Kind)
  else if p.ReasoningEffort ≠ "" ∧ IsValidReasoningEffort lib p.ReasoningEffort = false then
    .error (.reasoningEffortInvalid name)
  else if ¬ (p.Auth.Kind = "" ∨ p.Auth.Kind = AuthTypeNone ∨ p.Auth.Kind = AuthTypeBearer ∨
      p.Auth.Kind = AuthTypeCodex) then
    .error (.authTypeInvalid name)
  else .ok p

/-- The loop `for name, provider := range cfg.Providers` of `LoadConfig`, the entries visited
in the order of the list: it stops at the first provider that is refused, and otherwise every
entry keeps its key and holds the normalised provider. -/
def loadProviders (lib : GoLib) :
    List (String × ProviderConfig) → Except ConfigError (List (String × ProviderConfig))
  | [] => .ok []
  | (name, provider) :: rest =>
    match loadProvider lib name provider with
    | .error e => .error e
    | .ok p =>
      match loadProviders lib rest with
      | .error e => .error e
      | .ok ps => .ok ((name, p) :: ps)

/-- The function `LoadConfig`, from the configuration `cfg` that `yaml.Unmarshal` has decoded
out of the file. -/
def LoadConfig (lib : GoLib) (cfg : Config) : Except ConfigError Config :=
  if cfg.Listen = "" then .error .listenRequired
  else if cfg.SpoofModel = "" then .error .spoofModelRequired
  else if cfg.DefaultProvider = "" then .error .defaultProviderRequired
  else if cfg.TimeoutSeconds ≤ 0 then .error .timeoutSecondsRequired
  else if cfg.Providers.entries.length = 0 then .error .providersRequired
  else
    match loadProviders lib cfg.Providers.entries with
    | .error e => .error e
    | .ok entries =>
      let cfg := { cfg with Providers := ⟨entries⟩ }
      match cfg.Providers.get? cfg.DefaultProvider with
      | none => .error (.defaultProviderUndefined cfg.DefaultProvider)
      | some _ => .ok cfg

/-! ## Provider authentication and retries (`auth.go`) -/

/-- The struct `codexCredentials`. -/
structure codexCredentials where
  Token : String
  AccountID : String
deriving DecidableEq, Repr

/-- What `ApplyProviderAuth` reads outside the program: the environment variables
(`os.Getenv`) and the outcome of `loadCodexCredentials` on the file `~/.codex/auth.json`. -/
structure AuthEnv where
  getenv : String → String
  loadCodexCredentials : Except String codexCredentials

/-- The function `ApplyProviderAuth`, on the header of the request: the header after the
call, or the message of the error returned. -/
def ApplyProviderAuth (env : AuthEnv) (header : GoMap String String) (provider : ProviderConfig) :
    Except String (GoMap String String) :=
  let authType := provider.Auth.Kind
  let authType := if authType = "" then AuthTypeNone else authType
  if authType = AuthTypeNone then .ok header
  else if authType = AuthTypeBearer then
    let tokenEnv := provider.Auth.TokenEnv
    if tokenEnv = "" then .error "bearer auth requires token_env"
    else
      let token := TrimSpace (env.getenv tokenEnv)
      if token = "" then .error ("bearer auth env " ++ tokenEnv ++ " is empty")
      else .ok (header.set "Authorization" ("Bearer " ++ token))
  else if authType = AuthTypeCodex then
    match env.loadCodexCredentials with
    | .error e => .error e
    | .ok creds =>
      let header := header.set "Authorization" ("Bearer " ++ creds.Token)
      let header :=
        if creds.AccountID ≠ "" then header.set "Chatgpt-Account-Id" creds.AccountID
        else header
      .ok (header.set "User-Agent" "codex-cli/1.0")
  else .error ("unsupported auth type: " ++ authType)

/-- The constant `maxRetryCount`. -/
def maxRetryCount : Nat := 5

/-- The function `isRetryableStatus` of `server.go`; `http.StatusTooManyRequests` is 429. -/
def isRetryableStatus (status : Int) : Bool :=
  status == 429

/-- The constant `time.Millisecond`, in nanoseconds. -/
def Millisecond : Int := 1000000

/-- The value an `int64` holds after an operation whose exact result is `x`. -/
def wrapInt64 (x : Int) : Int :=
  (x + 2 ^ 63) % 2 ^ 64 - 2 ^ 63

/-- The function `backoffDuration`, a `time.Duration` in nanoseconds. -/
def backoffDuration (attempt : Nat) : Int :=
  let base := 250 * Millisecond
  wrapInt64 (base * wrapInt64 (2 ^ attempt))

/-- The errors of a context: `context.Canceled` and `context.DeadlineExceeded`. -/
inductive ContextError where
  | canceled
  | deadlineExceeded
deriving DecidableEq, Repr

/-- An error returned by `s.client.Do`: one for which `errors.Is` finds `context.Canceled` or
`context.DeadlineExceeded`, or any other transport error. -/
inductive TransportError where
  | context (e : ContextError)
  | other (msg : String)
deriving DecidableEq, Repr

/-- Whether `errors.Is(err, context.Canceled) || errors.Is(err, context.DeadlineExceeded)`. -/
def TransportError.isContextError : TransportError → Bool
  | .context _ => true
  | .other _ => false

/-- A response received from the upstream: its status and its body. -/
structure UpstreamResponse where
  StatusCode : Int
  Body : String
deriving DecidableEq, Repr

/-- What a call `s.client.Do(req)` returns. -/
inductive RoundTrip where
  | response (resp : UpstreamResponse)
  | failure (err : TransportError)
deriving DecidableEq, Repr

/-- The errors `doProviderRequestWithRetry` returns or keeps in `lastErr`. -/
inductive RequestError where
  | context (e : ContextError)
  | createRequest (msg : String)
  | auth (msg : String)
  | transport (err : TransportError)
  | status (code : Int)
deriving DecidableEq, Repr

/-- The surroundings of one call of `doProviderRequestWithRetry`: the value of `ctx.Err()` at
each successive reading of the context, the error of `http.NewRequestWithContext` for the
method and URL of the call, what `ApplyProviderAuth` reads at each attempt, and what the
upstream answers to each call of `s.client.Do`, counted from 0. -/
structure Upstream where
  ctxErr : Nat → Option ContextError
  newRequest : Option String
  authEnv : Nat → AuthEnv
  roundTrip : Nat → RoundTrip

/-- What a call of `doProviderRequestWithRetry` does that can be seen from outside: a call of
`s.client.Do` (an upstream attempt, with the number of the iteration) or a call of
`retrySleep` (with its duration). -/
inductive RetryStep where
  | attempt (n : Nat)
  | sleep (d : Int)
deriving DecidableEq, Repr

/-- The two values `doProviderRequestWithRetry` returns, with the steps it has taken. -/
structure RetryResult where
  resp : Option UpstreamResponse
  err : Option RequestError
  steps : List RetryStep
deriving DecidableEq, Repr

/-- The header of the upstream request before `ApplyProviderAuth`; `requestID` is the value
`incomingHeaders.Get("x-request-id")`, empty when there is none. -/
def requestHeader (stream : Bool) (requestID : String) : GoMap String String :=
  let header := (GoMap.empty : GoMap String String).set "Content-Type" "application/json"
  let header :=
    if stream then header.set "Accept" "text/event-stream"
    else header.set "Accept" "application/json"
  if requestID ≠ "" then header.set "x-request-id" requestID else header

/-- The loop of `doProviderRequestWithRetry` from the iteration `attempt` on. `fuel` is the
number of iterations the loop condition `attempt <= maxRetryCount` still allows, `reads` the
number of readings of `ctx.Err()` made so far, `steps` the steps taken so far. The log line
and the closing of the body of a response that is retried, which have no bearing on the
control flow, are left out. -/
def retryLoop (up : Upstream) (provider : ProviderConfig) (stream : Bool) (requestID : String) :
    Nat → Nat → Nat → Option RequestError → List RetryStep → RetryResult
  | 0, _, _, lastErr, steps => { resp := none, err := lastErr, steps := steps }
  | fuel + 1, attempt, reads, _, steps =>
    match up.ctxErr reads with
    | some e => { resp := none, err := some (.context e), steps := steps }
    | none =>
      match up.newRequest with
      | some msg => { resp := none, err := some (.createRequest msg), steps := steps }
      | none =>
        match ApplyProviderAuth (up.authEnv attempt) (requestHeader stream requestID)
            provider with
        | .error msg => { resp := none, err := some (.auth msg), steps := steps }
        | .ok _ =>
          match up.roundTrip attempt with
          | .failure err =>
            if err.isContextError then
              { resp := none, err := some (.transport err), steps := steps ++ [.attempt attempt] }
            else
              match up.ctxErr (reads + 1) with
              | some _ =>
                { resp := none, err := some (.transport err)
                  steps := steps ++ [.attempt attempt] }
              | none =>
                if attempt = maxRetryCount then
                  { resp := none, err := some (.transport err)
                    steps := steps ++ [.attempt attempt] }
                else
                  retryLoop up provider stream requestID fuel (attempt + 1) (reads + 2)
                    (some (.transport err))
                    (steps ++ [.attempt attempt, .sleep (backoffDuration attempt)])
          | .response resp =>
            if isRetryableStatus resp.StatusCode ∧ attempt < maxRetryCount then
              match up.ctxErr (reads + 1) with
              | some e =>
                { resp := none, err := some (.context e), steps := steps ++ [.attempt attempt] }
              | none =>
                retryLoop up provider stream requestID fuel (attempt + 1) (reads + 2)
                  (some (.status resp.StatusCode))
                  (steps ++ [.attempt attempt, .sleep (backoffDuration attempt)])
            else
              { resp := some resp, err := none, steps := steps ++ [.attempt attempt] }

/-- The function `doProviderRequestWithRetry`. -/
def doProviderRequestWithRetry (up : Upstream) (provider : ProviderConfig) (stream : Bool)
    (requestID : String) : RetryResult :=
  retryLoop up provider stream requestID (maxRetryCount + 1) 0 0 none []

/-! ## Samples and specification of the configuration and of the retries -/

/-- The provider with its `auth.token_env` taken away. -/
def ProviderConfig.withoutTokenEnv (p : ProviderConfig) : ProviderConfig :=
  { p with Auth := { p.Auth with TokenEnv := "" } }

/-- The configuration with the `auth.token_env` of every provider taken away. -/
def Config.withoutTokenEnv (cfg : Config) : Config :=
  { cfg with
    Providers := ⟨cfg.Providers.entries.map (fun e => (e.1, e.2.withoutTokenEnv))⟩ }

/-- The configuration of `TestLoadConfig_Success` with the `token_env` of the provider
`openai`, whose `auth.type` is `bearer`, left out. -/
def sampleBearerConfig : Config :=
  { Listen := ":9999"
    SpoofModel := "claude-test"
    DefaultProvider := "anthropic"
    TimeoutSeconds := 120
    Providers := GoMap.mk
      [("anthropic",
        { Kind := "passthrough"
          URL := "https://api.anthropic.com"
          Model := ""
          ReasoningEffort := ""
          Auth := { Kind := "none", TokenEnv := "" } }),
       ("openai",
        { Kind := "openai"
          URL := "https://api.openai.com/v1/chat/completions"
          Model := "gpt-5-mini"
          ReasoningEffort := "HIGH"
          Auth := { Kind := "bearer", TokenEnv := "" } })] }

/-- The configuration of `TestLoadConfig_Success` as it is, the `token_env` of the provider
`openai` being `OPENAI_API_KEY`. -/
def sampleLoadConfig : Config :=
  { Listen := ":9999"
    SpoofModel := "claude-test"
    DefaultProvider := "anthropic"
    TimeoutSeconds := 120
    Providers := GoMap.mk
      [("anthropic",
        { Kind := "passthrough"
          URL := "https://api.anthropic.com"
          Model := ""
          ReasoningEffort := ""
          Auth := { Kind := "none", TokenEnv := "" } }),
       ("openai",
        { Kind := "openai"
          URL := "https://api.openai.com/v1/chat/completions"
          Model := "gpt-5-mini"
          ReasoningEffort := "HIGH"
          Auth := { Kind := "bearer", TokenEnv := "OPENAI_API_KEY" } })] }

/-- A configuration whose second provider has the key `Fast`, with an upper-case letter, and
no key `fast`. -/
def sampleMixedCaseConfig : Config :=
  { Listen := ":9999"
    SpoofModel := "claude-test"
    DefaultProvider := "anthropic"
    TimeoutSeconds := 120
    Providers := GoMap.mk
      [("anthropic",
        { Kind := "passthrough"
          URL := "https://api.anthropic.com"
          Model := ""
          ReasoningEffort := ""
          Auth := { Kind := "none", TokenEnv := "" } }),
       ("Fast",
        { Kind := "openai"
          URL := "https://api.openai.com/v1/chat/completions"
          Model := "gpt-5-mini"
          ReasoningEffort := ""
          Auth := { Kind := "none", TokenEnv := "" } })] }

/-- An environment without variables and without Codex credentials file. -/
def emptyAuthEnv : AuthEnv :=
  { getenv := fun _ => ""
    loadCodexCredentials := .error "failed to read codex auth file" }

/-- The content from which the route marker of a request is taken: the system when it holds
a marker, otherwise the first message that holds one. -/
def routeMarkerContent (lib : GoLib) (system : DynContent) (messages : List AnthropicMessage) :
    Option DynContent :=
  (system :: messages.map (fun m => m.Content)).find? (fun c => (routeMarkerOf lib c).isSome)

/-- The steps of `n` upstream attempts each followed by its backoff sleep: attempt 0, a sleep
of `backoffDuration 0`, attempt 1, a sleep of `backoffDuration 1`, and so on. -/
def retriedSteps : Nat → List RetryStep
  | 0 => []
  | n + 1 => retriedSteps n ++ [.attempt n, .sleep (backoffDuration n)]

/-- The number of upstream attempts among the steps. -/
def countAttempts (steps : List RetryStep) : Nat :=
  steps.countP (fun s => match s with
    | .attempt _ => true
    | .sleep _ => false)

/-- The durations of the sleeps among the steps, in order. -/
def sleepsOf (steps : List RetryStep) : List Int :=
  steps.filterMap (fun s => match s with
    | .attempt _ => none
    | .sleep d => some d)

/-- The attempt `k` is one that the loop retries when the context is not done: the upstream
answers it with the status 429, or with a transport error that is neither a cancellation nor
a deadline. -/
def Retried (up : Upstream) (k : Nat) : Prop :=
  match up.roundTrip k with
  | .response resp => resp.StatusCode = 429
  | .failure err => err.isContextError = false

/-- The upstream of `TestDoProviderRequestWithRetry_Retry429`: it answers 429 twice and 200
from then on; the context is never done and the request needs no credentials. -/
def sampleUpstream429 : Upstream :=
  { ctxErr := fun _ => none
    newRequest := none
    authEnv := fun _ => emptyAuthEnv
    roundTrip := fun k =>
      if k < 2 then .response { StatusCode := 429, Body := "\x7b\"error\":\"rate_limited\"\x7d" }
      else .response { StatusCode := 200, Body := "\x7b\"ok\":true\x7d" } }

/-- The upstream of `TestDoProviderRequestWithRetry_DoesNotRetryCanceledContext`: the context
is cancelled before the call and the transport returns `context.Canceled`. -/
def sampleUpstreamCanceled : Upstream :=
  { ctxErr := fun _ => some .canceled
    newRequest := none
    authEnv := fun _ => emptyAuthEnv
    roundTrip := fun _ => .failure (.context .canceled) }

/-- An upstream whose first attempt fails with a connection error and whose second attempt
fails with a deadline error raised by the transport, the context not being done when it is
read. -/
def sampleUpstreamDeadline : Upstream :=
  { ctxErr := fun _ => none
    newRequest := none
    authEnv := fun _ => emptyAuthEnv
    roundTrip := fun k =>
      if k = 0 then .failure (.other "connection refused")
      else .failure (.context .deadlineExceeded) }

/-- The provider of the tests of `auth_retry_test.go`. -/
def sampleRetryProvider : ProviderConfig :=
  { Kind := ProviderTypeOpenAI
    URL := "http://example.com"
    Model := "gpt-5-mini"
    ReasoningEffort := ""
    Auth := { Kind := AuthTypeNone, TokenEnv := "" } }

/-- An upstream that answers every attempt with 429; the context is never done and the
request needs no credentials. -/
def sampleUpstreamBusy : Upstream :=
  { ctxErr := fun _ => none
    newRequest := none
    authEnv := fun _ => emptyAuthEnv
    roundTrip := fun _ =>
      .response { StatusCode := 429, Body := "\x7b\"error\":\"rate_limited\"\x7d" } }

theorem char_le_iff (a b : Char) : a ≤ b ↔ a.toNat ≤ b.toNat := by
  rfl

theorem takeWhile_ne_nil_iff (cls : Char → Bool) (l : List Char) :
    l.takeWhile cls ≠ [] ↔ ∃ c rest, l = c :: rest ∧ cls c = true := by
  cases l with
  | nil => simp
  | cons a t =>
    by_cases h : cls a = true
    · simp [List.takeWhile_cons, h]
    · simp [List.takeWhile_cons, h]

theorem isPrefixOf_iff (lit s : List Char) :
    lit.isPrefixOf s = true ↔ ∃ t, s = lit ++ t := by
  rw [List.isPrefixOf_iff_prefix]
  constructor
  · rintro ⟨t, rfl⟩; exact ⟨t, rfl⟩
  · rintro ⟨t, rfl⟩; exact ⟨t, rfl⟩

/-- The test made by `findMarker` at one position is the predicate `MarkerStartsAt`. -/
theorem markerStartsAt_iff (lit : List Char) (cls : Char → Bool) (s : List Char) :
    (lit.isPrefixOf s = true ∧ (s.drop lit.length).takeWhile cls ≠ []) ↔
      MarkerStartsAt lit cls s := by
  constructor
  · rintro ⟨h1, h2⟩
    obtain ⟨t, rfl⟩ := (isPrefixOf_iff lit s).1 h1
    rw [List.drop_left] at h2
    obtain ⟨c, rest, rfl, hc⟩ := (takeWhile_ne_nil_iff cls t).1 h2
    exact ⟨c, rest, rfl, hc⟩
  · rintro ⟨c, rest, rfl, hc⟩
    refine ⟨(isPrefixOf_iff _ _).2 ⟨_, rfl⟩, ?_⟩
    rw [List.drop_left]
    exact (takeWhile_ne_nil_iff cls _).2 ⟨c, rest, rfl, hc⟩

theorem findMarker_cons (lit : List Char) (cls : Char → Bool) (c : Char) (cs : List Char) :
    findMarker lit cls (c :: cs) =
      if lit.isPrefixOf (c :: cs) = true ∧ ((c :: cs).drop lit.length).takeWhile cls ≠ [] then
        some (((c :: cs).drop lit.length).takeWhile cls)
      else findMarker lit cls cs := by
  rfl

theorem not_markerStartsAt_nil (lit : List Char) (cls : Char → Bool) :
    ¬ MarkerStartsAt lit cls [] := by
  rintro ⟨c, rest, h, _⟩
  have := congrArg List.length h
  simp at this
  omega

theorem findMarker_eq_none_iff (lit : List Char) (cls : Char → Bool) (text : List Char) :
    findMarker lit cls text = none ↔ ¬ HasMarker lit cls text := by
  induction text with
  | nil =>
    simp only [findMarker, true_iff]
    rintro ⟨pre, suf, h, hs⟩
    have hsuf : suf = [] := by
      cases pre <;> simp_all
    exact not_markerStartsAt_nil lit cls (hsuf ▸ hs)
  | cons c cs ih =>
    rw [findMarker_cons]
    by_cases h : lit.isPrefixOf (c :: cs) = true ∧ ((c :: cs).drop lit.length).takeWhile cls ≠ []
    · rw [if_pos h]
      simp only [reduceCtorEq, false_iff, not_not]
      exact ⟨[], c :: cs, rfl, (markerStartsAt_iff _ _ _).1 h⟩
    · rw [if_neg h, ih]
      constructor
      · intro hn ⟨pre, suf, hps, hs⟩
        cases pre with
        | nil =>
          simp only [List.nil_append] at hps
          exact h ((markerStartsAt_iff _ _ _).2 (hps ▸ hs))
        | cons p pre' =>
          simp only [List.cons_append, List.cons.injEq] at hps
          exact hn ⟨pre', suf, hps.2, hs⟩
      · intro hn ⟨pre, suf, hps, hs⟩
        exact hn ⟨c :: pre, suf, by simp [hps], hs⟩

theorem findMarker_some_spec (lit : List Char) (cls : Char → Bool) (text v : List Char)
    (h : findMarker lit cls text = some v) : v ≠ [] ∧ ∀ c ∈ v, cls c = true := by
  induction text with
  | nil => simp [findMarker] at h
  | cons c cs ih =>
    rw [findMarker_cons] at h
    split at h
    · rename_i hc
      simp only [Option.some.injEq] at h
      subst h
      refine ⟨hc.2, ?_⟩
      intro x hx
      exact (List.mem_takeWhile_imp hx)
    · exact ih h

theorem takeWhile_append_stop (cls : Char → Bool) (v post : List Char)
    (hv : ∀ c ∈ v, cls c = true) (hpost : ∀ d rest, post = d :: rest → cls d = false) :
    (v ++ post).takeWhile cls = v := by
  induction v with
  | nil =>
    cases post with
    | nil => rfl
    | cons d rest => simp [List.takeWhile_cons, hpost d rest rfl]
  | cons a t ih =>
    have ha : cls a = true := hv a (by simp)
    simp only [List.cons_append, List.takeWhile_cons, ha, if_true, List.cons.injEq, true_and]
    exact ih (fun c hc => hv c (by simp [hc]))

theorem dropWhile_head_not (cls : Char → Bool) (l : List Char) (d : Char) (rest : List Char)
    (h : l.dropWhile cls = d :: rest) : cls d = false := by
  induction l with
  | nil => simp at h
  | cons a t ih =>
    by_cases ha : cls a = true
    · rw [List.dropWhile_cons_of_pos ha] at h
      exact ih h
    · rw [List.dropWhile_cons_of_neg ha] at h
      simp only [List.cons.injEq] at h
      rw [← h.1]
      simpa using ha

/-- The matcher returns the value of the first marker. -/
theorem findMarker_of_firstMarker (lit : List Char) (cls : Char → Bool) (text v : List Char)
    (h : FirstMarker lit cls text v) : findMarker lit cls text = some v := by
  obtain ⟨pre, post, rfl, hne, hv, hpost, hfirst⟩ := h
  induction pre with
  | nil =>
    have hstart : MarkerStartsAt lit cls (lit ++ (v ++ post)) := by
      cases v with
      | nil => exact absurd rfl hne
      | cons a t => exact ⟨a, t ++ post, by simp, hv a (by simp)⟩
    have hcond := (markerStartsAt_iff lit cls _).2 hstart
    cases htext : lit ++ (v ++ post) with
    | nil => rw [htext] at hstart; exact absurd hstart (not_markerStartsAt_nil lit cls)
    | cons c cs =>
      rw [List.nil_append, findMarker_cons, ← htext, if_pos hcond, List.drop_left,
        takeWhile_append_stop cls v post hv hpost]
  | cons p pre' ih =>
    simp only [List.cons_append]
    rw [findMarker_cons]
    have hno : ¬ (lit.isPrefixOf (p :: (pre' ++ (lit ++ (v ++ post)))) = true ∧
        ((p :: (pre' ++ (lit ++ (v ++ post)))).drop lit.length).takeWhile cls ≠ []) := by
      intro hc
      exact hfirst [] (p :: pre') rfl (by simp) ((markerStartsAt_iff _ _ _).1 hc)
    rw [if_neg hno]
    apply ih
    intro pre1 suf hps hsuf
    exact hfirst (p :: pre1) suf (by simp [hps]) hsuf

/-- What the matcher returns is the value of the first marker. -/
theorem firstMarker_of_findMarker (lit : List Char) (cls : Char → Bool) (text v : List Char)
    (h : findMarker lit cls text = some v) : FirstMarker lit cls text v := by
  induction text with
  | nil => simp [findMarker] at h
  | cons c cs ih =>
    rw [findMarker_cons] at h
    split at h
    · rename_i hc
      simp only [Option.some.injEq] at h
      obtain ⟨t, ht⟩ := (isPrefixOf_iff _ _).1 hc.1
      rw [ht, List.drop_left] at h
      refine ⟨[], t.dropWhile cls, ?_, ?_, ?_, ?_, ?_⟩
      · rw [← h, List.takeWhile_append_dropWhile, ← ht]; rfl
      · rw [← h]; have := hc.2; rwa [ht, List.drop_left] at this
      · intro x hx; rw [← h] at hx; exact List.mem_takeWhile_imp hx
      · intro d rest hd
        exact dropWhile_head_not cls t d rest hd
      · intro pre1 suf hps hsuf
        have : suf = [] := by
          cases pre1 with
          | nil => simpa using hps.symm
          | cons q r => simp at hps
        exact absurd this hsuf
    · rename_i hc
      obtain ⟨pre, post, htext, hne, hv, hpost, hfirst⟩ := ih h
      refine ⟨c :: pre, post, by simp [htext], hne, hv, hpost, ?_⟩
      intro pre1 suf hps hsuf
      cases pre1 with
      | nil =>
        simp only [List.nil_append] at hps
        subst hps
        intro hm
        apply hc
        have := (markerStartsAt_iff lit cls _).2 hm
        simpa [htext] using this
      | cons q pre1' =>
        simp only [List.cons_append, List.cons.injEq] at hps
        exact hfirst pre1' suf hps.2 hsuf

theorem isRouteChar_not_space (c : Char) (h : isRouteChar c = true) : isSpace c = false := by
  simp only [isRouteChar, isSpace, Bool.or_eq_true, Bool.and_eq_true, decide_eq_true_eq,
    beq_iff_eq, char_le_iff] at *
  have e1 : ('a' : Char).toNat = 97 := rfl
  have e2 : ('z' : Char).toNat = 122 := rfl
  have e3 : ('A' : Char).toNat = 65 := rfl
  have e4 : ('Z' : Char).toNat = 90 := rfl
  have e5 : ('0' : Char).toNat = 48 := rfl
  have e6 : ('9' : Char).toNat = 57 := rfl
  have h7 : c = '_' → c.toNat = 95 := fun h => by rw [h]; rfl
  have h8 : c = '-' → c.toNat = 45 := fun h => by rw [h]; rfl
  simp only [e1, e2, e3, e4, e5, e6] at h
  have : c.toNat = 95 ∨ c.toNat = 45 ∨ (97 ≤ c.toNat ∧ c.toNat ≤ 122) ∨
      (65 ≤ c.toNat ∧ c.toNat ≤ 90) ∨ (48 ≤ c.toNat ∧ c.toNat ≤ 57) := by
    rcases h with (((h | h) | h) | h) | h
    · exact Or.inr (Or.inr (Or.inl h))
    · exact Or.inr (Or.inr (Or.inr (Or.inl h)))
    · exact Or.inr (Or.inr (Or.inr (Or.inr h)))
    · exact Or.inl (h7 h)
    · exact Or.inr (Or.inl (h8 h))
  simp
  omega

theorem isModelChar_not_space (c : Char) (h : isModelChar c = true) : isSpace c = false := by
  simp only [isModelChar, isSpace, Bool.or_eq_true, Bool.and_eq_true, decide_eq_true_eq,
    beq_iff_eq, char_le_iff] at *
  have e1 : ('a' : Char).toNat = 97 := rfl
  have e2 : ('z' : Char).toNat = 122 := rfl
  have e3 : ('A' : Char).toNat = 65 := rfl
  have e4 : ('Z' : Char).toNat = 90 := rfl
  have e5 : ('0' : Char).toNat = 48 := rfl
  have e6 : ('9' : Char).toNat = 57 := rfl
  have h7 : c = '_' → c.toNat = 95 := fun h => by rw [h]; rfl
  have h8 : c = '-' → c.toNat = 45 := fun h => by rw [h]; rfl
  have h9 : c = '.' → c.toNat = 46 := fun h => by rw [h]; rfl
  have h10 : c = ':' → c.toNat = 58 := fun h => by rw [h]; rfl
  have h11 : c = '/' → c.toNat = 47 := fun h => by rw [h]; rfl
  simp only [e1, e2, e3, e4, e5, e6] at h
  have : c.toNat = 95 ∨ c.toNat = 45 ∨ c.toNat = 46 ∨ c.toNat = 58 ∨ c.toNat = 47 ∨
      (97 ≤ c.toNat ∧ c.toNat ≤ 122) ∨
      (65 ≤ c.toNat ∧ c.toNat ≤ 90) ∨ (48 ≤ c.toNat ∧ c.toNat ≤ 57) := by
    rcases h with ((((((h | h) | h) | h) | h) | h) | h) | h
    · exact Or.inr (Or.inr (Or.inr (Or.inr (Or.inr (Or.inl h)))))
    · exact Or.inr (Or.inr (Or.inr (Or.inr (Or.inr (Or.inr (Or.inl h))))))
    · exact Or.inr (Or.inr (Or.inr (Or.inr (Or.inr (Or.inr (Or.inr h))))))
    · exact Or.inr (Or.inr (Or.inl (h9 h)))
    · exact Or.inl (h7 h)
    · exact Or.inr (Or.inr (Or.inr (Or.inl (h10 h))))
    · exact Or.inr (Or.inr (Or.inr (Or.inr (Or.inl (h11 h)))))
    · exact Or.inr (Or.inl (h8 h))
  simp
  omega

theorem trimSpaceChars_of_no_space (v : List Char) (h : ∀ c ∈ v, isSpace c = false) :
    trimSpaceChars v = v := by
  unfold trimSpaceChars
  have h1 : v.dropWhile isSpace = v := by
    rw [List.dropWhile_eq_self_iff]
    intro hlen
    simpa using h _ (List.getElem_mem hlen)
  rw [h1, List.rdropWhile_eq_self_iff]
  intro hne
  have := h _ (List.getLast_mem hne)
  simp [this]

theorem string_mk_ne_empty (l : List Char) (h : l ≠ []) : String.mk l ≠ "" := by
  intro he
  exact h (congrArg String.data he)

/-- The group matched by a pattern whose class excludes white space is left unchanged by
`strings.TrimSpace` and is not empty. -/
theorem trimSpace_group (lit : List Char) (cls : Char → Bool)
    (hcls : ∀ c, cls c = true → isSpace c = false) (text : String) (m : String)
    (h : (findMarker lit cls text.data).map String.mk = some m) :
    TrimSpace m = m ∧ m ≠ "" ∧ m.data ≠ [] := by
  cases hf : findMarker lit cls text.data with
  | none => rw [hf] at h; simp at h
  | some v =>
    rw [hf] at h
    simp only [Option.map_some', Option.some.injEq] at h
    obtain ⟨hne, hall⟩ := findMarker_some_spec lit cls text.data v hf
    subst h
    refine ⟨?_, string_mk_ne_empty v hne, hne⟩
    unfold TrimSpace
    rw [trimSpaceChars_of_no_space v (fun c hc => hcls c (hall c hc))]

theorem routeMarkerOf_ne_empty (lib : GoLib) (c : DynContent) (n : String)
    (h : routeMarkerOf lib c = some n) : n ≠ "" := by
  unfold routeMarkerOf at h
  cases hp : routeMarkerPattern (NormalizeSystemText lib c) with
  | none => rw [hp] at h; simp at h
  | some m =>
    rw [hp] at h
    simp only [Option.map_some', Option.some.injEq] at h
    have hm := (trimSpace_group routeLiteral isRouteChar isRouteChar_not_space _ m hp).2.2
    subst h
    unfold ToLower
    apply string_mk_ne_empty
    simpa using hm

theorem ExtractRouteName_eq (lib : GoLib) (c : DynContent) :
    ExtractRouteName lib c = (routeMarkerOf lib c).getD "" := by
  unfold ExtractRouteName routeMarkerOf
  cases hp : routeMarkerPattern (NormalizeSystemText lib c) with
  | none => rfl
  | some m =>
    have hm := (trimSpace_group routeLiteral isRouteChar isRouteChar_not_space _ m hp).1
    simp [hm]

theorem ExtractRouteNameFromMessages_eq (lib : GoLib) (messages : List AnthropicMessage) :
    ExtractRouteNameFromMessages lib messages =
      ((messages.map (fun m => m.Content)).findSome? (routeMarkerOf lib)).getD "" := by
  induction messages with
  | nil => rfl
  | cons msg rest ih =>
    simp only [ExtractRouteNameFromMessages, List.map_cons, List.findSome?_cons]
    rw [ExtractRouteName_eq]
    cases hm : routeMarkerOf lib msg.Content with
    | none => simp [ih]
    | some n => simp [routeMarkerOf_ne_empty lib _ n hm]

theorem resolvedRouteMarker_ne_empty (lib : GoLib) (system : DynContent)
    (messages : List AnthropicMessage) (n : String)
    (h : resolvedRouteMarker lib system messages = some n) : n ≠ "" := by
  unfold resolvedRouteMarker at h
  obtain ⟨c, _, hc⟩ := List.exists_of_findSome?_eq_some h
  exact routeMarkerOf_ne_empty lib c n hc

/-- The route name looked up by `ResolveProvider` is the resolved route marker, and
`default_provider` when there is none. -/
theorem ResolveProvider_eq (lib : GoLib) (system : DynContent)
    (messages : List AnthropicMessage) (cfg : Config) :
    ResolveProvider lib system messages (some cfg) =
      match resolvedRouteMarker lib system messages with
      | some name =>
        match cfg.Providers.get? name with
        | none => .error (.routeProviderNotFound name)
        | some p => .ok (name, p)
      | none =>
        match cfg.Providers.get? cfg.DefaultProvider with
        | none => .error (.defaultProviderNotFound cfg.DefaultProvider)
        | some p => .ok (cfg.DefaultProvider, p) := by
  have hres : resolvedRouteMarker lib system messages =
      match routeMarkerOf lib system with
      | some n => some n
      | none => (messages.map (fun m => m.Content)).findSome? (routeMarkerOf lib) := by
    unfold resolvedRouteMarker
    rw [List.findSome?_cons]
    cases routeMarkerOf lib system <;> rfl
  unfold ResolveProvider
  simp only [ExtractRouteName_eq, ExtractRouteNameFromMessages_eq]
  cases hs : routeMarkerOf lib system with
  | some n =>
    rw [hs] at hres
    have hn := routeMarkerOf_ne_empty lib system n hs
    simp only [hres, Option.getD_some, hn, if_false]
  | none =>
    rw [hs] at hres
    simp only [hres, Option.getD_none, if_true]
    cases hm : (messages.map (fun m => m.Content)).findSome? (routeMarkerOf lib) with
    | none => simp
    | some n =>
      have hn : n ≠ "" := by
        obtain ⟨c, _, hc⟩ := List.exists_of_findSome?_eq_some hm
        exact routeMarkerOf_ne_empty lib c n hc
      simp [hn]

theorem routeMarkerOf_isSome_of_hasMarker (lib : GoLib) (c : DynContent)
    (h : HasMarker routeLiteral isRouteChar (NormalizeSystemText lib c).data) :
    ∃ n, routeMarkerOf lib c = some n := by
  unfold routeMarkerOf routeMarkerPattern
  cases hf : findMarker "@route:".data isRouteChar (NormalizeSystemText lib c).data with
  | none => exact absurd h ((findMarker_eq_none_iff _ _ _).1 hf)
  | some v => exact ⟨_, rfl⟩

/-- C7. When the normalised system text holds a route marker, `ResolveProvider` returns what
it returns for the same system and no messages at all: the messages, whatever markers they
hold and in whatever order, do not take part in the resolution. -/
theorem ResolveProvider_system_marker_wins (lib : GoLib) (system : DynContent)
    (messages : List AnthropicMessage) (cfg : Option Config)
    (h : HasMarker routeLiteral isRouteChar (NormalizeSystemText lib system).data) :
    ResolveProvider lib system messages cfg = ResolveProvider lib system [] cfg := by
  cases cfg with
  | none => rfl
  | some cfg =>
    obtain ⟨n, hn⟩ := routeMarkerOf_isSome_of_hasMarker lib system h
    have h1 : ∀ ms, resolvedRouteMarker lib system ms = some n := by
      intro ms
      unfold resolvedRouteMarker
      rw [List.findSome?_cons, hn]
    rw [ResolveProvider_eq, ResolveProvider_eq, h1 messages, h1 []]

theorem ResolveProvider_system_marker_wins_witness :
    HasMarker routeLiteral isRouteChar
        (NormalizeSystemText plainLib (.json (.string "@route:openai"))).data ∧
      ResolveProvider plainLib (.json (.string "@route:openai"))
          [{ Role := "user", Content := .json (.string "@route:codex") }] (some testConfig) =
        ResolveProvider plainLib (.json (.string "@route:openai")) [] (some testConfig) :=
  have h : HasMarker routeLiteral isRouteChar
      (NormalizeSystemText plainLib (.json (.string "@route:openai"))).data :=
    ⟨[], "@route:openai".data, rfl, 'o', "penai".data, rfl, rfl⟩
  ⟨h, ResolveProvider_system_marker_wins plainLib (.json (.string "@route:openai"))
    [{ Role := "user", Content := .json (.string "@route:codex") }] (some testConfig) h⟩

/-- C8. For a non-nil config, `ResolveProvider` returns an error exactly when the resolved
route marker (the lower-cased marker of the system, else of the first message that has one)
is not a key of `cfg.Providers`, or when there is no marker and `cfg.DefaultProvider` is not a
key; otherwise it returns the resolved name (the marker, else `cfg.DefaultProvider`) together
with the provider stored under that name. -/
theorem ResolveProvider_fails_iff (lib : GoLib) (system : DynContent)
    (messages : List AnthropicMessage) (cfg : Config) :
    ((∃ e, ResolveProvider lib system messages (some cfg) = .error e) ↔
        ((∃ name, resolvedRouteMarker lib system messages = some name ∧
            cfg.Providers.get? name = none) ∨
          (resolvedRouteMarker lib system messages = none ∧
            cfg.Providers.get? cfg.DefaultProvider = none))) ∧
      (∀ name p, resolvedRouteMarker lib system messages = some name →
        cfg.Providers.get? name = some p →
        ResolveProvider lib system messages (some cfg) = .ok (name, p)) ∧
      (∀ p, resolvedRouteMarker lib system messages = none →
        cfg.Providers.get? cfg.DefaultProvider = some p →
        ResolveProvider lib system messages (some cfg) = .ok (cfg.DefaultProvider, p)) := by
  rw [ResolveProvider_eq]
  cases hr : resolvedRouteMarker lib system messages with
  | some name =>
    cases hp : cfg.Providers.get? name with
    | none =>
      simp only [hp]
      refine ⟨⟨fun _ => Or.inl ⟨name, rfl, hp⟩, fun _ => ⟨_, rfl⟩⟩, ?_, ?_⟩
      · intro n p hn hg
        cases hn
        rw [hp] at hg
        cases hg
      · intro p hn
        cases hn
    | some p =>
      simp only [hp]
      refine ⟨⟨?_, ?_⟩, ?_, ?_⟩
      · rintro ⟨e, he⟩
        cases he
      · rintro (⟨n, hn, hg⟩ | ⟨hn, _⟩)
        · cases hn
          rw [hp] at hg
          cases hg
        · cases hn
      · intro n q hn hg
        cases hn
        rw [hp] at hg
        cases hg
        rfl
      · intro q hn
        cases hn
  | none =>
    cases hp : cfg.Providers.get? cfg.DefaultProvider with
    | none => simp [hp]
    | some p => simp [hp]

theorem ResolveProvider_fails_iff_witness :
    resolvedRouteMarker plainLib (.json (.string "no marker here"))
        [{ Role := "user", Content := .json (.string "<!-- @route:Codex -->\nPlease") }] =
        some "codex" ∧
      ResolveProvider plainLib (.json (.string "no marker here"))
        [{ Role := "user", Content := .json (.string "<!-- @route:Codex -->\nPlease") }]
        (some testConfig) =
        .ok ("codex",
          { Kind := "chatgpt"
            URL := "https://chatgpt.com/backend-api/codex/responses"
            Model := "gpt-5"
            ReasoningEffort := ""
            Auth := { Kind := "", TokenEnv := "" } }) :=
  ⟨rfl, (ResolveProvider_fails_iff plainLib (.json (.string "no marker here"))
    [{ Role := "user", Content := .json (.string "<!-- @route:Codex -->\nPlease") }]
    testConfig).2.1 "codex" _ rfl rfl⟩

theorem ExtractModelName_eq (lib : GoLib) (c : DynContent) :
    ExtractModelName lib c = (modelMarkerPattern (NormalizeSystemText lib c)).getD "" := by
  unfold ExtractModelName
  cases hp : modelMarkerPattern (NormalizeSystemText lib c) with
  | none => rfl
  | some m =>
    have hm := (trimSpace_group modelLiteral isModelChar isModelChar_not_space _ m hp).1
    simp [hm]

theorem modelMarkerPattern_of_firstMarker (text : String) (v : List Char)
    (h : FirstMarker modelLiteral isModelChar text.data v) :
    modelMarkerPattern text = some ⟨v⟩ := by
  unfold modelMarkerPattern
  have := findMarker_of_firstMarker modelLiteral isModelChar text.data v h
  unfold modelLiteral at this
  rw [this]
  rfl

theorem modelMarkerPattern_of_not_hasMarker (text : String)
    (h : ¬ HasMarker modelLiteral isModelChar text.data) :
    modelMarkerPattern text = none := by
  unfold modelMarkerPattern
  have := (findMarker_eq_none_iff modelLiteral isModelChar text.data).2 h
  unfold modelLiteral at this
  rw [this]
  rfl

theorem ExtractModelName_of_firstMarker (lib : GoLib) (c : DynContent) (v : List Char)
    (h : FirstMarker modelLiteral isModelChar (NormalizeSystemText lib c).data v) :
    ExtractModelName lib c = ⟨v⟩ ∧ ExtractModelName lib c ≠ "" := by
  have hp := modelMarkerPattern_of_firstMarker _ v h
  have hne := (trimSpace_group modelLiteral isModelChar isModelChar_not_space _ _ hp).2.1
  rw [ExtractModelName_eq, hp]
  exact ⟨rfl, hne⟩

theorem ExtractModelName_of_not_hasMarker (lib : GoLib) (c : DynContent)
    (h : ¬ HasMarker modelLiteral isModelChar (NormalizeSystemText lib c).data) :
    ExtractModelName lib c = "" := by
  rw [ExtractModelName_eq, modelMarkerPattern_of_not_hasMarker _ h]
  rfl

theorem ExtractModelNameFromMessages_first (lib : GoLib)
    (before : List AnthropicMessage) (msg : AnthropicMessage) (after : List AnthropicMessage)
    (v : List Char)
    (hbefore : ∀ m ∈ before,
      ¬ HasMarker modelLiteral isModelChar (NormalizeSystemText lib m.Content).data)
    (hmsg : FirstMarker modelLiteral isModelChar (NormalizeSystemText lib msg.Content).data v) :
    ExtractModelNameFromMessages lib (before ++ msg :: after) = ⟨v⟩ ∧
      ExtractModelNameFromMessages lib (before ++ msg :: after) ≠ "" := by
  induction before with
  | nil =>
    obtain ⟨h1, h2⟩ := ExtractModelName_of_firstMarker lib msg.Content v hmsg
    simp only [List.nil_append, ExtractModelNameFromMessages, h2, ne_eq, not_false_eq_true,
      if_true, and_true]
    exact h1
  | cons b rest ih =>
    have hb := ExtractModelName_of_not_hasMarker lib b.Content (hbefore b (by simp))
    simp only [List.cons_append, ExtractModelNameFromMessages, hb, ne_eq, not_true_eq_false,
      if_false]
    exact ih (fun m hm => hbefore m (by simp [hm]))

theorem ExtractModelNameFromMessages_none (lib : GoLib) (messages : List AnthropicMessage)
    (h : ∀ m ∈ messages,
      ¬ HasMarker modelLiteral isModelChar (NormalizeSystemText lib m.Content).data) :
    ExtractModelNameFromMessages lib messages = "" := by
  induction messages with
  | nil => rfl
  | cons b rest ih =>
    have hb := ExtractModelName_of_not_hasMarker lib b.Content (h b (by simp))
    simp only [ExtractModelNameFromMessages, hb, ne_eq, not_true_eq_false, if_false]
    exact ih (fun m hm => h m (by simp [hm]))

/-- C10. `ResolveModelName` returns the value of the first `@model:` marker of the normalised
system text when there is one; otherwise the value of the first marker of the first message,
in list order, whose normalised content holds one; otherwise `defaultModel`. The value is
returned as written, whatever it is: its letters keep their case and nothing is validated. -/
theorem ResolveModelName_precedence (lib : GoLib) (system : DynContent)
    (messages : List AnthropicMessage) (defaultModel : String) :
    (∀ v, FirstMarker modelLiteral isModelChar (NormalizeSystemText lib system).data v →
        ResolveModelName lib system messages defaultModel = ⟨v⟩) ∧
      (∀ before msg after v,
        ¬ HasMarker modelLiteral isModelChar (NormalizeSystemText lib system).data →
        messages = before ++ msg :: after →
        (∀ m ∈ before,
          ¬ HasMarker modelLiteral isModelChar (NormalizeSystemText lib m.Content).data) →
        FirstMarker modelLiteral isModelChar (NormalizeSystemText lib msg.Content).data v →
        ResolveModelName lib system messages defaultModel = ⟨v⟩) ∧
      (¬ HasMarker modelLiteral isModelChar (NormalizeSystemText lib system).data →
        (∀ m ∈ messages,
          ¬ HasMarker modelLiteral isModelChar (NormalizeSystemText lib m.Content).data) →
        ResolveModelName lib system messages defaultModel = defaultModel) := by
  refine ⟨?_, ?_, ?_⟩
  · intro v hv
    obtain ⟨h1, h2⟩ := ExtractModelName_of_firstMarker lib system v hv
    unfold ResolveModelName
    simp only [h2, if_false]
    exact h1
  · intro before msg after v hsys hmsgs hbefore hmsg
    have h0 := ExtractModelName_of_not_hasMarker lib system hsys
    obtain ⟨h1, h2⟩ := ExtractModelNameFromMessages_first lib before msg after v hbefore hmsg
    unfold ResolveModelName
    subst hmsgs
    simp only [h0, if_true, h2, if_false]
    exact h1
  · intro hsys hmsgs
    have h0 := ExtractModelName_of_not_hasMarker lib system hsys
    have h1 := ExtractModelNameFromMessages_none lib messages hmsgs
    unfold ResolveModelName
    simp only [h0, if_true, h1]

theorem ResolveModelName_precedence_witness :
    FirstMarker modelLiteral isModelChar
        (NormalizeSystemText plainLib
          (.json (.string "@route:codex\n@model:GPT-5.3-codex"))).data "GPT-5.3-codex".data ∧
      ResolveModelName plainLib (.json (.string "@route:codex\n@model:GPT-5.3-codex"))
        [{ Role := "user", Content := .json (.string "<!-- @model:gpt-5-mini -->") }] "gpt-5" =
        "GPT-5.3-codex" :=
  have h : FirstMarker modelLiteral isModelChar
      (NormalizeSystemText plainLib
        (.json (.string "@route:codex\n@model:GPT-5.3-codex"))).data "GPT-5.3-codex".data :=
    firstMarker_of_findMarker _ _ _ _ rfl
  ⟨h, (ResolveModelName_precedence plainLib
    (.json (.string "@route:codex\n@model:GPT-5.3-codex"))
    [{ Role := "user", Content := .json (.string "<!-- @model:gpt-5-mini -->") }] "gpt-5").1
    _ h⟩

theorem dropWhile_of_head (p : Char → Bool) (r : List Char)
    (h : ∀ a t, r = a :: t → p a = false) : r.dropWhile p = r := by
  cases r with
  | nil => rfl
  | cons a t =>
    have := h a t rfl
    simp [List.dropWhile_cons, this]

theorem dropWhile_rdropWhile_of_head (p : Char → Bool) (l : List Char)
    (h : ∀ a t, l = a :: t → p a = false) : (l.rdropWhile p).dropWhile p = l.rdropWhile p := by
  apply dropWhile_of_head
  intro a t hr
  obtain ⟨s, hs⟩ := List.rdropWhile_prefix (p := p) (l := l)
  rw [hr] at hs
  exact h a (t ++ s) (by rw [← hs]; rfl)

theorem trimSpaceChars_idem (l : List Char) :
    trimSpaceChars (trimSpaceChars l) = trimSpaceChars l := by
  unfold trimSpaceChars
  rw [dropWhile_rdropWhile_of_head isSpace (l.dropWhile isSpace)
    (fun a t h => dropWhile_head_not isSpace l a t h), List.rdropWhile_idempotent]

/-- C1 (code at the failing input). Two chunks announce a tool call with an id at the same
upstream index 0. The translator opens block 0 and block 1, and at the end of the stream it
closes block 1 only: the stream holds two `content_block_start` events and one
`content_block_stop`, and index 0, which is started, is never stopped. -/
theorem convertOpenAIStream_reannounced_tool_call :
    (convertOpenAIStreamToAnthropic sampleLib freshWriter
        (sseInput [chunkToolCall1, chunkToolCall2, "[DONE]"]) "claude-spoof") =
      ({ flusher := true
         failAfter := none
         body :=
          [.message_start "msg_1000" "claude-spoof",
           .content_block_start 0 (.tool_use "call_1" "search"),
           .content_block_start 1 (.tool_use "call_2" "lookup"),
           .content_block_stop 1,
           .message_delta "end_turn" 0,
           .message_stop] }, false) ∧
      countStarts (convertOpenAIStreamToAnthropic sampleLib freshWriter
        (sseInput [chunkToolCall1, chunkToolCall2, "[DONE]"]) "claude-spoof").1.body = 2 ∧
      countStops (convertOpenAIStreamToAnthropic sampleLib freshWriter
        (sseInput [chunkToolCall1, chunkToolCall2, "[DONE]"]) "claude-spoof").1.body = 1 ∧
      Started (convertOpenAIStreamToAnthropic sampleLib freshWriter
        (sseInput [chunkToolCall1, chunkToolCall2, "[DONE]"]) "claude-spoof").1.body 0 ∧
      ¬ Stopped (convertOpenAIStreamToAnthropic sampleLib freshWriter
        (sseInput [chunkToolCall1, chunkToolCall2, "[DONE]"]) "claude-spoof").1.body 0 := by
  have h : (convertOpenAIStreamToAnthropic sampleLib freshWriter
        (sseInput [chunkToolCall1, chunkToolCall2, "[DONE]"]) "claude-spoof") =
      ({ flusher := true
         failAfter := none
         body :=
          [.message_start "msg_1000" "claude-spoof",
           .content_block_start 0 (.tool_use "call_1" "search"),
           .content_block_start 1 (.tool_use "call_2" "lookup"),
           .content_block_stop 1,
           .message_delta "end_turn" 0,
           .message_stop] }, false) := by
    decide
  rw [h]
  refine ⟨rfl, by decide, by decide, ?_, ?_⟩
  · exact ⟨.content_block_start 0 (.tool_use "call_1" "search"), by decide, rfl⟩
  · unfold Stopped
    decide

/-- C2 (code at the failing input). The event `response.output_text.done` arrives twice for
the same part. The translator writes a `content_block_stop` for block 0 each time: the stream
holds one `content_block_start` and two `content_block_stop` events. -/
theorem convertResponsesStream_repeated_done :
    (convertResponsesStreamToAnthropic sampleLib freshWriter
        (sseInput [eventCreated, eventTextDelta, eventTextDone, eventTextDone, "[DONE]"])
        "claude-spoof") =
      ({ flusher := true
         failAfter := none
         body :=
          [.message_start "resp_1" "claude-spoof",
           .content_block_start 0 (.text ""),
           .content_block_delta 0 (.text_delta "hello"),
           .content_block_stop 0,
           .content_block_stop 0,
           .message_delta "end_turn" 0,
           .message_stop] }, false) ∧
      countStarts (convertResponsesStreamToAnthropic sampleLib freshWriter
        (sseInput [eventCreated, eventTextDelta, eventTextDone, eventTextDone, "[DONE]"])
        "claude-spoof").1.body = 1 ∧
      countStops (convertResponsesStreamToAnthropic sampleLib freshWriter
        (sseInput [eventCreated, eventTextDelta, eventTextDone, eventTextDone, "[DONE]"])
        "claude-spoof").1.body = 2 := by
  decide

/-- C4 (code at the failing input). An `output_text.delta` arrives after the
`output_text.done` of the same part, and a `function_call_arguments.delta` after the
`function_call_arguments.done` of the same item. Each late delta is written at the index of
the block that was already stopped, so the written stream is not bracketed. -/
theorem convertResponsesStream_delta_after_done :
    (convertResponsesStreamToAnthropic sampleLib freshWriter
        (sseInput [eventCreated, eventTextDelta, eventTextDone, eventTextDelta, eventItemAdded,
          eventArgumentsDone, eventArgumentsDelta, "[DONE]"]) "claude-spoof") =
      ({ flusher := true
         failAfter := none
         body :=
          [.message_start "resp_1" "claude-spoof",
           .content_block_start 0 (.text ""),
           .content_block_delta 0 (.text_delta "hello"),
           .content_block_stop 0,
           .content_block_delta 0 (.text_delta "hello"),
           .content_block_start 1 (.tool_use "tool_1" "search"),
           .content_block_stop 1,
           .content_block_delta 1 (.input_json_delta "\x7b\"q\":\"go\"\x7d"),
           .message_delta "end_turn" 0,
           .message_stop] }, false) ∧
      ¬ DeltasBracketed (convertResponsesStreamToAnthropic sampleLib freshWriter
        (sseInput [eventCreated, eventTextDelta, eventTextDone, eventTextDelta, eventItemAdded,
          eventArgumentsDone, eventArgumentsDelta, "[DONE]"]) "claude-spoof").1.body := by
  have h : (convertResponsesStreamToAnthropic sampleLib freshWriter
        (sseInput [eventCreated, eventTextDelta, eventTextDone, eventTextDelta, eventItemAdded,
          eventArgumentsDone, eventArgumentsDelta, "[DONE]"]) "claude-spoof") =
      ({ flusher := true
         failAfter := none
         body :=
          [.message_start "resp_1" "claude-spoof",
           .content_block_start 0 (.text ""),
           .content_block_delta 0 (.text_delta "hello"),
           .content_block_stop 0,
           .content_block_delta 0 (.text_delta "hello"),
           .content_block_start 1 (.tool_use "tool_1" "search"),
           .content_block_stop 1,
           .content_block_delta 1 (.input_json_delta "\x7b\"q\":\"go\"\x7d"),
           .message_delta "end_turn" 0,
           .message_stop] }, false) := by
    decide
  refine ⟨h, ?_⟩
  rw [h]
  intro hb
  have := (hb 4 0 (.text_delta "hello") rfl).2
  exact this ⟨.content_block_stop 0, by decide, rfl⟩

/-! ## The SSE reader keeps the invariants of its callback -/

section ReaderOutcome

variable {σ : Type} (I D F : σ → Prop)
  (onEvent : σ → String → String → σ × Option CallbackError)

theorem dispatch_outcome
    (h : ∀ s n d, I s → Outcome I D F (onEvent s n d).1 (onEvent s n d).2)
    (r : SSEReader σ) (hr : I r.user) :
    Outcome I D F (dispatch onEvent r).1.user (dispatch onEvent r).2 := by
  unfold dispatch
  split
  · exact hr
  · exact h _ _ _ hr

theorem processLine_outcome
    (h : ∀ s n d, I s → Outcome I D F (onEvent s n d).1 (onEvent s n d).2)
    (r : SSEReader σ) (raw : List Char) (hr : I r.user) :
    Outcome I D F (processLine onEvent r raw).1.user (processLine onEvent r raw).2 := by
  unfold processLine
  simp only
  split
  · exact dispatch_outcome I D F onEvent h r hr
  · split
    · exact hr
    · split
      · split
        · exact hr
        · split
          · exact hr
          · exact hr
      · exact hr

theorem readLoop_outcome
    (h : ∀ s n d, I s → Outcome I D F (onEvent s n d).1 (onEvent s n d).2)
    (lines : List (List Char)) (r : SSEReader σ) (hr : I r.user) :
    Outcome I D F (readLoop onEvent lines r).1.user (readLoop onEvent lines r).2 := by
  induction lines generalizing r with
  | nil => exact hr
  | cons raw rest ih =>
    have hp := processLine_outcome I D F onEvent h r raw hr
    unfold readLoop
    rcases hres : processLine onEvent r raw with ⟨r', e⟩
    rw [hres] at hp
    cases e with
    | none => exact ih r' hp
    | some e => exact hp

/-- When every call of the callback takes the invariant `I` to `I` on a nil error, to `D` on
`errSSEStreamDone` and to `F` on another error, `readSSEEvents` returns nil with `D`, or with
`I` on a body read to its end, and it returns an error with `F`, or with `I` on a body whose
reading fails. -/
theorem readSSEEvents_outcome
    (h : ∀ s n d, I s → Outcome I D F (onEvent s n d).1 (onEvent s n d).2)
    (src : Body) (s : σ) (hs : I s) :
    ((readSSEEvents src onEvent s).2 = false →
        (src.readError = false ∧ I (readSSEEvents src onEvent s).1) ∨
          D (readSSEEvents src onEvent s).1) ∧
      ((readSSEEvents src onEvent s).2 = true →
        F (readSSEEvents src onEvent s).1 ∨
          (src.readError = true ∧ I (readSSEEvents src onEvent s).1)) := by
  unfold readSSEEvents
  cases hread : src.readError with
  | true =>
    have hl := readLoop_outcome I D F onEvent h (readLines src.text.data).dropLast
      ⟨"", [], s⟩ hs
    rw [if_pos rfl]
    rcases hres : readLoop onEvent (readLines src.text.data).dropLast ⟨"", [], s⟩ with ⟨r, e⟩
    rw [hres] at hl
    cases e with
    | some e =>
      cases e with
      | streamDone => exact ⟨fun _ => Or.inr hl, fun hc => Bool.noConfusion hc⟩
      | failure => exact ⟨fun hc => Bool.noConfusion hc, fun _ => Or.inl hl⟩
    | none => exact ⟨fun hc => Bool.noConfusion hc, fun _ => Or.inr ⟨rfl, hl⟩⟩
  | false =>
    have hl := readLoop_outcome I D F onEvent h (readLines src.text.data) ⟨"", [], s⟩ hs
    rw [if_neg Bool.false_ne_true]
    rcases hres : readLoop onEvent (readLines src.text.data) ⟨"", [], s⟩ with ⟨r, e⟩
    rw [hres] at hl
    cases e with
    | some e =>
      cases e with
      | streamDone => exact ⟨fun _ => Or.inr hl, fun hc => Bool.noConfusion hc⟩
      | failure => exact ⟨fun hc => Bool.noConfusion hc, fun _ => Or.inl hl⟩
    | none =>
      have hd := dispatch_outcome I D F onEvent h r hl
      dsimp only
      rcases hres2 : dispatch onEvent r with ⟨r', e'⟩
      rw [hres2] at hd
      cases e' with
      | none => exact ⟨fun _ => Or.inl ⟨rfl, hd⟩, fun hc => Bool.noConfusion hc⟩
      | some e' =>
        cases e' with
        | streamDone => exact ⟨fun _ => Or.inr hd, fun hc => Bool.noConfusion hc⟩
        | failure => exact ⟨fun hc => Bool.noConfusion hc, fun _ => Or.inl hd⟩

end ReaderOutcome

/-! ## Writes to a writer that never fails -/

theorem writeAnthropicSSEEvent_of_never_fails (w : ResponseWriter) (ev : AnthropicEvent)
    (h : w.failAfter = none) :
    writeAnthropicSSEEvent w ev = ({ w with body := w.body ++ [ev] }, none) := by
  unfold writeAnthropicSSEEvent
  rw [h]

theorem writeAnthropicSSEEvent_good (w : ResponseWriter) (ev : AnthropicEvent)
    (h : GoodStream w) (hev : ev.isBlockEvent = true) :
    (writeAnthropicSSEEvent w ev).2 = none ∧ GoodStream (writeAnthropicSSEEvent w ev).1 := by
  obtain ⟨hf, id, model, blocks, hb, hall⟩ := h
  rw [writeAnthropicSSEEvent_of_never_fails w ev hf]
  refine ⟨rfl, hf, id, model, blocks ++ [ev], ?_, ?_⟩
  · simp [hb]
  · intro e he
    rcases List.mem_append.1 he with h1 | h1
    · exact hall e h1
    · rw [List.mem_singleton.1 h1]
      exact hev

theorem forEach_good {σ α : Type} (G : σ → Prop) (f : σ → α → σ × Option CallbackError)
    (hf : ∀ s x, G s → (f s x).2 = none ∧ G (f s x).1) (xs : List α) (s : σ) (hs : G s) :
    (forEach f xs s).2 = none ∧ G (forEach f xs s).1 := by
  induction xs generalizing s with
  | nil => exact ⟨rfl, hs⟩
  | cons x rest ih =>
    obtain ⟨h1, h2⟩ := hf s x hs
    unfold forEach
    rcases hres : f s x with ⟨s', e⟩
    rw [hres] at h1 h2
    dsimp only at h1 h2
    subst h1
    exact ih s' h2

/-! ## OpenAI stream translator on a writer that never fails -/

theorem OpenAIStreamState.write_good (s : OpenAIStreamState) (ev : AnthropicEvent)
    (h : GoodStream s.w) (hev : ev.isBlockEvent = true) :
    (s.write ev).2 = none ∧ GoodStream (s.write ev).1.w :=
  writeAnthropicSSEEvent_good s.w ev h hev

theorem closeBlock_good (s : OpenAIStreamState) (index : Int) (h : GoodStream s.w) :
    (closeBlock s index).2 = none ∧ GoodStream (closeBlock s index).1.w := by
  unfold closeBlock
  split
  · exact ⟨rfl, h⟩
  · exact OpenAIStreamState.write_good _ _ h rfl

theorem onContentDelta_good (s : OpenAIStreamState) (content : String) (h : GoodStream s.w) :
    (onContentDelta s content).2 = none ∧ GoodStream (onContentDelta s content).1.w := by
  unfold onContentDelta
  split
  · by_cases hlt : s.activeTextIndex < 0
    · simp only [if_pos hlt]
      obtain ⟨h1, h2⟩ := OpenAIStreamState.write_good
        { s with
            activeTextIndex := s.nextBlockIndex
            nextBlockIndex := s.nextBlockIndex + 1
            openBlocks := s.openBlocks.set s.nextBlockIndex true }
        (.content_block_start s.nextBlockIndex (.text "")) h rfl
      rcases hres : OpenAIStreamState.write
        { s with
            activeTextIndex := s.nextBlockIndex
            nextBlockIndex := s.nextBlockIndex + 1
            openBlocks := s.openBlocks.set s.nextBlockIndex true }
        (.content_block_start s.nextBlockIndex (.text "")) with ⟨s1, e⟩
      rw [hres] at h1 h2
      dsimp only at h1 h2
      subst h1
      exact OpenAIStreamState.write_good _ _ h2 rfl
    · simp only [if_neg hlt]
      exact OpenAIStreamState.write_good _ _ h rfl
  · exact ⟨rfl, h⟩

theorem openToolBlock_good (s : OpenAIStreamState) (toolIdx : Int) (t : trackedToolCall)
    (h : GoodStream s.w) :
    (openToolBlock s toolIdx t).2 = none ∧ GoodStream (openToolBlock s toolIdx t).1.w := by
  unfold openToolBlock
  exact OpenAIStreamState.write_good _ _ h rfl

theorem startIdentifiedToolCall_good (s : OpenAIStreamState) (tc : OpenAIToolCall)
    (tracked : Option trackedToolCall) (h : GoodStream s.w) :
    (startIdentifiedToolCall s tc tracked).2 = none ∧
      GoodStream (startIdentifiedToolCall s tc tracked).1.1.w := by
  unfold startIdentifiedToolCall
  split
  · by_cases hge : 0 ≤ s.activeTextIndex
    · simp only [if_pos hge]
      obtain ⟨h1, h2⟩ := closeBlock_good s s.activeTextIndex h
      rcases hres : closeBlock s s.activeTextIndex with ⟨s1, e⟩
      rw [hres] at h1 h2
      dsimp only at h1 h2
      subst h1
      dsimp only
      exact openToolBlock_good _ _ _ h2
    · simp only [if_neg hge]
      exact openToolBlock_good _ _ _ h
  · exact ⟨rfl, h⟩

theorem startPlaceholderToolCall_good (lib : GoLib) (s : OpenAIStreamState)
    (tc : OpenAIToolCall) (tracked : Option trackedToolCall) (h : GoodStream s.w) :
    (startPlaceholderToolCall lib s tc tracked).2 = none ∧
      GoodStream (startPlaceholderToolCall lib s tc tracked).1.1.w := by
  unfold startPlaceholderToolCall
  cases tracked with
  | some t => exact ⟨rfl, h⟩
  | none => exact openToolBlock_good _ _ _ h

theorem writeToolArguments_good (s : OpenAIStreamState) (tc : OpenAIToolCall)
    (t : trackedToolCall) (h : GoodStream s.w) :
    (writeToolArguments s tc t).2 = none ∧ GoodStream (writeToolArguments s tc t).1.w := by
  unfold writeToolArguments
  split
  · exact OpenAIStreamState.write_good _ _ h rfl
  · exact ⟨rfl, h⟩

theorem onToolCall_good (lib : GoLib) (s : OpenAIStreamState) (tc : OpenAIToolCall)
    (h : GoodStream s.w) :
    (onToolCall lib s tc).2 = none ∧ GoodStream (onToolCall lib s tc).1.w := by
  unfold onToolCall
  obtain ⟨h1, h2⟩ := startIdentifiedToolCall_good s tc (s.activeToolCalls.get? tc.Index) h
  rcases hres : startIdentifiedToolCall s tc (s.activeToolCalls.get? tc.Index) with
    ⟨⟨s1, tracked⟩, e⟩
  rw [hres] at h1 h2
  dsimp only at h1 h2
  subst h1
  dsimp only
  obtain ⟨h3, h4⟩ := startPlaceholderToolCall_good lib s1 tc tracked h2
  rcases hres2 : startPlaceholderToolCall lib s1 tc tracked with ⟨⟨s2, t⟩, e⟩
  rw [hres2] at h3 h4
  dsimp only at h3 h4
  subst h3
  dsimp only
  exact writeToolArguments_good s2 tc t h4

theorem started_append (body : List AnthropicEvent) (ev : AnthropicEvent) (i : Int) :
    Started (body ++ [ev]) i ↔ Started body i ∨ ev.isStartAt i = true := by
  unfold Started
  constructor
  · rintro ⟨e, he, hs⟩
    rcases List.mem_append.1 he with h | h
    · exact Or.inl ⟨e, h, hs⟩
    · rw [List.mem_singleton.1 h] at hs
      exact Or.inr hs
  · rintro (⟨e, he, hs⟩ | hs)
    · exact ⟨e, List.mem_append.2 (Or.inl he), hs⟩
    · exact ⟨ev, by simp, hs⟩

theorem stopped_append (body : List AnthropicEvent) (ev : AnthropicEvent) (i : Int) :
    Stopped (body ++ [ev]) i ↔ Stopped body i ∨ ev.isStopAt i = true := by
  unfold Stopped
  constructor
  · rintro ⟨e, he, hs⟩
    rcases List.mem_append.1 he with h | h
    · exact Or.inl ⟨e, h, hs⟩
    · rw [List.mem_singleton.1 h] at hs
      exact Or.inr hs
  · rintro (⟨e, he, hs⟩ | hs)
    · exact ⟨e, List.mem_append.2 (Or.inl he), hs⟩
    · exact ⟨ev, by simp, hs⟩

theorem deltasBracketed_nil : DeltasBracketed [] := by
  intro k i d h
  simp at h

/-- Appending an event keeps the stream bracketed, provided that, when the event is a delta,
its block is started and not stopped. -/
theorem deltasBracketed_append (body : List AnthropicEvent) (ev : AnthropicEvent)
    (h : DeltasBracketed body)
    (hev : ∀ i d, ev = .content_block_delta i d → Started body i ∧ ¬ Stopped body i) :
    DeltasBracketed (body ++ [ev]) := by
  intro k i d hk
  rcases Nat.lt_trichotomy k body.length with hlt | heq | hgt
  · rw [List.getElem?_append_left hlt] at hk
    rw [List.take_append_of_le_length (Nat.le_of_lt hlt)]
    exact h k i d hk
  · subst heq
    rw [List.getElem?_append_right (Nat.le_refl _)] at hk
    simp only [Nat.sub_self, List.getElem?_cons_zero, Option.some.injEq] at hk
    rw [List.take_left]
    exact hev i d hk
  · rw [List.getElem?_append_right (Nat.le_of_lt hgt)] at hk
    have : k - body.length ≠ 0 := by omega
    obtain ⟨n, hn⟩ := Nat.exists_eq_succ_of_ne_zero this
    rw [hn] at hk
    simp at hk

theorem deltasBracketed_append_other (body : List AnthropicEvent) (ev : AnthropicEvent)
    (h : DeltasBracketed body) (hev : ∀ i, ev.isDeltaAt i = false) :
    DeltasBracketed (body ++ [ev]) := by
  apply deltasBracketed_append body ev h
  intro i d he
  have := hev i
  rw [he] at this
  simp [AnthropicEvent.isDeltaAt] at this

/-! ## The invariant of the OpenAI translator -/

theorem GoMap.lookup_filter_ne {κ ν : Type} [DecidableEq κ] (l : List (κ × ν)) (k k' : κ)
    (hne : k ≠ k') :
    GoMap.lookup (l.filter (fun e => e.1 ≠ k)) k' = GoMap.lookup l k' := by
  induction l with
  | nil => rfl
  | cons e rest ih =>
    obtain ⟨a, b⟩ := e
    by_cases he : a = k
    · rw [List.filter_cons_of_neg (by simpa using he), ih]
      have hak : ¬ a = k' := by rw [he]; exact hne
      simp only [GoMap.lookup, hak, if_false]
    · rw [List.filter_cons_of_pos (by simpa using he)]
      simp only [GoMap.lookup]
      rw [ih]

theorem GoMap.get?_set {κ ν : Type} [DecidableEq κ] (m : GoMap κ ν) (k k' : κ) (v : ν) :
    (m.set k v).get? k' = if k = k' then some v else m.get? k' := by
  unfold GoMap.set GoMap.get?
  simp only [GoMap.lookup]
  split
  · rfl
  · rename_i hne
    exact GoMap.lookup_filter_ne m.entries k k' hne

theorem openAIInv_init (id model : String) :
    OpenAIInv [.message_start id model] 0 (-1) GoMap.empty := by
  refine ⟨?_, Int.le_refl 0, ?_, ?_, ?_⟩
  · exact deltasBracketed_append_other [] _ deltasBracketed_nil (fun _ => rfl)
  · rintro i ⟨e, he, hs⟩
    rw [List.mem_singleton.1 he] at hs
    exact absurd hs (by simp [AnthropicEvent.isStopAt])
  · intro h
    exact absurd h (by decide)
  · intro k t h
    simp [GoMap.get?, GoMap.empty, GoMap.lookup] at h

theorem openAIInv_append_delta (body : List AnthropicEvent) (next text : Int)
    (tools : GoMap Int trackedToolCall) (i : Int) (d : BlockDelta)
    (h : OpenAIInv body next text tools) (hs : Started body i) (hn : ¬ Stopped body i) :
    OpenAIInv (body ++ [.content_block_delta i d]) next text tools := by
  obtain ⟨h1, h2, h3, h4, h5⟩ := h
  refine ⟨?_, h2, ?_, ?_, ?_⟩
  · apply deltasBracketed_append body _ h1
    intro j d' he
    cases he
    exact ⟨hs, hn⟩
  · intro j hj
    rw [stopped_append] at hj
    simpa [AnthropicEvent.isStopAt] using hj.elim (h3 j) (fun h => by simp [AnthropicEvent.isStopAt] at h)
  · intro ht
    obtain ⟨a, b, c⟩ := h4 ht
    refine ⟨(started_append _ _ _).2 (Or.inl a), ?_, c⟩
    rw [stopped_append]
    simpa [AnthropicEvent.isStopAt] using b
  · intro k t hk
    obtain ⟨a, b, c, d'⟩ := h5 k t hk
    refine ⟨(started_append _ _ _).2 (Or.inl a), ?_, c, d'⟩
    rw [stopped_append]
    simpa [AnthropicEvent.isStopAt] using b

theorem openAIInv_open_text (body : List AnthropicEvent) (next text : Int)
    (tools : GoMap Int trackedToolCall) (b : StartedBlock)
    (h : OpenAIInv body next text tools) :
    OpenAIInv (body ++ [.content_block_start next b]) (next + 1) next tools := by
  obtain ⟨h1, h2, h3, h4, h5⟩ := h
  have hstop : ∀ j, Stopped (body ++ [.content_block_start next b]) j ↔ Stopped body j := by
    intro j
    rw [stopped_append]
    simp [AnthropicEvent.isStopAt]
  refine ⟨?_, by omega, ?_, ?_, ?_⟩
  · exact deltasBracketed_append_other body _ h1 (fun _ => rfl)
  · intro j hj
    have := h3 j ((hstop j).1 hj)
    omega
  · intro _
    refine ⟨(started_append _ _ _).2 (Or.inr (by simp [AnthropicEvent.isStartAt])), ?_, by omega⟩
    intro hj
    have := h3 next ((hstop next).1 hj)
    omega
  · intro k t hk
    obtain ⟨a, b', c, _⟩ := h5 k t hk
    refine ⟨(started_append _ _ _).2 (Or.inl a), fun hj => b' ((hstop _).1 hj), by omega, ?_⟩
    intro _
    omega

theorem openAIInv_open_tool (body : List AnthropicEvent) (next text : Int)
    (tools : GoMap Int trackedToolCall) (b : StartedBlock) (k : Int) (id name : String)
    (h : OpenAIInv body next text tools) :
    OpenAIInv (body ++ [.content_block_start next b]) (next + 1) text
      (tools.set k { anthropicIndex := next, id := id, name := name }) := by
  obtain ⟨h1, h2, h3, h4, h5⟩ := h
  have hstop : ∀ j, Stopped (body ++ [.content_block_start next b]) j ↔ Stopped body j := by
    intro j
    rw [stopped_append]
    simp [AnthropicEvent.isStopAt]
  refine ⟨?_, by omega, ?_, ?_, ?_⟩
  · exact deltasBracketed_append_other body _ h1 (fun _ => rfl)
  · intro j hj
    have := h3 j ((hstop j).1 hj)
    omega
  · intro ht
    obtain ⟨a, b', c⟩ := h4 ht
    exact ⟨(started_append _ _ _).2 (Or.inl a), fun hj => b' ((hstop _).1 hj), by omega⟩
  · intro k' t hk
    rw [GoMap.get?_set] at hk
    split at hk
    · simp only [Option.some.injEq] at hk
      subst hk
      refine ⟨(started_append _ _ _).2 (Or.inr (by simp [AnthropicEvent.isStartAt])), ?_,
        by simp, ?_⟩
      · intro hj
        have := h3 next ((hstop next).1 hj)
        omega
      · intro ht
        have := (h4 ht).2.2
        simp only
        omega
    · obtain ⟨a, b', c, d⟩ := h5 k' t hk
      exact ⟨(started_append _ _ _).2 (Or.inl a), fun hj => b' ((hstop _).1 hj), by omega, d⟩

theorem openAIInv_drop_text (body : List AnthropicEvent) (next text : Int)
    (tools : GoMap Int trackedToolCall) (h : OpenAIInv body next text tools) :
    OpenAIInv body next (-1) tools := by
  obtain ⟨h1, h2, h3, _, h5⟩ := h
  refine ⟨h1, h2, h3, fun h => absurd h (by decide), ?_⟩
  intro k t hk
  obtain ⟨a, b, c, _⟩ := h5 k t hk
  exact ⟨a, b, c, fun h => absurd h (by decide)⟩

theorem openAIInv_close_text (body : List AnthropicEvent) (next text : Int)
    (tools : GoMap Int trackedToolCall) (h : OpenAIInv body next text tools)
    (ht : 0 ≤ text) :
    OpenAIInv (body ++ [.content_block_stop text]) next (-1) tools := by
  obtain ⟨h1, h2, h3, h4, h5⟩ := h
  have hstop : ∀ j, Stopped (body ++ [.content_block_stop text]) j ↔
      Stopped body j ∨ text = j := by
    intro j
    rw [stopped_append]
    simp [AnthropicEvent.isStopAt]
  refine ⟨?_, h2, ?_, fun h => absurd h (by decide), ?_⟩
  · exact deltasBracketed_append_other body _ h1 (fun _ => rfl)
  · intro j hj
    rcases (hstop j).1 hj with h | h
    · exact h3 j h
    · have := (h4 ht).2.2
      omega
  · intro k t hk
    obtain ⟨a, b, c, d⟩ := h5 k t hk
    refine ⟨(started_append _ _ _).2 (Or.inl a), ?_, c, fun h => absurd h (by decide)⟩
    intro hj
    rcases (hstop _).1 hj with h | h
    · exact b h
    · exact d ht h.symm

/-! ## OpenAI stream translator: deltas are bracketed on every writer -/

theorem writeAnthropicSSEEvent_cases (w : ResponseWriter) (ev : AnthropicEvent) :
    writeAnthropicSSEEvent w ev = ({ w with body := w.body ++ [ev] }, none) ∨
      writeAnthropicSSEEvent w ev = (w, some .failure) := by
  unfold writeAnthropicSSEEvent
  cases w.failAfter with
  | none => exact Or.inl rfl
  | some n =>
    dsimp only
    split
    · exact Or.inl rfl
    · exact Or.inr rfl

theorem OpenAIStreamState.write_cases (s : OpenAIStreamState) (ev : AnthropicEvent) :
    s.write ev = ({ s with w := { s.w with body := s.w.body ++ [ev] } }, none) ∨
      s.write ev = (s, some .failure) := by
  unfold OpenAIStreamState.write
  rcases writeAnthropicSSEEvent_cases s.w ev with h | h
  · rw [h]
    exact Or.inl rfl
  · rw [h]
    exact Or.inr rfl

theorem forEach_preserves {σ α : Type} (P : σ → Prop) (f : σ → α → σ × Option CallbackError)
    (hf : ∀ s x, P s → P (f s x).1) (xs : List α) (s : σ) (hs : P s) :
    P (forEach f xs s).1 := by
  induction xs generalizing s with
  | nil => exact hs
  | cons x rest ih =>
    have h1 := hf s x hs
    unfold forEach
    rcases hres : f s x with ⟨s', e⟩
    rw [hres] at h1
    cases e with
    | none => exact ih s' h1
    | some e => exact h1

theorem forEach_bracketed {α : Type}
    (f : OpenAIStreamState → α → OpenAIStreamState × Option CallbackError)
    (hf : ∀ s x, OpenAIInvariant s → BracketedResult (f s x)) (xs : List α)
    (s : OpenAIStreamState) (hs : OpenAIInvariant s) : BracketedResult (forEach f xs s) := by
  induction xs generalizing s with
  | nil => exact ⟨hs.1, fun _ => hs⟩
  | cons x rest ih =>
    have h1 := hf s x hs
    unfold forEach
    rcases hres : f s x with ⟨s', e⟩
    rw [hres] at h1
    cases e with
    | none => exact ih s' (h1.2 rfl)
    | some e => exact ⟨h1.1, fun hc => by cases hc⟩

theorem onContentDelta_bracketed (s : OpenAIStreamState) (content : String)
    (h : OpenAIInvariant s) : BracketedResult (onContentDelta s content) := by
  unfold onContentDelta
  split
  · by_cases hlt : s.activeTextIndex < 0
    · simp only [if_pos hlt]
      have hopen := openAIInv_open_text _ _ _ _ (.text "") h
      rcases OpenAIStreamState.write_cases
        { s with
            activeTextIndex := s.nextBlockIndex
            nextBlockIndex := s.nextBlockIndex + 1
            openBlocks := s.openBlocks.set s.nextBlockIndex true }
        (.content_block_start s.nextBlockIndex (.text "")) with hw | hw
      · rw [hw]
        dsimp only
        have hlive := hopen.2.2.2.1 h.2.1
        rcases OpenAIStreamState.write_cases
          { s with
              activeTextIndex := s.nextBlockIndex
              nextBlockIndex := s.nextBlockIndex + 1
              openBlocks := s.openBlocks.set s.nextBlockIndex true
              w := { s.w with body := s.w.body ++
                [.content_block_start s.nextBlockIndex (.text "")] } }
          (.content_block_delta s.nextBlockIndex (.text_delta content)) with hw2 | hw2
        · rw [hw2]
          have hfin := openAIInv_append_delta _ _ _ _ s.nextBlockIndex (.text_delta content)
            hopen hlive.1 hlive.2.1
          exact ⟨hfin.1, fun _ => hfin⟩
        · rw [hw2]
          exact ⟨hopen.1, fun hc => by cases hc⟩
      · rw [hw]
        exact ⟨h.1, fun hc => by cases hc⟩
    · simp only [if_neg hlt]
      have hlive := h.2.2.2.1 (Int.not_lt.1 hlt)
      rcases OpenAIStreamState.write_cases s
        (.content_block_delta s.activeTextIndex (.text_delta content)) with hw | hw
      · rw [hw]
        have hfin := openAIInv_append_delta _ _ _ _ s.activeTextIndex (.text_delta content)
          h hlive.1 hlive.2.1
        exact ⟨hfin.1, fun _ => hfin⟩
      · rw [hw]
        exact ⟨h.1, fun hc => by cases hc⟩
  · exact ⟨h.1, fun _ => h⟩

theorem closeBlock_cases (s : OpenAIStreamState) (index : Int) :
    closeBlock s index = (s, none) ∨
      closeBlock s index =
        ({ s with
            openBlocks := s.openBlocks.delete index
            w := { s.w with body := s.w.body ++ [.content_block_stop index] } }, none) ∨
      closeBlock s index = ({ s with openBlocks := s.openBlocks.delete index }, some .failure) := by
  unfold closeBlock
  split
  · exact Or.inl rfl
  · rcases OpenAIStreamState.write_cases { s with openBlocks := s.openBlocks.delete index }
      (.content_block_stop index) with hw | hw
    · exact Or.inr (Or.inl hw)
    · exact Or.inr (Or.inr hw)

theorem closeBlock_keeps_bracketed (s : OpenAIStreamState) (index : Int)
    (h : DeltasBracketed s.w.body) : DeltasBracketed (closeBlock s index).1.w.body := by
  rcases closeBlock_cases s index with hc | hc | hc
  · rw [hc]; exact h
  · rw [hc]; exact deltasBracketed_append_other _ _ h (fun _ => rfl)
  · rw [hc]; exact h

/-- The tool block that the local variable `tracked` points to is started and not stopped. -/
theorem openToolBlock_bracketed (s : OpenAIStreamState) (toolIdx : Int) (id name : String)
    (h : OpenAIInvariant s) :
    DeltasBracketed
        (openToolBlock s toolIdx
          { anthropicIndex := s.nextBlockIndex, id := id, name := name }).1.w.body ∧
      ((openToolBlock s toolIdx
          { anthropicIndex := s.nextBlockIndex, id := id, name := name }).2 = none →
        OpenAIInvariant (openToolBlock s toolIdx
          { anthropicIndex := s.nextBlockIndex, id := id, name := name }).1 ∧
        Started (openToolBlock s toolIdx
          { anthropicIndex := s.nextBlockIndex, id := id, name := name }).1.w.body
          s.nextBlockIndex ∧
        ¬ Stopped (openToolBlock s toolIdx
          { anthropicIndex := s.nextBlockIndex, id := id, name := name }).1.w.body
          s.nextBlockIndex) := by
  have hopen := openAIInv_open_tool _ _ _ _ (.tool_use id name) toolIdx id name h
  have hlive := hopen.2.2.2.2 toolIdx ⟨s.nextBlockIndex, id, name⟩
    (by rw [GoMap.get?_set]; simp)
  unfold openToolBlock
  rcases OpenAIStreamState.write_cases
    { s with
        nextBlockIndex := s.nextBlockIndex + 1
        activeToolCalls := s.activeToolCalls.set toolIdx
          { anthropicIndex := s.nextBlockIndex, id := id, name := name }
        openBlocks := s.openBlocks.set s.nextBlockIndex true }
    (.content_block_start s.nextBlockIndex (.tool_use id name)) with hw | hw
  · rw [hw]
    exact ⟨hopen.1, fun _ => ⟨hopen, hlive.1, hlive.2.1⟩⟩
  · rw [hw]
    exact ⟨h.1, fun hc => by cases hc⟩

theorem startIdentifiedToolCall_bracketed (s : OpenAIStreamState) (tc : OpenAIToolCall)
    (tracked : Option trackedToolCall) (h : OpenAIInvariant s)
    (htr : ∀ t, tracked = some t →
      Started s.w.body t.anthropicIndex ∧ ¬ Stopped s.w.body t.anthropicIndex) :
    DeltasBracketed (startIdentifiedToolCall s tc tracked).1.1.w.body ∧
      ((startIdentifiedToolCall s tc tracked).2 = none →
        OpenAIInvariant (startIdentifiedToolCall s tc tracked).1.1 ∧
        ∀ t, (startIdentifiedToolCall s tc tracked).1.2 = some t →
          Started (startIdentifiedToolCall s tc tracked).1.1.w.body t.anthropicIndex ∧
          ¬ Stopped (startIdentifiedToolCall s tc tracked).1.1.w.body t.anthropicIndex) := by
  unfold startIdentifiedToolCall
  split
  · have key : ∀ s1 : OpenAIStreamState, OpenAIInvariant s1 →
        DeltasBracketed (openToolBlock s1 tc.Index
          { anthropicIndex := s1.nextBlockIndex, id := tc.ID, name := tc.Function.Name }).1.w.body ∧
        ((openToolBlock s1 tc.Index
          { anthropicIndex := s1.nextBlockIndex, id := tc.ID, name := tc.Function.Name }).2 = none →
          OpenAIInvariant (openToolBlock s1 tc.Index
            { anthropicIndex := s1.nextBlockIndex, id := tc.ID, name := tc.Function.Name }).1 ∧
          ∀ t, some (⟨s1.nextBlockIndex, tc.ID, tc.Function.Name⟩ : trackedToolCall) = some t →
            Started (openToolBlock s1 tc.Index
              ⟨s1.nextBlockIndex, tc.ID, tc.Function.Name⟩).1.w.body t.anthropicIndex ∧
            ¬ Stopped (openToolBlock s1 tc.Index
              ⟨s1.nextBlockIndex, tc.ID, tc.Function.Name⟩).1.w.body t.anthropicIndex) := by
      intro s1 h1
      obtain ⟨a, b⟩ := openToolBlock_bracketed s1 tc.Index tc.ID tc.Function.Name h1
      refine ⟨a, fun hn => ⟨(b hn).1, ?_⟩⟩
      intro t ht
      cases ht
      exact (b hn).2
    by_cases hge : 0 ≤ s.activeTextIndex
    · simp only [if_pos hge]
      rcases closeBlock_cases s s.activeTextIndex with hc | hc | hc
      · rw [hc]
        dsimp only
        exact key { s with activeTextIndex := -1 } (openAIInv_drop_text _ _ _ _ h)
      · rw [hc]
        dsimp only
        exact key _ (openAIInv_close_text _ _ _ _ h hge)
      · rw [hc]
        exact ⟨h.1, fun hc => by cases hc⟩
    · simp only [if_neg hge]
      exact key s h
  · exact ⟨h.1, fun _ => ⟨h, htr⟩⟩

theorem startPlaceholderToolCall_bracketed (lib : GoLib) (s : OpenAIStreamState)
    (tc : OpenAIToolCall) (tracked : Option trackedToolCall) (h : OpenAIInvariant s)
    (htr : ∀ t, tracked = some t →
      Started s.w.body t.anthropicIndex ∧ ¬ Stopped s.w.body t.anthropicIndex) :
    DeltasBracketed (startPlaceholderToolCall lib s tc tracked).1.1.w.body ∧
      ((startPlaceholderToolCall lib s tc tracked).2 = none →
        OpenAIInvariant (startPlaceholderToolCall lib s tc tracked).1.1 ∧
        Started (startPlaceholderToolCall lib s tc tracked).1.1.w.body
          (startPlaceholderToolCall lib s tc tracked).1.2.anthropicIndex ∧
        ¬ Stopped (startPlaceholderToolCall lib s tc tracked).1.1.w.body
          (startPlaceholderToolCall lib s tc tracked).1.2.anthropicIndex) := by
  unfold startPlaceholderToolCall
  cases tracked with
  | some t => exact ⟨h.1, fun _ => ⟨h, htr t rfl⟩⟩
  | none =>
    exact openToolBlock_bracketed { s with clock := s.clock + 1 } tc.Index
      ("toolu_" ++ toString (lib.unixNano s.clock)) tc.Function.Name h

theorem writeToolArguments_bracketed (s : OpenAIStreamState) (tc : OpenAIToolCall)
    (t : trackedToolCall) (h : OpenAIInvariant s)
    (hlive : Started s.w.body t.anthropicIndex ∧ ¬ Stopped s.w.body t.anthropicIndex) :
    BracketedResult (writeToolArguments s tc t) := by
  unfold writeToolArguments
  split
  · rcases OpenAIStreamState.write_cases s
      (.content_block_delta t.anthropicIndex (.input_json_delta tc.Function.Arguments))
      with hw | hw
    · rw [hw]
      have hfin := openAIInv_append_delta _ _ _ _ t.anthropicIndex
        (.input_json_delta tc.Function.Arguments) h hlive.1 hlive.2
      exact ⟨hfin.1, fun _ => hfin⟩
    · rw [hw]
      exact ⟨h.1, fun hc => by cases hc⟩
  · exact ⟨h.1, fun _ => h⟩

theorem onToolCall_bracketed (lib : GoLib) (s : OpenAIStreamState) (tc : OpenAIToolCall)
    (h : OpenAIInvariant s) : BracketedResult (onToolCall lib s tc) := by
  unfold onToolCall
  have htr : ∀ t, s.activeToolCalls.get? tc.Index = some t →
      Started s.w.body t.anthropicIndex ∧ ¬ Stopped s.w.body t.anthropicIndex := by
    intro t ht
    obtain ⟨a, b, _⟩ := h.2.2.2.2 tc.Index t ht
    exact ⟨a, b⟩
  have h1 := startIdentifiedToolCall_bracketed s tc (s.activeToolCalls.get? tc.Index) h htr
  rcases hres : startIdentifiedToolCall s tc (s.activeToolCalls.get? tc.Index) with
    ⟨⟨s1, tracked⟩, e⟩
  rw [hres] at h1
  cases e with
  | some e => exact ⟨h1.1, fun hc => by cases hc⟩
  | none =>
    obtain ⟨hinv1, htr1⟩ := h1.2 rfl
    dsimp only at hinv1 htr1 ⊢
    have h2 := startPlaceholderToolCall_bracketed lib s1 tc tracked hinv1 htr1
    rcases hres2 : startPlaceholderToolCall lib s1 tc tracked with ⟨⟨s2, t⟩, e⟩
    rw [hres2] at h2
    cases e with
    | some e => exact ⟨h2.1, fun hc => by cases hc⟩
    | none =>
      obtain ⟨hinv2, hs2, hn2⟩ := h2.2 rfl
      exact writeToolArguments_bracketed s2 tc t hinv2 ⟨hs2, hn2⟩

theorem onOpenAIEvent_bracketed (lib : GoLib) (s : OpenAIStreamState) (name data : String)
    (h : OpenAIInvariant s) :
    Outcome OpenAIInvariant (fun s => DeltasBracketed s.w.body)
      (fun s => DeltasBracketed s.w.body)
      (onOpenAIEvent lib s name data).1 (onOpenAIEvent lib s name data).2 := by
  have hout : ∀ r : OpenAIStreamState × Option CallbackError, BracketedResult r →
      Outcome OpenAIInvariant (fun s => DeltasBracketed s.w.body)
        (fun s => DeltasBracketed s.w.body) r.1 r.2 := by
    rintro ⟨s', e⟩ hr
    cases e with
    | none => exact hr.2 rfl
    | some e => cases e <;> exact hr.1
  unfold onOpenAIEvent
  simp only
  split
  · exact h
  split
  · exact h.1
  split
  · exact h
  rename_i chunk _
  have h0 : OpenAIInvariant (if chunk.Usage.CompletionTokens > 0 then
      { s with outputTokens := chunk.Usage.CompletionTokens } else s) := by
    split <;> exact h
  generalize (if chunk.Usage.CompletionTokens > 0 then
      { s with outputTokens := chunk.Usage.CompletionTokens } else s) = s0 at h0
  cases hch : chunk.Choices with
  | nil => exact h0
  | cons choice rest =>
    dsimp only
    have h1 := onContentDelta_bracketed s0 choice.Delta.Content h0
    rcases hres : onContentDelta s0 choice.Delta.Content with ⟨s1, e⟩
    rw [hres] at h1
    cases e with
    | some e => exact hout _ h1
    | none =>
      dsimp only
      have h2 := forEach_bracketed (onToolCall lib) (fun s x hs => onToolCall_bracketed lib s x hs)
        choice.Delta.ToolCalls s1 (h1.2 rfl)
      rcases hres2 : forEach (onToolCall lib) choice.Delta.ToolCalls s1 with ⟨s2, e⟩
      rw [hres2] at h2
      cases e with
      | some e => exact hout _ h2
      | none =>
        dsimp only
        split
        · exact h2.2 rfl
        · exact h2.2 rfl

theorem finishOpenAIStream_bracketed (s : OpenAIStreamState) (h : DeltasBracketed s.w.body) :
    DeltasBracketed (finishOpenAIStream s).1.w.body := by
  have hwrite : ∀ (s' : OpenAIStreamState) (ev : AnthropicEvent),
      DeltasBracketed s'.w.body → (∀ i, ev.isDeltaAt i = false) →
      DeltasBracketed (s'.write ev).1.w.body := by
    intro s' ev hs hev
    rcases OpenAIStreamState.write_cases s' ev with hw | hw
    · rw [hw]; exact deltasBracketed_append_other _ _ hs hev
    · rw [hw]; exact hs
  unfold finishOpenAIStream
  have h1 : DeltasBracketed
      (if 0 ≤ s.activeTextIndex then closeBlock s s.activeTextIndex else (s, none)).1.w.body := by
    split
    · exact closeBlock_keeps_bracketed s _ h
    · exact h
  rcases hres : (if 0 ≤ s.activeTextIndex then closeBlock s s.activeTextIndex else (s, none))
    with ⟨s1, e⟩
  rw [hres] at h1
  simp only [hres]
  cases e with
  | some e => exact h1
  | none =>
    dsimp only
    have h2 := forEach_preserves (fun s : OpenAIStreamState => DeltasBracketed s.w.body)
      closeBlock (fun s x hs => closeBlock_keeps_bracketed s x hs)
      (sortInts (s1.activeToolCalls.values.map (·.anthropicIndex))) s1 h1
    rcases hres2 : forEach closeBlock
      (sortInts (s1.activeToolCalls.values.map (·.anthropicIndex))) s1 with ⟨s2, e⟩
    rw [hres2] at h2
    simp only [hres2]
    cases e with
    | some e => exact h2
    | none =>
      dsimp only
      have h3 := hwrite s2 (.message_delta s2.stopReason s2.outputTokens) h2 (fun _ => rfl)
      rcases hres3 : s2.write (.message_delta s2.stopReason s2.outputTokens) with ⟨s3, e⟩
      rw [hres3] at h3
      cases e with
      | some e => exact h3
      | none => exact hwrite s3 .message_stop h3 (fun _ => rfl)

/-- C3. On a fresh response writer, failing or not, and for every body, read to its end or
not, every `content_block_delta` at an index `i` among the events written by
`convertOpenAIStreamToAnthropic` has, among the events written before it, a
`content_block_start` at `i` and no `content_block_stop` at `i`. -/
theorem convertOpenAIStream_deltasBracketed (lib : GoLib) (w : ResponseWriter) (src : Body)
    (spoofModel : String) (hfresh : w.body = []) :
    DeltasBracketed (convertOpenAIStreamToAnthropic lib w src spoofModel).1.body := by
  unfold convertOpenAIStreamToAnthropic
  split
  · rw [hfresh]
    exact deltasBracketed_nil
  · dsimp only
    rcases writeAnthropicSSEEvent_cases w
      (.message_start ("msg_" ++ toString (lib.unixNano 0)) spoofModel) with hw | hw
    · rw [hw]
      dsimp only
      have hinit : OpenAIInvariant
          { w := { w with body := w.body ++
              [.message_start ("msg_" ++ toString (lib.unixNano 0)) spoofModel] }
            nextBlockIndex := 0
            activeTextIndex := -1
            activeToolCalls := GoMap.empty
            openBlocks := GoMap.empty
            stopReason := "end_turn"
            outputTokens := 0
            clock := 1 } := by
        show OpenAIInv (w.body ++ [_]) 0 (-1) GoMap.empty
        rw [hfresh]
        exact openAIInv_init _ _
      have hread := readSSEEvents_outcome OpenAIInvariant
        (fun s : OpenAIStreamState => DeltasBracketed s.w.body)
        (fun s => DeltasBracketed s.w.body) (onOpenAIEvent lib)
        (fun s n d hs => onOpenAIEvent_bracketed lib s n d hs) src _ hinit
      rcases hres : readSSEEvents src (onOpenAIEvent lib)
          { w := { w with body := w.body ++
              [.message_start ("msg_" ++ toString (lib.unixNano 0)) spoofModel] }
            nextBlockIndex := 0
            activeTextIndex := -1
            activeToolCalls := GoMap.empty
            openBlocks := GoMap.empty
            stopReason := "end_turn"
            outputTokens := 0
            clock := 1 } with ⟨s, failed⟩
      rw [hres] at hread
      cases failed with
      | true =>
        rcases hread.2 rfl with h | h
        · exact h
        · exact h.2.1
      | false =>
        have hs : DeltasBracketed s.w.body := by
          rcases hread.1 rfl with h | h
          · exact h.2.1
          · exact h
        dsimp only
        have hfin := finishOpenAIStream_bracketed s hs
        rcases hres2 : finishOpenAIStream s with ⟨s1, e⟩
        rw [hres2] at hfin
        cases e <;> exact hfin
    · rw [hw]
      dsimp only
      rw [hfresh]
      exact deltasBracketed_nil

theorem convertOpenAIStream_deltasBracketed_witness :
    freshWriter.body = [] ∧
      DeltasBracketed (convertOpenAIStreamToAnthropic sampleLib freshWriter
        (sseInput [chunkHello, chunkToolCall1, chunkArguments, chunkFinish, "[DONE]"])
        "claude-spoof").1.body :=
  ⟨rfl, convertOpenAIStream_deltasBracketed sampleLib freshWriter
    (sseInput [chunkHello, chunkToolCall1, chunkArguments, chunkFinish, "[DONE]"])
    "claude-spoof" rfl⟩

/-! ## The SSE reader delivers the events of the groups -/

theorem sseGroups_ne_nil (lines : List (List Char)) : sseGroups lines ≠ [] := by
  cases lines with
  | nil => simp [sseGroups]
  | cons line rest =>
    unfold sseGroups
    split
    · simp
    · split <;> simp

theorem processLine_eq {σ : Type} (onEvent : σ → String → String → σ × Option CallbackError)
    (r : SSEReader σ) (raw : List Char) :
    processLine onEvent r raw =
      if trimLineEnd raw = [] then dispatch onEvent r
      else
        match sseField (trimLineEnd raw) with
        | some (field, value) =>
          if field = "event" then ({ r with eventName := value }, none)
          else if field = "data" then ({ r with dataLines := r.dataLines ++ [value] }, none)
          else (r, none)
        | none => (r, none) := by
  unfold processLine sseField trimLineEnd
  simp only
  split
  · rfl
  · split
    · rfl
    · split
      · rfl
      · rfl

theorem dispatch_of_no_data {σ : Type}
    (onEvent : σ → String → String → σ × Option CallbackError) (r : SSEReader σ)
    (h : r.dataLines.length = 0) :
    dispatch onEvent r = (⟨"", [], r.user⟩, none) := by
  have hnil : r.dataLines = [] := List.length_eq_zero.mp h
  unfold dispatch
  rw [if_pos h]
  cases r
  simp only at hnil
  simp [hnil]

theorem dispatch_of_data {σ : Type}
    (onEvent : σ → String → String → σ × Option CallbackError) (r : SSEReader σ)
    (h : ¬ r.dataLines.length = 0) :
    dispatch onEvent r =
      (⟨"", [], (onEvent r.user r.eventName (Join r.dataLines "\n")).1⟩,
        (onEvent r.user r.eventName (Join r.dataLines "\n")).2) := by
  unfold dispatch
  rw [if_neg h]

/-- The end of `readSSEEvents`: the loop result followed by the last `dispatch`. -/
theorem readLoop_eq_eventsFrom {σ : Type}
    (onEvent : σ → String → String → σ × Option CallbackError) :
    ∀ (raws : List (List Char)) (r : SSEReader σ),
      (match readLoop onEvent raws r with
        | (r1, some .streamDone) => (r1.user, false)
        | (r1, some .failure) => (r1.user, true)
        | (r1, none) =>
          match dispatch onEvent r1 with
          | (r2, some .failure) => (r2.user, true)
          | (r2, _) => (r2.user, false)) =
      readResult (deliver onEvent (eventsFrom r.eventName r.dataLines (raws.map trimLineEnd))
        r.user) := by
  intro raws
  induction raws with
  | nil =>
    intro r
    simp only [readLoop, List.map_nil, eventsFrom]
    by_cases h : r.dataLines.length = 0
    · rw [dispatch_of_no_data onEvent r h]
      simp only [if_pos h, deliver, forEach, readResult]
    · rw [dispatch_of_data onEvent r h]
      simp only [if_neg h, deliver, forEach]
      rcases hres : onEvent r.user r.eventName (Join r.dataLines "\n") with ⟨u, e⟩
      cases e with
      | none => simp [readResult]
      | some e => cases e <;> simp [readResult]
  | cons raw rest ih =>
    intro r
    simp only [readLoop, List.map_cons, eventsFrom, processLine_eq]
    by_cases hb : trimLineEnd raw = []
    · simp only [if_pos hb]
      by_cases h : r.dataLines.length = 0
      · rw [dispatch_of_no_data onEvent r h]
        simp only [if_pos h]
        exact ih ⟨"", [], r.user⟩
      · rw [dispatch_of_data onEvent r h]
        simp only [if_neg h, deliver, forEach]
        rcases hres : onEvent r.user r.eventName (Join r.dataLines "\n") with ⟨u, e⟩
        cases e with
        | none => exact ih ⟨"", [], u⟩
        | some e => cases e <;> simp [readResult]
    · simp only [if_neg hb]
      cases hf : sseField (trimLineEnd raw) with
      | none => exact ih _
      | some fv =>
        rcases fv with ⟨field, value⟩
        simp only
        by_cases he : field = "event"
        · simp only [if_pos he]
          exact ih _
        · simp only [if_neg he]
          by_cases hd : field = "data"
          · simp only [if_pos hd]
            exact ih _
          · simp only [if_neg hd]
            exact ih _

theorem readSSEEvents_eq_eventsFrom {σ : Type} (src : String)
    (onEvent : σ → String → String → σ × Option CallbackError) (s : σ) :
    readSSEEvents src onEvent s =
      readResult (deliver onEvent (eventsFrom "" [] (sseLines src)) s) := by
  unfold readSSEEvents sseLines
  exact readLoop_eq_eventsFrom onEvent (readLines src.data) ⟨"", [], s⟩

/-- The event of the first group of the lines left, for a reader that already holds a pending
event name and pending data lines, followed by the events of the later groups. -/
theorem eventsFrom_eq_groups :
    ∀ (lines : List (List Char)) (name : String) (datas : List String),
      eventsFrom name datas lines =
        match sseGroups lines with
        | [] => []
        | g :: gs =>
          (if (datas ++ groupData g).length = 0 then []
            else [(((g.filterMap eventValue).getLast?).getD name,
              Join (datas ++ groupData g) "\n")]) ++ gs.filterMap groupEvent := by
  intro lines
  induction lines with
  | nil =>
    intro name datas
    simp [eventsFrom, sseGroups, groupData]
  | cons line rest ih =>
    intro name datas
    unfold eventsFrom sseGroups
    by_cases hb : line = []
    · simp only [if_pos hb]
      have h0 := ih "" []
      cases hg : sseGroups rest with
      | nil => exact absurd hg (sseGroups_ne_nil rest)
      | cons g gs =>
        rw [hg] at h0
        simp only [List.nil_append] at h0
        have hev : eventsFrom "" [] rest = (g :: gs).filterMap groupEvent := by
          rw [h0]
          simp only [List.filterMap_cons, groupEvent, groupEventName]
          by_cases hd : (groupData g).length = 0
          · simp [hd]
          · simp [hd]
        rw [hev]
        simp only [groupData, List.filterMap_nil, List.append_nil]
        by_cases hd : datas.length = 0
        · simp [hd]
        · simp [hd]
    · simp only [if_neg hb]
      cases hg : sseGroups rest with
      | nil => exact absurd hg (sseGroups_ne_nil rest)
      | cons g gs =>
        simp only
        cases hf : sseField line with
        | none =>
          simp only
          rw [ih, hg]
          simp [groupData, dataValue, eventValue, hf]
        | some fv =>
          rcases fv with ⟨field, value⟩
          simp only
          by_cases he : field = "event"
          · have hne : ¬ field = "data" := by rw [he]; decide
            simp only [if_pos he]
            rw [ih, hg]
            simp only [groupData, dataValue, eventValue, hf, List.filterMap_cons, if_pos he,
              if_neg hne]
            cases hl : (List.filterMap eventValue g).getLast? with
            | none =>
              have : List.filterMap eventValue g = [] := by
                simpa using hl
              simp [this]
            | some v =>
              have hne2 : List.filterMap eventValue g ≠ [] := by
                intro h
                rw [h] at hl
                simp at hl
              simp [List.getLast?_cons_cons, hl, List.getLast?_cons, hne2]
          · simp only [if_neg he]
            by_cases hd : field = "data"
            · simp only [if_pos hd]
              rw [ih, hg]
              simp [groupData, dataValue, eventValue, hf, hd, he]
            · simp only [if_neg hd]
              rw [ih, hg]
              simp [groupData, dataValue, eventValue, hf, hd, he]

theorem eventsFrom_eq_sseEvents (lines : List (List Char)) :
    eventsFrom "" [] lines = (sseGroups lines).filterMap groupEvent := by
  rw [eventsFrom_eq_groups]
  cases hg : sseGroups lines with
  | nil => rfl
  | cons g gs =>
    simp only [List.nil_append, List.filterMap_cons, groupEvent, groupEventName]
    by_cases hd : (groupData g).length = 0
    · simp [hd]
    · simp [hd]

/-- The reader hands the callback the events of the groups of lines, in order, up to the
first error of the callback. -/
theorem readSSEEvents_eq_deliver {σ : Type} (src : String)
    (onEvent : σ → String → String → σ × Option CallbackError) (s : σ) :
    readSSEEvents src onEvent s = readResult (deliver onEvent (sseEvents src) s) := by
  rw [readSSEEvents_eq_eventsFrom, eventsFrom_eq_sseEvents]
  rfl

theorem forEach_append {σ α : Type} (f : σ → α → σ × Option CallbackError) :
    ∀ (xs ys : List α) (s : σ),
      forEach f (xs ++ ys) s =
        match forEach f xs s with
        | (s1, none) => forEach f ys s1
        | (s1, some e) => (s1, some e) := by
  intro xs
  induction xs with
  | nil => intro ys s; rfl
  | cons x xs ih =>
    intro ys s
    simp only [List.cons_append, forEach]
    rcases hres : f s x with ⟨s1, e⟩
    cases e with
    | none => exact ih ys s1
    | some e => rfl

theorem deliver_traced_of_ok {σ : Type}
    (onEvent : σ → String → String → σ × Option CallbackError) :
    ∀ (events log : List (String × String)) (s s1 : σ),
      deliver onEvent events s = (s1, none) →
      deliver (traced onEvent) events (s, log) = ((s1, log ++ events), none) := by
  intro events
  induction events with
  | nil =>
    intro log s s1 h
    simp only [deliver, forEach] at h
    simp only [deliver, forEach, List.append_nil]
    rw [(Prod.mk.inj h).1]
  | cons ev rest ih =>
    intro log s s1 h
    simp only [deliver, forEach] at h
    simp only [deliver, forEach, traced]
    rcases hres : onEvent s ev.1 ev.2 with ⟨s2, e⟩
    rw [hres] at h
    cases e with
    | none =>
      simp only at h
      have := ih (log ++ [ev]) s2 s1 h
      simp only [deliver] at this
      simp only [List.append_assoc, List.singleton_append] at this
      exact this
    | some e =>
      simp only at h
      exact absurd (Prod.mk.inj h).2 (by simp)

theorem deliver_of_never_fails {σ : Type}
    (onEvent : σ → String → String → σ × Option CallbackError)
    (hok : ∀ s name data, (onEvent s name data).2 = none) :
    ∀ (events : List (String × String)) (s : σ),
      deliver onEvent events s =
        (events.foldl (fun s ev => (onEvent s ev.1 ev.2).1) s, none) := by
  intro events
  induction events with
  | nil => intro s; rfl
  | cons ev rest ih =>
    intro s
    simp only [deliver, forEach, List.foldl_cons]
    rcases hres : onEvent s ev.1 ev.2 with ⟨s2, e⟩
    have h2 := hok s ev.1 ev.2
    rw [hres] at h2
    simp only at h2
    subst h2
    exact ih s2

theorem indexOf_colon_split : ∀ (line : List Char), line.indexOf ':' < line.length →
    line = line.take (line.indexOf ':') ++ ':' :: line.drop (line.indexOf ':' + 1) ∧
      ':' ∉ line.take (line.indexOf ':') := by
  intro line
  induction line with
  | nil => intro h; simp at h
  | cons c cs ih =>
    intro h
    by_cases hc : c = ':'
    · subst hc
      simp
    · have hi : (c :: cs).indexOf ':' = cs.indexOf ':' + 1 := by
        rw [List.indexOf_cons_ne _ hc]
      rw [hi] at h ⊢
      have hlt : cs.indexOf ':' < cs.length := by
        simpa using h
      obtain ⟨h1, h2⟩ := ih hlt
      refine ⟨?_, ?_⟩
      · simp only [List.take_succ_cons, List.drop_succ_cons, List.cons_append]
        exact congrArg _ h1
      · simp only [List.take_succ_cons, List.mem_cons, not_or]
        exact ⟨fun h => hc h.symm, h2⟩

/-- A line has the field `name` and the value `value` exactly when it is the name, which is
not empty and holds no colon, followed by a colon and the rest of the line, the value being
that rest less one leading space. -/
theorem sseField_eq_some_iff (line : List Char) (name value : String) :
    sseField line = some (name, value) ↔
      ∃ rest, line = name.data ++ ':' :: rest ∧ name.data ≠ [] ∧ ':' ∉ name.data ∧
        value = (if rest.head? = some ' ' then ⟨rest.drop 1⟩ else ⟨rest⟩) := by
  constructor
  · intro h
    unfold sseField at h
    by_cases hc : line.head? = some ':'
    · rw [if_pos hc] at h
      exact absurd h (by simp)
    · rw [if_neg hc] at h
      simp only at h
      by_cases hi : line.indexOf ':' < line.length ∧ 0 < line.indexOf ':'
      · rw [if_pos hi] at h
        simp only [Option.some.injEq, Prod.mk.injEq] at h
        obtain ⟨hsplit, hnot⟩ := indexOf_colon_split line hi.1
        refine ⟨line.drop (line.indexOf ':' + 1), ?_, ?_, ?_, ?_⟩
        · rw [← h.1]
          exact hsplit
        · rw [← h.1]
          intro hnil
          have hlen := congrArg List.length hnil
          simp only [List.length_take, List.length_nil] at hlen
          omega
        · rw [← h.1]
          exact hnot
        · exact h.2.symm
      · rw [if_neg hi] at h
        exact absurd h (by simp)
  · rintro ⟨rest, hline, hne, hnot, hval⟩
    have hidx : line.indexOf ':' = name.data.length := by
      rw [hline, List.indexOf_append_of_not_mem hnot]
      simp
    have hhead : ¬ line.head? = some ':' := by
      rw [hline]
      cases hd : name.data with
      | nil => exact absurd hd hne
      | cons a t =>
        simp only [List.cons_append, List.head?_cons, Option.some.injEq]
        intro ha
        apply hnot
        rw [hd, ha]
        simp
    have hpos : 0 < name.data.length := List.length_pos.mpr hne
    unfold sseField
    rw [if_neg hhead]
    simp only [hidx]
    have hlt : name.data.length < line.length ∧ 0 < name.data.length := by
      refine ⟨?_, hpos⟩
      rw [hline]
      simp
    rw [if_pos hlt]
    have htake : line.take name.data.length = name.data := by
      rw [hline]
      simp
    have hdrop : line.drop (name.data.length + 1) = rest := by
      rw [hline, List.drop_append_eq_append_drop]
      have h1 : List.drop (name.data.length + 1) name.data = [] :=
        List.drop_eq_nil_of_le (Nat.le_succ _)
      have h2 : name.data.length + 1 - name.data.length = 1 := by omega
      rw [h1, h2]
      rfl
    rw [htake, hdrop, hval]

theorem dataValue_eq_some_iff (line : List Char) (value : String) :
    dataValue line = some value ↔
      ∃ rest, line = "data:".data ++ rest ∧
        value = (if rest.head? = some ' ' then ⟨rest.drop 1⟩ else ⟨rest⟩) := by
  unfold dataValue
  constructor
  · intro h
    cases hf : sseField line with
    | none => rw [hf] at h; simp at h
    | some fv =>
      rcases fv with ⟨field, v⟩
      rw [hf] at h
      simp only at h
      by_cases hd : field = "data"
      · rw [if_pos hd] at h
        simp only [Option.some.injEq] at h
        obtain ⟨rest, hline, _, _, hval⟩ := (sseField_eq_some_iff line field v).1 hf
        refine ⟨rest, ?_, ?_⟩
        · rw [hline, hd]
          rfl
        · rw [← h, hval]
      · rw [if_neg hd] at h
        exact absurd h (by simp)
  · rintro ⟨rest, hline, hval⟩
    have hf : sseField line = some ("data", value) :=
      (sseField_eq_some_iff line "data" value).2
        ⟨rest, by rw [hline]; rfl, by decide, by decide, hval⟩
    rw [hf]
    rfl

theorem eventValue_eq_some_iff (line : List Char) (value : String) :
    eventValue line = some value ↔
      ∃ rest, line = "event:".data ++ rest ∧
        value = (if rest.head? = some ' ' then ⟨rest.drop 1⟩ else ⟨rest⟩) := by
  unfold eventValue
  constructor
  · intro h
    cases hf : sseField line with
    | none => rw [hf] at h; simp at h
    | some fv =>
      rcases fv with ⟨field, v⟩
      rw [hf] at h
      simp only at h
      by_cases hd : field = "event"
      · rw [if_pos hd] at h
        simp only [Option.some.injEq] at h
        obtain ⟨rest, hline, _, _, hval⟩ := (sseField_eq_some_iff line field v).1 hf
        refine ⟨rest, ?_, ?_⟩
        · rw [hline, hd]
          rfl
        · rw [← h, hval]
      · rw [if_neg hd] at h
        exact absurd h (by simp)
  · rintro ⟨rest, hline, hval⟩
    have hf : sseField line = some ("event", value) :=
      (sseField_eq_some_iff line "event" value).2
        ⟨rest, by rw [hline]; rfl, by decide, by decide, hval⟩
    rw [hf]
    rfl

/-- A line read is blank exactly when it holds nothing but `\r` and `\n`. -/
theorem trimLineEnd_eq_nil_iff (raw : List Char) :
    trimLineEnd raw = [] ↔ ∀ c ∈ raw, c = '\r' ∨ c = '\n' := by
  unfold trimLineEnd
  rw [List.rdropWhile_eq_nil_iff]
  simp

/-- C12: for a callback that never returns an error, `readSSEEvents` invokes the callback
exactly for the events of the groups of lines of the input, in order, and returns nil: one
event per group (ended by a blank line or by the end of the input) that holds a `data:` line,
none for a group without one; the data of the event is the values of the `data:` lines of the
group joined by `\n`, its name the value of the last `event:` line of the group, or empty.
A `data:` line is a line that starts with `data:`, an `event:` line one that starts with
`event:`, and the value of either is the rest of the line less one leading space. The
variables captured by the callback are those left by these invocations. -/
theorem readSSEEvents_delivers_groups {σ : Type} (src : String)
    (onEvent : σ → String → String → σ × Option CallbackError) (s : σ)
    (hok : ∀ s name data, (onEvent s name data).2 = none) :
    readSSEEvents src (traced onEvent) (s, []) =
      ((((sseGroups (sseLines src)).filterMap groupEvent).foldl
          (fun s ev => (onEvent s ev.1 ev.2).1) s,
        (sseGroups (sseLines src)).filterMap groupEvent), false) ∧
    (∀ g, (groupData g).length = 0 → groupEvent g = none) ∧
    (∀ g, (groupData g).length ≠ 0 →
      groupEvent g = some (((g.filterMap eventValue).getLast?).getD "",
        Join (g.filterMap dataValue) "\n")) ∧
    (∀ line value, dataValue line = some value ↔
      ∃ rest, line = "data:".data ++ rest ∧
        value = (if rest.head? = some ' ' then ⟨rest.drop 1⟩ else ⟨rest⟩)) ∧
    (∀ line value, eventValue line = some value ↔
      ∃ rest, line = "event:".data ++ rest ∧
        value = (if rest.head? = some ' ' then ⟨rest.drop 1⟩ else ⟨rest⟩)) := by
  refine ⟨?_, ?_, ?_, dataValue_eq_some_iff, eventValue_eq_some_iff⟩
  · rw [readSSEEvents_eq_deliver]
    have h1 := deliver_of_never_fails onEvent hok (sseEvents src) s
    have h2 := deliver_traced_of_ok onEvent (sseEvents src) [] s _ h1
    rw [h2]
    simp only [readResult, List.nil_append]
    rfl
  · intro g hg
    simp [groupEvent, hg]
  · intro g hg
    unfold groupEvent
    rw [if_neg hg]
    rfl

theorem readSSEEvents_delivers_groups_witness :
    (∀ (s : Unit) (name data : String),
      ((fun (s : Unit) (_ _ : String) => (s, (none : Option CallbackError))) s name data).2 =
        none) ∧
    readSSEEvents sampleSSE
        (traced (fun (s : Unit) (_ _ : String) => (s, (none : Option CallbackError))))
        ((), []) =
      (((), [("message", "a\nb"), ("", "stop"), ("", "last")]), false) := by
  refine ⟨fun _ _ _ => rfl, ?_⟩
  have h := (readSSEEvents_delivers_groups sampleSSE
    (fun (s : Unit) (_ _ : String) => (s, (none : Option CallbackError))) ()
    (fun _ _ _ => rfl)).1
  rw [h]
  decide

/-- C13: when the callback returns an error for an event of the input, after it returned nil
for the events before it, `readSSEEvents` stops there: the callback has been invoked for the
events up to that one and for no later event, the captured variables are those left by that
invocation, and `readSSEEvents` returns nil when the error is `errSSEStreamDone` and a non-nil
error otherwise. -/
theorem readSSEEvents_stops_at_error {σ : Type} (src : String)
    (onEvent : σ → String → String → σ × Option CallbackError) (s s1 s2 : σ)
    (before after : List (String × String)) (name data : String) (e : CallbackError)
    (hev : sseEvents src = before ++ (name, data) :: after)
    (hbefore : deliver onEvent before s = (s1, none))
    (herr : onEvent s1 name data = (s2, some e)) :
    readSSEEvents src (traced onEvent) (s, []) =
      ((s2, before ++ [(name, data)]), decide (e = .failure)) := by
  rw [readSSEEvents_eq_deliver, hev]
  have h2 := deliver_traced_of_ok onEvent before [] s s1 hbefore
  simp only [deliver] at h2
  simp only [deliver, forEach_append]
  rw [h2]
  simp only [forEach, traced, herr, List.nil_append]
  cases e <;> rfl

theorem readSSEEvents_stops_at_error_witness :
    sseEvents sampleSSE = [("message", "a\nb")] ++ ("", "stop") :: [("", "last")] ∧
    deliver (fun (n : Nat) (_ data : String) =>
        if data = "stop" then (n + 1, some CallbackError.streamDone) else (n + 1, none))
      [("message", "a\nb")] 0 = (1, none) ∧
    readSSEEvents sampleSSE
        (traced (fun (n : Nat) (_ data : String) =>
          if data = "stop" then (n + 1, some CallbackError.streamDone) else (n + 1, none)))
        (0, []) =
      ((2, [("message", "a\nb")] ++ [("", "stop")]), false) :=
  ⟨by decide, by decide,
    readSSEEvents_stops_at_error sampleSSE
      (fun (n : Nat) (_ data : String) =>
        if data = "stop" then (n + 1, some CallbackError.streamDone) else (n + 1, none))
      0 1 2 [("message", "a\nb")] [("", "last")] "" "stop" .streamDone
      (by decide) (by decide) (by decide)⟩

/-! ## The end of the input ends the last group -/

theorem readLines_of_no_newline : ∀ (l : List Char), '\n' ∉ l → readLines l = [l] := by
  intro l
  induction l with
  | nil => intro _; rfl
  | cons c l ih =>
    intro h
    have hc : c ≠ '\n' := fun hc => h (by simp [hc])
    have hl : '\n' ∉ l := fun hl => h (List.mem_cons_of_mem _ hl)
    unfold readLines
    rw [if_neg hc, ih hl]

theorem readLines_append_newline : ∀ (l rest : List Char), '\n' ∉ l →
    readLines (l ++ '\n' :: rest) = (l ++ ['\n']) :: readLines rest := by
  intro l
  induction l with
  | nil => intro rest _; simp [readLines]
  | cons c l ih =>
    intro rest h
    have hc : c ≠ '\n' := fun hc => h (by simp [hc])
    have hl : '\n' ∉ l := fun hl => h (List.mem_cons_of_mem _ hl)
    rw [List.cons_append, readLines, if_neg hc, ih rest hl]
    rfl

theorem trimLineEnd_append_newline (l : List Char) :
    trimLineEnd (l ++ ['\n']) = trimLineEnd l := by
  unfold trimLineEnd
  rw [List.rdropWhile_concat]
  simp

/-- The lines read from an input written line by line are those lines, the last one
included although nothing terminates it. -/
theorem sseLines_textOfLines : ∀ (ls : List (List Char)), ls ≠ [] → (∀ l ∈ ls, '\n' ∉ l) →
    sseLines (textOfLines ls) = ls.map trimLineEnd := by
  intro ls
  induction ls with
  | nil => intro h; exact absurd rfl h
  | cons l rest ih =>
    intro _ hno
    cases rest with
    | nil =>
      simp only [sseLines, textOfLines, List.intercalate, List.intersperse, List.flatten_cons,
        List.flatten_nil, List.append_nil, List.map_cons, List.map_nil]
      rw [readLines_of_no_newline l (hno l (by simp))]
      rfl
    | cons l2 rest2 =>
      have ih2 := ih (by simp) (fun x hx => hno x (List.mem_cons_of_mem _ hx))
      simp only [sseLines, textOfLines] at ih2
      have hsplit : List.intercalate ['\n'] (l :: l2 :: rest2) =
          l ++ '\n' :: List.intercalate ['\n'] (l2 :: rest2) := by
        simp [List.intercalate, List.intersperse]
      simp only [sseLines, textOfLines]
      rw [hsplit, readLines_append_newline l _ (hno l (by simp)), List.map_cons, ih2,
        trimLineEnd_append_newline]
      rfl

theorem eventsFrom_append_blank :
    ∀ (b rest : List (List Char)) (name : String) (datas : List String),
      eventsFrom name datas (b ++ [] :: rest) =
        eventsFrom name datas (b ++ [[]]) ++ eventsFrom "" [] rest := by
  intro b
  induction b with
  | nil =>
    intro rest name datas
    simp only [List.nil_append, eventsFrom, if_true]
    by_cases hd : datas.length = 0
    · simp [hd]
    · simp [hd]
  | cons line b ih =>
    intro rest name datas
    simp only [List.cons_append, eventsFrom]
    by_cases hb : line = []
    · simp only [if_pos hb]
      by_cases hd : datas.length = 0
      · simp only [if_pos hd]
        exact ih rest "" []
      · simp only [if_neg hd, List.cons_append]
        exact congrArg _ (ih rest "" [])
    · simp only [if_neg hb]
      cases hf : sseField line with
      | none => exact ih rest name datas
      | some fv =>
        rcases fv with ⟨field, value⟩
        simp only
        by_cases he : field = "event"
        · simp only [if_pos he]
          exact ih rest _ _
        · simp only [if_neg he]
          by_cases hd : field = "data"
          · simp only [if_pos hd]
            exact ih rest _ _
          · simp only [if_neg hd]
            exact ih rest _ _

theorem sseGroups_of_no_blank : ∀ (pending : List (List Char)), (∀ l ∈ pending, l ≠ []) →
    sseGroups pending = [pending] ∧ sseGroups (pending ++ [[]]) = [pending, []] := by
  intro pending
  induction pending with
  | nil => intro _; exact ⟨rfl, rfl⟩
  | cons l rest ih =>
    intro h
    have hl : l ≠ [] := h l (by simp)
    have ih2 := ih (fun x hx => h x (List.mem_cons_of_mem _ hx))
    constructor
    · unfold sseGroups
      rw [if_neg hl, ih2.1]
    · rw [List.cons_append]
      unfold sseGroups
      rw [if_neg hl, ih2.2]

theorem eventsFrom_pending (pending tail : List (List Char))
    (hpending : ∀ l ∈ pending, l ≠ []) (hdata : (groupData pending).length ≠ 0)
    (htail : tail = [] ∨ tail = [[]]) :
    eventsFrom "" [] (pending ++ tail) =
      [(groupEventName pending, Join (groupData pending) "\n")] := by
  rw [eventsFrom_eq_sseEvents]
  have hg := sseGroups_of_no_blank pending hpending
  have hnil : groupEvent [] = none := by decide
  have hev : groupEvent pending = some (groupEventName pending, Join (groupData pending) "\n") := by
    unfold groupEvent
    rw [if_neg hdata]
  rcases htail with h | h
  · rw [h, List.append_nil, hg.1]
    simp [hev]
  · rw [h, hg.2]
    simp [hev, hnil]

/-- C14: when the input ends with lines that no blank line terminates, `readSSEEvents` still
delivers their data lines, exactly once, as the last event. The input is given by its lines:
`before` (empty, or ended by a blank line), then the lines `pending`, none of them blank, of
which the last has no terminating `\n` (`tail = []`) or is terminated by the last character
of the input (`tail = [[]]`). The callback is invoked for the events of `before` and then
once for the event of `pending`, whose data includes the content of the last line. -/
theorem readSSEEvents_delivers_pending_at_end {σ : Type}
    (onEvent : σ → String → String → σ × Option CallbackError) (s : σ)
    (before pending tail : List (List Char))
    (hlines : ∀ l ∈ before ++ pending, '\n' ∉ l)
    (hbefore : before = [] ∨ ∃ b blank, before = b ++ [blank] ∧ trimLineEnd blank = [])
    (hpending : ∀ l ∈ pending, trimLineEnd l ≠ [])
    (hdata : (groupData (pending.map trimLineEnd)).length ≠ 0)
    (htail : tail = [] ∨ tail = [[]])
    (hok : ∀ s name data, (onEvent s name data).2 = none) :
    (readSSEEvents (textOfLines (before ++ pending ++ tail)) (traced onEvent) (s, [])).1.2 =
        sseEvents (textOfLines before) ++
          [(groupEventName (pending.map trimLineEnd),
            Join (groupData (pending.map trimLineEnd)) "\n")] ∧
    (readSSEEvents (textOfLines (before ++ pending ++ tail)) (traced onEvent) (s, [])).2 =
      false := by
  have hpne : pending ≠ [] := by
    intro h
    rw [h] at hdata
    exact hdata rfl
  have htl : ∀ l ∈ tail, '\n' ∉ l := by
    intro l hl
    rcases htail with h | h
    · rw [h] at hl; simp at hl
    · rw [h] at hl
      simp only [List.mem_singleton] at hl
      rw [hl]
      simp
  have hall : ∀ l ∈ before ++ pending ++ tail, '\n' ∉ l := by
    intro l hl
    rcases List.mem_append.mp hl with h | h
    · exact hlines l h
    · exact htl l h
  have hne : before ++ pending ++ tail ≠ [] := by
    intro h
    have := List.append_eq_nil.mp (List.append_eq_nil.mp h).1
    exact hpne this.2
  have hlinesEq := sseLines_textOfLines (before ++ pending ++ tail) hne hall
  have htailmap : tail.map trimLineEnd = tail := by
    rcases htail with h | h
    · rw [h]; rfl
    · rw [h]; rfl
  have hpend := eventsFrom_pending (pending.map trimLineEnd) tail
    (by
      intro l hl
      rcases List.mem_map.mp hl with ⟨x, hx, rfl⟩
      exact hpending x hx)
    hdata htail
  have hevents : sseEvents (textOfLines (before ++ pending ++ tail)) =
      sseEvents (textOfLines before) ++
        [(groupEventName (pending.map trimLineEnd),
          Join (groupData (pending.map trimLineEnd)) "\n")] := by
    unfold sseEvents
    rw [← eventsFrom_eq_sseEvents, ← eventsFrom_eq_sseEvents, hlinesEq]
    simp only [List.map_append, htailmap, List.append_assoc]
    rcases hbefore with h | ⟨b, blank, hb, hblank⟩
    · rw [h]
      simp only [List.map_nil, List.nil_append]
      rw [hpend]
      have : eventsFrom "" [] (sseLines (textOfLines [])) = [] := by decide
      rw [this]
      rfl
    · have hbl : sseLines (textOfLines before) = before.map trimLineEnd :=
        sseLines_textOfLines before (by rw [hb]; simp)
          (fun l hl => hlines l (List.mem_append_left _ hl))
      rw [hbl, hb]
      simp only [List.map_append, List.map_cons, List.map_nil, hblank, List.append_assoc,
        List.singleton_append]
      rw [eventsFrom_append_blank, hpend]
  have h1 := deliver_of_never_fails onEvent hok
    (sseEvents (textOfLines (before ++ pending ++ tail))) s
  have h2 := deliver_traced_of_ok onEvent _ [] s _ h1
  rw [readSSEEvents_eq_deliver, h2]
  simp only [readResult, List.nil_append]
  exact ⟨hevents, trivial⟩

theorem readSSEEvents_delivers_pending_at_end_witness :
    (readSSEEvents
        (textOfLines (["event: a".data, "data: x".data, "\r".data] ++
          ["event: b".data, "data: y\r".data, "data: z".data] ++ []))
        (traced (fun (s : Unit) (_ _ : String) => (s, (none : Option CallbackError))))
        ((), [])).1.2 =
      sseEvents (textOfLines ["event: a".data, "data: x".data, "\r".data]) ++
        [(groupEventName
            (["event: b".data, "data: y\r".data, "data: z".data].map trimLineEnd),
          Join (groupData
            (["event: b".data, "data: y\r".data, "data: z".data].map trimLineEnd)) "\n")] ∧
    (readSSEEvents
        (textOfLines (["event: a".data, "data: x".data, "\r".data] ++
          ["event: b".data, "data: y\r".data, "data: z".data] ++ []))
        (traced (fun (s : Unit) (_ _ : String) => (s, (none : Option CallbackError))))
        ((), [])).2 = false :=
  readSSEEvents_delivers_pending_at_end
    (fun (s : Unit) (_ _ : String) => (s, (none : Option CallbackError))) ()
    ["event: a".data, "data: x".data, "\r".data]
    ["event: b".data, "data: y\r".data, "data: z".data] []
    (by decide)
    (Or.inr ⟨["event: a".data, "data: x".data], "\r".data, rfl, by decide⟩)
    (by decide) (by decide) (Or.inl rfl) (fun _ _ _ => rfl)

/-- The sample input ends with the line `data: last`, which nothing terminates: its data is
delivered once, as the last event. -/
theorem readSSEEvents_sample_last_line :
    readSSEEvents sampleSSE recordEvent [] =
      ([("message", "a\nb"), ("", "stop"), ("", "last")], false) := by
  decide

/-! ## The route name of a text -/

theorem isRouteChar_ascii (c : Char) (h : isRouteChar c = true) : c.toNat < 128 := by
  simp only [isRouteChar, Bool.or_eq_true, Bool.and_eq_true, decide_eq_true_eq,
    beq_iff_eq, char_le_iff] at h
  have e1 : ('a' : Char).toNat = 97 := rfl
  have e2 : ('z' : Char).toNat = 122 := rfl
  have e3 : ('A' : Char).toNat = 65 := rfl
  have e4 : ('Z' : Char).toNat = 90 := rfl
  have e5 : ('0' : Char).toNat = 48 := rfl
  have e6 : ('9' : Char).toNat = 57 := rfl
  have h7 : c = '_' → c.toNat = 95 := fun h => by rw [h]; rfl
  have h8 : c = '-' → c.toNat = 45 := fun h => by rw [h]; rfl
  simp only [e1, e2, e3, e4, e5, e6] at h
  rcases h with (((h | h) | h) | h) | h
  · omega
  · omega
  · omega
  · have := h7 h; omega
  · have := h8 h; omega

theorem map_lowerRune_of_ascii (tbl : Char → Char) :
    ∀ (v : List Char), (∀ c ∈ v, c.toNat < 128) → v.map (lowerRune tbl) = v.map Char.toLower := by
  intro v
  induction v with
  | nil => intro _; rfl
  | cons a t ih =>
    intro h
    have ha : a.toNat < 128 := h a (by simp)
    simp only [List.map_cons, ih (fun c hc => h c (List.mem_cons_of_mem _ hc)), lowerRune,
      if_pos ha]

/-- C11: the text scanned for a string is the string trimmed, and for a block list the
trimmed texts of its non-blank text blocks joined by `\n`. When this text holds a `@route:`
marker, it has a first one, and `ExtractRouteName` returns the lower-cased value of that first
marker: the longest run of characters of `[A-Za-z0-9_-]` that follows the leftmost `@route:`
which such a character follows; whatever comes after that run, later markers included, does
not change the result. When the text holds no marker, the result is the empty string. -/
theorem ExtractRouteName_first_marker (lib : GoLib) (c : DynContent) :
    (∀ v, FirstMarker routeLiteral isRouteChar (NormalizeSystemText lib c).data v →
      ExtractRouteName lib c = ⟨v.map Char.toLower⟩) ∧
    (HasMarker routeLiteral isRouteChar (NormalizeSystemText lib c).data →
      ∃ v, FirstMarker routeLiteral isRouteChar (NormalizeSystemText lib c).data v) ∧
    (¬ HasMarker routeLiteral isRouteChar (NormalizeSystemText lib c).data →
      ExtractRouteName lib c = "") ∧
    (∀ s : String, NormalizeSystemText lib (.json (.string s)) = TrimSpace s) ∧
    (∀ bs : List AnthropicContentBlock, NormalizeSystemText lib (.blocks bs) =
      Join ((bs.filter (fun b => b.Kind = "text" ∧ TrimSpace b.Text ≠ "")).map
        (fun b => TrimSpace b.Text)) "\n") := by
  refine ⟨?_, ?_, ?_, fun _ => rfl, fun _ => rfl⟩
  · intro v hv
    have hf := findMarker_of_firstMarker routeLiteral isRouteChar _ v hv
    obtain ⟨_, _, _, _, hcls, _, _⟩ := hv
    have hp : routeMarkerPattern (NormalizeSystemText lib c) = some ⟨v⟩ := by
      unfold routeMarkerPattern
      unfold routeLiteral at hf
      rw [hf]
      rfl
    rw [ExtractRouteName_eq]
    unfold routeMarkerOf
    rw [hp]
    simp only [Option.map_some', Option.getD_some, ToLower]
    rw [map_lowerRune_of_ascii _ v (fun c hc => isRouteChar_ascii c (hcls c hc))]
  · intro h
    cases hf : findMarker routeLiteral isRouteChar (NormalizeSystemText lib c).data with
    | none => exact absurd h ((findMarker_eq_none_iff _ _ _).1 hf)
    | some v => exact ⟨v, firstMarker_of_findMarker _ _ _ v hf⟩
  · intro h
    have hf := (findMarker_eq_none_iff routeLiteral isRouteChar _).2 h
    rw [ExtractRouteName_eq]
    unfold routeMarkerOf routeMarkerPattern
    unfold routeLiteral at hf
    rw [hf]
    rfl

/-- The first marker of the sample block list is `Fast_1-b`; the marker of the second text
block and the one of the image block are not returned. -/
theorem ExtractRouteName_first_marker_witness :
    NormalizeSystemText plainLib sampleRouteBlocks = "be brief @route:Fast_1-b!\nthen @route:slow" ∧
    FirstMarker routeLiteral isRouteChar (NormalizeSystemText plainLib sampleRouteBlocks).data
      "Fast_1-b".data ∧
    ExtractRouteName plainLib sampleRouteBlocks = "fast_1-b" :=
  ⟨by decide, firstMarker_of_findMarker _ _ _ _ (by decide),
    (ExtractRouteName_first_marker plainLib sampleRouteBlocks).1 "Fast_1-b".data
      (firstMarker_of_findMarker _ _ _ _ (by decide))⟩

/-! ## Tool choice -/

/-- C19: for a tool choice given as a map `m`, `translateToolChoice` returns `"auto"` for the
type `auto`, `"required"` for `any`, `"none"` for `none`, the map
`type: function, function: (name: n)` for the type `tool` with name `n`, and the map itself,
unchanged, for every other type. -/
theorem translateToolChoice_of_map (m : JSONObject) :
    (toolChoiceType m = "auto" → translateToolChoice (.object m) = .string "auto") ∧
    (toolChoiceType m = "any" → translateToolChoice (.object m) = .string "required") ∧
    (toolChoiceType m = "none" → translateToolChoice (.object m) = .string "none") ∧
    (toolChoiceType m = "tool" → translateToolChoice (.object m) =
      .object [("type", .string "function"),
        ("function", .object [("name", .string (toolChoiceName m))])]) ∧
    (toolChoiceType m ∉ ["auto", "any", "none", "tool"] →
      translateToolChoice (.object m) = .object m) := by
  unfold toolChoiceType toolChoiceName translateToolChoice
  refine ⟨?_, ?_, ?_, ?_, ?_⟩
  · intro h
    simp [h]
  · intro h
    simp [h]
  · intro h
    simp [h]
  · intro h
    simp [h]
  · intro h
    simp only [List.mem_cons, List.mem_singleton, List.not_mem_nil, or_false, not_or] at h
    simp [h.1, h.2.1, h.2.2.1, h.2.2.2]

theorem translateToolChoice_of_map_witness :
    translateToolChoice (.object sampleToolChoice) =
        .object [("type", .string "function"),
          ("function", .object [("name", .string "shell")])] ∧
    translateToolChoice (.object [("type", .string "any")]) = .string "required" ∧
    translateToolChoice (.object [("type", .string "other"), ("name", .string "shell")]) =
      .object [("type", .string "other"), ("name", .string "shell")] :=
  ⟨(translateToolChoice_of_map sampleToolChoice).2.2.2.1 (by decide),
    (translateToolChoice_of_map [("type", .string "any")]).2.1 (by decide),
    (translateToolChoice_of_map [("type", .string "other"), ("name", .string "shell")]).2.2.2.2
      (by decide)⟩

/-- C20: for a tool choice given as a map `m`, `translateToolChoiceToResponses` returns
`"auto"` for the type `auto`, `"required"` for `any`, `"none"` for `none`, and for the type
`tool` with name `n` the map `type: function, name: n`, which has no field `function`. Every
other input, a map of another type or a value that is not a map, becomes `"auto"`, whereas
`translateToolChoice` returns that input unchanged. -/
theorem translateToolChoiceToResponses_cases (v : JSONValue) :
    (∀ m, v = .object m →
      (toolChoiceType m = "auto" → translateToolChoiceToResponses v = .string "auto") ∧
      (toolChoiceType m = "any" → translateToolChoiceToResponses v = .string "required") ∧
      (toolChoiceType m = "none" → translateToolChoiceToResponses v = .string "none") ∧
      (toolChoiceType m = "tool" →
        translateToolChoiceToResponses v =
          .object [("type", .string "function"), ("name", .string (toolChoiceName m))] ∧
        JSONValue.field
          [("type", .string "function"), ("name", .string (toolChoiceName m))] "function" =
            none)) ∧
    ((∀ m, v = .object m → toolChoiceType m ∉ ["auto", "any", "none", "tool"]) →
      translateToolChoiceToResponses v = .string "auto" ∧ translateToolChoice v = v) := by
  constructor
  · intro m hv
    subst hv
    unfold toolChoiceType toolChoiceName translateToolChoiceToResponses
    refine ⟨?_, ?_, ?_, ?_⟩
    · intro h
      simp [h]
    · intro h
      simp [h]
    · intro h
      simp [h]
    · intro h
      refine ⟨by simp [h], ?_⟩
      simp [JSONValue.field, GoMap.lookup]
  · intro h
    cases v with
    | object m =>
      have hm := h m rfl
      simp only [List.mem_cons, List.mem_singleton, List.not_mem_nil, or_false, not_or,
        toolChoiceType] at hm
      unfold translateToolChoiceToResponses translateToolChoice
      simp [hm.1, hm.2.1, hm.2.2.1, hm.2.2.2]
    | null => exact ⟨rfl, rfl⟩
    | bool b => exact ⟨rfl, rfl⟩
    | number n => exact ⟨rfl, rfl⟩
    | decimal n t => exact ⟨rfl, rfl⟩
    | string s => exact ⟨rfl, rfl⟩
    | array xs => exact ⟨rfl, rfl⟩

theorem translateToolChoiceToResponses_cases_witness :
    translateToolChoiceToResponses (.object sampleToolChoice) =
        .object [("type", .string "function"), ("name", .string "shell")] ∧
    translateToolChoiceToResponses (.string "any") = .string "auto" ∧
    translateToolChoice (.string "any") = .string "any" ∧
    translateToolChoiceToResponses (.object [("type", .string "other")]) = .string "auto" ∧
    translateToolChoice (.object [("type", .string "other")]) =
      .object [("type", .string "other")] :=
  ⟨((translateToolChoiceToResponses_cases (.object sampleToolChoice)).1 sampleToolChoice rfl).2.2.2
      (by decide) |>.1,
    ((translateToolChoiceToResponses_cases (.string "any")).2
      (fun m hm => by cases hm)).1,
    ((translateToolChoiceToResponses_cases (.string "any")).2
      (fun m hm => by cases hm)).2,
    ((translateToolChoiceToResponses_cases (.object [("type", .string "other")])).2
      (fun m hm => by cases hm; decide)).1,
    ((translateToolChoiceToResponses_cases (.object [("type", .string "other")])).2
      (fun m hm => by cases hm; decide)).2⟩

/-! ## The user message translator emits in block order -/

theorem userPiece_cases (lib : GoLib) (block : AnthropicContentBlock) :
    (block.Kind = "tool_result" ∧
      userPiece lib block = .flush [⟨"tool", extractToolResultText lib block.Content,
        block.ToolUseID, []⟩]) ∨
    (block.Kind = "text" ∧ TrimSpace block.Text ≠ "" ∧ userPiece lib block = .text block.Text) ∨
    (block.Kind ≠ "tool_result" ∧ ¬ (block.Kind = "text" ∧ TrimSpace block.Text ≠ "") ∧
      userPiece lib block = .skip) := by
  unfold userPiece
  by_cases h1 : block.Kind = "tool_result"
  · left
    exact ⟨h1, by rw [if_pos h1]⟩
  · by_cases h2 : block.Kind = "text" ∧ TrimSpace block.Text ≠ ""
    · right; left
      exact ⟨h2.1, h2.2, by rw [if_neg h1, if_pos h2]⟩
    · right; right
      exact ⟨h1, h2, by rw [if_neg h1, if_neg h2]⟩

theorem userMessageBlock_cases (lib : GoLib) (st : userMessageState)
    (block : AnthropicContentBlock) :
    (block.Kind = "tool_result" →
      userMessageBlock lib st block =
        { textParts := st.flushText.textParts
          out := st.flushText.out ++ [⟨"tool", extractToolResultText lib block.Content,
            block.ToolUseID, []⟩] }) ∧
    (block.Kind = "text" → TrimSpace block.Text ≠ "" →
      userMessageBlock lib st block = { st with textParts := st.textParts ++ [block.Text] }) ∧
    (block.Kind ≠ "tool_result" → ¬ (block.Kind = "text" ∧ TrimSpace block.Text ≠ "") →
      userMessageBlock lib st block = st) := by
  unfold userMessageBlock
  refine ⟨?_, ?_, ?_⟩
  · intro h
    have hne : ¬ block.Kind = "text" := by rw [h]; decide
    rw [if_neg hne, if_pos h]
  · intro h ht
    rw [if_pos h, if_pos ht]
  · intro h1 h2
    by_cases ht : block.Kind = "text"
    · have hb : ¬ TrimSpace block.Text ≠ "" := fun hb => h2 ⟨ht, hb⟩
      rw [if_pos ht, if_neg hb]
    · rw [if_neg ht, if_neg h1]

theorem userFlushText_cases (st : userMessageState) :
    st.flushText.textParts = [] ∧
    st.flushText.out =
      st.out ++ (if st.textParts.length = 0 then [] else [userTextMessage st.textParts]) := by
  unfold userMessageState.flushText
  by_cases h : st.textParts.length = 0
  · simp only [if_pos h, List.append_nil]
    exact ⟨List.length_eq_zero.mp h, trivial⟩
  · simp only [if_neg h, userTextMessage]
    exact ⟨trivial, trivial⟩

/-- The loop of `translateUserMessage` followed by the last `flushText` appends, to what was
emitted before, the run that the pending texts open and the emissions that follow it. -/
theorem userMessage_foldl (lib : GoLib) :
    ∀ (blocks : List AnthropicContentBlock) (st : userMessageState),
      (blocks.foldl (userMessageBlock lib) st).flushText.out =
        st.out ++
          (if (st.textParts ++
              (segmentPieces userTextMessage (blocks.map (userPiece lib))).1).length = 0
            then []
            else [userTextMessage (st.textParts ++
              (segmentPieces userTextMessage (blocks.map (userPiece lib))).1)]) ++
          (segmentPieces userTextMessage (blocks.map (userPiece lib))).2 := by
  intro blocks
  induction blocks with
  | nil =>
    intro st
    simp only [List.foldl_nil, List.map_nil, segmentPieces, List.append_nil]
    exact (userFlushText_cases st).2
  | cons block rest ih =>
    intro st
    simp only [List.foldl_cons, List.map_cons]
    rw [ih]
    rcases userPiece_cases lib block with ⟨hk, hp⟩ | ⟨hk, ht, hp⟩ | ⟨hk, ht, hp⟩
    · rw [hp, (userMessageBlock_cases lib st block).1 hk]
      simp only [segmentPieces, (userFlushText_cases st).1,
        (userFlushText_cases st).2, List.nil_append, List.append_nil,
        List.append_assoc, List.singleton_append]
    · rw [hp, (userMessageBlock_cases lib st block).2.1 hk ht]
      simp only [segmentPieces, List.append_assoc, List.singleton_append]
    · rw [hp, (userMessageBlock_cases lib st block).2.2 hk ht]
      simp only [segmentPieces]

theorem emitInOrder_user_eq_nil_iff (lib : GoLib) :
    ∀ (blocks : List AnthropicContentBlock),
      emitInOrder userTextMessage (blocks.map (userPiece lib)) = [] ↔
        ∀ b ∈ blocks, b.Kind ≠ "tool_result" ∧ ¬ (b.Kind = "text" ∧ TrimSpace b.Text ≠ "") := by
  intro blocks
  induction blocks with
  | nil => simp [emitInOrder, segmentPieces]
  | cons block rest ih =>
    simp only [List.map_cons, List.mem_cons, forall_eq_or_imp]
    rcases userPiece_cases lib block with ⟨hk, hp⟩ | ⟨hk, ht, hp⟩ | ⟨hk, ht, hp⟩
    · rw [hp]
      simp [emitInOrder, segmentPieces, hk]
    · rw [hp]
      simp [emitInOrder, segmentPieces, hk, ht]
    · rw [hp]
      have : emitInOrder userTextMessage (Piece.skip :: rest.map (userPiece lib)) =
          emitInOrder userTextMessage (rest.map (userPiece lib)) := by
        simp [emitInOrder, segmentPieces]
      rw [this, ih]
      constructor
      · intro h
        exact ⟨⟨hk, ht⟩, h⟩
      · intro h
        exact h.2

theorem translateUserMessage_of_blocks (lib : GoLib) (role : String) (content : DynContent)
    (hcontent : ∀ text, content ≠ .json (.string text)) :
    translateUserMessage lib ⟨role, content⟩ =
      if ((normalizeContentToBlocks lib content).foldl (userMessageBlock lib)
          ⟨[], []⟩).flushText.out.length = 0 then
        [⟨"user", normalizeContentToText lib content, "", []⟩]
      else
        ((normalizeContentToBlocks lib content).foldl (userMessageBlock lib)
          ⟨[], []⟩).flushText.out := by
  cases content with
  | json v =>
    cases v with
    | string text => exact absurd rfl (hcontent text)
    | null => rfl
    | bool b => rfl
    | number n => rfl
    | decimal n t => rfl
    | array xs => rfl
    | object kv => rfl
  | block b => rfl
  | blocks bs => rfl

theorem normalizeContentToText_of_no_text (lib : GoLib) (content : DynContent)
    (hcontent : ∀ text, content ≠ .json (.string text))
    (h : ∀ b ∈ normalizeContentToBlocks lib content,
      ¬ (b.Kind = "text" ∧ TrimSpace b.Text ≠ "")) :
    normalizeContentToText lib content = "" := by
  have hf : (normalizeContentToBlocks lib content).filter
      (fun block => block.Kind = "text" ∧ TrimSpace block.Text ≠ "") = [] := by
    rw [List.filter_eq_nil_iff]
    intro b hb
    simpa using h b hb
  cases content with
  | json v =>
    cases v with
    | string text => exact absurd rfl (hcontent text)
    | null => rfl
    | bool b => simp only [normalizeContentToText, hf]; rfl
    | number n => simp only [normalizeContentToText, hf]; rfl
    | decimal n t => simp only [normalizeContentToText, hf]; rfl
    | array xs => simp only [normalizeContentToText, hf]; rfl
    | object kv => simp only [normalizeContentToText, hf]; rfl
  | block b => simp only [normalizeContentToText, hf]; rfl
  | blocks bs => simp only [normalizeContentToText, hf]; rfl

/-- C16, as the code has it: for a user message whose content is not a Go string, with
`blocks` the block list of the content, `translateUserMessage` emits in block order one user
message per maximal run of non-blank text blocks that no `tool_result` block interrupts (its
content the texts joined by `\n`) and one tool message per `tool_result` block
(`tool_call_id` its `tool_use_id`, content `extractToolResultText` of its content), each at
its place. When the block list holds no non-blank text block and no `tool_result` block, so
that nothing would be emitted, it returns instead one user message with empty content. -/
theorem translateUserMessage_in_block_order (lib : GoLib) (role : String) (content : DynContent)
    (hcontent : ∀ text, content ≠ .json (.string text)) :
    (emitInOrder userTextMessage ((normalizeContentToBlocks lib content).map (userPiece lib)) ≠ [] →
      translateUserMessage lib ⟨role, content⟩ =
        emitInOrder userTextMessage ((normalizeContentToBlocks lib content).map (userPiece lib))) ∧
    (emitInOrder userTextMessage ((normalizeContentToBlocks lib content).map (userPiece lib)) = [] →
      translateUserMessage lib ⟨role, content⟩ = [⟨"user", "", "", []⟩] ∧
      normalizeContentToText lib content = "") ∧
    (emitInOrder userTextMessage ((normalizeContentToBlocks lib content).map (userPiece lib)) = [] ↔
      ∀ b ∈ normalizeContentToBlocks lib content,
        b.Kind ≠ "tool_result" ∧ ¬ (b.Kind = "text" ∧ TrimSpace b.Text ≠ "")) := by
  have hout := userMessage_foldl lib (normalizeContentToBlocks lib content) ⟨[], []⟩
  simp only [List.nil_append] at hout
  have heq := translateUserMessage_of_blocks lib role content hcontent
  rw [hout] at heq
  have hiff := emitInOrder_user_eq_nil_iff lib (normalizeContentToBlocks lib content)
  refine ⟨?_, ?_, hiff⟩
  · intro hne
    rw [heq]
    unfold emitInOrder at hne
    have : ¬ ((if (segmentPieces userTextMessage
        ((normalizeContentToBlocks lib content).map (userPiece lib))).1.length = 0 then []
      else [userTextMessage (segmentPieces userTextMessage
        ((normalizeContentToBlocks lib content).map (userPiece lib))).1]) ++
      (segmentPieces userTextMessage
        ((normalizeContentToBlocks lib content).map (userPiece lib))).2).length = 0 := by
      intro h
      exact hne (List.length_eq_zero.mp h)
    rw [if_neg this]
    rfl
  · intro hnil
    have htext : normalizeContentToText lib content = "" :=
      normalizeContentToText_of_no_text lib content hcontent
        (fun b hb => ((hiff.1 hnil) b hb).2)
    refine ⟨?_, htext⟩
    rw [heq]
    unfold emitInOrder at hnil
    rw [hnil, htext]
    rfl

theorem translateUserMessage_in_block_order_witness :
    translateUserMessage plainLib sampleUserMessage =
      [⟨"user", "before\nmore", "", []⟩, ⟨"tool", "tool output", "tool_1", []⟩,
       ⟨"user", "after", "", []⟩] := by
  have h := (translateUserMessage_in_block_order plainLib "user" sampleUserMessage.Content
    (fun text h => by cases h)).1 (by decide)
  exact h.trans (by decide)

/-- A block list without a non-blank text block and without a `tool_result` block has no run
and no tool message to emit, yet `translateUserMessage` returns a message for it. -/
theorem translateUserMessage_empty_emission :
    emitInOrder userTextMessage ([toolUseBlock "x" "y" ""].map (userPiece plainLib)) = [] ∧
    emitInOrder userTextMessage (([] : List AnthropicContentBlock).map (userPiece plainLib)) = [] ∧
    translateUserMessage plainLib ⟨"user", .blocks [toolUseBlock "x" "y" ""]⟩ =
      [⟨"user", "", "", []⟩] ∧
    translateUserMessage plainLib ⟨"user", .blocks []⟩ = [⟨"user", "", "", []⟩] ∧
    translateUserMessage plainLib ⟨"user", .blocks []⟩ ≠
      emitInOrder userTextMessage (([] : List AnthropicContentBlock).map (userPiece plainLib)) := by
  decide

/-! ## The assistant message translator -/

theorem assistantMessageLoop_spec (lib : GoLib) :
    ∀ (blocks : List AnthropicContentBlock) (i : Nat) (st : assistantMessageState),
      ∃ calls,
        (assistantMessageLoop lib blocks i st).textParts =
          st.textParts ++
            (blocks.filter (fun b => b.Kind = "text" ∧ TrimSpace b.Text ≠ "")).map
              (fun b => b.Text) ∧
        (assistantMessageLoop lib blocks i st).toolCalls = st.toolCalls ++ calls ∧
        List.Forall₂ ToolCallOf (blocks.filter (fun b => b.Kind = "tool_use")) calls := by
  intro blocks
  induction blocks with
  | nil =>
    intro i st
    exact ⟨[], by simp [assistantMessageLoop], by simp [assistantMessageLoop], by simp⟩
  | cons block rest ih =>
    intro i st
    obtain ⟨calls, h1, h2, h3⟩ := ih (i + 1) (assistantMessageBlock lib st i block)
    simp only [assistantMessageLoop]
    by_cases ht : block.Kind = "text"
    · have hu : ¬ block.Kind = "tool_use" := by rw [ht]; decide
      by_cases hb : TrimSpace block.Text ≠ ""
      · refine ⟨calls, ?_, ?_, ?_⟩
        · rw [h1]
          simp [assistantMessageBlock, ht, hb]
        · rw [h2]
          simp [assistantMessageBlock, ht, hb]
        · simpa [hu] using h3
      · refine ⟨calls, ?_, ?_, ?_⟩
        · rw [h1]
          simp only [assistantMessageBlock, if_pos ht, if_neg hb]
          simp [ht, hb]
        · rw [h2]
          simp only [assistantMessageBlock, if_pos ht, if_neg hb]
        · simpa [hu] using h3
    · by_cases hu : block.Kind = "tool_use"
      · refine ⟨(⟨if block.ID = "" then
              "tool_call_" ++ Itoa (lib.unixNano st.clock) ++ "_" ++ Itoa i else block.ID,
            0, "function",
            ⟨block.Name, if TrimSpace block.Input = "" then "\x7b\x7d" else block.Input⟩⟩ :
              OpenAIToolCall) :: calls, ?_, ?_, ?_⟩
        · rw [h1]
          simp only [assistantMessageBlock, if_neg ht, if_pos hu]
          simp [ht]
        · rw [h2]
          simp only [assistantMessageBlock, if_neg ht, if_pos hu, List.append_assoc,
            List.singleton_append]
        · have hf : (block :: rest).filter (fun b => b.Kind = "tool_use") =
              block :: rest.filter (fun b => b.Kind = "tool_use") := by
            simp [hu]
          rw [hf]
          refine List.Forall₂.cons ?_ h3
          refine ⟨rfl, rfl, ?_, ?_, rfl⟩
          · intro hid
            simp only [if_neg hid]
          · intro hid
            exact ⟨lib.unixNano st.clock, (i : Int), by simp only [if_pos hid]⟩
      · refine ⟨calls, ?_, ?_, ?_⟩
        · rw [h1]
          simp only [assistantMessageBlock, if_neg ht, if_neg hu]
          simp [ht]
        · rw [h2]
          simp only [assistantMessageBlock, if_neg ht, if_neg hu]
        · simpa [hu] using h3

/-- C17: for an assistant message whose content is not a Go string, with `blocks` the block
list of the content, `translateAssistantMessage` returns exactly one message: its role is
`assistant`, its content the texts of the non-blank text blocks joined by `\n`, and its tool
calls correspond one to one, in block order, to the `tool_use` blocks: each has the type
`function`, the name of its block, the id of its block when that id is not empty (a generated
id otherwise), and as arguments the input of the block, or an empty JSON object when that
input is empty or white space. -/
theorem translateAssistantMessage_of_blocks (lib : GoLib) (clock : Nat) (role : String)
    (content : DynContent) (hcontent : ∀ text, content ≠ .json (.string text)) :
    ∃ calls,
      (translateAssistantMessage lib clock ⟨role, content⟩).1 =
        [⟨"assistant",
          Join (((normalizeContentToBlocks lib content).filter
            (fun b => b.Kind = "text" ∧ TrimSpace b.Text ≠ "")).map (fun b => b.Text)) "\n",
          "", calls⟩] ∧
      List.Forall₂ ToolCallOf
        ((normalizeContentToBlocks lib content).filter (fun b => b.Kind = "tool_use")) calls := by
  obtain ⟨calls, h1, h2, h3⟩ :=
    assistantMessageLoop_spec lib (normalizeContentToBlocks lib content) 0 ⟨[], [], clock⟩
  simp only [List.nil_append] at h1 h2
  refine ⟨calls, ?_, h3⟩
  have heq : (translateAssistantMessage lib clock ⟨role, content⟩).1 =
      [⟨"assistant",
        Join (assistantMessageLoop lib (normalizeContentToBlocks lib content) 0
          ⟨[], [], clock⟩).textParts "\n", "",
        (assistantMessageLoop lib (normalizeContentToBlocks lib content) 0
          ⟨[], [], clock⟩).toolCalls⟩] := by
    cases content with
    | json v =>
      cases v with
      | string text => exact absurd rfl (hcontent text)
      | null => rfl
      | bool b => rfl
      | number n => rfl
      | decimal n t => rfl
      | array xs => rfl
      | object kv => rfl
    | block b => rfl
    | blocks bs => rfl
  rw [heq, h1, h2]

theorem translateAssistantMessage_of_blocks_witness :
    (∀ text, sampleAssistantMessage.Content ≠ .json (.string text)) ∧
    ∃ calls,
      (translateAssistantMessage plainLib 0 ⟨"assistant", sampleAssistantMessage.Content⟩).1 =
        [⟨"assistant",
          Join (((normalizeContentToBlocks plainLib sampleAssistantMessage.Content).filter
            (fun b => b.Kind = "text" ∧ TrimSpace b.Text ≠ "")).map (fun b => b.Text)) "\n",
          "", calls⟩] ∧
      List.Forall₂ ToolCallOf
        ((normalizeContentToBlocks plainLib sampleAssistantMessage.Content).filter
          (fun b => b.Kind = "tool_use")) calls :=
  ⟨fun _ h => DynContent.noConfusion h,
    translateAssistantMessage_of_blocks plainLib 0 "assistant" sampleAssistantMessage.Content
      (fun _ h => DynContent.noConfusion h)⟩

/-- The translation of the sample assistant message. -/
theorem translateAssistantMessage_sample :
    translateAssistantMessage plainLib 0 sampleAssistantMessage =
      ([⟨"assistant", "calling tool\nand more", "",
          [⟨"tool_1", 0, "function", ⟨"search", "\x7b\"q\":\"golang\"\x7d"⟩⟩,
           ⟨"tool_2", 0, "function", ⟨"list", "\x7b\x7d"⟩⟩,
           ⟨"tool_call_1000_5", 0, "function", ⟨"stat", " [1] "⟩⟩]⟩], 1) := by
  decide

/-! ## The stream flag of the responses request -/

/-- The responses request translated from a request whose stream flag is false has its
stream flag false: `translateAnthropicToResponses` does not set it to true. -/
theorem translateAnthropicToResponses_stream_false :
    sampleToolRequest.Stream = false ∧
    (translateAnthropicToResponses plainLib 0 sampleToolRequest "gpt-5" "").1.Stream = false := by
  decide

/-- C15, as the code has it: `translateAnthropicToResponses` copies the stream flag of the
request; it is `proxyChatGPT` that sets the flag of the translated request to true before
sending it, so the request sent upstream has `stream = true` whatever the flag of the caller,
and is otherwise the translated request. -/
theorem proxyChatGPT_forces_stream (lib : GoLib) (clock : Nat) (req : AnthropicMessageRequest)
    (model reasoningEffort : String) :
    (translateAnthropicToResponses lib clock req model reasoningEffort).1.Stream = req.Stream ∧
    (proxyChatGPTRequest lib clock req model reasoningEffort).1.Stream = true ∧
    (proxyChatGPTRequest lib clock req model reasoningEffort).1 =
      { (translateAnthropicToResponses lib clock req model reasoningEffort).1 with
        Stream := true } :=
  ⟨rfl, rfl, rfl⟩

/-! ## The input items of the responses request -/

theorem responsesFlushText_cases (role : String) (st : responsesInputState) :
    (st.flushText role).textParts = [] ∧
    (st.flushText role).out =
      st.out ++ (if st.textParts.length = 0 then [] else [responsesTextItem role st.textParts]) ∧
    (st.flushText role).clock = st.clock := by
  unfold responsesInputState.flushText
  by_cases h : st.textParts.length = 0
  · simp only [if_pos h, List.append_nil]
    exact ⟨List.length_eq_zero.mp h, trivial, trivial⟩
  · simp only [if_neg h, responsesTextItem]
    exact ⟨trivial, trivial, trivial⟩

theorem responsesInputLoop_spec (lib : GoLib) (role : String) :
    ∀ (blocks : List AnthropicContentBlock) (i : Nat) (st : responsesInputState),
      ∃ pieces,
        List.Forall₂ (ResponsesPieceOf lib) blocks pieces ∧
        ((responsesInputLoop lib role blocks i st).flushText role).out =
          st.out ++
            (if (st.textParts ++ (segmentPieces (responsesTextItem role) pieces).1).length = 0
              then []
              else [responsesTextItem role
                (st.textParts ++ (segmentPieces (responsesTextItem role) pieces).1)]) ++
            (segmentPieces (responsesTextItem role) pieces).2 := by
  intro blocks
  induction blocks with
  | nil =>
    intro i st
    refine ⟨[], List.Forall₂.nil, ?_⟩
    simp only [responsesInputLoop, segmentPieces, List.append_nil]
    exact (responsesFlushText_cases role st).2.1
  | cons block rest ih =>
    intro i st
    obtain ⟨pieces, hp, hout⟩ := ih (i + 1) (responsesInputBlock lib role st i block)
    simp only [responsesInputLoop]
    rw [hout]
    have hfl := responsesFlushText_cases role st
    by_cases ht : block.Kind = "text"
    · by_cases hb : TrimSpace block.Text ≠ ""
      · refine ⟨.text block.Text :: pieces, List.Forall₂.cons ?_ hp, ?_⟩
        · unfold ResponsesPieceOf
          rw [if_pos ht, if_pos hb]
        · simp only [responsesInputBlock, if_pos ht, if_pos hb, segmentPieces,
            List.append_assoc, List.singleton_append]
      · refine ⟨.skip :: pieces, List.Forall₂.cons ?_ hp, ?_⟩
        · unfold ResponsesPieceOf
          rw [if_pos ht, if_neg hb]
        · simp only [responsesInputBlock, if_pos ht, if_neg hb, segmentPieces]
    · by_cases hu : block.Kind = "tool_use"
      · refine ⟨.flush [(⟨"function_call", "", "",
            "fc_" ++ (if TrimSpace block.ID = "" then
              "toolu_" ++ Itoa (lib.unixNano st.clock) ++ "_" ++ Itoa i else TrimSpace block.ID),
            (if TrimSpace block.ID = "" then
              "toolu_" ++ Itoa (lib.unixNano st.clock) ++ "_" ++ Itoa i else TrimSpace block.ID),
            block.Name, safeJSONRawMessage lib block.Input, ""⟩ : ResponsesInputItem)] :: pieces,
          List.Forall₂.cons ?_ hp, ?_⟩
        · unfold ResponsesPieceOf
          rw [if_neg ht, if_pos hu]
          refine ⟨_, rfl, rfl, rfl, rfl, rfl, rfl, rfl, rfl, ?_, ?_⟩
          · intro hid
            simp only [if_neg hid]
          · intro hid
            exact ⟨lib.unixNano st.clock, (i : Int), by simp only [if_pos hid]⟩
        · simp only [responsesInputBlock, if_neg ht, if_pos hu, segmentPieces, hfl.1, hfl.2.1,
            hfl.2.2, List.nil_append, List.append_nil, List.append_assoc, List.singleton_append,
            decide_eq_true_eq]
      · by_cases hr : block.Kind = "tool_result"
        · by_cases hid : TrimSpace block.ToolUseID = ""
          · refine ⟨.flush [] :: pieces, List.Forall₂.cons ?_ hp, ?_⟩
            · unfold ResponsesPieceOf
              rw [if_neg ht, if_neg hu, if_pos hr, if_pos hid]
            · simp only [responsesInputBlock, if_neg ht, if_neg hu, if_pos hr, if_pos hid,
                segmentPieces, hfl.1, hfl.2.1, List.nil_append, List.append_nil,
                List.append_assoc]
          · refine ⟨.flush [functionCallOutputOf lib block] :: pieces,
              List.Forall₂.cons ?_ hp, ?_⟩
            · unfold ResponsesPieceOf
              rw [if_neg ht, if_neg hu, if_pos hr, if_neg hid]
            · simp only [responsesInputBlock, if_neg ht, if_neg hu, if_pos hr, if_neg hid,
                segmentPieces, hfl.1, hfl.2.1, List.nil_append, List.append_nil,
                List.append_assoc, List.singleton_append, functionCallOutputOf]
        · refine ⟨.skip :: pieces, List.Forall₂.cons ?_ hp, ?_⟩
          · unfold ResponsesPieceOf
            rw [if_neg ht, if_neg hu, if_neg hr]
          · simp only [responsesInputBlock, if_neg ht, if_neg hu, if_neg hr, segmentPieces]

theorem responsesInputMessage_of_blocks (lib : GoLib) (acc : List ResponsesInputItem × Nat)
    (role : String) (content : DynContent)
    (hrole : ¬ (role ≠ "user" ∧ role ≠ "assistant"))
    (hcontent : ∀ text, content ≠ .json (.string text)) :
    (responsesInputMessage lib acc ⟨role, content⟩).1 =
      ((responsesInputLoop lib role (normalizeContentToBlocks lib content) 0
        ⟨[], acc.1, acc.2⟩).flushText role).out := by
  unfold responsesInputMessage
  cases content with
  | json v =>
    cases v with
    | string text => exact absurd rfl (hcontent text)
    | null => simp only [if_neg hrole]
    | bool b => simp only [if_neg hrole]
    | number n => simp only [if_neg hrole]
    | decimal n t => simp only [if_neg hrole]
    | array xs => simp only [if_neg hrole]
    | object kv => simp only [if_neg hrole]
  | block b => simp only [if_neg hrole]
  | blocks bs => simp only [if_neg hrole]

theorem responsesInputMessage_spec (lib : GoLib) (acc : List ResponsesInputItem × Nat)
    (message : AnthropicMessage) :
    ∃ items, ResponsesItemsOf lib message items ∧
      (responsesInputMessage lib acc message).1 = acc.1 ++ items := by
  rcases message with ⟨role, content⟩
  by_cases hrole : role ≠ "user" ∧ role ≠ "assistant"
  · refine ⟨[], ⟨fun _ => rfl, fun h => absurd hrole h⟩, ?_⟩
    unfold responsesInputMessage
    simp only [if_pos hrole, List.append_nil]
  · by_cases hstr : ∃ text, content = .json (.string text)
    · obtain ⟨text, rfl⟩ := hstr
      refine ⟨if TrimSpace text = "" then [] else [⟨"message", role, text, "", "", "", "", ""⟩],
        ⟨fun h => absurd h hrole, fun _ => ⟨?_, ?_⟩⟩, ?_⟩
      · intro t ht
        simp only [DynContent.json.injEq, JSONValue.string.injEq] at ht
        rw [ht]
      · intro h
        exact absurd rfl (h text)
      · unfold responsesInputMessage
        simp only [if_neg hrole]
        by_cases hb : TrimSpace text = ""
        · simp only [if_pos hb, List.append_nil]
        · simp only [if_neg hb]
    · have hcontent : ∀ text, content ≠ .json (.string text) :=
        fun text h => hstr ⟨text, h⟩
      obtain ⟨pieces, hp, hout⟩ :=
        responsesInputLoop_spec lib role (normalizeContentToBlocks lib content) 0
          ⟨[], acc.1, acc.2⟩
      refine ⟨emitInOrder (responsesTextItem role) pieces,
        ⟨fun h => absurd h hrole, fun _ => ⟨?_, ?_⟩⟩, ?_⟩
      · intro t ht
        exact absurd ht (hcontent t)
      · intro _
        exact ⟨pieces, hp, rfl⟩
      · rw [responsesInputMessage_of_blocks lib acc role content hrole hcontent, hout]
        simp only [List.nil_append, emitInOrder, List.append_assoc]

theorem responsesInput_foldl_spec (lib : GoLib) :
    ∀ (messages : List AnthropicMessage) (acc : List ResponsesInputItem × Nat),
      ∃ itemLists, List.Forall₂ (ResponsesItemsOf lib) messages itemLists ∧
        (messages.foldl (responsesInputMessage lib) acc).1 = acc.1 ++ itemLists.flatten := by
  intro messages
  induction messages with
  | nil =>
    intro acc
    exact ⟨[], List.Forall₂.nil, by simp⟩
  | cons message rest ih =>
    intro acc
    obtain ⟨items, hi, hout⟩ := responsesInputMessage_spec lib acc message
    obtain ⟨itemLists, hl, hrest⟩ := ih (responsesInputMessage lib acc message)
    refine ⟨items :: itemLists, List.Forall₂.cons hi hl, ?_⟩
    simp only [List.foldl_cons, hrest, hout, List.flatten_cons, List.append_assoc]

/-- A `tool_use` block without id, or with an id that white space surrounds, does not give its
id to the `call_id` of the item: the first gets a generated `call_id`, the second the id
without the white space. -/
theorem responsesInput_call_id_not_block_id :
    (translateAnthropicMessagesToResponsesInput plainLib 0
        [⟨"assistant", .blocks [toolUseBlock "" "list" "\x7b\x7d"]⟩]).1 =
      [⟨"function_call", "", "", "fc_toolu_1000_0", "toolu_1000_0", "list", "\x7b\x7d", ""⟩] ∧
    (translateAnthropicMessagesToResponsesInput plainLib 0
        [⟨"assistant", .blocks [toolUseBlock " tool_1 " "list" "\x7b\x7d"]⟩]).1 =
      [⟨"function_call", "", "", "fc_tool_1", "tool_1", "list", "\x7b\x7d", ""⟩] ∧
    (translateAnthropicMessagesToResponsesInput plainLib 0
        [⟨"assistant", .blocks [toolUseBlock "" "list" "\x7b\x7d"]⟩]).1.map (fun it => it.CallID) ≠
      [toolUseBlock "" "list" "\x7b\x7d"].map (fun b => b.ID) := by
  decide

/-- C18, as the code has it: the input items are those of the messages, in message order. A
message whose role is neither `user` nor `assistant` gives none. A message whose content is a
block list gives its items in block order: the pending non-blank texts are flushed as one
message item (joined by `\n`) before each `tool_use` or `tool_result` block and after the
last block; a `tool_use` block becomes a `function_call` item whose `call_id` is the id of
the block trimmed of white space, or a generated one when nothing is left, and whose `id` is
`fc_` followed by the `call_id`; a `tool_result` block with a non-blank `tool_use_id` becomes
a `function_call_output` item whose output is the extracted text, or `(empty)` when that text
is empty; a `tool_result` block with a blank `tool_use_id` gives no item. -/
theorem translateAnthropicMessagesToResponsesInput_in_block_order (lib : GoLib) (clock : Nat)
    (messages : List AnthropicMessage) :
    ∃ itemLists, List.Forall₂ (ResponsesItemsOf lib) messages itemLists ∧
      (translateAnthropicMessagesToResponsesInput lib clock messages).1 = itemLists.flatten := by
  obtain ⟨itemLists, hl, hout⟩ := responsesInput_foldl_spec lib messages ([], clock)
  exact ⟨itemLists, hl, by simpa using hout⟩

/-- The input items of the sample message list. -/
theorem translateAnthropicMessagesToResponsesInput_sample :
    translateAnthropicMessagesToResponsesInput plainLib 0 sampleResponsesMessages =
      ([⟨"message", "assistant", "calling\ntwice", "", "", "", "", ""⟩,
        ⟨"function_call", "", "", "fc_tool_1", "tool_1", "search", "\x7b\"q\":\"go\"\x7d", ""⟩,
        ⟨"function_call", "", "", "fc_toolu_1000_4", "toolu_1000_4", "list", "\x7b\x7d", ""⟩,
        ⟨"message", "user", "results", "", "", "", "", ""⟩,
        ⟨"function_call_output", "", "", "", "tool_1", "", "", "(empty)"⟩,
        ⟨"message", "user", "thanks", "", "", "", "", ""⟩], 1) := by
  decide

/-! ## Tools, stream options and non-streaming responses -/

/-- C21: for every tool list, `translateTools` and `translateAnthropicToolsToResponses` each
return a list of the length of the input whose entry at every position is of type `function`
and carries the name and the description of the tool at that position, with as parameters
the `input_schema` of the tool, or the schema of an object without properties when the
`input_schema` is empty. -/
theorem translateTools_entries (tools : List AnthropicTool) :
    (translateTools tools).length = tools.length ∧
    (translateAnthropicToolsToResponses tools).length = tools.length ∧
    ∀ (i : Nat) (tool : AnthropicTool), tools[i]? = some tool →
      (translateTools tools)[i]? =
        some ⟨"function", ⟨tool.Name, tool.Description,
          if tool.InputSchema = "" then defaultToolParameters else tool.InputSchema⟩⟩ ∧
      (translateAnthropicToolsToResponses tools)[i]? =
        some ⟨"function", tool.Name, tool.Description,
          if tool.InputSchema = "" then defaultToolParameters else tool.InputSchema⟩ := by
  have hlen : ∀ s : String, s.length = 0 ↔ s = "" := by
    intro s
    constructor
    · intro h
      have : s.data = [] := List.length_eq_zero.mp h
      cases s
      simp only at this
      rw [this]
    · intro h
      rw [h]
      rfl
  refine ⟨by simp [translateTools], by simp [translateAnthropicToolsToResponses], ?_⟩
  intro i tool hi
  unfold translateTools translateAnthropicToolsToResponses defaultToolParameters
  simp only [List.getElem?_map, hi, Option.map_some']
  by_cases he : tool.InputSchema = ""
  · have h0 : tool.InputSchema.length = 0 := (hlen _).2 he
    simp only [if_pos he, if_pos h0]
    exact ⟨trivial, trivial⟩
  · have h0 : ¬ tool.InputSchema.length = 0 := fun h => he ((hlen _).1 h)
    simp only [if_neg he, if_neg h0]
    exact ⟨trivial, trivial⟩

theorem translateTools_entries_witness :
    (translateTools sampleToolRequest.Tools)[0]? =
        some ⟨"function", ⟨"search", "", "\x7b\"type\":\"object\"\x7d"⟩⟩ ∧
    (translateAnthropicToolsToResponses sampleToolRequest.Tools)[0]? =
        some ⟨"function", "search", "", "\x7b\"type\":\"object\"\x7d"⟩ :=
  (translateTools_entries sampleToolRequest.Tools).2.2 0
    ⟨"search", "", "\x7b\"type\":\"object\"\x7d"⟩ rfl

/-- A tool without `input_schema` is forwarded with the default schema. -/
theorem translateTools_default_schema :
    translateTools [⟨"list", "lists", ""⟩] =
        [⟨"function", ⟨"list", "lists", "\x7b\"type\":\"object\",\"properties\":\x7b\x7d\x7d"⟩⟩] ∧
    translateAnthropicToolsToResponses [⟨"list", "lists", ""⟩] =
        [⟨"function", "list", "lists", "\x7b\"type\":\"object\",\"properties\":\x7b\x7d\x7d"⟩] := by
  decide

/-- C22: for every request, `TranslateAnthropicToOpenAI` copies `stream` to the output; it sets
`stream_options` to `include_usage: true` when `stream` is true, and leaves `stream_options`
unset when `stream` is false. -/
theorem TranslateAnthropicToOpenAI_stream (lib : GoLib) (clock : Nat)
    (req : AnthropicMessageRequest) (model : String) :
    (TranslateAnthropicToOpenAI lib clock req model).1.Stream = req.Stream ∧
    (req.Stream = true →
      (TranslateAnthropicToOpenAI lib clock req model).1.StreamOptions =
        some { IncludeUsage := true }) ∧
    (req.Stream = false →
      (TranslateAnthropicToOpenAI lib clock req model).1.StreamOptions = none) := by
  refine ⟨rfl, ?_, ?_⟩
  · intro h
    simp [TranslateAnthropicToOpenAI, h]
  · intro h
    simp [TranslateAnthropicToOpenAI, h]

theorem TranslateAnthropicToOpenAI_stream_witness :
    (TranslateAnthropicToOpenAI plainLib 0 { sampleToolRequest with Stream := true }
        "gpt-5").1.StreamOptions = some { IncludeUsage := true } ∧
    (TranslateAnthropicToOpenAI plainLib 0 sampleToolRequest "gpt-5").1.StreamOptions = none :=
  ⟨(TranslateAnthropicToOpenAI_stream plainLib 0 { sampleToolRequest with Stream := true }
      "gpt-5").2.1 rfl,
    (TranslateAnthropicToOpenAI_stream plainLib 0 sampleToolRequest "gpt-5").2.2 rfl⟩

/-- C23: for every OpenAI chat response with at least one choice,
`convertOpenAINonStreamToAnthropic` returns a message of type `message` and role `assistant`
whose model is the spoof model, whose usage is the prompt and completion tokens of the
response, whose stop reason is `mapFinishReason` of the finish reason of the first choice,
and whose content is a text block holding the content of the first choice when that content
is not blank, followed by one `tool_use` block per tool call of the first choice, in order,
with the id and name of the call and as input `safeJSONRawMessage` of its arguments. -/
theorem convertOpenAINonStreamToAnthropic_of_choice (lib : GoLib) (clock : Nat)
    (resp : OpenAIChatResponse) (spoofModel : String) (choice : OpenAIChoice)
    (rest : List OpenAIChoice) (hchoices : resp.Choices = choice :: rest) :
    (convertOpenAINonStreamToAnthropic lib clock resp spoofModel).Kind = "message" ∧
    (convertOpenAINonStreamToAnthropic lib clock resp spoofModel).Role = "assistant" ∧
    (convertOpenAINonStreamToAnthropic lib clock resp spoofModel).Model = spoofModel ∧
    (convertOpenAINonStreamToAnthropic lib clock resp spoofModel).Usage =
      ⟨resp.Usage.PromptTokens, resp.Usage.CompletionTokens⟩ ∧
    (convertOpenAINonStreamToAnthropic lib clock resp spoofModel).StopReason =
      mapFinishReason choice.FinishReason ∧
    (convertOpenAINonStreamToAnthropic lib clock resp spoofModel).Content =
      (if TrimSpace choice.Message.Content ≠ "" then
          [⟨"text", choice.Message.Content, "", "", "", "", .null⟩]
        else []) ++
        choice.Message.ToolCalls.map (fun tc =>
          ⟨"tool_use", "", tc.ID, tc.Function.Name,
            safeJSONRawMessage lib tc.Function.Arguments, "", .null⟩) := by
  unfold convertOpenAINonStreamToAnthropic
  rw [hchoices]
  exact ⟨rfl, rfl, rfl, rfl, rfl, rfl⟩

theorem convertOpenAINonStreamToAnthropic_of_choice_witness :
    (convertOpenAINonStreamToAnthropic plainLib 0 sampleChatResponse "claude-spoof").Kind =
      "message" ∧
    (convertOpenAINonStreamToAnthropic plainLib 0 sampleChatResponse "claude-spoof").Role =
      "assistant" ∧
    (convertOpenAINonStreamToAnthropic plainLib 0 sampleChatResponse "claude-spoof").Model =
      "claude-spoof" ∧
    (convertOpenAINonStreamToAnthropic plainLib 0 sampleChatResponse "claude-spoof").Usage =
      ⟨10, 20⟩ ∧
    (convertOpenAINonStreamToAnthropic plainLib 0 sampleChatResponse "claude-spoof").StopReason =
      mapFinishReason "tool_calls" ∧
    (convertOpenAINonStreamToAnthropic plainLib 0 sampleChatResponse "claude-spoof").Content =
      (if TrimSpace "hello" ≠ "" then [⟨"text", "hello", "", "", "", "", .null⟩] else []) ++
        [(⟨"call_1", 0, "function", ⟨"search", "\x7b\"q\":\"go\"\x7d"⟩⟩ : OpenAIToolCall)].map
          (fun tc =>
            ⟨"tool_use", "", tc.ID, tc.Function.Name,
              safeJSONRawMessage plainLib tc.Function.Arguments, "", .null⟩) :=
  convertOpenAINonStreamToAnthropic_of_choice plainLib 0 sampleChatResponse "claude-spoof"
    _ [] rfl

/-- The translation of the sample chat response. -/
theorem convertOpenAINonStreamToAnthropic_sample :
    (convertOpenAINonStreamToAnthropic plainLib 0 sampleChatResponse "claude-spoof").Content =
        [⟨"text", "hello", "", "", "", "", .null⟩,
         ⟨"tool_use", "", "call_1", "search", "\x7b\"q\":\"go\"\x7d", "", .null⟩] ∧
    (convertOpenAINonStreamToAnthropic plainLib 0 sampleChatResponse "claude-spoof").StopReason =
      "tool_use" ∧
    (convertOpenAINonStreamToAnthropic plainLib 0 sampleChatResponse "claude-spoof").ID =
      "msg_1000" :=
  ⟨rfl, rfl, rfl⟩

/-- C25: `mapFinishReason` returns a value for every string: `end_turn` for `stop`,
`max_tokens` for `length`, `tool_use` for `tool_calls`, and `end_turn` for every other string;
so its result is always one of `end_turn`, `max_tokens` and `tool_use`. -/
theorem mapFinishReason_total (v : String) :
    mapFinishReason "stop" = "end_turn" ∧ mapFinishReason "length" = "max_tokens" ∧
    mapFinishReason "tool_calls" = "tool_use" ∧
    (v ∉ ["stop", "length", "tool_calls"] → mapFinishReason v = "end_turn") ∧
    mapFinishReason v ∈ ["end_turn", "max_tokens", "tool_use"] := by
  refine ⟨by decide, by decide, by decide, ?_, ?_⟩
  · intro h
    simp only [List.mem_cons, List.mem_singleton, List.not_mem_nil, or_false, not_or] at h
    unfold mapFinishReason
    rw [if_neg h.1, if_neg h.2.1, if_neg h.2.2]
  · unfold mapFinishReason
    split
    · simp
    · split
      · simp
      · split <;> simp

theorem mapFinishReason_total_witness :
    mapFinishReason "content_filter" = "end_turn" :=
  (mapFinishReason_total "content_filter").2.2.2.1 (by decide)

/-! ## The function `safeJSONRawMessage` -/

theorem TrimSpace_idem (s : String) : TrimSpace (TrimSpace s) = TrimSpace s := by
  unfold TrimSpace
  simp only [trimSpaceChars_idem]

theorem safeJSONRawMessage_cases (lib : GoLib) (raw : String) :
    (TrimSpace raw = "" → safeJSONRawMessage lib raw = "\x7b\x7d") ∧
    (lib.jsonValid (TrimSpace raw) = false → safeJSONRawMessage lib raw = "\x7b\x7d") ∧
    (TrimSpace raw ≠ "" → lib.jsonValid (TrimSpace raw) = true →
      safeJSONRawMessage lib raw = TrimSpace raw) := by
  unfold safeJSONRawMessage
  refine ⟨?_, ?_, ?_⟩
  · intro h
    simp only [h, if_true]
  · intro h
    by_cases he : TrimSpace raw = ""
    · simp only [he, if_true]
    · simp only [if_neg he, h]
      simp
  · intro he hv
    simp only [if_neg he, hv]
    simp

/-- An input that is not valid JSON because white space other than the four JSON white space
characters surrounds it is not replaced by an empty object: `safeJSONRawMessage` trims it
first, and returns what is left when that is valid. The instance `plainLib` agrees with
`json.Valid` on the two texts involved. -/
theorem safeJSONRawMessage_padded_input :
    plainLib.jsonValid paddedJSON = false ∧
    TrimSpace paddedJSON = "\x7b\"q\":\"go\"\x7d" ∧
    safeJSONRawMessage plainLib paddedJSON = "\x7b\"q\":\"go\"\x7d" ∧
    safeJSONRawMessage plainLib paddedJSON ≠ "\x7b\x7d" := by
  decide

/-- C24, as the code has it, for a `json.Valid` that accepts the empty object and that, when
it accepts a text, accepts that text trimmed of its surrounding white space, which is not
empty: `safeJSONRawMessage` applied to its own result returns that result; on valid JSON its
result is valid JSON, on which it is the identity; and it returns the empty object for every
input that is blank or that, once trimmed, is not valid JSON (it returns the trimmed input
in every other case). -/
theorem safeJSONRawMessage_idempotent (lib : GoLib)
    (hobject : lib.jsonValid "\x7b\x7d" = true)
    (htrim : ∀ s, lib.jsonValid s = true →
      lib.jsonValid (TrimSpace s) = true ∧ TrimSpace s ≠ "") (raw : String) :
    safeJSONRawMessage lib (safeJSONRawMessage lib raw) = safeJSONRawMessage lib raw ∧
    (lib.jsonValid raw = true →
      lib.jsonValid (safeJSONRawMessage lib raw) = true ∧
      safeJSONRawMessage lib (safeJSONRawMessage lib raw) = safeJSONRawMessage lib raw) ∧
    (TrimSpace raw = "" ∨ lib.jsonValid (TrimSpace raw) = false →
      safeJSONRawMessage lib raw = "\x7b\x7d") ∧
    (TrimSpace raw ≠ "" → lib.jsonValid (TrimSpace raw) = true →
      safeJSONRawMessage lib raw = TrimSpace raw) := by
  have hfix : ∀ t : String, TrimSpace t = t → t ≠ "" → lib.jsonValid t = true →
      safeJSONRawMessage lib t = t := by
    intro t ht hne hv
    have := (safeJSONRawMessage_cases lib t).2.2 (by rw [ht]; exact hne) (by rw [ht]; exact hv)
    rw [this, ht]
  have hobj : safeJSONRawMessage lib "\x7b\x7d" = "\x7b\x7d" :=
    hfix "\x7b\x7d" (by decide) (by decide) hobject
  have hidem : safeJSONRawMessage lib (safeJSONRawMessage lib raw) =
      safeJSONRawMessage lib raw := by
    by_cases he : TrimSpace raw = ""
    · rw [(safeJSONRawMessage_cases lib raw).1 he, hobj]
    · cases hv : lib.jsonValid (TrimSpace raw) with
      | false => rw [(safeJSONRawMessage_cases lib raw).2.1 hv, hobj]
      | true =>
        rw [(safeJSONRawMessage_cases lib raw).2.2 he hv]
        exact hfix _ (TrimSpace_idem raw) he hv
  refine ⟨hidem, ?_, ?_, (safeJSONRawMessage_cases lib raw).2.2⟩
  · intro hv
    obtain ⟨hv2, hne⟩ := htrim raw hv
    refine ⟨?_, hidem⟩
    rw [(safeJSONRawMessage_cases lib raw).2.2 hne hv2]
    exact hv2
  · rintro (h | h)
    · exact (safeJSONRawMessage_cases lib raw).1 h
    · exact (safeJSONRawMessage_cases lib raw).2.1 h

theorem plainLib_jsonValid_trim (s : String) (h : plainLib.jsonValid s = true) :
    plainLib.jsonValid (TrimSpace s) = true ∧ TrimSpace s ≠ "" := by
  have hs : s = "\x7b\x7d" ∨ s = "\x7b\"q\":\"go\"\x7d" := by
    simpa [plainLib] using h
  rcases hs with hs | hs
  · rw [hs]
    decide
  · rw [hs]
    decide

theorem safeJSONRawMessage_idempotent_witness :
    plainLib.jsonValid "\x7b\x7d" = true ∧
    safeJSONRawMessage plainLib (safeJSONRawMessage plainLib " \x7b\"q\":\"go\"\x7d\n") =
      safeJSONRawMessage plainLib " \x7b\"q\":\"go\"\x7d\n" ∧
    safeJSONRawMessage plainLib " \x7b\"q\":\"go\"\x7d\n" = "\x7b\"q\":\"go\"\x7d" ∧
    safeJSONRawMessage plainLib "not-json" = "\x7b\x7d" ∧
    safeJSONRawMessage plainLib "  " = "\x7b\x7d" :=
  ⟨rfl,
    (safeJSONRawMessage_idempotent plainLib rfl plainLib_jsonValid_trim
      " \x7b\"q\":\"go\"\x7d\n").1,
    by decide,
    (safeJSONRawMessage_idempotent plainLib rfl plainLib_jsonValid_trim "not-json").2.2.1
      (Or.inr (by decide)),
    (safeJSONRawMessage_idempotent plainLib rfl plainLib_jsonValid_trim "  ").2.2.1
      (Or.inl (by decide))⟩

/-! ## Stop reason and text of a response object -/

theorem getD_eq_iff_some (o : Option String) (v : String) (hv : v ≠ "") :
    o.getD "" = v ↔ o = some v := by
  cases o with
  | none =>
    simp only [Option.getD_none]
    constructor
    · intro h
      exact absurd h.symm hv
    · intro h
      cases h
  | some a => simp

theorem hasFunctionCallEntry_iff (output : List JSONValue) :
    hasFunctionCallEntry output = true ↔
      ∃ entry, JSONValue.object entry ∈ output ∧
        JSONValue.asString (JSONValue.field entry "type") = some "function_call" := by
  induction output with
  | nil => simp [hasFunctionCallEntry]
  | cons item rest ih =>
    cases item with
    | object entry =>
      simp only [hasFunctionCallEntry]
      by_cases ht : (JSONValue.asString (JSONValue.field entry "type")).getD "" = "function_call"
      · rw [if_pos ht]
        simp only [true_iff]
        exact ⟨entry, by simp, (getD_eq_iff_some _ _ (by decide)).1 ht⟩
      · rw [if_neg ht, ih]
        constructor
        · rintro ⟨e, he, het⟩
          exact ⟨e, List.mem_cons_of_mem _ he, het⟩
        · rintro ⟨e, he, het⟩
          rcases List.mem_cons.1 he with h | h
          · simp only [JSONValue.object.injEq] at h
            subst h
            exact absurd ((getD_eq_iff_some _ _ (by decide)).2 het) ht
          · exact ⟨e, h, het⟩
    | null => simpa [hasFunctionCallEntry] using ih
    | bool b => simpa [hasFunctionCallEntry] using ih
    | number n => simpa [hasFunctionCallEntry] using ih
    | decimal n t => simpa [hasFunctionCallEntry] using ih
    | string s => simpa [hasFunctionCallEntry] using ih
    | array xs => simpa [hasFunctionCallEntry] using ih

theorem hasFunctionCall_iff (resp : JSONObject) :
    hasFunctionCall resp = true ↔ HasFunctionCall resp := by
  unfold hasFunctionCall HasFunctionCall
  cases ho : JSONValue.asArray (JSONValue.field resp "output") with
  | none => simp
  | some output =>
    simp only [hasFunctionCallEntry_iff, Option.some.injEq]
    constructor
    · rintro ⟨e, he, het⟩
      exact ⟨output, e, rfl, he, het⟩
    · rintro ⟨o, e, ho2, he, het⟩
      subst ho2
      exact ⟨e, he, het⟩

theorem hitMaxOutputTokens_iff (resp : JSONObject) :
    hitMaxOutputTokens resp = true ↔ HitMaxOutputTokens resp := by
  unfold hitMaxOutputTokens HitMaxOutputTokens
  rw [Bool.and_eq_true, decide_eq_true_eq, getD_eq_iff_some _ _ (by decide)]
  cases hd : JSONValue.asObject (JSONValue.field resp "status_details") with
  | none => simp
  | some details =>
    simp only [decide_eq_true_eq, getD_eq_iff_some _ _ (show "max_output_tokens" ≠ "" by decide),
      Option.some.injEq]
    constructor
    · rintro ⟨h1, h2⟩
      exact ⟨h1, details, rfl, h2⟩
    · rintro ⟨h1, d, hd2, h2⟩
      subst hd2
      exact ⟨h1, h2⟩

theorem updateResponseCompletionState_eq (event : JSONObject) (state : responsesStreamState)
    (resp : JSONObject) (hresp : JSONValue.asObject (JSONValue.field event "response") = some resp) :
    (updateResponseCompletionState event state).stopReason = stopReasonOf resp ∧
    (updateResponseCompletionState event state).outputTokens =
      match JSONValue.asObject (JSONValue.field resp "usage") with
      | some usage => (JSONValue.asInt (JSONValue.field usage "output_tokens")).getD state.outputTokens
      | none => state.outputTokens := by
  unfold updateResponseCompletionState stopReasonOf hasFunctionCall hitMaxOutputTokens
  rw [hresp]
  simp only
  constructor
  · cases ho : JSONValue.asArray (JSONValue.field resp "output") with
    | some output =>
      simp only
      by_cases hf : hasFunctionCallEntry output = true
      · simp only [hf, if_true]
      · simp only [hf, if_false, Bool.false_eq_true]
        by_cases hs : (JSONValue.asString (JSONValue.field resp "status")).getD "" = "incomplete"
        · simp only [hs, if_true, decide_True, Bool.true_and]
          cases hd : JSONValue.asObject (JSONValue.field resp "status_details") with
          | none => simp
          | some details =>
            simp only
            by_cases hr : (JSONValue.asString (JSONValue.field details "reason")).getD "" =
                "max_output_tokens"
            · simp [hr]
            · simp [hr]
        · simp [hs]
    | none =>
      simp only [Bool.false_eq_true, if_false]
      by_cases hs : (JSONValue.asString (JSONValue.field resp "status")).getD "" = "incomplete"
      · simp only [hs, if_true, decide_True, Bool.true_and]
        cases hd : JSONValue.asObject (JSONValue.field resp "status_details") with
        | none => simp
        | some details =>
          simp only
          by_cases hr : (JSONValue.asString (JSONValue.field details "reason")).getD "" =
              "max_output_tokens"
          · simp [hr]
          · simp [hr]
      · simp [hs]
  · cases hu : JSONValue.asObject (JSONValue.field resp "usage") with
    | none =>
      simp only
      repeat' (first | rfl | split)
    | some usage =>
      simp only
      cases hv : JSONValue.asInt (JSONValue.field usage "output_tokens") with
      | none =>
        simp only [Option.getD_none]
        repeat' (first | rfl | split)
      | some v =>
        simp only [Option.getD_some]
        repeat' (first | rfl | split)

/-- C27: after a `response.completed` event carrying the response object `resp`, the stop
reason recorded by `updateResponseCompletionState` is `tool_use` when the array `output` of
`resp` holds an entry of type `function_call`; otherwise `max_tokens` when the status of
`resp` is `incomplete` and the reason of its `status_details` is `max_output_tokens`;
otherwise `end_turn`. The recorded output tokens are `usage.output_tokens` of `resp` when
that number is present, and the earlier value otherwise. -/
theorem updateResponseCompletionState_records (event : JSONObject)
    (state : responsesStreamState) (resp : JSONObject)
    (hresp : JSONValue.asObject (JSONValue.field event "response") = some resp) :
    (HasFunctionCall resp →
      (updateResponseCompletionState event state).stopReason = "tool_use") ∧
    (¬ HasFunctionCall resp → HitMaxOutputTokens resp →
      (updateResponseCompletionState event state).stopReason = "max_tokens") ∧
    (¬ HasFunctionCall resp → ¬ HitMaxOutputTokens resp →
      (updateResponseCompletionState event state).stopReason = "end_turn") ∧
    (∀ usage v, JSONValue.asObject (JSONValue.field resp "usage") = some usage →
      JSONValue.asInt (JSONValue.field usage "output_tokens") = some v →
      (updateResponseCompletionState event state).outputTokens = v) ∧
    ((∀ usage v, JSONValue.asObject (JSONValue.field resp "usage") = some usage →
        JSONValue.asInt (JSONValue.field usage "output_tokens") ≠ some v) →
      (updateResponseCompletionState event state).outputTokens = state.outputTokens) := by
  obtain ⟨hstop, htok⟩ := updateResponseCompletionState_eq event state resp hresp
  rw [hstop, htok]
  unfold stopReasonOf
  refine ⟨?_, ?_, ?_, ?_, ?_⟩
  · intro h
    rw [if_pos ((hasFunctionCall_iff resp).2 h)]
  · intro h1 h2
    have h1b : ¬ hasFunctionCall resp = true := fun h => h1 ((hasFunctionCall_iff resp).1 h)
    rw [if_neg h1b, if_pos ((hitMaxOutputTokens_iff resp).2 h2)]
  · intro h1 h2
    have h1b : ¬ hasFunctionCall resp = true := fun h => h1 ((hasFunctionCall_iff resp).1 h)
    have h2b : ¬ hitMaxOutputTokens resp = true :=
      fun h => h2 ((hitMaxOutputTokens_iff resp).1 h)
    rw [if_neg h1b, if_neg h2b]
  · intro usage v hu hv
    rw [hu]
    simp only [hv, Option.getD_some]
  · intro h
    cases hu : JSONValue.asObject (JSONValue.field resp "usage") with
    | none => rfl
    | some usage =>
      simp only
      cases hv : JSONValue.asInt (JSONValue.field usage "output_tokens") with
      | none => rfl
      | some v => exact absurd hv (h usage v hu)

theorem updateResponseCompletionState_records_witness :
    (updateResponseCompletionState [("response", .object sampleResponseObject)]
        sampleResponsesState).stopReason = "tool_use" ∧
    (updateResponseCompletionState [("response", .object sampleIncompleteObject)]
        sampleResponsesState).stopReason = "max_tokens" ∧
    (updateResponseCompletionState [("response", .object sampleResponseObject)]
        sampleResponsesState).outputTokens = 22 ∧
    (updateResponseCompletionState [("response", .object sampleIncompleteObject)]
        sampleResponsesState).outputTokens = 5 :=
  ⟨(updateResponseCompletionState_records [("response", .object sampleResponseObject)]
      sampleResponsesState sampleResponseObject rfl).1
      ⟨_, [("type", .string "function_call"), ("call_id", .string "tool_1"),
        ("name", .string "search"), ("arguments", .string "\x7b\"q\":\"go\"\x7d")],
        rfl, by simp, rfl⟩,
    (updateResponseCompletionState_records [("response", .object sampleIncompleteObject)]
      sampleResponsesState sampleIncompleteObject rfl).2.1
      (fun h => by
        have := (hasFunctionCall_iff sampleIncompleteObject).2 h
        revert this
        decide)
      ((hitMaxOutputTokens_iff sampleIncompleteObject).1 (by decide)),
    (updateResponseCompletionState_records [("response", .object sampleResponseObject)]
      sampleResponsesState sampleResponseObject rfl).2.2.2.1
      [("input_tokens", .number 11), ("output_tokens", .number 22)] 22 rfl rfl,
    (updateResponseCompletionState_records [("response", .object sampleIncompleteObject)]
      sampleResponsesState sampleIncompleteObject rfl).2.2.2.2
      (fun usage v hu => by cases hu)⟩

/-! ## The stop reason of the non-streaming conversion -/

theorem appendResponseToolUse_any (lib : GoLib) (acc : List AnthropicContentBlock × Nat)
    (item : JSONValue) :
    (appendResponseToolUse lib acc item).1.any (fun block => block.Kind = "tool_use") =
      (acc.1.any (fun block => block.Kind = "tool_use") || hasFunctionCallEntry [item]) := by
  cases item with
  | object entry =>
    simp only [appendResponseToolUse, hasFunctionCallEntry]
    by_cases ht : (JSONValue.asString (JSONValue.field entry "type")).getD "" = "function_call"
    · have hn : ¬ (JSONValue.asString (JSONValue.field entry "type")).getD "" ≠ "function_call" :=
        fun h => h ht
      rw [if_neg hn, if_pos ht]
      simp
    · have hn : (JSONValue.asString (JSONValue.field entry "type")).getD "" ≠ "function_call" := ht
      rw [if_pos hn, if_neg ht]
      simp
  | null => simp [appendResponseToolUse, hasFunctionCallEntry]
  | bool b => simp [appendResponseToolUse, hasFunctionCallEntry]
  | number n => simp [appendResponseToolUse, hasFunctionCallEntry]
  | decimal n t => simp [appendResponseToolUse, hasFunctionCallEntry]
  | string s => simp [appendResponseToolUse, hasFunctionCallEntry]
  | array xs => simp [appendResponseToolUse, hasFunctionCallEntry]

theorem hasFunctionCallEntry_cons (item : JSONValue) (rest : List JSONValue) :
    hasFunctionCallEntry (item :: rest) =
      (hasFunctionCallEntry [item] || hasFunctionCallEntry rest) := by
  cases item with
  | object entry =>
    simp only [hasFunctionCallEntry]
    split <;> simp
  | null => simp [hasFunctionCallEntry]
  | bool b => simp [hasFunctionCallEntry]
  | number n => simp [hasFunctionCallEntry]
  | decimal n t => simp [hasFunctionCallEntry]
  | string s => simp [hasFunctionCallEntry]
  | array xs => simp [hasFunctionCallEntry]

theorem extractResponseToolUses_foldl_any (lib : GoLib) :
    ∀ (output : List JSONValue) (acc : List AnthropicContentBlock × Nat),
      (output.foldl (appendResponseToolUse lib) acc).1.any (fun block => block.Kind = "tool_use") =
        (acc.1.any (fun block => block.Kind = "tool_use") || hasFunctionCallEntry output) := by
  intro output
  induction output with
  | nil => intro acc; simp [hasFunctionCallEntry]
  | cons item rest ih =>
    intro acc
    rw [List.foldl_cons, ih, appendResponseToolUse_any, hasFunctionCallEntry_cons item rest,
      Bool.or_assoc]

theorem extractResponseToolUses_any (lib : GoLib) (clock : Nat) (payload : JSONObject) :
    (extractResponseToolUses lib clock payload).1.any (fun block => block.Kind = "tool_use") =
      hasFunctionCall payload := by
  unfold extractResponseToolUses hasFunctionCall
  cases JSONValue.asArray (JSONValue.field payload "output") with
  | none => rfl
  | some output =>
    simp only
    rw [extractResponseToolUses_foldl_any]
    simp

theorem determineResponsesStopReason_eq (payload : JSONObject)
    (content : List AnthropicContentBlock)
    (hcontent : content.any (fun block => block.Kind = "tool_use") = hasFunctionCall payload) :
    determineResponsesStopReason payload content = stopReasonOf payload := by
  unfold determineResponsesStopReason stopReasonOf hitMaxOutputTokens
  rw [hcontent]
  by_cases hf : hasFunctionCall payload = true
  · rw [if_pos hf, if_pos hf]
  · rw [if_neg hf, if_neg hf]
    by_cases hs : (JSONValue.asString (JSONValue.field payload "status")).getD "" = "incomplete"
    · simp only [hs, if_true, decide_True, Bool.true_and]
      cases JSONValue.asObject (JSONValue.field payload "status_details") with
      | none => simp
      | some details =>
        simp only
        by_cases hr : (JSONValue.asString (JSONValue.field details "reason")).getD "" =
            "max_output_tokens"
        · simp [hr]
        · simp [hr]
    · simp [hs]

theorem convertResponsesJSONToAnthropic_stopReason (lib : GoLib) (clock : Nat) (raw : String)
    (spoofModel : String) (payload : JSONObject) (hraw : lib.unmarshalObject raw = some payload) :
    (convertResponsesJSONToAnthropic lib clock raw spoofModel).StopReason =
      stopReasonOf payload := by
  unfold convertResponsesJSONToAnthropic
  rw [hraw]
  simp only
  apply determineResponsesStopReason_eq
  rw [List.any_append, extractResponseToolUses_any]
  split <;> simp

/-- C28: for every JSON object `resp`, decoded from the text `raw`, the stop reason of
`convertResponsesJSONToAnthropic` on `raw` equals the stop reason that
`updateResponseCompletionState` records for a `response.completed` event that carries `resp`
as its response. -/
theorem convertResponsesJSONToAnthropic_same_stop_reason (lib : GoLib) (clock : Nat)
    (raw spoofModel : String) (resp event : JSONObject) (state : responsesStreamState)
    (hraw : lib.unmarshalObject raw = some resp)
    (hevent : JSONValue.asObject (JSONValue.field event "response") = some resp) :
    (convertResponsesJSONToAnthropic lib clock raw spoofModel).StopReason =
      (updateResponseCompletionState event state).stopReason := by
  rw [convertResponsesJSONToAnthropic_stopReason lib clock raw spoofModel resp hraw,
    (updateResponseCompletionState_eq event state resp hevent).1]

theorem convertResponsesJSONToAnthropic_same_stop_reason_witness :
    responsesLib.unmarshalObject sampleResponseJSON = some sampleResponseObject ∧
    (convertResponsesJSONToAnthropic responsesLib 0 sampleResponseJSON "claude-spoof").StopReason =
      (updateResponseCompletionState
        [("type", .string "response.completed"), ("response", .object sampleResponseObject)]
        sampleResponsesState).stopReason ∧
    (updateResponseCompletionState
        [("type", .string "response.completed"), ("response", .object sampleResponseObject)]
        sampleResponsesState).stopReason = "tool_use" :=
  ⟨rfl,
    convertResponsesJSONToAnthropic_same_stop_reason responsesLib 0 sampleResponseJSON
      "claude-spoof" sampleResponseObject
      [("type", .string "response.completed"), ("response", .object sampleResponseObject)]
      sampleResponsesState rfl rfl,
    by decide⟩

/-! ## The text of a response object -/

theorem appendContentTexts_eq :
    ∀ (content : List JSONValue) (parts : List String),
      appendContentTexts content parts =
        parts ++ (content.filterMap (fun c =>
          match c with
          | .object block => JSONValue.asString (JSONValue.field block "text")
          | _ => none)).filter (fun text => text ≠ "") := by
  intro content
  induction content with
  | nil => intro parts; simp [appendContentTexts]
  | cons c rest ih =>
    intro parts
    cases c with
    | object block =>
      simp only [appendContentTexts, List.filterMap_cons]
      cases ht : JSONValue.asString (JSONValue.field block "text") with
      | none =>
        simp only [Option.getD_none, ne_eq, not_true_eq_false, if_false]
        exact ih parts
      | some text =>
        simp only [Option.getD_some]
        by_cases he : text ≠ ""
        · rw [if_pos he, ih]
          simp [he]
        · rw [if_neg he, ih]
          simp [he]
    | null => simpa [appendContentTexts] using ih parts
    | bool b => simpa [appendContentTexts] using ih parts
    | number n => simpa [appendContentTexts] using ih parts
    | decimal n t => simpa [appendContentTexts] using ih parts
    | string s => simpa [appendContentTexts] using ih parts
    | array xs => simpa [appendContentTexts] using ih parts

theorem appendOutputTexts_eq :
    ∀ (output : List JSONValue) (parts : List String),
      appendOutputTexts output parts =
        parts ++ ((output.filterMap (fun item =>
          match item with
          | .object entry =>
            if (JSONValue.asString (JSONValue.field entry "type")).getD "" = "" ∨
                (JSONValue.asString (JSONValue.field entry "type")).getD "" = "message" then
              some entry
            else none
          | _ => none)).map nonEmptyTextFields).flatten := by
  intro output
  induction output with
  | nil => intro parts; simp [appendOutputTexts]
  | cons item rest ih =>
    intro parts
    cases item with
    | object entry =>
      simp only [appendOutputTexts, List.filterMap_cons]
      by_cases ht : (JSONValue.asString (JSONValue.field entry "type")).getD "" ≠ "" ∧
          (JSONValue.asString (JSONValue.field entry "type")).getD "" ≠ "message"
      · have hn : ¬ ((JSONValue.asString (JSONValue.field entry "type")).getD "" = "" ∨
            (JSONValue.asString (JSONValue.field entry "type")).getD "" = "message") := by
          rintro (h | h)
          · exact ht.1 h
          · exact ht.2 h
        rw [if_pos ht, if_neg hn]
        exact ih parts
      · have hp : (JSONValue.asString (JSONValue.field entry "type")).getD "" = "" ∨
            (JSONValue.asString (JSONValue.field entry "type")).getD "" = "message" := by
          by_cases h1 : (JSONValue.asString (JSONValue.field entry "type")).getD "" = ""
          · exact Or.inl h1
          · by_cases h2 : (JSONValue.asString (JSONValue.field entry "type")).getD "" = "message"
            · exact Or.inr h2
            · exact absurd ⟨h1, h2⟩ ht
        rw [if_neg ht, if_pos hp]
        simp only [List.map_cons, List.flatten_cons]
        cases hc : JSONValue.asArray (JSONValue.field entry "content") with
        | none =>
          simp only
          rw [ih]
          simp [nonEmptyTextFields, textFields, hc]
        | some content =>
          simp only
          rw [ih, appendContentTexts_eq]
          simp [nonEmptyTextFields, textFields, hc]
    | null => simpa [appendOutputTexts] using ih parts
    | bool b => simpa [appendOutputTexts] using ih parts
    | number n => simpa [appendOutputTexts] using ih parts
    | decimal n t => simpa [appendOutputTexts] using ih parts
    | string s => simpa [appendOutputTexts] using ih parts
    | array xs => simpa [appendOutputTexts] using ih parts

/-- A content entry whose text is empty contributes nothing to the extracted text: of the
three text fields `a`, empty and `b` of the sample, the result joins `a` and `b`, not the
three text fields. -/
theorem extractResponseText_skips_empty_text :
    (messageEntries sampleIncompleteObject).map textFields = [["a", "", "b"]] ∧
    extractResponseText sampleIncompleteObject = "a\nb" ∧
    Join ((messageEntries sampleIncompleteObject).map textFields).flatten "\n" = "a\n\nb" ∧
    extractResponseText sampleIncompleteObject ≠
      Join ((messageEntries sampleIncompleteObject).map textFields).flatten "\n" := by
  decide

/-- C29, as the code has it: for every JSON object `payload`, `extractResponseText` returns
`output_text` when it is a non-blank string; otherwise it returns the non-empty text fields
of the content entries of every output entry whose type is empty or `message`, in order,
joined by `\n`, which is the empty string when there are none. -/
theorem extractResponseText_spec (payload : JSONObject) :
    (∀ v, JSONValue.asString (JSONValue.field payload "output_text") = some v →
      TrimSpace v ≠ "" → extractResponseText payload = v) ∧
    ((∀ v, JSONValue.asString (JSONValue.field payload "output_text") = some v →
        TrimSpace v = "") →
      extractResponseText payload =
        Join ((messageEntries payload).map nonEmptyTextFields).flatten "\n") ∧
    (((messageEntries payload).map nonEmptyTextFields).flatten = [] →
      Join ((messageEntries payload).map nonEmptyTextFields).flatten "\n" = "") := by
  have hout : (match JSONValue.asArray (JSONValue.field payload "output") with
      | none => ""
      | some output => Join (appendOutputTexts output []) "\n") =
      Join ((messageEntries payload).map nonEmptyTextFields).flatten "\n" := by
    unfold messageEntries
    cases JSONValue.asArray (JSONValue.field payload "output") with
    | none => rfl
    | some output =>
      simp only [Option.getD_some]
      rw [appendOutputTexts_eq]
      simp
  refine ⟨?_, ?_, ?_⟩
  · intro v hv hne
    unfold extractResponseText
    simp only [hv, if_pos hne]
  · intro h
    unfold extractResponseText
    simp only [hout]
    cases hv : JSONValue.asString (JSONValue.field payload "output_text") with
    | none => rfl
    | some v =>
      have hb : ¬ TrimSpace v ≠ "" := fun hne => hne (h v hv)
      simp only [if_neg hb]
  · intro h
    rw [h]
    rfl

theorem extractResponseText_spec_witness :
    extractResponseText sampleIncompleteObject =
        Join ((messageEntries sampleIncompleteObject).map nonEmptyTextFields).flatten "\n" ∧
    Join ((messageEntries sampleIncompleteObject).map nonEmptyTextFields).flatten "\n" = "a\nb" ∧
    extractResponseText [("output_text", .string " final answer"), ("output", .array [])] =
      " final answer" :=
  ⟨(extractResponseText_spec sampleIncompleteObject).2.1 (fun v hv => by
      have h : JSONValue.asString (JSONValue.field sampleIncompleteObject "output_text") = none :=
        rfl
      rw [h] at hv
      cases hv),
    by decide,
    (extractResponseText_spec [("output_text", .string " final answer"), ("output", .array [])]).1
      " final answer" rfl (by decide)⟩

/-! ## Collecting a responses stream -/

theorem onCollectEvent_never_fails (lib : GoLib) (r : Option String) (name data : String) :
    (onCollectEvent lib r name data).2 = none := by
  unfold onCollectEvent
  simp only
  repeat' (first | rfl | split)

theorem onCollectEvent_of_not_completed (lib : GoLib) (r : Option String) (name data : String)
    (h : completedEventOf lib data = none) :
    onCollectEvent lib r name data = (r, none) := by
  unfold completedEventOf at h
  unfold onCollectEvent
  simp only
  by_cases hskip : TrimSpace data = "" ∨ TrimSpace data = "[DONE]"
  · rw [if_pos hskip]
  · rw [if_neg hskip] at h ⊢
    cases hu : lib.unmarshalObject (TrimSpace data) with
    | none => rfl
    | some event =>
      rw [hu] at h
      simp only at h ⊢
      by_cases ht : JSONValue.asString (JSONValue.field event "type") = some "response.completed"
      · rw [if_pos ht] at h
        exact absurd h (by simp)
      · have ht2 : ¬ (JSONValue.asString (JSONValue.field event "type")).getD "" =
            "response.completed" :=
          fun hh => ht ((getD_eq_iff_some _ _ (by decide)).1 hh)
        rw [if_neg ht2]

theorem onCollectEvent_of_completed (lib : GoLib) (r : Option String) (name data : String)
    (event : JSONObject) (resp : JSONValue) (b : String)
    (h : completedEventOf lib data = some event)
    (hresp : JSONValue.field event "response" = some resp)
    (hb : lib.marshalJSON resp = some b) :
    onCollectEvent lib r name data = (some b, none) := by
  unfold completedEventOf at h
  unfold onCollectEvent
  simp only
  by_cases hskip : TrimSpace data = "" ∨ TrimSpace data = "[DONE]"
  · rw [if_pos hskip] at h
    exact absurd h (by simp)
  · rw [if_neg hskip] at h ⊢
    cases hu : lib.unmarshalObject (TrimSpace data) with
    | none =>
      rw [hu] at h
      exact absurd h (by simp)
    | some ev =>
      rw [hu] at h
      simp only at h ⊢
      by_cases ht : JSONValue.asString (JSONValue.field ev "type") = some "response.completed"
      · rw [if_pos ht] at h
        simp only [Option.some.injEq] at h
        subst h
        have ht2 : (JSONValue.asString (JSONValue.field ev "type")).getD "" =
            "response.completed" := (getD_eq_iff_some _ _ (by decide)).2 ht
        rw [if_pos ht2, hresp]
        simp only [hb]
      · rw [if_neg ht] at h
        exact absurd h (by simp)

theorem deliver_collect_of_not_completed (lib : GoLib) :
    ∀ (events : List (String × String)) (r : Option String),
      (∀ ev ∈ events, completedEventOf lib ev.2 = none) →
      deliver (onCollectEvent lib) events r = (r, none) := by
  intro events
  induction events with
  | nil => intro r _; rfl
  | cons ev rest ih =>
    intro r h
    simp only [deliver, forEach]
    rw [onCollectEvent_of_not_completed lib r ev.1 ev.2 (h ev (by simp))]
    exact ih r (fun e he => h e (List.mem_cons_of_mem _ he))

theorem readSSEEvents_of_read_error {σ : Type} (src : Body)
    (onEvent : σ → String → String → σ × Option CallbackError) (s : σ)
    (hok : ∀ s name data, (onEvent s name data).2 = none) (hread : src.readError = true) :
    (readSSEEvents src onEvent s).2 = true := by
  have h := (readSSEEvents_outcome (fun _ : σ => True) (fun _ => False) (fun _ => False) onEvent
    (fun s n d _ => by
      have hn := hok s n d
      rcases hres : onEvent s n d with ⟨s1, e⟩
      rw [hres] at hn
      dsimp only at hn
      subst hn
      trivial) src s trivial).1
  cases hres : (readSSEEvents src onEvent s).2 with
  | true => rfl
  | false =>
    rcases h hres with h1 | h1
    · rw [hread] at h1
      exact Bool.noConfusion h1.1
    · exact absurd h1 id

theorem readSSEEvents_eq_deliver_of_eof {σ : Type} (src : Body)
    (onEvent : σ → String → String → σ × Option CallbackError) (s : σ)
    (h : src.readError = false) :
    readSSEEvents src onEvent s = readResult (deliver onEvent (sseEvents src.text) s) := by
  obtain ⟨text, readError⟩ := src
  simp only at h
  subst h
  exact readSSEEvents_eq_deliver text onEvent s

/-- C30 (amended). `collectResponsesStreamAsJSON` returns the error of the reader when the
reading of the body fails, whatever events the body holds. For a body read to its end: it
returns an error when no event of the body is a `response.completed` event; and when a
`response.completed` event arrives that carries a response, and no other `response.completed`
event follows it, the call returns what `json.Marshal` writes for the decoded response. -/
theorem collectResponsesStreamAsJSON_spec (lib : GoLib) (src : Body) :
    (src.readError = true → collectResponsesStreamAsJSON lib src = .error "read error") ∧
    (src.readError = false →
      ((∀ ev ∈ sseEvents src.text, completedEventOf lib ev.2 = none) →
        collectResponsesStreamAsJSON lib src =
          .error "no response.completed event received from Codex stream") ∧
      (∀ before after name data event resp b,
        sseEvents src.text = before ++ (name, data) :: after →
        completedEventOf lib data = some event →
        JSONValue.field event "response" = some resp →
        lib.marshalJSON resp = some b →
        (∀ ev ∈ after, completedEventOf lib ev.2 = none) →
        collectResponsesStreamAsJSON lib src = .ok b)) := by
  constructor
  · intro hread
    have h := readSSEEvents_of_read_error src (onCollectEvent lib) none
      (fun s n d => onCollectEvent_never_fails lib s n d) hread
    unfold collectResponsesStreamAsJSON
    rcases hres : readSSEEvents src (onCollectEvent lib) none with ⟨r, failed⟩
    rw [hres] at h
    dsimp only at h
    subst h
    cases r <;> rfl
  · intro hread
    constructor
    · intro h
      unfold collectResponsesStreamAsJSON
      rw [readSSEEvents_eq_deliver_of_eof src _ _ hread,
        deliver_collect_of_not_completed lib _ none h]
      rfl
    · intro before after name data event resp b hev hc hresp hb hafter
      unfold collectResponsesStreamAsJSON
      rw [readSSEEvents_eq_deliver_of_eof src _ _ hread, hev]
      have h1 := deliver_of_never_fails (onCollectEvent lib)
        (fun s n d => onCollectEvent_never_fails lib s n d) before none
      simp only [deliver] at h1
      simp only [deliver, forEach_append, h1, forEach]
      rw [onCollectEvent_of_completed lib _ name data event resp b hc hresp hb]
      simp only
      have h2 := deliver_collect_of_not_completed lib after (some b) hafter
      simp only [deliver] at h2
      rw [h2]
      rfl

/-- The theorem at the stream of `TestHandleMessages_ChatGPTNonStream` read to its end, whose
response comes back with its keys sorted, at a stream without `response.completed` event, and
at a body whose reading fails. -/
theorem collectResponsesStreamAsJSON_spec_witness :
    collectResponsesStreamAsJSON responsesLib sampleCollectStream = .ok sampleResponseEncoded ∧
    collectResponsesStreamAsJSON responsesLib
        "data: \x7b\"type\":\"response.created\"\x7d\n\ndata: [DONE]\n\n" =
      .error "no response.completed event received from Codex stream" ∧
    collectResponsesStreamAsJSON responsesLib
        { text := "data: \x7b\"type\":\"response.created\"\x7d\n\n", readError := true } =
      .error "read error" :=
  ⟨((collectResponsesStreamAsJSON_spec responsesLib sampleCollectStream).2 rfl).2
      [("", "\x7b\"type\":\"response.created\"\x7d")] [("", "[DONE]")]
      "response.completed" sampleCompletedEvent
      [("type", .string "response.completed"), ("response", .object sampleResponseObject)]
      (.object sampleResponseObject) sampleResponseEncoded
      (by decide) rfl rfl rfl
      (fun ev hev => by
        rw [List.mem_singleton.1 hev]
        rfl),
    ((collectResponsesStreamAsJSON_spec responsesLib
      "data: \x7b\"type\":\"response.created\"\x7d\n\ndata: [DONE]\n\n").2 rfl).1
      (fun ev hev => by
        have hevents : sseEvents "data: \x7b\"type\":\"response.created\"\x7d\n\ndata: [DONE]\n\n"
            = [("", "\x7b\"type\":\"response.created\"\x7d"), ("", "[DONE]")] := by
          decide
        have hev2 : ev ∈ sseEvents
            "data: \x7b\"type\":\"response.created\"\x7d\n\ndata: [DONE]\n\n" := hev
        rw [hevents] at hev2
        simp only [List.mem_cons, List.mem_singleton, List.not_mem_nil, or_false] at hev2
        rcases hev2 with h | h
        · rw [h]
          rfl
        · rw [h]
          rfl),
    (collectResponsesStreamAsJSON_spec responsesLib
      { text := "data: \x7b\"type\":\"response.created\"\x7d\n\n", readError := true }).1
      rfl⟩

/-- C30 (counterexample). The body is the stream of `TestHandleMessages_ChatGPTNonStream`: a
`response.completed` event arrives, and `[DONE]` after it, then the reading of the body
fails. `collectResponsesStreamAsJSON` returns the error of the reader, not the JSON of the
response, although the same stream read to its end gives the response. -/
theorem collectResponsesStreamAsJSON_read_error :
    collectResponsesStreamAsJSON responsesLib
        { text := sampleCollectStream, readError := true } = .error "read error" ∧
    (∃ ev ∈ sseEvents sampleCollectStream,
      completedEventOf responsesLib ev.2 =
        some [("type", .string "response.completed"),
          ("response", .object sampleResponseObject)]) ∧
    collectResponsesStreamAsJSON responsesLib sampleCollectStream =
      .ok sampleResponseEncoded := by
  refine ⟨rfl, ⟨("response.completed", sampleCompletedEvent), by decide, rfl⟩, rfl⟩

/-! ## The totals carried by `message_delta` -/

theorem onOpenAIEvent_eq_chunk (lib : GoLib) (s : OpenAIStreamState) (name data : String) :
    onOpenAIEvent lib s name data =
      if TrimSpace data = "" then (s, none)
      else if TrimSpace data = "[DONE]" then (s, some .streamDone)
      else
        match lib.unmarshalChunk (TrimSpace data) with
        | none => (s, none)
        | some chunk => onOpenAIChunk lib s chunk := by
  rfl

theorem readResult_deliver_eq_chunks (lib : GoLib) :
    ∀ (events : List (String × String)) (s : OpenAIStreamState),
      readResult (deliver (onOpenAIEvent lib) events s) =
        readResult (forEach (onOpenAIChunk lib) (parsedChunks lib events) s) := by
  intro events
  induction events with
  | nil => intro s; rfl
  | cons ev rest ih =>
    intro s
    simp only [deliver, forEach, parsedChunks, onOpenAIEvent_eq_chunk]
    by_cases h1 : TrimSpace ev.2 = ""
    · simp only [if_pos h1]
      exact ih s
    · simp only [if_neg h1]
      by_cases h2 : TrimSpace ev.2 = "[DONE]"
      · simp only [if_pos h2, forEach]
        rfl
      · simp only [if_neg h2]
        cases hu : lib.unmarshalChunk (TrimSpace ev.2) with
        | none =>
          simp only
          exact ih s
        | some chunk =>
          simp only [forEach]
          rcases hres : onOpenAIChunk lib s chunk with ⟨s1, e⟩
          cases e with
          | none => exact ih s1
          | some e => rfl

theorem convertOpenAIStream_eq_chunks (lib : GoLib) (w : ResponseWriter) (src : String)
    (spoofModel : String) :
    convertOpenAIStreamToAnthropic lib w src spoofModel =
      convertOpenAIChunks lib w (parsedChunks lib (sseEvents src)) spoofModel := by
  unfold convertOpenAIStreamToAnthropic convertOpenAIChunks
  simp only [readSSEEvents_eq_deliver, readResult_deliver_eq_chunks]

theorem SameTotals.trans_of {s s1 s2 : OpenAIStreamState} (h1 : SameTotals s s1)
    (h2 : SameTotals s1 s2) : SameTotals s s2 :=
  ⟨h2.1, h2.2.1.trans h1.2.1, h2.2.2.trans h1.2.2⟩

theorem write_sameTotals (s : OpenAIStreamState) (ev : AnthropicEvent)
    (hf : s.w.failAfter = none) : SameTotals s (s.write ev).1 := by
  simp only [OpenAIStreamState.write, writeAnthropicSSEEvent, hf]
  exact ⟨rfl, rfl, rfl⟩

theorem closeBlock_sameTotals (s : OpenAIStreamState) (index : Int)
    (hf : s.w.failAfter = none) : SameTotals s (closeBlock s index).1 := by
  unfold closeBlock
  split
  · exact ⟨hf, rfl, rfl⟩
  · exact write_sameTotals { s with openBlocks := s.openBlocks.delete index } _ hf

theorem forEach_sameTotals {α : Type}
    (f : OpenAIStreamState → α → OpenAIStreamState × Option CallbackError)
    (hf : ∀ s x, s.w.failAfter = none → SameTotals s (f s x).1) (xs : List α)
    (s : OpenAIStreamState) (hs : s.w.failAfter = none) :
    SameTotals s (forEach f xs s).1 :=
  forEach_preserves (fun s1 => SameTotals s s1) f
    (fun s1 x h1 => h1.trans_of (hf s1 x h1.1)) xs s ⟨hs, rfl, rfl⟩

theorem onContentDelta_sameTotals (s : OpenAIStreamState) (content : String)
    (hf : s.w.failAfter = none) : SameTotals s (onContentDelta s content).1 := by
  unfold onContentDelta
  split
  · by_cases hlt : s.activeTextIndex < 0
    · simp only [if_pos hlt, OpenAIStreamState.write, writeAnthropicSSEEvent, hf]
      exact ⟨rfl, rfl, rfl⟩
    · simp only [if_neg hlt, OpenAIStreamState.write, writeAnthropicSSEEvent, hf]
      exact ⟨rfl, rfl, rfl⟩
  · exact ⟨hf, rfl, rfl⟩

theorem openToolBlock_sameTotals (s : OpenAIStreamState) (toolIdx : Int) (t : trackedToolCall)
    (hf : s.w.failAfter = none) : SameTotals s (openToolBlock s toolIdx t).1 := by
  unfold openToolBlock
  exact write_sameTotals
    { s with
      nextBlockIndex := s.nextBlockIndex + 1
      activeToolCalls := s.activeToolCalls.set toolIdx t
      openBlocks := s.openBlocks.set t.anthropicIndex true } _ hf

theorem startIdentifiedToolCall_sameTotals (s : OpenAIStreamState) (tc : OpenAIToolCall)
    (tracked : Option trackedToolCall) (hf : s.w.failAfter = none) :
    SameTotals s (startIdentifiedToolCall s tc tracked).1.1 := by
  unfold startIdentifiedToolCall
  split
  · by_cases hge : 0 ≤ s.activeTextIndex
    · simp only [if_pos hge]
      have hc := closeBlock_sameTotals s s.activeTextIndex hf
      rcases hres : closeBlock s s.activeTextIndex with ⟨s1, e⟩
      rw [hres] at hc
      cases e with
      | some e => exact hc
      | none =>
        dsimp only
        exact hc.trans_of (openToolBlock_sameTotals { s1 with activeTextIndex := -1 } _ _ hc.1)
    · simp only [if_neg hge]
      exact openToolBlock_sameTotals s _ _ hf
  · exact ⟨hf, rfl, rfl⟩

theorem startPlaceholderToolCall_sameTotals (lib : GoLib) (s : OpenAIStreamState)
    (tc : OpenAIToolCall) (tracked : Option trackedToolCall) (hf : s.w.failAfter = none) :
    SameTotals s (startPlaceholderToolCall lib s tc tracked).1.1 := by
  unfold startPlaceholderToolCall
  cases tracked with
  | some t => exact ⟨hf, rfl, rfl⟩
  | none => exact openToolBlock_sameTotals { s with clock := s.clock + 1 } _ _ hf

theorem writeToolArguments_sameTotals (s : OpenAIStreamState) (tc : OpenAIToolCall)
    (t : trackedToolCall) (hf : s.w.failAfter = none) :
    SameTotals s (writeToolArguments s tc t).1 := by
  unfold writeToolArguments
  split
  · exact write_sameTotals s _ hf
  · exact ⟨hf, rfl, rfl⟩

theorem onToolCall_sameTotals (lib : GoLib) (s : OpenAIStreamState) (tc : OpenAIToolCall)
    (hf : s.w.failAfter = none) : SameTotals s (onToolCall lib s tc).1 := by
  unfold onToolCall
  have h1 := startIdentifiedToolCall_sameTotals s tc (s.activeToolCalls.get? tc.Index) hf
  rcases hres : startIdentifiedToolCall s tc (s.activeToolCalls.get? tc.Index) with
    ⟨⟨s1, tracked⟩, e⟩
  rw [hres] at h1
  cases e with
  | some e => exact h1
  | none =>
    dsimp only
    have h2 := startPlaceholderToolCall_sameTotals lib s1 tc tracked h1.1
    rcases hres2 : startPlaceholderToolCall lib s1 tc tracked with ⟨⟨s2, t⟩, e⟩
    rw [hres2] at h2
    cases e with
    | some e => exact h1.trans_of h2
    | none =>
      dsimp only
      exact (h1.trans_of h2).trans_of (writeToolArguments_sameTotals s2 tc t h2.1)

/-- One parsed chunk, on a writer that never fails: the callback returns nil, the stop reason
becomes that of the finish reason of the first choice when it is not empty, and the output
tokens become the completion tokens of the chunk when they are positive. -/
theorem onOpenAIChunk_totals (lib : GoLib) (s : OpenAIStreamState)
    (chunk : OpenAIChatStreamChunk) (h : GoodStream s.w) :
    (onOpenAIChunk lib s chunk).2 = none ∧ GoodStream (onOpenAIChunk lib s chunk).1.w ∧
    (onOpenAIChunk lib s chunk).1.stopReason =
      (match chunk.Choices with
        | choice :: _ =>
          if choice.FinishReason ≠ "" then mapFinishReason choice.FinishReason else s.stopReason
        | [] => s.stopReason) ∧
    (onOpenAIChunk lib s chunk).1.outputTokens =
      (if chunk.Usage.CompletionTokens > 0 then chunk.Usage.CompletionTokens
        else s.outputTokens) := by
  unfold onOpenAIChunk
  have h0 : GoodStream (if chunk.Usage.CompletionTokens > 0 then
      { s with outputTokens := chunk.Usage.CompletionTokens } else s).w := by
    split <;> exact h
  have hs0 : (if chunk.Usage.CompletionTokens > 0 then
      { s with outputTokens := chunk.Usage.CompletionTokens } else s).stopReason =
        s.stopReason := by
    split <;> rfl
  have ht0 : (if chunk.Usage.CompletionTokens > 0 then
      { s with outputTokens := chunk.Usage.CompletionTokens } else s).outputTokens =
        (if chunk.Usage.CompletionTokens > 0 then chunk.Usage.CompletionTokens
          else s.outputTokens) := by
    split <;> rfl
  generalize (if chunk.Usage.CompletionTokens > 0 then
      { s with outputTokens := chunk.Usage.CompletionTokens } else s) = s0 at h0 hs0 ht0
  simp only
  cases hch : chunk.Choices with
  | nil => exact ⟨rfl, h0, hs0, ht0⟩
  | cons choice rest =>
    dsimp only
    obtain ⟨h1, h2⟩ := onContentDelta_good s0 choice.Delta.Content h0
    have k1 := onContentDelta_sameTotals s0 choice.Delta.Content h0.1
    rcases hres : onContentDelta s0 choice.Delta.Content with ⟨s1, e⟩
    rw [hres] at h1 h2 k1
    dsimp only at h1 h2 k1
    subst h1
    try dsimp only
    obtain ⟨h3, h4⟩ := forEach_good (fun s => GoodStream s.w) (onToolCall lib)
      (fun s x hs => onToolCall_good lib s x hs) choice.Delta.ToolCalls s1 h2
    have k2 := forEach_sameTotals (onToolCall lib)
      (fun s x hs => onToolCall_sameTotals lib s x hs) choice.Delta.ToolCalls s1 h2.1
    rcases hres2 : forEach (onToolCall lib) choice.Delta.ToolCalls s1 with ⟨s2, e⟩
    rw [hres2] at h3 h4 k2
    dsimp only at h3 h4 k2
    subst h3
    dsimp only
    have k := k1.trans_of k2
    by_cases hfin : choice.FinishReason ≠ ""
    · simp only [if_pos hfin]
      exact ⟨trivial, h4, trivial, k.2.2.trans ht0⟩
    · simp only [if_neg hfin]
      exact ⟨trivial, h4, k.2.1.trans hs0, k.2.2.trans ht0⟩

theorem lastStopReason_append (done : List OpenAIChatStreamChunk)
    (chunk : OpenAIChatStreamChunk) :
    lastStopReason (done ++ [chunk]) =
      (match chunk.Choices with
        | choice :: _ =>
          if choice.FinishReason ≠ "" then mapFinishReason choice.FinishReason
          else lastStopReason done
        | [] => lastStopReason done) := by
  unfold lastStopReason finishReasons
  rw [List.filterMap_append]
  cases hch : chunk.Choices with
  | nil => simp [hch]
  | cons choice rest =>
    by_cases hfin : choice.FinishReason ≠ ""
    · simp [hch, hfin]
    · simp [hch, hfin]

theorem lastOutputTokens_append (done : List OpenAIChatStreamChunk)
    (chunk : OpenAIChatStreamChunk) :
    lastOutputTokens (done ++ [chunk]) =
      (if chunk.Usage.CompletionTokens > 0 then chunk.Usage.CompletionTokens
        else lastOutputTokens done) := by
  unfold lastOutputTokens completionTokens
  rw [List.map_append, List.filter_append]
  by_cases hpos : chunk.Usage.CompletionTokens > 0
  · simp [hpos]
  · simp [hpos]

theorem forEach_onOpenAIChunk_totals (lib : GoLib) :
    ∀ (chunks done : List OpenAIChatStreamChunk) (s : OpenAIStreamState),
      GoodStream s.w → s.stopReason = lastStopReason done →
      s.outputTokens = lastOutputTokens done →
      (forEach (onOpenAIChunk lib) chunks s).2 = none ∧
      GoodStream (forEach (onOpenAIChunk lib) chunks s).1.w ∧
      (forEach (onOpenAIChunk lib) chunks s).1.stopReason = lastStopReason (done ++ chunks) ∧
      (forEach (onOpenAIChunk lib) chunks s).1.outputTokens =
        lastOutputTokens (done ++ chunks) := by
  intro chunks
  induction chunks with
  | nil =>
    intro done s hg hs ht
    simp only [forEach, List.append_nil]
    exact ⟨trivial, hg, hs, ht⟩
  | cons chunk rest ih =>
    intro done s hg hs ht
    obtain ⟨h1, h2, h3, h4⟩ := onOpenAIChunk_totals lib s chunk hg
    simp only [forEach]
    rcases hres : onOpenAIChunk lib s chunk with ⟨s1, e⟩
    rw [hres] at h1 h2 h3 h4
    dsimp only at h1 h2 h3 h4
    subst h1
    dsimp only
    have key := ih (done ++ [chunk]) s1 h2
      (by rw [h3, lastStopReason_append, hs])
      (by rw [h4, lastOutputTokens_append, ht])
    simpa using key

theorem finishOpenAIStream_totals (s : OpenAIStreamState) (h : GoodStream s.w) :
    (finishOpenAIStream s).2 = none ∧
    ∃ id model blocks,
      (finishOpenAIStream s).1.w.body = .message_start id model :: blocks ++
        [.message_delta s.stopReason s.outputTokens, .message_stop] ∧
      ∀ e ∈ blocks, e.isBlockEvent = true := by
  unfold finishOpenAIStream
  have hc : ((if 0 ≤ s.activeTextIndex then closeBlock s s.activeTextIndex else (s, none)).2 =
      none) ∧ GoodStream
        (if 0 ≤ s.activeTextIndex then closeBlock s s.activeTextIndex else (s, none)).1.w := by
    split
    · exact closeBlock_good s _ h
    · exact ⟨rfl, h⟩
  have kc : SameTotals s
      (if 0 ≤ s.activeTextIndex then closeBlock s s.activeTextIndex else (s, none)).1 := by
    split
    · exact closeBlock_sameTotals s _ h.1
    · exact ⟨h.1, rfl, rfl⟩
  obtain ⟨h1, h2⟩ := hc
  rcases hres : (if 0 ≤ s.activeTextIndex then closeBlock s s.activeTextIndex else (s, none))
    with ⟨s1, e⟩
  rw [hres] at h1 h2 kc
  dsimp only at h1 h2 kc
  subst h1
  try dsimp only
  obtain ⟨h3, h4⟩ := forEach_good (fun s => GoodStream s.w) closeBlock
    (fun s x hs => closeBlock_good s x hs)
    (sortInts (s1.activeToolCalls.values.map (·.anthropicIndex))) s1 h2
  have k2 := forEach_sameTotals closeBlock (fun s x hs => closeBlock_sameTotals s x hs)
    (sortInts (s1.activeToolCalls.values.map (·.anthropicIndex))) s1 h2.1
  rcases hres2 : forEach closeBlock
    (sortInts (s1.activeToolCalls.values.map (·.anthropicIndex))) s1 with ⟨s2, e⟩
  rw [hres2] at h3 h4 k2
  dsimp only at h3 h4 k2
  subst h3
  simp only [hres2]
  have k := kc.trans_of k2
  obtain ⟨hf, id, model, blocks, hb, hall⟩ := h4
  simp only [OpenAIStreamState.write, writeAnthropicSSEEvent, hf, true_and]
  refine ⟨id, model, blocks, ?_, hall⟩
  rw [← k.2.1, ← k.2.2]
  simp [hb]

/-- C26: on a fresh response writer that implements `http.Flusher` and never fails,
`convertOpenAIStreamToAnthropic` writes exactly one `message_delta`. With `chunks` the chunks
parsed from the events of the input before `[DONE]` or the end of the input, its stop reason
is `mapFinishReason` of the last non-empty finish reason of the first choice of a chunk
(`end_turn` when there is none) and its output tokens are the last positive
`usage.completion_tokens` of a chunk (0 when there is none). A chunk whose JSON is malformed
changes no variable and writes nothing, and the result of the translator on every writer
depends on the parsed chunks only. -/
theorem convertOpenAIStream_message_delta (lib : GoLib) (w : ResponseWriter) (src : String)
    (spoofModel : String) (hflush : w.flusher = true) (hnever : w.failAfter = none)
    (hfresh : w.body = []) :
    (∃ id model blocks,
      (convertOpenAIStreamToAnthropic lib w src spoofModel).1.body =
        .message_start id model :: blocks ++
          [.message_delta (lastStopReason (parsedChunks lib (sseEvents src)))
            (lastOutputTokens (parsedChunks lib (sseEvents src))), .message_stop] ∧
      ∀ e ∈ blocks, e.isBlockEvent = true) ∧
    (∀ (s : OpenAIStreamState) (name data : String), TrimSpace data ≠ "" →
      TrimSpace data ≠ "[DONE]" → lib.unmarshalChunk (TrimSpace data) = none →
      onOpenAIEvent lib s name data = (s, none)) ∧
    (∀ (w2 : ResponseWriter) (src1 src2 : String),
      parsedChunks lib (sseEvents src1) = parsedChunks lib (sseEvents src2) →
      convertOpenAIStreamToAnthropic lib w2 src1 spoofModel =
        convertOpenAIStreamToAnthropic lib w2 src2 spoofModel) := by
  refine ⟨?_, ?_, ?_⟩
  · rw [convertOpenAIStream_eq_chunks]
    unfold convertOpenAIChunks
    have hfl : ¬ (w.flusher = false) := by rw [hflush]; exact Bool.noConfusion
    rw [if_neg hfl]
    simp only [writeAnthropicSSEEvent_of_never_fails _ _ hnever]
    have hinit : GoodStream ({ w with body := w.body ++
        [.message_start ("msg_" ++ toString (lib.unixNano 0)) spoofModel] } : ResponseWriter) :=
      ⟨hnever, "msg_" ++ toString (lib.unixNano 0), spoofModel, [], by simp [hfresh], by simp⟩
    generalize ({ w with body := w.body ++
        [.message_start ("msg_" ++ toString (lib.unixNano 0)) spoofModel] } : ResponseWriter) = w1
      at hinit
    obtain ⟨h1, h2, h3, h4⟩ := forEach_onOpenAIChunk_totals lib
      (parsedChunks lib (sseEvents src)) []
      { w := w1, nextBlockIndex := 0, activeTextIndex := -1, activeToolCalls := GoMap.empty,
        openBlocks := GoMap.empty, stopReason := "end_turn", outputTokens := 0, clock := 1 }
      hinit rfl rfl
    rcases hres : forEach (onOpenAIChunk lib) (parsedChunks lib (sseEvents src))
      { w := w1, nextBlockIndex := 0, activeTextIndex := -1, activeToolCalls := GoMap.empty,
        openBlocks := GoMap.empty, stopReason := "end_turn", outputTokens := 0, clock := 1 }
      with ⟨s, e⟩
    rw [hres] at h1 h2 h3 h4
    dsimp only at h1 h2 h3 h4
    subst h1
    simp only [readResult, List.nil_append] at h3 h4 ⊢
    obtain ⟨hfin, id, model, blocks, hb, hall⟩ := finishOpenAIStream_totals s h2
    rcases hres2 : finishOpenAIStream s with ⟨s1, e⟩
    rw [hres2] at hfin hb
    dsimp only at hfin hb
    subst hfin
    dsimp only
    exact ⟨id, model, blocks, by rw [hb, h3, h4], hall⟩
  · intro s name data h1 h2 h3
    rw [onOpenAIEvent_eq_chunk, if_neg h1, if_neg h2, h3]
  · intro w2 src1 src2 h
    rw [convertOpenAIStream_eq_chunks, convertOpenAIStream_eq_chunks, h]

theorem convertOpenAIStream_message_delta_witness :
    ∃ id model blocks,
      (convertOpenAIStreamToAnthropic sampleLib freshWriter
          (sseInput [chunkHello, "\x7bmalformed", chunkFinish, chunkHello, "[DONE]", chunkHello])
          "claude-spoof").1.body =
        .message_start id model :: blocks ++
          [.message_delta
            (lastStopReason (parsedChunks sampleLib (sseEvents
              (sseInput [chunkHello, "\x7bmalformed", chunkFinish, chunkHello, "[DONE]",
                chunkHello]))))
            (lastOutputTokens (parsedChunks sampleLib (sseEvents
              (sseInput [chunkHello, "\x7bmalformed", chunkFinish, chunkHello, "[DONE]",
                chunkHello])))), .message_stop] ∧
      ∀ e ∈ blocks, e.isBlockEvent = true :=
  (convertOpenAIStream_message_delta sampleLib freshWriter
    (sseInput [chunkHello, "\x7bmalformed", chunkFinish, chunkHello, "[DONE]", chunkHello])
    "claude-spoof" rfl rfl rfl).1

/-- The stream of the sample: the malformed chunk and the chunk after `[DONE]` leave no
trace, and `message_delta` carries the stop reason and the tokens of the closing chunk. -/
theorem convertOpenAIStream_message_delta_sample :
    (convertOpenAIStreamToAnthropic sampleLib freshWriter
        (sseInput [chunkHello, "\x7bmalformed", chunkFinish, chunkHello, "[DONE]", chunkHello])
        "claude-spoof").1.body =
      [.message_start "msg_1000" "claude-spoof",
       .content_block_start 0 (.text ""),
       .content_block_delta 0 (.text_delta "hello"),
       .content_block_delta 0 (.text_delta "hello"),
       .content_block_stop 0,
       .message_delta "tool_use" 12,
       .message_stop] ∧
    lastStopReason (parsedChunks sampleLib (sseEvents
      (sseInput [chunkHello, "\x7bmalformed", chunkFinish, chunkHello, "[DONE]", chunkHello]))) =
        "tool_use" ∧
    lastOutputTokens (parsedChunks sampleLib (sseEvents
      (sseInput [chunkHello, "\x7bmalformed", chunkFinish, chunkHello, "[DONE]", chunkHello]))) =
        12 := by
  decide

/-! ## Closing the open blocks of the Responses translator -/

theorem forEach_write_stops (idxs : List Int) :
    ∀ s : ResponsesStream, s.w.failAfter = none →
      forEach (fun (s : ResponsesStream) idx => s.write (.content_block_stop idx)) idxs s =
        ({ s with w := { s.w with body := s.w.body ++ idxs.map .content_block_stop } }, none) := by
  induction idxs with
  | nil =>
    intro s _
    simp [forEach]
  | cons i rest ih =>
    intro s hw
    have hstep : s.write (.content_block_stop i) =
        ({ s with w := { s.w with body := s.w.body ++ [.content_block_stop i] } }, none) := by
      simp only [ResponsesStream.write, writeAnthropicSSEEvent_of_never_fails s.w _ hw]
    unfold forEach
    simp only [hstep]
    rw [ih]
    · simp
    · exact hw

theorem sortInts_strict (l : List Int) (h : l.Nodup) :
    (sortInts l).Pairwise (· < ·) ∧ ∀ i, i ∈ sortInts l ↔ i ∈ l := by
  have hperm : (sortInts l).Perm l := List.perm_insertionSort _ l
  have hsorted : (sortInts l).Sorted (· ≤ ·) := List.sorted_insertionSort _ l
  exact ⟨hsorted.lt_of_le (hperm.nodup_iff.mpr h), fun i => hperm.mem_iff⟩

/-- C31: on a writer that does not fail, `closeOpenResponseBlocks` appends to the response
one `content_block_stop` for each index of `openBlocks` and nothing else, the indices in
strictly ascending order (so each exactly once), returns no error and leaves `openBlocks`
empty. -/
theorem closeOpenResponseBlocks_stops_ascending (s : ResponsesStream)
    (hw : s.w.failAfter = none) (hkeys : s.state.openBlocks.keys.Nodup) :
    ∃ idxs : List Int,
      idxs.Pairwise (· < ·) ∧ (∀ i, i ∈ idxs ↔ i ∈ s.state.openBlocks.keys) ∧
      (closeOpenResponseBlocks s).1.w.body = s.w.body ++ idxs.map .content_block_stop ∧
      (closeOpenResponseBlocks s).1.state.openBlocks = GoMap.empty ∧
      (closeOpenResponseBlocks s).2 = none := by
  obtain ⟨hlt, hmem⟩ := sortInts_strict _ hkeys
  refine ⟨sortInts s.state.openBlocks.keys, hlt, hmem, ?_⟩
  unfold closeOpenResponseBlocks
  simp only [forEach_write_stops _ s hw]
  exact ⟨trivial, trivial, trivial⟩

/-- The theorem at the state of `TestCloseOpenResponseBlocks_SortedOrder`: the blocks 30,
2, 25, 1, 10 and 4 are open. -/
theorem closeOpenResponseBlocks_stops_ascending_witness :
    ∃ idxs : List Int,
      idxs.Pairwise (· < ·) ∧
      (∀ i, i ∈ idxs ↔ i ∈ sampleOpenBlocksStream.state.openBlocks.keys) ∧
      (closeOpenResponseBlocks sampleOpenBlocksStream).1.w.body =
        sampleOpenBlocksStream.w.body ++ idxs.map .content_block_stop ∧
      (closeOpenResponseBlocks sampleOpenBlocksStream).1.state.openBlocks = GoMap.empty ∧
      (closeOpenResponseBlocks sampleOpenBlocksStream).2 = none :=
  closeOpenResponseBlocks_stops_ascending sampleOpenBlocksStream rfl (by decide)

theorem closeOpenResponseBlocks_sample :
    (closeOpenResponseBlocks sampleOpenBlocksStream).1.w.body =
      [.content_block_stop 1, .content_block_stop 2, .content_block_stop 4,
        .content_block_stop 10, .content_block_stop 25, .content_block_stop 30] := by
  decide

/-! ## The end of an OpenAI stream -/

/-- C36 (code at the failing input). The placeholder block that `startPlaceholderToolCall`
tracks takes the function name of the fragment as it is, for every fragment. The first chunk
of the stream carries an arguments fragment for upstream index 0 with no id and no name: the
placeholder `tool_use` block that `convertOpenAIStreamToAnthropic` opens has the empty name,
not the name `unknown`. -/
theorem convertOpenAIStream_unnamed_placeholder :
    (∀ (lib : GoLib) (s : OpenAIStreamState) (tc : OpenAIToolCall),
      (startPlaceholderToolCall lib s tc none).1.2.name = tc.Function.Name) ∧
    (convertOpenAIStreamToAnthropic sampleLib freshWriter
        (sseInput [chunkArguments, "[DONE]"]) "claude-spoof") =
      ({ flusher := true
         failAfter := none
         body :=
          [.message_start "msg_1000" "claude-spoof",
           .content_block_start 0 (.tool_use "toolu_1001" ""),
           .content_block_delta 0 (.input_json_delta "\x7b\"q\":\"go\"\x7d"),
           .content_block_stop 0,
           .message_delta "end_turn" 0,
           .message_stop] }, false) ∧
    AnthropicEvent.content_block_start 0 (.tool_use "toolu_1001" "unknown") ∉
      (convertOpenAIStreamToAnthropic sampleLib freshWriter
        (sseInput [chunkArguments, "[DONE]"]) "claude-spoof").1.body := by
  refine ⟨fun _ _ _ => rfl, by decide, by decide⟩

/-! ## A tool choice that is not a map -/

/-- C37 (counterexample). The tool choice is the plain string `any`: `translateToolChoice`
returns the string `any`, not `required`. -/
theorem translateToolChoice_string_any :
    translateToolChoice (.string "any") = .string "any" ∧
      translateToolChoice (.string "any") ≠ .string "required" := by
  refine ⟨rfl, ?_⟩
  intro h
  have hs : "any" = "required" := JSONValue.string.inj h
  exact absurd hs (by decide)

/-- C37 (amended): a tool choice given as a plain string is returned unchanged by
`translateToolChoice`, whatever the string: `auto` and `none` map to themselves, and `any`
stays `any`. The mapping of `any` to `required` applies to the type of a map only. -/
theorem translateToolChoice_of_string (s : String) :
    translateToolChoice (.string s) = .string s ∧
      translateToolChoice (.object [("type", .string "any")]) = .string "required" :=
  ⟨rfl, rfl⟩

/-! ## The value of a `data:` line -/

theorem trimLineEnd_split (v : List Char) :
    ∃ ends, v = trimLineEnd v ++ ends ∧ ∀ c ∈ ends, c = '\r' ∨ c = '\n' := by
  induction v using List.reverseRecOn with
  | nil => exact ⟨[], rfl, by simp⟩
  | append_singleton l c ih =>
    obtain ⟨ends, h1, h2⟩ := ih
    by_cases hc : (c == '\r' || c == '\n') = true
    · refine ⟨ends ++ [c], ?_, ?_⟩
      · unfold trimLineEnd at h1 ⊢
        rw [List.rdropWhile_concat_pos (fun c => c == '\r' || c == '\n') _ _ hc, ← List.append_assoc, ← h1]
      · intro d hd
        rcases List.mem_append.mp hd with hd | hd
        · exact h2 d hd
        · rw [List.mem_singleton] at hd
          subst hd
          simpa using hc
    · refine ⟨[], ?_, by simp⟩
      unfold trimLineEnd
      rw [List.rdropWhile_concat_neg (fun c => c == '\r' || c == '\n') _ _ hc]
      simp

theorem trimLineEnd_last (v : List Char) :
    (trimLineEnd v).getLast? ≠ some '\r' ∧ (trimLineEnd v).getLast? ≠ some '\n' := by
  by_cases hv : trimLineEnd v = []
  · rw [hv]
    simp
  · have h := List.rdropWhile_last_not (fun c => c == '\r' || c == '\n') v hv
    rw [List.getLast?_eq_getLast _ hv]
    constructor
    · intro heq
      apply h
      have : (trimLineEnd v).getLast hv = '\r' := Option.some.inj heq
      unfold trimLineEnd at this
      rw [this]
      rfl
    · intro heq
      apply h
      have : (trimLineEnd v).getLast hv = '\n' := Option.some.inj heq
      unfold trimLineEnd at this
      rw [this]
      rfl

theorem trimLineEnd_data_line (v : List Char) :
    trimLineEnd ("data:".data ++ v) = "data:".data ++ trimLineEnd v := by
  induction v using List.reverseRecOn with
  | nil => decide
  | append_singleton l c ih =>
    by_cases hc : (c == '\r' || c == '\n') = true
    · unfold trimLineEnd at ih ⊢
      rw [← List.append_assoc, List.rdropWhile_concat_pos (fun c => c == '\r' || c == '\n') _ _ hc,
        List.rdropWhile_concat_pos (fun c => c == '\r' || c == '\n') _ _ hc, ih]
    · unfold trimLineEnd
      rw [← List.append_assoc, List.rdropWhile_concat_neg (fun c => c == '\r' || c == '\n') _ _ hc,
        List.rdropWhile_concat_neg (fun c => c == '\r' || c == '\n') _ _ hc, List.append_assoc]

theorem events_of_single_data_line (line : List Char) (value : String) (hne : line ≠ [])
    (hval : dataValue line = some value) (hev : eventValue line = none) :
    (sseGroups [line, [], []]).filterMap groupEvent = [("", value)] := by
  simp [sseGroups, hne, groupEvent, groupData, groupEventName, hval, hev, Join, joinChars]

theorem sseEvents_data_line (v : List Char) (hnl : '\n' ∉ v) :
    sseEvents ⟨"data:".data ++ v ++ ['\n', '\n']⟩ =
      [("", if (trimLineEnd v).head? = some ' ' then ⟨(trimLineEnd v).drop 1⟩
        else ⟨trimLineEnd v⟩)] := by
  have hno : '\n' ∉ "data:".data ++ v := by
    intro h
    rcases List.mem_append.mp h with h | h
    · revert h
      decide
    · exact hnl h
  have hlines : sseLines ⟨"data:".data ++ v ++ ['\n', '\n']⟩ =
      [("data:".data ++ trimLineEnd v), [], []] := by
    unfold sseLines
    have h1 : "data:".data ++ v ++ ['\n', '\n'] = ("data:".data ++ v) ++ '\n' :: ['\n'] := by
      simp
    rw [h1, readLines_append_newline _ _ hno]
    have h2 : readLines ['\n'] = [['\n'], []] := by decide
    have h3 : trimLineEnd ['\n'] = [] := by decide
    have h4 : trimLineEnd [] = [] := by decide
    rw [h2]
    show [trimLineEnd (("data:".data ++ v) ++ ['\n']), trimLineEnd ['\n'], trimLineEnd []] = _
    rw [trimLineEnd_append_newline, trimLineEnd_data_line, h3, h4]
  have hval : dataValue ("data:".data ++ trimLineEnd v) =
      some (if (trimLineEnd v).head? = some ' ' then ⟨(trimLineEnd v).drop 1⟩
        else ⟨trimLineEnd v⟩) :=
    (dataValue_eq_some_iff _ _).2 ⟨trimLineEnd v, rfl, rfl⟩
  have hev : eventValue ("data:".data ++ trimLineEnd v) = none := by
    cases he : eventValue ("data:".data ++ trimLineEnd v) with
    | none => rfl
    | some x =>
      obtain ⟨rest, h, _⟩ := (eventValue_eq_some_iff _ _).1 he
      have : ("data:".data ++ trimLineEnd v).head? = ("event:".data ++ rest).head? := by
        rw [h]
      simp at this
  unfold sseEvents
  rw [hlines]
  exact events_of_single_data_line _ _ (by simp) hval hev

/-- C38 (counterexample). The input is the line `data: x` terminated by `\r\r\n`, then a
blank line. The event delivered has the data `x`: both `\r` are removed, and the `\r` before
the terminating `\r\n` is not delivered. -/
theorem readSSEEvents_drops_every_trailing_cr :
    readSSEEvents "data: x\r\r\n\n" (traced acceptEvent) ((), []) =
        (((), [("", "x")]), false) ∧
      readSSEEvents "data: x\r\r\n\n" (traced acceptEvent) ((), []) ≠
        (((), [("", "x\r")]), false) := by
  constructor <;> decide

/-- C38 (amended): for an input made of one line `data:` followed by the text `v`, the
terminating `\n` and a blank line, `readSSEEvents` delivers one event, without name, whose
data is `v` less the whole run of `\r` that ends it (every trailing `\r`, not only one) and
less one leading space: what is kept does not end in `\r`, what is removed holds nothing but
`\r`, and every other character of `v` is delivered unchanged. -/
theorem readSSEEvents_data_line_value (v : List Char) (hnl : '\n' ∉ v) :
    ∃ kept crs : List Char,
      v = kept ++ crs ∧ (∀ c ∈ crs, c = '\r') ∧ kept.getLast? ≠ some '\r' ∧
      readSSEEvents (⟨"data:".data ++ v ++ ['\n', '\n']⟩ : String) (traced acceptEvent) ((), []) =
        (((), [("", if kept.head? = some ' ' then ⟨kept.drop 1⟩ else ⟨kept⟩)]), false) := by
  obtain ⟨ends, h1, h2⟩ := trimLineEnd_split v
  refine ⟨trimLineEnd v, ends, h1, ?_, (trimLineEnd_last v).1, ?_⟩
  · intro c hc
    rcases h2 c hc with h | h
    · exact h
    · exfalso
      apply hnl
      rw [h1]
      exact List.mem_append_right _ (h ▸ hc)
  · rw [readSSEEvents_eq_deliver, sseEvents_data_line v hnl]
    rfl

theorem readSSEEvents_data_line_value_witness :
    '\n' ∉ "  a b\r\r".data ∧
    ∃ kept crs : List Char,
      "  a b\r\r".data = kept ++ crs ∧ (∀ c ∈ crs, c = '\r') ∧ kept.getLast? ≠ some '\r' ∧
      readSSEEvents (⟨"data:".data ++ "  a b\r\r".data ++ ['\n', '\n']⟩ : String)
          (traced acceptEvent)
          ((), []) =
        (((), [("", if kept.head? = some ' ' then ⟨kept.drop 1⟩ else ⟨kept⟩)]), false) :=
  ⟨by decide, readSSEEvents_data_line_value "  a b\r\r".data (by decide)⟩

theorem readSSEEvents_data_line_sample :
    readSSEEvents "data:  a b\r\r\n\n" (traced acceptEvent) ((), []) =
      (((), [("", " a b")]), false) := by
  decide

/-! ## Validation of the configuration -/

theorem loadProvider_withoutTokenEnv (lib : GoLib) (name : String) (p : ProviderConfig) :
    loadProvider lib name p.withoutTokenEnv =
      (loadProvider lib name p).map ProviderConfig.withoutTokenEnv := by
  unfold loadProvider ProviderConfig.withoutTokenEnv
  dsimp only
  repeat' split
  all_goals rfl

theorem loadProviders_withoutTokenEnv (lib : GoLib) :
    ∀ entries : List (String × ProviderConfig),
      loadProviders lib (entries.map (fun e => (e.1, e.2.withoutTokenEnv))) =
        (loadProviders lib entries).map
          (fun es => es.map (fun e => (e.1, e.2.withoutTokenEnv))) := by
  intro entries
  induction entries with
  | nil => rfl
  | cons e rest ih =>
    obtain ⟨name, p⟩ := e
    simp only [List.map_cons, loadProviders]
    rw [loadProvider_withoutTokenEnv, ih]
    cases loadProvider lib name p with
    | error e => rfl
    | ok q =>
      cases loadProviders lib rest with
      | error e => rfl
      | ok qs => rfl

theorem lookup_map_snd {κ ν μ : Type} [DecidableEq κ] (f : ν → μ) (k : κ) :
    ∀ entries : List (κ × ν),
      GoMap.lookup (entries.map (fun e => (e.1, f e.2))) k = (GoMap.lookup entries k).map f := by
  intro entries
  induction entries with
  | nil => rfl
  | cons e rest ih =>
    simp only [List.map_cons, GoMap.lookup]
    split
    · rfl
    · exact ih

theorem LoadConfig_withoutTokenEnv (lib : GoLib) (cfg : Config) :
    LoadConfig lib cfg.withoutTokenEnv = (LoadConfig lib cfg).map Config.withoutTokenEnv := by
  unfold LoadConfig Config.withoutTokenEnv
  dsimp only
  rw [loadProviders_withoutTokenEnv, List.length_map]
  by_cases h1 : cfg.Listen = ""
  · simp only [if_pos h1]; rfl
  simp only [if_neg h1]
  by_cases h2 : cfg.SpoofModel = ""
  · simp only [if_pos h2]; rfl
  simp only [if_neg h2]
  by_cases h3 : cfg.DefaultProvider = ""
  · simp only [if_pos h3]; rfl
  simp only [if_neg h3]
  by_cases h4 : cfg.TimeoutSeconds ≤ 0
  · simp only [if_pos h4]; rfl
  simp only [if_neg h4]
  by_cases h5 : cfg.Providers.entries.length = 0
  · simp only [if_pos h5]; rfl
  simp only [if_neg h5]
  cases loadProviders lib cfg.Providers.entries with
  | error e => rfl
  | ok entries =>
    simp only [Except.map, GoMap.get?]
    rw [lookup_map_snd]
    cases GoMap.lookup entries cfg.DefaultProvider with
    | none => rfl
    | some p => rfl

theorem ApplyProviderAuth_bearer_without_token_env (env : AuthEnv) (header : GoMap String String)
    (provider : ProviderConfig) (hkind : provider.Auth.Kind = AuthTypeBearer)
    (htoken : provider.Auth.TokenEnv = "") :
    ApplyProviderAuth env header provider = .error "bearer auth requires token_env" := by
  unfold ApplyProviderAuth
  simp only [hkind, htoken]
  rfl

/-- C39 (counterexample). The configuration of `TestLoadConfig_Success` with the `token_env`
of the provider `openai` left out: the provider has `auth.type` `bearer` and an empty
`auth.token_env`, and `LoadConfig` accepts the configuration. -/
theorem LoadConfig_accepts_bearer_without_token_env :
    (∃ p, sampleBearerConfig.Providers.get? "openai" = some p ∧ p.Auth.Kind = "bearer" ∧
      p.Auth.TokenEnv = "") ∧
    ∃ cfg, LoadConfig plainLib sampleBearerConfig = .ok cfg ∧
      (cfg.Providers.get? "openai").map (fun p => (p.Auth.Kind, p.Auth.TokenEnv)) =
        some ("bearer", "") :=
  ⟨⟨_, rfl, rfl, rfl⟩, _, rfl, rfl⟩

/-- C39 (amended): `LoadConfig` does not look at `auth.token_env`: taking the `token_env` of
every provider away changes neither whether the configuration is accepted nor the error
returned, and the accepted configuration differs in the `token_env` only. A provider with
`auth.type` `bearer` and an empty `auth.token_env` is refused when a request is sent to it:
`ApplyProviderAuth` returns the error `bearer auth requires token_env`, and
`doProviderRequestWithRetry` returns that error without an upstream attempt. -/
theorem LoadConfig_ignores_token_env :
    (∀ (lib : GoLib) (cfg : Config),
      LoadConfig lib cfg.withoutTokenEnv = (LoadConfig lib cfg).map Config.withoutTokenEnv) ∧
    (∀ (env : AuthEnv) (header : GoMap String String) (provider : ProviderConfig),
      provider.Auth.Kind = AuthTypeBearer → provider.Auth.TokenEnv = "" →
      ApplyProviderAuth env header provider = .error "bearer auth requires token_env") ∧
    (∀ (up : Upstream) (provider : ProviderConfig) (stream : Bool) (requestID : String),
      provider.Auth.Kind = AuthTypeBearer → provider.Auth.TokenEnv = "" →
      up.ctxErr 0 = none → up.newRequest = none →
      doProviderRequestWithRetry up provider stream requestID =
        { resp := none, err := some (.auth "bearer auth requires token_env"), steps := [] }) := by
  refine ⟨LoadConfig_withoutTokenEnv, ApplyProviderAuth_bearer_without_token_env, ?_⟩
  intro up provider stream requestID hkind htoken hctx hreq
  unfold doProviderRequestWithRetry maxRetryCount
  unfold retryLoop
  simp only [hctx, hreq, ApplyProviderAuth_bearer_without_token_env _ _ provider hkind htoken]

/-- The theorem at the configuration of `TestLoadConfig_Success`: it is accepted with and
without the `token_env` of its bearer provider, and a request to that provider with the
`token_env` left out fails before any upstream attempt. -/
theorem LoadConfig_ignores_token_env_witness :
    (∃ cfg, LoadConfig plainLib sampleLoadConfig = .ok cfg) ∧
    (∃ cfg, LoadConfig plainLib sampleLoadConfig.withoutTokenEnv = .ok cfg) ∧
    doProviderRequestWithRetry
        { ctxErr := fun _ => none, newRequest := none, authEnv := fun _ => emptyAuthEnv,
          roundTrip := fun _ => .response { StatusCode := 200, Body := "" } }
        { Kind := "openai", URL := "https://api.openai.com/v1/chat/completions",
          Model := "gpt-5-mini", ReasoningEffort := "high",
          Auth := { Kind := "bearer", TokenEnv := "" } } false "" =
      { resp := none, err := some (.auth "bearer auth requires token_env"), steps := [] } :=
  ⟨⟨_, rfl⟩,
    ⟨_, (LoadConfig_ignores_token_env.1 plainLib sampleLoadConfig).trans rfl⟩,
    LoadConfig_ignores_token_env.2.2 _ _ false "" rfl rfl rfl rfl⟩

/-! ## Provider keys with upper-case letters -/

theorem loadProviders_keys (lib : GoLib) :
    ∀ (entries loaded : List (String × ProviderConfig)),
      loadProviders lib entries = .ok loaded → loaded.map Prod.fst = entries.map Prod.fst := by
  intro entries
  induction entries with
  | nil =>
    intro loaded h
    simp only [loadProviders, Except.ok.injEq] at h
    subst h
    rfl
  | cons e rest ih =>
    intro loaded h
    obtain ⟨name, p⟩ := e
    simp only [loadProviders] at h
    cases hp : loadProvider lib name p with
    | error e => rw [hp] at h; cases h
    | ok q =>
      rw [hp] at h
      cases hr : loadProviders lib rest with
      | error e => rw [hr] at h; cases h
      | ok qs =>
        rw [hr] at h
        simp only [Except.ok.injEq] at h
        subst h
        simp only [List.map_cons, ih qs hr]

theorem LoadConfig_keys (lib : GoLib) (parsed cfg : Config)
    (h : LoadConfig lib parsed = .ok cfg) : cfg.Providers.keys = parsed.Providers.keys := by
  unfold LoadConfig at h
  by_cases h1 : parsed.Listen = ""
  · rw [if_pos h1] at h; cases h
  rw [if_neg h1] at h
  by_cases h2 : parsed.SpoofModel = ""
  · rw [if_pos h2] at h; cases h
  rw [if_neg h2] at h
  by_cases h3 : parsed.DefaultProvider = ""
  · rw [if_pos h3] at h; cases h
  rw [if_neg h3] at h
  by_cases h4 : parsed.TimeoutSeconds ≤ 0
  · rw [if_pos h4] at h; cases h
  rw [if_neg h4] at h
  by_cases h5 : parsed.Providers.entries.length = 0
  · rw [if_pos h5] at h; cases h
  rw [if_neg h5] at h
  cases hl : loadProviders lib parsed.Providers.entries with
  | error e => rw [hl] at h; cases h
  | ok entries =>
    rw [hl] at h
    dsimp only at h
    cases hg : GoMap.get? (⟨entries⟩ : GoMap String ProviderConfig) parsed.DefaultProvider with
    | none => rw [hg] at h; cases h
    | some q =>
      rw [hg] at h
      simp only [Except.ok.injEq] at h
      subst h
      exact loadProviders_keys lib _ _ hl

theorem lookup_eq_none_of_not_mem {κ ν : Type} [DecidableEq κ] (k : κ) :
    ∀ entries : List (κ × ν), k ∉ entries.map Prod.fst → GoMap.lookup entries k = none := by
  intro entries
  induction entries with
  | nil => intro _; rfl
  | cons e rest ih =>
    intro h
    simp only [List.map_cons, List.mem_cons, not_or] at h
    simp only [GoMap.lookup]
    rw [if_neg (fun heq => h.1 heq.symm)]
    exact ih h.2

theorem toLower_not_upper (c : Char) : ¬ ('A' ≤ c.toLower ∧ c.toLower ≤ 'Z') := by
  have hval : ∀ n, 65 ≤ n → n ≤ 90 → (Char.ofNat (n + 32)).toNat = n + 32 := by
    intro n h1 h2
    interval_cases n <;> rfl
  have e3 : ('A' : Char).toNat = 65 := rfl
  have e4 : ('Z' : Char).toNat = 90 := rfl
  have hlow : c.toLower =
      if c.toNat ≥ 65 ∧ c.toNat ≤ 90 then Char.ofNat (c.toNat + 32) else c := rfl
  rw [char_le_iff, char_le_iff, e3, e4, hlow]
  by_cases h : c.toNat ≥ 65 ∧ c.toNat ≤ 90
  · rw [if_pos h, hval _ h.1 h.2]
    omega
  · rw [if_neg h]
    omega

theorem routeMarkerOf_lower (lib : GoLib) (c : DynContent) (name : String)
    (h : routeMarkerOf lib c = some name) : ∀ ch ∈ name.data, ¬ ('A' ≤ ch ∧ ch ≤ 'Z') := by
  unfold routeMarkerOf routeMarkerPattern at h
  cases hf : findMarker "@route:".data isRouteChar (NormalizeSystemText lib c).data with
  | none => rw [hf] at h; simp at h
  | some v =>
    rw [hf] at h
    simp only [Option.map_some', Option.some.injEq] at h
    obtain ⟨_, hall⟩ := findMarker_some_spec _ _ _ v hf
    subst h
    simp only [ToLower]
    rw [map_lowerRune_of_ascii _ v (fun c hc => isRouteChar_ascii c (hall c hc))]
    intro ch hch
    obtain ⟨d, _, rfl⟩ := List.mem_map.1 hch
    exact toLower_not_upper d

theorem resolvedRouteMarker_lower (lib : GoLib) (system : DynContent)
    (messages : List AnthropicMessage) (name : String)
    (h : resolvedRouteMarker lib system messages = some name) :
    ∀ ch ∈ name.data, ¬ ('A' ≤ ch ∧ ch ≤ 'Z') := by
  unfold resolvedRouteMarker at h
  obtain ⟨c, _, hc⟩ := List.exists_of_findSome?_eq_some h
  exact routeMarkerOf_lower lib c name hc

theorem findSome?_of_find? {α β : Type} (f : α → Option β) (a : α) :
    ∀ l : List α, l.find? (fun x => (f x).isSome) = some a → l.findSome? f = f a := by
  intro l
  induction l with
  | nil => intro h; cases h
  | cons x rest ih =>
    intro h
    rw [List.find?_cons] at h
    rw [List.findSome?_cons]
    cases hx : f x with
    | none =>
      rw [hx] at h
      exact ih h
    | some b =>
      rw [hx] at h
      simp only [Option.isSome_some, Option.some.injEq] at h
      rw [← h, hx]

theorem routeMarkerOf_of_firstMarker (lib : GoLib) (c : DynContent) (K : String)
    (h : FirstMarker routeLiteral isRouteChar (NormalizeSystemText lib c).data K.data) :
    routeMarkerOf lib c = some (ToLower lib.unicodeToLower K) := by
  have hf := findMarker_of_firstMarker routeLiteral isRouteChar _ K.data h
  unfold routeMarkerOf routeMarkerPattern
  unfold routeLiteral at hf
  rw [hf]
  rfl

/-- C40: `LoadConfig` keeps the keys of `providers` as they are written, and `ResolveProvider`
looks the lower-cased value of the route marker up among them. For a configuration accepted
by `LoadConfig` and a name `K` that holds an upper-case letter and whose lower-cased form is
not a key: a request whose route marker (the first marker of the system, or else of the first
message that holds one) spells `K` fails with the error `route provider not found` for the
lower-cased `K`; and whenever `ResolveProvider` returns the provider named `K`, the request
holds no route marker and `K` is the `default_provider`. -/
theorem ResolveProvider_mixed_case_key (lib : GoLib) (parsed cfg : Config) (K : String)
    (hload : LoadConfig lib parsed = .ok cfg)
    (hupper : ∃ c ∈ K.data, 'A' ≤ c ∧ c ≤ 'Z')
    (htwin : ToLower lib.unicodeToLower K ∉ parsed.Providers.keys) :
    cfg.Providers.keys = parsed.Providers.keys ∧
    (∀ (system : DynContent) (messages : List AnthropicMessage) (c : DynContent),
      routeMarkerContent lib system messages = some c →
      FirstMarker routeLiteral isRouteChar (NormalizeSystemText lib c).data K.data →
      ResolveProvider lib system messages (some cfg) =
        .error (.routeProviderNotFound (ToLower lib.unicodeToLower K))) ∧
    (∀ (system : DynContent) (messages : List AnthropicMessage) (p : ProviderConfig),
      ResolveProvider lib system messages (some cfg) = .ok (K, p) →
      resolvedRouteMarker lib system messages = none ∧ cfg.DefaultProvider = K) := by
  have hkeys := LoadConfig_keys lib parsed cfg hload
  refine ⟨hkeys, ?_, ?_⟩
  · intro system messages c hc hfirst
    have hm : resolvedRouteMarker lib system messages =
        some (ToLower lib.unicodeToLower K) := by
      unfold resolvedRouteMarker
      rw [findSome?_of_find? (routeMarkerOf lib) c _ hc]
      exact routeMarkerOf_of_firstMarker lib c K hfirst
    have hget : cfg.Providers.get? (ToLower lib.unicodeToLower K) = none := by
      unfold GoMap.get?
      apply lookup_eq_none_of_not_mem
      have : cfg.Providers.entries.map Prod.fst = cfg.Providers.keys := rfl
      rw [this, hkeys]
      exact htwin
    rw [ResolveProvider_eq, hm]
    simp only [hget]
  · intro system messages p hres
    rw [ResolveProvider_eq] at hres
    cases hm : resolvedRouteMarker lib system messages with
    | some name =>
      simp only [hm] at hres
      exfalso
      have hlow := resolvedRouteMarker_lower lib system messages name hm
      cases hg : cfg.Providers.get? name with
      | none => simp only [hg] at hres; cases hres
      | some q =>
        simp only [hg, Except.ok.injEq, Prod.mk.injEq] at hres
        obtain ⟨ch, hch, hup⟩ := hupper
        rw [← hres.1] at hch
        exact hlow ch hch hup
    | none =>
      simp only [hm] at hres
      refine ⟨rfl, ?_⟩
      cases hg : cfg.Providers.get? cfg.DefaultProvider with
      | none => simp only [hg] at hres; cases hres
      | some q =>
        simp only [hg, Except.ok.injEq, Prod.mk.injEq] at hres
        exact hres.1

/-- The theorem at a configuration whose second provider has the key `Fast`: the keys are
kept, and the request with the system `@route:Fast` is refused, `fast` not being a key. -/
theorem ResolveProvider_mixed_case_key_witness :
    (∃ cfg, LoadConfig plainLib sampleMixedCaseConfig = .ok cfg ∧
      cfg.Providers.keys = ["anthropic", "Fast"] ∧
      ResolveProvider plainLib (.json (.string "@route:Fast")) [] (some cfg) =
        .error (.routeProviderNotFound "fast")) :=
  ⟨_, rfl,
    (ResolveProvider_mixed_case_key plainLib sampleMixedCaseConfig _ "Fast" rfl
      ⟨'F', by decide, by decide⟩ (by decide)).1,
    (ResolveProvider_mixed_case_key plainLib sampleMixedCaseConfig _ "Fast" rfl
      ⟨'F', by decide, by decide⟩ (by decide)).2.1 (.json (.string "@route:Fast")) []
      (.json (.string "@route:Fast")) rfl (firstMarker_of_findMarker _ _ _ _ (by decide))⟩

/-! ## Retries of the upstream request -/

theorem retryLoop_succ (up : Upstream) (provider : ProviderConfig) (stream : Bool)
    (requestID : String) (fuel attempt reads : Nat) (lastErr : Option RequestError)
    (steps : List RetryStep) :
    retryLoop up provider stream requestID (fuel + 1) attempt reads lastErr steps =
      match up.ctxErr reads with
      | some e => { resp := none, err := some (.context e), steps := steps }
      | none =>
        match up.newRequest with
        | some msg => { resp := none, err := some (.createRequest msg), steps := steps }
        | none =>
          match ApplyProviderAuth (up.authEnv attempt) (requestHeader stream requestID)
              provider with
          | .error msg => { resp := none, err := some (.auth msg), steps := steps }
          | .ok _ =>
            match up.roundTrip attempt with
            | .failure err =>
              if err.isContextError then
                { resp := none, err := some (.transport err)
                  steps := steps ++ [.attempt attempt] }
              else
                match up.ctxErr (reads + 1) with
                | some _ =>
                  { resp := none, err := some (.transport err)
                    steps := steps ++ [.attempt attempt] }
                | none =>
                  if attempt = maxRetryCount then
                    { resp := none, err := some (.transport err)
                      steps := steps ++ [.attempt attempt] }
                  else
                    retryLoop up provider stream requestID fuel (attempt + 1) (reads + 2)
                      (some (.transport err))
                      (steps ++ [.attempt attempt, .sleep (backoffDuration attempt)])
            | .response resp =>
              if isRetryableStatus resp.StatusCode ∧ attempt < maxRetryCount then
                match up.ctxErr (reads + 1) with
                | some e =>
                  { resp := none, err := some (.context e)
                    steps := steps ++ [.attempt attempt] }
                | none =>
                  retryLoop up provider stream requestID fuel (attempt + 1) (reads + 2)
                    (some (.status resp.StatusCode))
                    (steps ++ [.attempt attempt, .sleep (backoffDuration attempt)])
              else
                { resp := some resp, err := none, steps := steps ++ [.attempt attempt] } :=
  rfl

theorem retryLoop_steps (up : Upstream) (provider : ProviderConfig) (stream : Bool)
    (requestID : String) :
    ∀ (fuel attempt reads : Nat) (lastErr : Option RequestError),
      fuel + attempt = maxRetryCount + 1 → attempt ≤ maxRetryCount →
      ∃ n, n ≤ maxRetryCount ∧
        ((retryLoop up provider stream requestID fuel attempt reads lastErr
            (retriedSteps attempt)).steps = retriedSteps n ∨
          (retryLoop up provider stream requestID fuel attempt reads lastErr
            (retriedSteps attempt)).steps = retriedSteps n ++ [.attempt n]) := by
  intro fuel
  induction fuel with
  | zero =>
    intro attempt reads lastErr h1 h2
    omega
  | succ fuel ih =>
    intro attempt reads lastErr h1 h2
    rw [retryLoop_succ]
    cases up.ctxErr reads with
    | some e => exact ⟨attempt, h2, Or.inl rfl⟩
    | none =>
      cases up.newRequest with
      | some msg => exact ⟨attempt, h2, Or.inl rfl⟩
      | none =>
        cases ApplyProviderAuth (up.authEnv attempt) (requestHeader stream requestID)
            provider with
        | error msg => exact ⟨attempt, h2, Or.inl rfl⟩
        | ok hd =>
          cases up.roundTrip attempt with
          | failure err =>
            dsimp only
            split
            · exact ⟨attempt, h2, Or.inr rfl⟩
            · cases up.ctxErr (reads + 1) with
              | some e => exact ⟨attempt, h2, Or.inr rfl⟩
              | none =>
                dsimp only
                split
                · exact ⟨attempt, h2, Or.inr rfl⟩
                · rename_i hne
                  exact ih (attempt + 1) (reads + 2) _ (by omega) (by omega)
          | response resp =>
            dsimp only
            split
            · rename_i hretry
              cases up.ctxErr (reads + 1) with
              | some e => exact ⟨attempt, h2, Or.inr rfl⟩
              | none => exact ih (attempt + 1) (reads + 2) _ (by omega) (by omega)
            · exact ⟨attempt, h2, Or.inr rfl⟩

theorem countAttempts_retriedSteps : ∀ n, countAttempts (retriedSteps n) = n := by
  intro n
  induction n with
  | zero => rfl
  | succ n ih =>
    unfold countAttempts at ih ⊢
    simp only [retriedSteps, List.countP_append, ih]
    rfl

theorem sleepsOf_retriedSteps : ∀ n, sleepsOf (retriedSteps n) = (List.range n).map backoffDuration := by
  intro n
  induction n with
  | zero => rfl
  | succ n ih =>
    unfold sleepsOf at ih ⊢
    simp only [retriedSteps, List.filterMap_append, ih, List.range_succ, List.map_append]
    rfl

theorem countAttempts_append_attempt (steps : List RetryStep) (n : Nat) :
    countAttempts (steps ++ [.attempt n]) = countAttempts steps + 1 := by
  unfold countAttempts
  simp only [List.countP_append]
  rfl

theorem sleepsOf_append_attempt (steps : List RetryStep) (n : Nat) :
    sleepsOf (steps ++ [.attempt n]) = sleepsOf steps := by
  unfold sleepsOf
  simp only [List.filterMap_append]
  simp

/-- C32: whatever the context, the credentials and the upstream do, the steps of a call of
`doProviderRequestWithRetry` are, for some `n` of at most 5, the attempts 0 to `n - 1` each
followed by a sleep of `backoffDuration` of its number, and then either nothing or the attempt
`n`. The call therefore makes at most 6 upstream attempts, its sleeps are the values
`backoffDuration 0`, ..., `backoffDuration (n - 1)` in this order, each taken right after the
attempt of that number, and `backoffDuration k` is 250 ms times `2 ^ k` for `k` from 0 to 4:
250, 500, 1000, 2000 and 4000 ms. -/
theorem doProviderRequestWithRetry_attempts_and_backoff (up : Upstream)
    (provider : ProviderConfig) (stream : Bool) (requestID : String) :
    (∃ n, n ≤ 5 ∧
      ((doProviderRequestWithRetry up provider stream requestID).steps = retriedSteps n ∨
        (doProviderRequestWithRetry up provider stream requestID).steps =
          retriedSteps n ++ [.attempt n]) ∧
      sleepsOf (doProviderRequestWithRetry up provider stream requestID).steps =
        (List.range n).map backoffDuration) ∧
    countAttempts (doProviderRequestWithRetry up provider stream requestID).steps ≤ 6 ∧
    (∀ k, k ≤ 4 → backoffDuration k = 250 * 2 ^ k * Millisecond) ∧
    (List.range 5).map backoffDuration =
      [250 * Millisecond, 500 * Millisecond, 1000 * Millisecond, 2000 * Millisecond,
        4000 * Millisecond] := by
  obtain ⟨n, hn, hsteps⟩ := retryLoop_steps up provider stream requestID (maxRetryCount + 1) 0 0
    none rfl (Nat.zero_le _)
  have hn5 : n ≤ 5 := hn
  have hsteps2 : (doProviderRequestWithRetry up provider stream requestID).steps =
        retriedSteps n ∨
      (doProviderRequestWithRetry up provider stream requestID).steps =
        retriedSteps n ++ [.attempt n] := hsteps
  refine ⟨⟨n, hn5, hsteps2, ?_⟩, ?_, ?_, by decide⟩
  · rcases hsteps2 with h | h
    · rw [h, sleepsOf_retriedSteps]
    · rw [h, sleepsOf_append_attempt, sleepsOf_retriedSteps]
  · rcases hsteps2 with h | h
    · rw [h, countAttempts_retriedSteps]
      omega
    · rw [h, countAttempts_append_attempt, countAttempts_retriedSteps]
      omega
  · intro k hk
    interval_cases k <;> decide

theorem retryLoop_run (up : Upstream) (provider : ProviderConfig) (stream : Bool)
    (requestID : String) (n : Nat) (hn : n ≤ maxRetryCount)
    (hctx : ∀ i, i ≤ 2 * n → up.ctxErr i = none) (hreq : up.newRequest = none)
    (hauth : ∀ k, k ≤ n →
      ∃ h, ApplyProviderAuth (up.authEnv k) (requestHeader stream requestID) provider = .ok h)
    (hretried : ∀ k, k < n → Retried up k) :
    ∀ (d fuel attempt : Nat) (lastErr : Option RequestError),
      fuel + attempt = maxRetryCount + 1 → attempt + d = n →
      ∃ lastErr1,
        retryLoop up provider stream requestID fuel attempt (2 * attempt) lastErr
            (retriedSteps attempt) =
          retryLoop up provider stream requestID (fuel - d) n (2 * n) lastErr1
            (retriedSteps n) := by
  intro d
  induction d with
  | zero =>
    intro fuel attempt lastErr _ h2
    have : attempt = n := by omega
    subst this
    exact ⟨lastErr, rfl⟩
  | succ d ih =>
    intro fuel attempt lastErr h1 h2
    have hlt : attempt < n := by omega
    obtain ⟨f, rfl⟩ : ∃ f, fuel = f + 1 := ⟨fuel - 1, by omega⟩
    obtain ⟨hd, hok⟩ := hauth attempt (by omega)
    have hne : attempt ≠ maxRetryCount := by omega
    have hlt2 : attempt < maxRetryCount := by omega
    have hnext : 2 * attempt + 2 = 2 * (attempt + 1) := by omega
    have hfuel : f + 1 - (d + 1) = f - d := by omega
    rw [retryLoop_succ, hctx (2 * attempt) (by omega), hreq, hok]
    dsimp only
    have hr := hretried attempt hlt
    unfold Retried at hr
    cases hrt : up.roundTrip attempt with
    | failure err =>
      rw [hrt] at hr
      dsimp only at hr ⊢
      rw [hr, hctx (2 * attempt + 1) (by omega)]
      simp only [Bool.false_eq_true, if_false, if_neg hne]
      rw [hnext, hfuel]
      exact ih f (attempt + 1) _ (by omega) (by omega)
    | response resp =>
      rw [hrt] at hr
      dsimp only at hr ⊢
      have hcond : isRetryableStatus resp.StatusCode = true ∧ attempt < maxRetryCount := by
        refine ⟨?_, hlt2⟩
        unfold isRetryableStatus
        rw [hr]
        rfl
      rw [if_pos hcond, hctx (2 * attempt + 1) (by omega)]
      dsimp only
      rw [hnext, hfuel]
      exact ih f (attempt + 1) _ (by omega) (by omega)

theorem doProviderRequestWithRetry_run (up : Upstream) (provider : ProviderConfig)
    (stream : Bool) (requestID : String) (n : Nat) (hn : n ≤ maxRetryCount)
    (hctx : ∀ i, i ≤ 2 * n → up.ctxErr i = none) (hreq : up.newRequest = none)
    (hauth : ∀ k, k ≤ n →
      ∃ h, ApplyProviderAuth (up.authEnv k) (requestHeader stream requestID) provider = .ok h)
    (hretried : ∀ k, k < n → Retried up k) :
    ∃ fuel lastErr,
      doProviderRequestWithRetry up provider stream requestID =
        match up.roundTrip n with
        | .failure err =>
          if err.isContextError then
            { resp := none, err := some (.transport err)
              steps := retriedSteps n ++ [.attempt n] }
          else
            match up.ctxErr (2 * n + 1) with
            | some _ =>
              { resp := none, err := some (.transport err)
                steps := retriedSteps n ++ [.attempt n] }
            | none =>
              if n = maxRetryCount then
                { resp := none, err := some (.transport err)
                  steps := retriedSteps n ++ [.attempt n] }
              else
                retryLoop up provider stream requestID fuel (n + 1) (2 * n + 2) lastErr
                  (retriedSteps (n + 1))
        | .response resp =>
          if isRetryableStatus resp.StatusCode ∧ n < maxRetryCount then
            match up.ctxErr (2 * n + 1) with
            | some e =>
              { resp := none, err := some (.context e)
                steps := retriedSteps n ++ [.attempt n] }
            | none =>
              retryLoop up provider stream requestID fuel (n + 1) (2 * n + 2) lastErr
                (retriedSteps (n + 1))
          else
            { resp := some resp, err := none, steps := retriedSteps n ++ [.attempt n] } := by
  obtain ⟨lastErr1, hrun⟩ := retryLoop_run up provider stream requestID n hn hctx hreq hauth
    hretried n (maxRetryCount + 1) 0 none rfl (by omega)
  obtain ⟨hd, hok⟩ := hauth n (Nat.le_refl n)
  obtain ⟨f, hf⟩ : ∃ f, maxRetryCount + 1 - n = f + 1 := ⟨maxRetryCount - n, by omega⟩
  have hstart : doProviderRequestWithRetry up provider stream requestID =
      retryLoop up provider stream requestID (maxRetryCount + 1) 0 (2 * 0) none
        (retriedSteps 0) := rfl
  rw [hstart, hrun, hf, retryLoop_succ, hctx (2 * n) (Nat.le_refl _), hreq, hok]
  dsimp only
  cases up.roundTrip n with
  | failure err =>
    dsimp only
    refine ⟨f, some (.transport err), ?_⟩
    rfl
  | response resp =>
    dsimp only
    refine ⟨f, some (.status resp.StatusCode), ?_⟩
    rfl

/-- C33: while the context is not done and the request can be built and authenticated, a
response whose status is not 429 is returned by the attempt that received it, after which
`doProviderRequestWithRetry` makes no further attempt and takes no sleep. When the attempts 0
to `n - 1` (`n < 6`) are retried, in particular when the upstream answers each of them with
429, and the attempt `n` receives a response of another status, the call returns that
response without error, and its steps are the `n` retried attempts with their sleeps and the
attempt `n`: `n + 1` attempts in all. A 429 received by the sixth attempt is returned as
well. -/
theorem doProviderRequestWithRetry_returns_other_status (up : Upstream)
    (provider : ProviderConfig) (stream : Bool) (requestID : String) (n : Nat)
    (resp : UpstreamResponse) (hn : n < 6)
    (hctx : ∀ i, i ≤ 2 * n → up.ctxErr i = none) (hreq : up.newRequest = none)
    (hauth : ∀ k, k ≤ n →
      ∃ h, ApplyProviderAuth (up.authEnv k) (requestHeader stream requestID) provider = .ok h)
    (hretried : ∀ k, k < n → Retried up k)
    (hlast : up.roundTrip n = .response resp)
    (hstatus : resp.StatusCode ≠ 429 ∨ n = 5) :
    doProviderRequestWithRetry up provider stream requestID =
        { resp := some resp, err := none, steps := retriedSteps n ++ [.attempt n] } ∧
      countAttempts (doProviderRequestWithRetry up provider stream requestID).steps = n + 1 ∧
      (∀ k r, up.roundTrip k = .response r → r.StatusCode = 429 → Retried up k) := by
  have hn5 : n ≤ maxRetryCount := Nat.lt_succ_iff.mp hn
  obtain ⟨fuel, lastErr, hrun⟩ := doProviderRequestWithRetry_run up provider stream requestID n
    hn5 hctx hreq hauth hretried
  have hcond : ¬ (isRetryableStatus resp.StatusCode = true ∧ n < maxRetryCount) := by
    rintro ⟨h1, h2⟩
    rcases hstatus with h | h
    · apply h
      unfold isRetryableStatus at h1
      exact eq_of_beq h1
    · rw [h] at h2
      exact absurd h2 (by decide)
  have hres : doProviderRequestWithRetry up provider stream requestID =
      { resp := some resp, err := none, steps := retriedSteps n ++ [.attempt n] } := by
    rw [hrun, hlast]
    dsimp only
    rw [if_neg hcond]
  refine ⟨hres, ?_, ?_⟩
  · rw [hres]
    dsimp only
    rw [countAttempts_append_attempt, countAttempts_retriedSteps]
  · intro k r hk hr
    unfold Retried
    rw [hk]
    exact hr

/-- The theorem at the upstream of `TestDoProviderRequestWithRetry_Retry429`, which answers
429 twice and then 200: three attempts, the sleeps of 250 and 500 ms, and the response 200
returned. -/
theorem doProviderRequestWithRetry_returns_other_status_witness :
    doProviderRequestWithRetry sampleUpstream429 sampleRetryProvider false "" =
      { resp := some { StatusCode := 200, Body := "\x7b\"ok\":true\x7d" }, err := none,
        steps := [.attempt 0, .sleep (250 * Millisecond), .attempt 1,
          .sleep (500 * Millisecond), .attempt 2] } :=
  (doProviderRequestWithRetry_returns_other_status sampleUpstream429 sampleRetryProvider false ""
    2 { StatusCode := 200, Body := "\x7b\"ok\":true\x7d" } (by decide) (fun _ _ => rfl) rfl
    (fun _ _ => ⟨_, rfl⟩)
    (fun k hk => by
      have h : sampleUpstream429.roundTrip k =
          .response { StatusCode := 429, Body := "\x7b\"error\":\"rate_limited\"\x7d" } :=
        if_pos hk
      unfold Retried
      rw [h])
    rfl (Or.inl (by decide))).1

/-- C34: when the context is already done at the entry of `doProviderRequestWithRetry`, the
call returns the error of the context and has taken no step: no upstream attempt and no
sleep. When an attempt, the attempts before it having been retried, fails with a transport
error that is a cancellation or a deadline, the call returns that error right after the
attempt: the steps end with it, no sleep and no attempt follow. -/
theorem doProviderRequestWithRetry_context_errors (up : Upstream)
    (provider : ProviderConfig) (stream : Bool) (requestID : String) :
    (∀ e, up.ctxErr 0 = some e →
      doProviderRequestWithRetry up provider stream requestID =
        { resp := none, err := some (.context e), steps := [] }) ∧
    (∀ (n : Nat) (err : TransportError), n < 6 →
      (∀ i, i ≤ 2 * n → up.ctxErr i = none) → up.newRequest = none →
      (∀ k, k ≤ n → ∃ h,
        ApplyProviderAuth (up.authEnv k) (requestHeader stream requestID) provider = .ok h) →
      (∀ k, k < n → Retried up k) →
      up.roundTrip n = .failure err → err.isContextError = true →
      doProviderRequestWithRetry up provider stream requestID =
        { resp := none, err := some (.transport err)
          steps := retriedSteps n ++ [.attempt n] }) := by
  constructor
  · intro e he
    unfold doProviderRequestWithRetry
    rw [retryLoop_succ, he]
  · intro n err hn hctx hreq hauth hretried hlast hkind
    obtain ⟨fuel, lastErr, hrun⟩ := doProviderRequestWithRetry_run up provider stream requestID
      n (Nat.lt_succ_iff.mp hn) hctx hreq hauth hretried
    rw [hrun, hlast]
    dsimp only
    rw [if_pos hkind]

/-- The theorem at the upstream of
`TestDoProviderRequestWithRetry_DoesNotRetryCanceledContext`, whose context is cancelled
before the call, and at an upstream whose second attempt fails with a deadline error. -/
theorem doProviderRequestWithRetry_context_errors_witness :
    doProviderRequestWithRetry sampleUpstreamCanceled sampleRetryProvider false "" =
        { resp := none, err := some (.context .canceled), steps := [] } ∧
      doProviderRequestWithRetry sampleUpstreamDeadline sampleRetryProvider false "" =
        { resp := none, err := some (.transport (.context .deadlineExceeded))
          steps := [.attempt 0, .sleep (250 * Millisecond), .attempt 1] } :=
  ⟨(doProviderRequestWithRetry_context_errors sampleUpstreamCanceled sampleRetryProvider false
      "").1 .canceled rfl,
    (doProviderRequestWithRetry_context_errors sampleUpstreamDeadline sampleRetryProvider false
      "").2 1 (.context .deadlineExceeded) (by decide) (fun _ _ => rfl) rfl
      (fun _ _ => ⟨_, rfl⟩)
      (fun k hk => by
        have hk0 : k = 0 := by omega
        subst hk0
        exact rfl)
      rfl rfl⟩

/-- The theorem at an upstream that answers 429 to every attempt: the call makes the six
attempts 0 to 5 with the sleeps of 250, 500, 1000, 2000 and 4000 ms between them, and returns
the sixth response. -/
theorem doProviderRequestWithRetry_attempts_and_backoff_witness :
    countAttempts (doProviderRequestWithRetry sampleUpstreamBusy sampleRetryProvider false
        "").steps ≤ 6 ∧
    backoffDuration 4 = 250 * 2 ^ 4 * Millisecond ∧
    doProviderRequestWithRetry sampleUpstreamBusy sampleRetryProvider false "" =
      { resp := some { StatusCode := 429, Body := "\x7b\"error\":\"rate_limited\"\x7d" }
        err := none
        steps := [.attempt 0, .sleep (250 * Millisecond), .attempt 1,
          .sleep (500 * Millisecond), .attempt 2, .sleep (1000 * Millisecond), .attempt 3,
          .sleep (2000 * Millisecond), .attempt 4, .sleep (4000 * Millisecond), .attempt 5] } :=
  ⟨(doProviderRequestWithRetry_attempts_and_backoff sampleUpstreamBusy sampleRetryProvider false
      "").2.1,
    (doProviderRequestWithRetry_attempts_and_backoff sampleUpstreamBusy sampleRetryProvider false
      "").2.2.1 4 (by decide),
    by decide⟩

/-! ## The order of the stops at the end of an OpenAI stream -/

/-- The body holds the event `a`, then a `data:` line that no blank line follows, then an
unterminated line, and its reading fails: `readSSEEvents` delivers the event `a` only and
returns the error; the pending data line and the remainder read with the error are dropped.
The same text read to its end gives both events and nil. -/
theorem readSSEEvents_read_error_sample :
    readSSEEvents { text := "data: a\n\ndata: b\ndata: c", readError := true }
        (traced acceptEvent) ((), []) = (((), [("", "a")]), true) ∧
      readSSEEvents "data: a\n\ndata: b\ndata: c" (traced acceptEvent) ((), []) =
        (((), [("", "a"), ("", "b\nc")]), false) := by
  constructor <;> decide

end Furiwake
